import Mathlib

/-!
# Software rasterizer: line and triangle scan conversion

A shallow embedding of `rasterize_lines`, `rasterize_mesh` and the frame loop
from `src/src/main.cpp`, of `ex3::get_random_color` from `src/src/helper.cpp`,
and of the mesh generators and the perspective camera from `src/ext/cgtub`,
followed by theorems about them.

Modelling conventions.

* `float` arithmetic is read in two ways.  The first part of the definitions
  reads it as exact arithmetic over `ℚ`: the homogeneous divide `p / p.w` is
  rational division; for `w = 0` the C++ program produces infinities or NaN,
  which have no rational counterpart, so statements are meaningful for
  vertices with `w ≠ 0`.  Theorems about these definitions describe the
  program up to rounding, overflow and NaN.
* The last part of the definitions (`F32`, `rasterize_meshF`) reads `float`
  as IEEE 754 binary32 and evaluates `rasterize_mesh` operation by operation,
  each one correctly rounded (the sign of a zero is not modelled); it is used
  for the inputs at which rounding, overflow or NaN change the outcome.
* `int` is `Int`, `size_t` and `u32` are `Nat`; no wrap-around is modelled in
  the rasterizers and the frame loop, and the conversion `(int)` of a `float`
  is taken to be in range.  The `unsigned int` arithmetic of the mesh
  generators wraps modulo `2^32`.
* The `float` literal `1e-6f` is the binary32 number `8796093 * 2^-43`, that is
  `8796093 / 8796093022208`, slightly below `10^-6`.
* `std::vector` / `std::span` are lists.  An access outside the vector is
  undefined behaviour in C++ and is the fault `Fault.outOfBounds` here.
* The `while (true)` loop of the line traversal runs on fuel; running out of
  fuel is the fault `Fault.outOfFuel`.
-/

namespace Raster

/-! ## Data model -/

/-- Embedding of `glm::vec2`. -/
structure Vec2 where
  x : ℚ
  y : ℚ
  deriving DecidableEq, Repr

/-- Embedding of `glm::vec3` (used for colours). -/
structure Vec3 where
  x : ℚ
  y : ℚ
  z : ℚ
  deriving DecidableEq, Repr

/-- Embedding of `glm::vec4`: a clip-space point, not yet divided by `w`. -/
structure Vec4 where
  x : ℚ
  y : ℚ
  z : ℚ
  w : ℚ
  deriving DecidableEq, Repr

/-- Embedding of `glm::u32vec3`: the three vertex indices of a triangle. -/
structure U32Vec3 where
  x : Nat
  y : Nat
  z : Nat
  deriving DecidableEq, Repr

/-- The two ways a run of the model can fail to produce buffers. -/
inductive Fault where
  | outOfBounds
  | outOfFuel
  deriving DecidableEq, Repr

/-- The colour buffer `image` and the depth buffer `zbuffer`. -/
structure Buffers where
  image : List Vec3
  zbuffer : List ℚ
  deriving DecidableEq, Repr

/-- Read `v[i]` for a `size_t` index. -/
def readNat {α : Type} (v : List α) (i : Nat) : Except Fault α :=
  match v[i]? with
  | some a => .ok a
  | none => .error .outOfBounds

/-- Read `v[idx]` for an `int` index. -/
def readAt {α : Type} (v : List α) (idx : Int) : Except Fault α :=
  if 0 ≤ idx then readNat v idx.toNat else .error .outOfBounds

/-- The assignment `v[idx] = a` for an `int` index. -/
def writeAt {α : Type} (v : List α) (idx : Int) (a : α) : Except Fault (List α) :=
  if 0 ≤ idx ∧ idx.toNat < v.length then .ok (v.set idx.toNat a) else .error .outOfBounds

/-- The function `std::round`: nearest integer, halfway cases away from zero. -/
def roundHalfAway (q : ℚ) : Int :=
  if 0 ≤ q then Int.floor (q + 1 / 2) else Int.ceil (q - 1 / 2)

/-- The lambda `ndc_to_screen` (identical in both rasterizers): homogeneous
divide, then `[-1,1]` to `[0,width-1] × [0,height-1]`. -/
def ndc_to_screen (width height : Int) (p : Vec4) : Vec2 :=
  { x := (p.x / p.w + 1) * (1 / 2) * ((width - 1 : Int) : ℚ)
    y := (p.y / p.w + 1) * (1 / 2) * ((height - 1 : Int) : ℚ) }

/-! ## Line rasterizer -/

/-- The per-segment values that the traversal loop only reads. -/
structure LineSetup where
  x1 : Int
  y1 : Int
  dx : Int
  dy : Int
  sx : Int
  sy : Int
  steps : Int
  z0 : ℚ
  z1 : ℚ
  deriving DecidableEq, Repr

/-- The variables that the traversal loop updates. -/
structure LineState where
  x0 : Int
  y0 : Int
  err : Int
  step : Int
  deriving DecidableEq, Repr

/-- Lines 58-65 of `main.cpp` for integer end points, with the two post-divide
depths. -/
def lineSetupInt (x0 y0 x1 y1 : Int) (z0 z1 : ℚ) : LineSetup × LineState :=
  let dx := |x1 - x0|
  let dy := |y1 - y0|
  ({ x1 := x1, y1 := y1, dx := dx, dy := dy
     sx := if x0 < x1 then 1 else -1
     sy := if y0 < y1 then 1 else -1
     steps := max dx dy
     z0 := z0, z1 := z1 },
   { x0 := x0, y0 := y0, err := dx - dy, step := 0 })

/-- Lines 50-65 and 72-73 of `main.cpp`: screen mapping, rounding, deltas. -/
def lineSetup (width height : Int) (p0_ndc p1_ndc : Vec4) : LineSetup × LineState :=
  let p0 := ndc_to_screen width height p0_ndc
  let p1 := ndc_to_screen width height p1_ndc
  lineSetupInt (roundHalfAway p0.x) (roundHalfAway p0.y)
    (roundHalfAway p1.x) (roundHalfAway p1.y)
    (p0_ndc.z / p0_ndc.w) (p1_ndc.z / p1_ndc.w)

/-- Lines 69-74: the interpolated depth at the current `step`. -/
def lineDepth (s : LineSetup) (step : Int) : ℚ :=
  let t : ℚ := if s.steps = 0 then 0 else (step : ℚ) / (s.steps : ℚ)
  (1 - t) * s.z0 + t * s.z1

/-- Lines 76-94: the guarded pixel write of the line rasterizer. -/
def linePlot (width height : Int) (use_zbuffer : Bool) (color : Vec3)
    (x0 y0 : Int) (z : ℚ) (b : Buffers) : Except Fault Buffers :=
  if 0 ≤ x0 ∧ x0 < width ∧ 0 ≤ y0 ∧ y0 < height ∧ -1 ≤ z ∧ z ≤ 1 then
    let idx := y0 * width + x0
    if !use_zbuffer then do
      let image ← writeAt b.image idx color
      pure { b with image := image }
    else do
      let d ← readAt b.zbuffer idx
      if z < d then do
        let zb ← writeAt b.zbuffer idx z
        let image ← writeAt b.image idx color
        pure { image := image, zbuffer := zb }
      else
        pure b
  else
    pure b

/-- Line 96: the loop's exit test. -/
def lineDone (s : LineSetup) (st : LineState) : Bool :=
  st.x0 = s.x1 ∧ st.y0 = s.y1

/-- Lines 99-111: one error-accumulator update of the traversal. -/
def lineAdvance (s : LineSetup) (st : LineState) : LineState :=
  let e2 := 2 * st.err
  let xstep : Bool := e2 > -s.dy
  let ystep : Bool := e2 < s.dx
  let err1 := if xstep then st.err - s.dy else st.err
  let x0 := if xstep then st.x0 + s.sx else st.x0
  let err2 := if ystep then err1 + s.dx else err1
  let y0 := if ystep then st.y0 + s.sy else st.y0
  { x0 := x0, y0 := y0, err := err2, step := st.step + 1 }

/-- Lines 67-112: the `while (true)` loop, on fuel. -/
def lineLoop (width height : Int) (use_zbuffer : Bool) (color : Vec3) (s : LineSetup) :
    Nat → LineState → Buffers → Except Fault Buffers
  | 0, _, _ => .error .outOfFuel
  | fuel + 1, st, b => do
    let b ← linePlot width height use_zbuffer color st.x0 st.y0 (lineDepth s st.step) b
    if lineDone s st then pure b
    else lineLoop width height use_zbuffer color s fuel (lineAdvance s st) b

/-- The loop states at which the body of the `while (true)` loop is entered,
in order: the visited pixels `(x0, y0)` with their `step`.  Stops at the exit
test or when the fuel is used up. -/
def lineTrace (s : LineSetup) : Nat → LineState → List LineState
  | 0, _ => []
  | fuel + 1, st =>
    if lineDone s st then [st] else st :: lineTrace s fuel (lineAdvance s st)

/-- Lines 46-112: the body of the `for` loop for the segment that starts at
`points[i]`. -/
def lineSegment (fuel : Nat) (points : List Vec4) (colors : List Vec3)
    (width height : Int) (use_zbuffer : Bool) (i : Nat) (b : Buffers) :
    Except Fault Buffers := do
  let p0_ndc ← readNat points i
  let p1_ndc ← readNat points (i + 1)
  let color ← readNat colors (i / 2)
  let (s, st) := lineSetup width height p0_ndc p1_ndc
  lineLoop width height use_zbuffer color s fuel st b

/-- The function `rasterize_lines`.  The loop `for (i = 0; i < points.size();
i += 2)` runs its body for `i = 2 * k`, `k < ⌈points.size() / 2⌉`; `fuel`
bounds the iterations of each traversal loop. -/
def rasterize_lines (fuel : Nat) (points : List Vec4) (colors : List Vec3)
    (width height : Int) (b : Buffers) (use_zbuffer : Bool) : Except Fault Buffers :=
  (List.range ((points.length + 1) / 2)).foldlM
    (fun b k => lineSegment fuel points colors width height use_zbuffer (2 * k) b) b

/-! ## Triangle rasterizer -/

/-- The list `lo, lo+1, ..., hi` of the values of a loop
`for (int v = lo; v <= hi; ++v)`. -/
def intRange (lo hi : Int) : List Int :=
  (List.range (hi + 1 - lo).toNat).map (fun (k : Nat) => lo + (k : Int))

/-- The barycentric values `(alpha, beta, gamma)` of lines 175-189 for the
centre of pixel `(x, y)`. -/
def baryAt (p0 p1 p2 : Vec2) (x y : Int) : ℚ × ℚ × ℚ :=
  let v0x := p1.x - p0.x
  let v0y := p1.y - p0.y
  let v1x := p2.x - p0.x
  let v1y := p2.y - p0.y
  let denom := v0x * v1y - v1x * v0y
  let v2x := ((x : ℚ) + 1 / 2) - p0.x
  let v2y := ((y : ℚ) + 1 / 2) - p0.y
  let alpha := (v2x * v1y - v1x * v2y) / denom
  let beta := (v0x * v2y - v2x * v0y) / denom
  let gamma := 1 - alpha - beta
  (alpha, beta, gamma)

/-- Lines 193-195: the depth computed for a covered pixel. -/
def meshDepth (p0 p1 p2 : Vec2) (z0 z1 z2 : ℚ) (x y : Int) : ℚ :=
  let (alpha, beta, gamma) := baryAt p0 p1 p2 x y
  alpha * z0 + beta * z1 + gamma * z2

/-- Line 191: the coverage test. -/
def covered (p0 p1 p2 : Vec2) (x y : Int) : Bool :=
  let (alpha, beta, gamma) := baryAt p0 p1 p2 x y
  0 ≤ alpha ∧ 0 ≤ beta ∧ 0 ≤ gamma

/-- Lines 185-208: the body of the inner pixel loop. -/
def meshFragment (width : Int) (use_zbuffer show_zbuffer : Bool) (tri_color : Vec3)
    (p0 p1 p2 : Vec2) (z0 z1 z2 : ℚ) (x y : Int) (b : Buffers) : Except Fault Buffers :=
  if covered p0 p1 p2 x y then
    let z := meshDepth p0 p1 p2 z0 z1 z2 x y
    let idx := y * width + x
    if z < -1 ∨ z > 1 then pure b
    else do
      let pass ← if !use_zbuffer then pure true
                 else do
                   let d ← readAt b.zbuffer idx
                   pure (decide (z < d))
      if pass then do
        let zb ← writeAt b.zbuffer idx z
        if !show_zbuffer then do
          let image ← writeAt b.image idx tri_color
          pure { image := image, zbuffer := zb }
        else pure { b with zbuffer := zb }
      else pure b
  else pure b

/-- Lines 170-173: the clamped integer bounding box `(xmin, xmax, ymin, ymax)`. -/
def boundingBox (width height : Int) (p0 p1 p2 : Vec2) : Int × Int × Int × Int :=
  (max 0 (Int.floor (min p0.x (min p1.x p2.x))),
   min (width - 1) (Int.ceil (max p0.x (max p1.x p2.x))),
   max 0 (Int.floor (min p0.y (min p1.y p2.y))),
   min (height - 1) (Int.ceil (max p0.y (max p1.y p2.y))))

/-- Line 177: the edge-function denominator. -/
def edgeDenom (p0 p1 p2 : Vec2) : ℚ :=
  (p1.x - p0.x) * (p2.y - p0.y) - (p2.x - p0.x) * (p1.y - p0.y)

/-- Lines 166-210: screen mapping, bounding box, degeneracy test and the two
pixel loops for one triangle that passed the culling tests. -/
def meshFill (width height : Int) (use_zbuffer show_zbuffer : Bool) (tri_color : Vec3)
    (p0_ndc p1_ndc p2_ndc : Vec4) (b : Buffers) : Except Fault Buffers :=
  let p0 := ndc_to_screen width height p0_ndc
  let p1 := ndc_to_screen width height p1_ndc
  let p2 := ndc_to_screen width height p2_ndc
  let (xmin, xmax, ymin, ymax) := boundingBox width height p0 p1 p2
  if |edgeDenom p0 p1 p2| < 8796093 / 8796093022208 then pure b
  else
    (intRange ymin ymax).foldlM (fun b y =>
      (intRange xmin xmax).foldlM (fun b x =>
        meshFragment width use_zbuffer show_zbuffer tri_color p0 p1 p2
          (p0_ndc.z / p0_ndc.w) (p1_ndc.z / p1_ndc.w) (p2_ndc.z / p2_ndc.w) x y b) b) b

/-- Line 149: the behind-camera test. -/
def behindCamera (p0 p1 p2 : Vec4) : Bool :=
  p0.w < 0 ∨ p1.w < 0 ∨ p2.w < 0

/-- Lines 156-160: the front-face test in exact arithmetic.  There
`glm::normalize` scales the cross product by a positive factor, so
`normal.z > 0` is the sign test on the z-component of the cross product of the
clip-space xyz edge vectors (`frontFacingNormalized` keeps the normalisation,
`frontFacingF` is the test in binary32, where the factor can be `0` or NaN). -/
def frontFacing (p0 p1 p2 : Vec4) : Bool :=
  (p1.x - p0.x) * (p2.y - p0.y) - (p1.y - p0.y) * (p2.x - p0.x) > 0

/-- Lines 140-210: the body of the triangle loop for triangle number `i`.
`palette` stands for `ex3::get_random_color`. -/
def meshTriangle (palette : Nat → Vec3) (positions : List Vec4) (color : Vec3)
    (use_random_triangle_colors : Bool) (width height : Int)
    (use_zbuffer show_zbuffer cull_behind_camera cull_front_faces : Bool)
    (i : Nat) (tri : U32Vec3) (b : Buffers) : Except Fault Buffers := do
  let p0_ndc ← readNat positions tri.x
  let p1_ndc ← readNat positions tri.y
  let p2_ndc ← readNat positions tri.z
  if cull_behind_camera && behindCamera p0_ndc p1_ndc p2_ndc then pure b
  else if cull_front_faces && frontFacing p0_ndc p1_ndc p2_ndc then pure b
  else
    let tri_color := if use_random_triangle_colors then palette i else color
    meshFill width height use_zbuffer show_zbuffer tri_color p0_ndc p1_ndc p2_ndc b

/-- Lines 138-211: the triangle loop, from triangle number `i` on. -/
def meshLoop (palette : Nat → Vec3) (positions : List Vec4) (color : Vec3)
    (use_random_triangle_colors : Bool) (width height : Int)
    (use_zbuffer show_zbuffer cull_behind_camera cull_front_faces : Bool) :
    Nat → List U32Vec3 → Buffers → Except Fault Buffers
  | _, [], b => pure b
  | i, tri :: rest, b => do
    let b ← meshTriangle palette positions color use_random_triangle_colors width height
      use_zbuffer show_zbuffer cull_behind_camera cull_front_faces i tri b
    meshLoop palette positions color use_random_triangle_colors width height
      use_zbuffer show_zbuffer cull_behind_camera cull_front_faces (i + 1) rest b

/-- The function `glm::clamp`. -/
def clamp (v lo hi : ℚ) : ℚ := min (max v lo) hi

/-- Lines 220-224: one pixel of the depth visualization. -/
def depthPixel (width : Int) (x y : Int) (b : Buffers) : Except Fault Buffers := do
  let idx := y * width + x
  let z ← readAt b.zbuffer idx
  let depth_color := clamp (1 - (z + 1) / 2) 0 1
  let image ← writeAt b.image idx ⟨depth_color, depth_color, depth_color⟩
  pure { b with image := image }

/-- Lines 214-227: the depth-visualization pass. -/
def depthPass (width height : Int) (b : Buffers) : Except Fault Buffers :=
  (intRange 0 (height - 1)).foldlM (fun b y =>
    (intRange 0 (width - 1)).foldlM (fun b x => depthPixel width x y b) b) b

/-- The function `rasterize_mesh`. -/
def rasterize_mesh (palette : Nat → Vec3) (positions : List Vec4) (indices : List U32Vec3)
    (color : Vec3) (use_random_triangle_colors : Bool) (width height : Int) (b : Buffers)
    (use_zbuffer show_zbuffer cull_behind_camera cull_front_faces : Bool) :
    Except Fault Buffers := do
  let b ← meshLoop palette positions color use_random_triangle_colors width height
    use_zbuffer show_zbuffer cull_behind_camera cull_front_faces 0 indices b
  if show_zbuffer then depthPass width height b else pure b

/-! ## Pixel writes as data

Both rasterizers change the buffers only through guarded single-pixel writes.
The definitions below name such a write and its effect, so that a run of a
rasterizer can be compared with a list of writes applied in order. -/

/-- A pixel write that passed the viewport and depth-range guards: the pixel
index, the depth and the colour. -/
structure Frag where
  idx : Nat
  z : ℚ
  color : Vec3
  deriving DecidableEq, Repr

/-- Both buffers have `width * height` entries. -/
def Sized (width height : Int) (b : Buffers) : Prop :=
  (b.image.length : Int) = width * height ∧ (b.zbuffer.length : Int) = width * height

/-- The colour and the depth stored at pixel index `k`. -/
def pixel (b : Buffers) (k : Nat) : Vec3 × ℚ :=
  (b.image.getD k ⟨0, 0, 0⟩, b.zbuffer.getD k 0)

/-- The effect of one write on the colour and depth of its pixel: `test` is
the strict depth test, `writeZ` and `writeC` say which buffers are stored to. -/
def pixStep (test writeZ writeC : Bool) (p : Vec3 × ℚ) (f : Frag) : Vec3 × ℚ :=
  if test && !decide (f.z < p.2) then p
  else (if writeC then f.color else p.1, if writeZ then f.z else p.2)

/-- The effect of one write on the buffers. -/
def applyFrag (test writeZ writeC : Bool) (b : Buffers) (f : Frag) : Buffers :=
  if test && !decide (f.z < b.zbuffer.getD f.idx 0) then b
  else { image := if writeC then b.image.set f.idx f.color else b.image
         zbuffer := if writeZ then b.zbuffer.set f.idx f.z else b.zbuffer }

/-- The write performed at a visited loop state of the line traversal, if the
guard of line 76 lets it through. -/
def lineFrag (width height : Int) (color : Vec3) (s : LineSetup) (st : LineState) :
    Option Frag :=
  if 0 ≤ st.x0 ∧ st.x0 < width ∧ 0 ≤ st.y0 ∧ st.y0 < height ∧
      -1 ≤ lineDepth s st.step ∧ lineDepth s st.step ≤ 1 then
    some ⟨(st.y0 * width + st.x0).toNat, lineDepth s st.step, color⟩
  else none

/-- The write performed for pixel `(x, y)` of the bounding-box scan of a
triangle, if the pixel is covered and its depth is in range. -/
def meshFrag (width : Int) (tri_color : Vec3) (p0 p1 p2 : Vec2) (z0 z1 z2 : ℚ)
    (x y : Int) : Option Frag :=
  if covered p0 p1 p2 x y ∧ ¬ (meshDepth p0 p1 p2 z0 z1 z2 x y < -1 ∨
      meshDepth p0 p1 p2 z0 z1 z2 x y > 1) then
    some ⟨(y * width + x).toNat, meshDepth p0 p1 p2 z0 z1 z2 x y, tri_color⟩
  else none

/-! ## The traversal invariant -/

/-- What lines 58-64 establish about a segment that starts at `(xs, ys)`. -/
structure LineGeom (s : LineSetup) (xs ys : Int) : Prop where
  dx0 : 0 ≤ s.dx
  dy0 : 0 ≤ s.dy
  sx1 : s.sx = 1 ∨ s.sx = -1
  sy1 : s.sy = 1 ∨ s.sy = -1
  hx1 : s.x1 = xs + s.sx * s.dx
  hy1 : s.y1 = ys + s.sy * s.dy
  hsteps : s.steps = max s.dx s.dy

/-- The loop invariant of the traversal: the state has made `i` steps in x and
`j` steps in y away from the start `(xs, ys)`, the error term is the scaled
distance to the ideal line, and it stays in the band of its dominant axis. -/
structure LineInv (s : LineSetup) (xs ys : Int) (st : LineState) (i j : Int) : Prop where
  hx : st.x0 = xs + s.sx * i
  hy : st.y0 = ys + s.sy * j
  herr : st.err = s.dx - s.dy - s.dy * i + s.dx * j
  hi0 : 0 ≤ i
  hj0 : 0 ≤ j
  hi : i ≤ s.dx
  hj : j ≤ s.dy
  hstepx : s.dy ≤ s.dx → st.step = i
  hstepy : s.dx ≤ s.dy → st.step = j
  hA : s.dy ≤ s.dx → s.dx - 2 * s.dy ≤ 2 * st.err ∧ 2 * st.err ≤ 3 * s.dx - 2 * s.dy
  hB : s.dx < s.dy → 2 * s.dx - 3 * s.dy < 2 * st.err ∧ 2 * st.err ≤ 2 * s.dx - s.dy
  hD : s.dx = s.dy → st.err = 0

/-- The buffers as `main` clears them before the rasterizer calls of a frame
(lines 378-382 of `main.cpp`): every colour `(0,0,0)`, every depth `1.0`. -/
def clearedBuffers (width height : Int) : Buffers :=
  { image := List.replicate (width * height).toNat ⟨0, 0, 0⟩
    zbuffer := List.replicate (width * height).toNat 1 }

/-- The writes of segment number `k` of a `rasterize_lines` call, in order. -/
def segmentFrags (fuel : Nat) (points : List Vec4) (colors : List Vec3)
    (width height : Int) (k : Nat) : List Frag :=
  match points[2 * k]?, points[2 * k + 1]?, colors[k]? with
  | some p0, some p1, some c =>
    (lineTrace (lineSetup width height p0 p1).1 fuel (lineSetup width height p0 p1).2).filterMap
      (lineFrag width height c (lineSetup width height p0 p1).1)
  | _, _, _ => []

/-- The writes of the first `n` segments of a `rasterize_lines` call. -/
def linesFrags (fuel : Nat) (points : List Vec4) (colors : List Vec3)
    (width height : Int) (n : Nat) : List Frag :=
  (List.range n).flatMap (segmentFrags fuel points colors width height)

/-- Fuel that lets every traversal loop of a call reach its exit test: one
more than the largest `steps` of the segments. -/
def lineFuel (width height : Int) : List Vec4 → Nat
  | p0 :: p1 :: rest =>
    max ((lineSetup width height p0 p1).1.steps.toNat + 1) (lineFuel width height rest)
  | _ => 0

/-- The traversal of the segment `p0`-`p1` visits pixel `(x, y)` inside the
viewport with an interpolated depth in `[-1, 1]`. -/
def lineVisits (fuel : Nat) (width height : Int) (p0 p1 : Vec4) (x y : Int) : Prop :=
  ∃ st ∈ lineTrace (lineSetup width height p0 p1).1 fuel (lineSetup width height p0 p1).2,
    st.x0 = x ∧ st.y0 = y ∧ 0 ≤ x ∧ x < width ∧ 0 ≤ y ∧ y < height ∧
      -1 ≤ lineDepth (lineSetup width height p0 p1).1 st.step ∧
      lineDepth (lineSetup width height p0 p1).1 st.step ≤ 1

/-- The writes of the fill of one triangle (lines 166-210), in scan order. -/
def fillFrags (width height : Int) (tri_color : Vec3) (p0_ndc p1_ndc p2_ndc : Vec4) :
    List Frag :=
  let p0 := ndc_to_screen width height p0_ndc
  let p1 := ndc_to_screen width height p1_ndc
  let p2 := ndc_to_screen width height p2_ndc
  let (xmin, xmax, ymin, ymax) := boundingBox width height p0 p1 p2
  if |edgeDenom p0 p1 p2| < 8796093 / 8796093022208 then []
  else
    (intRange ymin ymax).flatMap (fun y =>
      (intRange xmin xmax).filterMap (fun x =>
        meshFrag width tri_color p0 p1 p2
          (p0_ndc.z / p0_ndc.w) (p1_ndc.z / p1_ndc.w) (p2_ndc.z / p2_ndc.w) x y))

/-- The point `(px, py)` lies in the closed triangle `p0 p1 p2`: it has
barycentric coordinates `l0, l1, l2` that are all non-negative. -/
def InTriangle (p0 p1 p2 : Vec2) (px py : ℚ) : Prop :=
  ∃ l0 l1 l2 : ℚ, 0 ≤ l0 ∧ 0 ≤ l1 ∧ 0 ≤ l2 ∧ l0 + l1 + l2 = 1 ∧
    px = l0 * p0.x + l1 * p1.x + l2 * p2.x ∧ py = l0 * p0.y + l1 * p1.y + l2 * p2.y

/-- The depth that the fill of the triangle `q0 q1 q2` computes at pixel
`(x, y)` (lines 193-195, after the screen mapping of lines 166-168). -/
def fillDepth (width height : Int) (q0 q1 q2 : Vec4) (x y : Int) : ℚ :=
  meshDepth (ndc_to_screen width height q0) (ndc_to_screen width height q1)
    (ndc_to_screen width height q2) (q0.z / q0.w) (q1.z / q1.w) (q2.z / q2.w) x y

/-- The fill of the triangle `q0 q1 q2` reaches its depth test at pixel
`(x, y)`: the triangle passes the degeneracy test of line 178, the pixel
passes the coverage test of line 191 and the depth the range test of line 199. -/
def fillHits (width height : Int) (q0 q1 q2 : Vec4) (x y : Int) : Prop :=
  ¬ |edgeDenom (ndc_to_screen width height q0) (ndc_to_screen width height q1)
      (ndc_to_screen width height q2)| < 8796093 / 8796093022208 ∧
    covered (ndc_to_screen width height q0) (ndc_to_screen width height q1)
      (ndc_to_screen width height q2) x y = true ∧
    ¬ (fillDepth width height q0 q1 q2 x y < -1 ∨ fillDepth width height q0 q1 q2 x y > 1)

instance (width height : Int) (q0 q1 q2 : Vec4) (x y : Int) :
    Decidable (fillHits width height q0 q1 q2 x y) := by
  unfold fillHits
  infer_instance

/-! ## Face culling -/

/-- The z-component of the cross product `(p1 - p0) × (p2 - p0)` of the
un-divided clip-space xyz edge vectors (`glm::cross`, lines 156-158). -/
def crossZ (p0 p1 p2 : Vec4) : ℚ :=
  (p1.x - p0.x) * (p2.y - p0.y) - (p1.y - p0.y) * (p2.x - p0.x)

/-- Lines 156-160 with `glm::normalize` written out as
`v * inversesqrt(dot(v, v))`.  The parameter `invsqrt` stands for
`glm::inversesqrt`, which is not rational. -/
def frontFacingNormalized (invsqrt : ℚ → ℚ) (p0 p1 p2 : Vec4) : Bool :=
  let v0x := p1.x - p0.x
  let v0y := p1.y - p0.y
  let v0z := p1.z - p0.z
  let v1x := p2.x - p0.x
  let v1y := p2.y - p0.y
  let v1z := p2.z - p0.z
  let cx := v0y * v1z - v1y * v0z
  let cy := v0z * v1x - v1z * v0x
  let cz := v0x * v1y - v1x * v0y
  let s := invsqrt (cx * cx + cy * cy + cz * cz)
  cz * s > 0

/-! ## Whole calls of the triangle rasterizer -/

/-- The three indices of a triangle are inside the position buffer. -/
def ValidTri (positions : List Vec4) (t : U32Vec3) : Prop :=
  t.x < positions.length ∧ t.y < positions.length ∧ t.z < positions.length

/-- The triangle `t` passes the enabled culling tests and its fill reaches the
depth test at pixel `(x, y)`. -/
def triHits (positions : List Vec4) (cull_behind cull_front : Bool) (width height : Int)
    (t : U32Vec3) (x y : Int) : Prop :=
  ∃ q0 q1 q2 : Vec4, positions[t.x]? = some q0 ∧ positions[t.y]? = some q1 ∧
    positions[t.z]? = some q2 ∧ (cull_behind && behindCamera q0 q1 q2) = false ∧
    (cull_front && frontFacing q0 q1 q2) = false ∧ fillHits width height q0 q1 q2 x y

/-- Lines 222-224: the grey value shown for depth `z`. -/
def depthColor (z : ℚ) : Vec3 :=
  ⟨clamp (1 - (z + 1) / 2) 0 1, clamp (1 - (z + 1) / 2) 0 1, clamp (1 - (z + 1) / 2) 0 1⟩

/-- The writes of the depth-visualization pass for the depth buffer `zb`, in
scan order. -/
def depthFrags (width height : Int) (zb : List ℚ) : List Frag :=
  (intRange 0 (height - 1)).flatMap (fun y =>
    (intRange 0 (width - 1)).map (fun x =>
      ⟨(y * width + x).toNat, 0, depthColor (zb.getD (y * width + x).toNat 0)⟩))

/-- The lambda `ndc_to_screen` with its divisions checked: the only divisor is
`p.w` (the homogeneous divide); `width` and `height` enter as the factors
`width - 1` and `height - 1`. -/
def ndc_to_screen_checked (width height : Int) (p : Vec4) : Option Vec2 :=
  if p.w = 0 then none
  else some
    { x := (p.x / p.w + 1) * (1 / 2) * ((width - 1 : Int) : ℚ)
      y := (p.y / p.w + 1) * (1 / 2) * ((height - 1 : Int) : ℚ) }

/-! ## The frame driver -/

/-- The variables of `main` that the resize handling updates. -/
structure DriverState where
  width : Int
  height : Int
  image : List Vec3

/-- The call `image.resize(n)`: the first `n` entries are kept, missing ones
are value-initialized. -/
def resizeImage (n : Int) (image : List Vec3) : List Vec3 :=
  image.take n.toNat ++ List.replicate (n.toNat - image.length) ⟨0, 0, 0⟩

/-- Lines 268-281 of `main.cpp`: the initial size for the viewport
`vw × vh` and the initial subsampling rate `4`. -/
def initDriver (vw vh : Int) : DriverState :=
  let width := Int.tdiv vw 4
  let height := Int.tdiv vh 4
  { width := width, height := height
    image := List.replicate (width * height).toNat ⟨0, 0, 0⟩ }

/-- Lines 341-352 of `main.cpp`: the per-frame resize handling.  `changed` is
`has_gui_changed_parameter(gui_changes, 0)`, `resized` is
`was_framebuffer_resized()`, `vw × vh` is `canvas.viewport(true)` and `rate`
is `subsampling_rate`; `/` on `int` truncates. -/
def resizeHandling (changed resized : Bool) (vw vh rate : Int) (s : DriverState) :
    DriverState :=
  if changed || resized then
    if vw ≠ 0 ∧ vh ≠ 0 then
      let width := Int.tdiv vw rate
      let height := Int.tdiv vh rate
      { width := width, height := height, image := resizeImage (width * height) s.image }
    else s
  else s

/-- Lines 365-385 of `main.cpp`: the colour loop over the image, the fresh
depth buffer and the two `std::fill` calls; the result is the buffer pair
handed to `rasterize_lines`. -/
def clearFrame (s : DriverState) (use_zbuffer : Bool) : Except Fault Buffers := do
  let image ← (intRange 0 (s.height - 1)).foldlM (fun img y =>
    (intRange 0 (s.width - 1)).foldlM (fun img x =>
      writeAt img (y * s.width + x) (⟨0, 0, 0⟩ : Vec3)) img) s.image
  let zbuffer := List.replicate (s.width * s.height).toNat (1 : ℚ)
  let image := image.map (fun _ => (⟨0, 0, 0⟩ : Vec3))
  let zbuffer := if use_zbuffer then zbuffer.map (fun _ => (1 : ℚ)) else zbuffer
  pure { image := image, zbuffer := zbuffer }

/-- What one iteration of the frame loop receives from outside: the two change
flags, the viewport, the subsampling rate, the depth-test flag, and `draw`,
the colour buffer that the rasterizer calls of the frame leave behind. -/
structure FrameInput where
  changed : Bool
  resized : Bool
  vw : Int
  vh : Int
  rate : Int
  use_zbuffer : Bool
  draw : Buffers → List Vec3

/-- The frame loop of `main`: for every frame the current `width` and `height`
and the buffer pair at the point where `rasterize_lines` is called. -/
def frameBuffers : List FrameInput → DriverState → List (Int × Int × Except Fault Buffers)
  | [], _ => []
  | inp :: rest, s =>
    let s1 := resizeHandling inp.changed inp.resized inp.vw inp.vh inp.rate s
    match clearFrame s1 inp.use_zbuffer with
    | .ok b => (s1.width, s1.height, .ok b) ::
        frameBuffers rest { width := s1.width, height := s1.height, image := inp.draw b }
    | .error e => [(s1.width, s1.height, .error e)]

/-- The invariant of the frame loop: non-negative sizes and a colour buffer of
`width * height` entries. -/
def DriverInv (s : DriverState) : Prop :=
  0 ≤ s.width ∧ 0 ≤ s.height ∧ (s.image.length : Int) = s.width * s.height

/-! ## The colour table of `ex3::get_random_color` (helper.cpp lines 49-68)

The function keeps three static variables.  The engine is seeded with the
constant `0` and the distribution object carries no state, so the values
`distribution(engine)` yields form one fixed sequence; `draw k` stands for
its `k`-th value and the engine state is the number of values drawn so far.
The three arguments of `glm::vec3(...)` in line 63 are drawn left to right. -/

/-- The static variables `engine` and `random_colors`. -/
structure PaletteState where
  engine : Nat
  random_colors : List Vec3
  deriving DecidableEq

/-- The constant `num_random_colors`. -/
def num_random_colors : Nat := 1024

/-- The static variables before the first call. -/
def paletteInit : PaletteState := { engine := 0, random_colors := [] }

/-- Line 63: one iteration of the fill loop. -/
def fillStep (draw : Nat → ℚ) (s : PaletteState) (i : Nat) : PaletteState :=
  { engine := s.engine + 3
    random_colors :=
      s.random_colors.set i ⟨draw s.engine, draw (s.engine + 1), draw (s.engine + 2)⟩ }

/-- The function `ex3::get_random_color`, with its static variables passed in
and returned. -/
def get_random_color (draw : Nat → ℚ) (s : PaletteState) (triangle_index : Nat) :
    Except Fault (Vec3 × PaletteState) := do
  let s :=
    if s.random_colors.isEmpty then
      let s := { s with random_colors := resizeImage num_random_colors s.random_colors }
      (List.range s.random_colors.length).foldl (fillStep draw) s
    else s
  let c ← readNat s.random_colors (triangle_index % num_random_colors)
  pure (c, s)

/-- A sequence of calls of `ex3::get_random_color` with the given indices. -/
def paletteRun (draw : Nat → ℚ) : List Nat → PaletteState → Except Fault PaletteState
  | [], s => pure s
  | i :: rest, s => do
    let r ← get_random_color draw s i
    paletteRun draw rest r.2

/-- The body of the triangle loop of `rasterize_mesh` (main.cpp lines 140-210)
with the static variables of `ex3::get_random_color` passed along. -/
def meshTriangleStatic (draw : Nat → ℚ) (positions : List Vec4) (color : Vec3)
    (use_random_triangle_colors : Bool) (width height : Int)
    (use_zbuffer show_zbuffer cull_behind_camera cull_front_faces : Bool)
    (i : Nat) (tri : U32Vec3) (sb : PaletteState × Buffers) :
    Except Fault (PaletteState × Buffers) := do
  let p0_ndc ← readNat positions tri.x
  let p1_ndc ← readNat positions tri.y
  let p2_ndc ← readNat positions tri.z
  if cull_behind_camera && behindCamera p0_ndc p1_ndc p2_ndc then pure sb
  else if cull_front_faces && frontFacing p0_ndc p1_ndc p2_ndc then pure sb
  else
    let r ← if use_random_triangle_colors then get_random_color draw sb.1 i
      else pure (color, sb.1)
    let b ← meshFill width height use_zbuffer show_zbuffer r.1 p0_ndc p1_ndc p2_ndc sb.2
    pure (r.2, b)

/-- The triangle loop of `rasterize_mesh` with the static variables passed
along. -/
def meshLoopStatic (draw : Nat → ℚ) (positions : List Vec4) (color : Vec3)
    (use_random_triangle_colors : Bool) (width height : Int)
    (use_zbuffer show_zbuffer cull_behind_camera cull_front_faces : Bool) :
    Nat → List U32Vec3 → PaletteState × Buffers → Except Fault (PaletteState × Buffers)
  | _, [], sb => pure sb
  | i, tri :: rest, sb => do
    let sb ← meshTriangleStatic draw positions color use_random_triangle_colors width height
      use_zbuffer show_zbuffer cull_behind_camera cull_front_faces i tri sb
    meshLoopStatic draw positions color use_random_triangle_colors width height
      use_zbuffer show_zbuffer cull_behind_camera cull_front_faces (i + 1) rest sb

/-- The function `rasterize_mesh` with the static variables of
`ex3::get_random_color` passed along. -/
def rasterize_mesh_static (draw : Nat → ℚ) (positions : List Vec4) (indices : List U32Vec3)
    (color : Vec3) (use_random_triangle_colors : Bool) (width height : Int)
    (use_zbuffer show_zbuffer cull_behind_camera cull_front_faces : Bool)
    (sb : PaletteState × Buffers) : Except Fault (PaletteState × Buffers) := do
  let sb ← meshLoopStatic draw positions color use_random_triangle_colors width height
    use_zbuffer show_zbuffer cull_behind_camera cull_front_faces 0 indices sb
  if show_zbuffer then do
    let b ← depthPass width height sb.2
    pure (sb.1, b)
  else pure sb

/-- One rasterizer call of a frame, with its arguments. -/
inductive DrawCall where
  | lines (fuel : Nat) (points : List Vec4) (colors : List Vec3) (use_zbuffer : Bool)
  | mesh (positions : List Vec4) (indices : List U32Vec3) (color : Vec3)
      (use_random_triangle_colors use_zbuffer show_zbuffer cull_behind_camera
        cull_front_faces : Bool)

/-- A sequence of rasterizer calls on one buffer pair, as in main.cpp lines
384-417. -/
def runCalls (draw : Nat → ℚ) (width height : Int) :
    List DrawCall → PaletteState × Buffers → Except Fault (PaletteState × Buffers)
  | [], sb => pure sb
  | .lines fuel points colors use_zbuffer :: rest, sb => do
    let b ← rasterize_lines fuel points colors width height sb.2 use_zbuffer
    runCalls draw width height rest (sb.1, b)
  | .mesh positions indices color urc use_zbuffer show_zbuffer cull_behind cull_front :: rest,
      sb => do
    let sb ← rasterize_mesh_static draw positions indices color urc width height
      use_zbuffer show_zbuffer cull_behind cull_front sb
    runCalls draw width height rest sb

/-- The static variables after the fill loop: engine advanced by `3 * 1024`
draws, entry `k` of the table made of the draws `3k`, `3k+1`, `3k+2`. -/
def filledPalette (draw : Nat → ℚ) : PaletteState :=
  { engine := 3 * num_random_colors
    random_colors := (List.range num_random_colors).map
      (fun k => ⟨draw (0 + 3 * k), draw (0 + 3 * k + 1), draw (0 + 3 * k + 2)⟩) }

/-- The colour of table entry `i % 1024` after the fill loop. -/
def paletteColor (draw : Nat → ℚ) (i : Nat) : Vec3 :=
  ⟨draw (0 + 3 * (i % num_random_colors)), draw (0 + 3 * (i % num_random_colors) + 1),
    draw (0 + 3 * (i % num_random_colors) + 2)⟩

/-! ## The depth range -/

/-- Every entry of the depth buffer lies in `[-1, 1]`. -/
def DepthInRange (b : Buffers) : Prop :=
  ∀ d ∈ b.zbuffer, -1 ≤ d ∧ d ≤ 1

/-! ## Generated meshes (`ext/cgtub/src/cgtub/geometry.cpp`)

The generators write through output pointers; here they return their outputs.
`want_uvs` says whether a `uvs` vector is passed.  The `normals` output is
written after `positions` and `indices` and before `uvs`, touches none of
them, and is left out.  Arithmetic on `unsigned int` wraps modulo `2^32`.
The parameters `sinf` and `cosf` stand for `std::sin` and `std::cos` on
`float`, which are not rational functions. -/

/-- The modulus of `unsigned int` arithmetic. -/
def u32 : Nat := 4294967296

/-- The constant `std::numbers::pi_v<float>`: the `float` nearest to `π`. -/
def pi_f : ℚ := 13176795 / 4194304

/-- The outputs of a generator: vertex positions, triangles, and the texture
coordinates when a `uvs` vector is passed. -/
structure Geometry where
  positions : List Vec3
  indices : List U32Vec3
  uvs : Option (List Vec2)
  deriving DecidableEq

/-- The call `v.resize(n)` on a `std::vector<glm::vec2>`. -/
def resizeUvs (n : Nat) (v : List Vec2) : List Vec2 :=
  v.take n ++ List.replicate (n - v.length) ⟨0, 0⟩

/-- The function `create_box_geometry` (lines 9-70). -/
def create_box_geometry (scale : Vec3) (want_uvs : Bool) : Geometry :=
  { positions := (List.range 8).map (fun (i : Nat) =>
      ⟨scale.x * (2 * ((i &&& 1 : Nat) : ℚ) - 1),
        scale.y * (2 * (((i >>> 1) &&& 1 : Nat) : ℚ) - 1),
        scale.z * (2 * (((i >>> 2) &&& 1 : Nat) : ℚ) - 1)⟩)
    indices := [⟨2, 1, 0⟩, ⟨3, 1, 2⟩, ⟨2, 6, 7⟩, ⟨7, 3, 2⟩, ⟨0, 4, 2⟩, ⟨2, 4, 6⟩,
      ⟨3, 7, 5⟩, ⟨5, 1, 3⟩, ⟨5, 4, 0⟩, ⟨5, 0, 1⟩, ⟨4, 5, 6⟩, ⟨6, 5, 7⟩]
    uvs :=
      if want_uvs then
        -- lines 62-68: `clear`, `resize(8)`, then eight `emplace_back` calls
        some (resizeUvs 8 [] ++ (List.range 8).map (fun (i : Nat) =>
          ⟨((i &&& 1 : Nat) : ℚ), (((i >>> 1) &&& 1 : Nat) : ℚ)⟩))
      else none }

/-- The function `create_sphere_geometry` (lines 77-145). -/
def create_sphere_geometry (sinf cosf : ℚ → ℚ) (n m : Nat) (scale : Vec3)
    (want_uvs : Bool) : Geometry :=
  { positions := (List.range n).flatMap (fun (i : Nat) =>
      let theta := (i : ℚ) / (((n + u32 - 1) % u32 : Nat) : ℚ) * pi_f
      (List.range m).map (fun (j : Nat) =>
        let phi := (j : ℚ) / (m : ℚ) * 2 * pi_f
        ⟨scale.x * sinf theta * sinf phi, scale.y * cosf theta,
          scale.z * sinf theta * cosf phi⟩))
    indices := (List.range ((n + u32 - 1) % u32)).flatMap (fun (i : Nat) =>
      let base := (i * m) % u32
      (List.range m).flatMap (fun (j : Nat) =>
        let vi := (base + j) % u32
        let vj := (base + (j + 1) % u32 % m) % u32
        let vk := ((base + m) % u32 + j) % u32
        let vl := ((base + m) % u32 + (j + 1) % u32 % m) % u32
        (if i > 0 then [(⟨vk, vj, vi⟩ : U32Vec3)] else []) ++
          (if i < (n + u32 - 2) % u32 then [(⟨vl, vj, vk⟩ : U32Vec3)] else [])))
    uvs :=
      if want_uvs then
        -- lines 129-143: `clear`, `resize(n * m)`, then one `emplace_back` per vertex
        some (resizeUvs ((n * m) % u32) [] ++ (List.range n).flatMap (fun (i : Nat) =>
          let theta := (i : ℚ) / (((n + u32 - 1) % u32 : Nat) : ℚ) * pi_f
          (List.range m).map (fun (j : Nat) =>
            let phi := (j : ℚ) / (m : ℚ) * 2 * pi_f
            ⟨phi / pi_f * (1 / 2), 1 - theta / pi_f⟩)))
      else none }

/-- Lines 175-187: the index loops of `create_torus_geometry`; `none` is the
division by zero of `% (n * m)` when the product wraps to `0`. -/
def torusIndices (n m : Nat) : Option (List U32Vec3) :=
  (List.range n).foldlM (fun acc (i : Nat) =>
    (List.range m).foldlM (fun acc (j : Nat) =>
      let vi := ((i * m) % u32 + j) % u32
      let vj := (((i + 1) % u32 % n * m) % u32 + j) % u32
      if (n * m) % u32 = 0 then none
      else
        let vk := (vi + 1) % u32 % ((n * m) % u32)
        let vl := (vj + 1) % u32 % ((n * m) % u32)
        some (acc ++ [(⟨vi, vj, vk⟩ : U32Vec3), ⟨vj, vl, vk⟩])) acc) []

/-- The function `create_torus_geometry` (lines 152-228). -/
def create_torus_geometry (sinf cosf : ℚ → ℚ) (n m : Nat) (r R : Vec3)
    (want_uvs : Bool) : Option Geometry := do
  let positions := (List.range n).flatMap (fun (i : Nat) =>
    let theta := (i : ℚ) / (n : ℚ) * 2 * pi_f
    (List.range m).map (fun (j : Nat) =>
      let phi := (j : ℚ) / (m : ℚ) * 2 * pi_f
      (⟨(R.x + r.x * cosf phi) * cosf theta, (R.y + r.y * cosf phi) * sinf theta,
        r.z * sinf phi⟩ : Vec3)))
  let indices ← torusIndices n m
  let uvs :=
    if want_uvs then
      -- lines 212-226: `clear`, `reserve(n * m)`, then one `emplace_back` per vertex
      some ((List.range n).flatMap (fun (i : Nat) =>
        let theta := (i : ℚ) / (n : ℚ) * 2 * pi_f
        (List.range m).map (fun (j : Nat) =>
          let phi := (j : ℚ) / (m : ℚ) * 2 * pi_f
          (⟨phi / pi_f * (1 / 2), 1 - theta / pi_f * (1 / 2)⟩ : Vec2))))
    else none
  pure { positions := positions, indices := indices, uvs := uvs }

/-! ## The perspective camera (`camera.cpp`, `camera_perspective.cpp`)

A `glm::mat4` is the list of its four columns.  The library function
`glm::perspectiveRH_NO` is not part of the repository; it enters as the
parameter `perspective`. -/

/-- Embedding of `glm::mat4`: four columns of four entries. -/
abbrev Mat4 := List (List ℚ)

/-- The matrix `glm::mat4(1)`. -/
def mat4_identity : Mat4 :=
  [[1, 0, 0, 0], [0, 1, 0, 0], [0, 0, 1, 0], [0, 0, 0, 1]]

/-- The members of `Camera` and `PerspectiveCamera`; `m_dirty` holds the
`DirtyFlags` bits `Projection = 0b01` and `View = 0b10`. -/
structure PerspectiveCamera where
  m_aspect : ℚ
  m_z_near : ℚ
  m_z_far : ℚ
  m_dirty : Nat
  m_view : Mat4
  m_projection : Mat4
  m_fov_y : ℚ
  deriving DecidableEq

/-- The constructors `Camera::Camera` (camera.cpp lines 8-16) and
`PerspectiveCamera::PerspectiveCamera` (camera_perspective.cpp lines 8-12). -/
def PerspectiveCamera.new (fov_y aspect z_near z_far : ℚ) : PerspectiveCamera :=
  { m_aspect := aspect, m_z_near := z_near, m_z_far := z_far
    m_dirty := 0
    m_view := mat4_identity
    m_projection := mat4_identity
    m_fov_y := fov_y }

/-- The function `PerspectiveCamera::projection` (lines 19-28): the returned
matrix and the camera with its `mutable` members updated.  `& ~Projection`
clears bit 0 of the `char`. -/
def PerspectiveCamera.projection (perspective : ℚ → ℚ → ℚ → ℚ → Mat4)
    (c : PerspectiveCamera) : Mat4 × PerspectiveCamera :=
  if c.m_dirty &&& 1 ≠ 0 then
    let p := perspective (c.m_fov_y * pi_f / 180) c.m_aspect c.m_z_near c.m_z_far
    (p, { c with m_projection := p, m_dirty := c.m_dirty &&& 254 })
  else (c.m_projection, c)

/-- The function `Camera::set_aspect`. -/
def PerspectiveCamera.set_aspect (aspect : ℚ) (c : PerspectiveCamera) : PerspectiveCamera :=
  { c with m_aspect := aspect, m_dirty := c.m_dirty ||| 1 }

/-- The function `Camera::set_z_near`. -/
def PerspectiveCamera.set_z_near (z_near : ℚ) (c : PerspectiveCamera) : PerspectiveCamera :=
  { c with m_z_near := z_near, m_dirty := c.m_dirty ||| 1 }

/-- The function `Camera::set_z_far`. -/
def PerspectiveCamera.set_z_far (z_far : ℚ) (c : PerspectiveCamera) : PerspectiveCamera :=
  { c with m_z_far := z_far, m_dirty := c.m_dirty ||| 1 }

/-- The function `Camera::set_view`. -/
def PerspectiveCamera.set_view (view : Mat4) (c : PerspectiveCamera) : PerspectiveCamera :=
  { c with m_view := view, m_dirty := c.m_dirty ||| 2 }

/-- The function `PerspectiveCamera::set_fov_y`. -/
def PerspectiveCamera.set_fov_y (fov_y : ℚ) (c : PerspectiveCamera) : PerspectiveCamera :=
  { c with m_fov_y := fov_y, m_dirty := c.m_dirty ||| 1 }

/-- One setter call. -/
inductive CameraOp where
  | aspect (v : ℚ)
  | z_near (v : ℚ)
  | z_far (v : ℚ)
  | fov_y (v : ℚ)
  | view (v : Mat4)

/-- The setter call `op` on the camera `c`. -/
def CameraOp.apply (op : CameraOp) (c : PerspectiveCamera) : PerspectiveCamera :=
  match op with
  | .aspect v => c.set_aspect v
  | .z_near v => c.set_z_near v
  | .z_far v => c.set_z_far v
  | .fov_y v => c.set_fov_y v
  | .view v => c.set_view v

/-- The setter `op` changes a parameter of the projection. -/
def CameraOp.isProjection : CameraOp → Bool
  | .view _ => false
  | _ => true

/-- The writes of the body of the triangle loop for triangle number `i`, in
order: none for a culled triangle. -/
def triFrags (palette : Nat → Vec3) (positions : List Vec4) (color : Vec3) (urc : Bool)
    (width height : Int) (cull_behind cull_front : Bool) (i : Nat) (t : U32Vec3) :
    List Frag :=
  match positions[t.x]?, positions[t.y]?, positions[t.z]? with
  | some q0, some q1, some q2 =>
    if (cull_behind && behindCamera q0 q1 q2) = true then []
    else if (cull_front && frontFacing q0 q1 q2) = true then []
    else fillFrags width height (if urc = true then palette i else color) q0 q1 q2
  | _, _, _ => []

/-- The writes of the triangle loop from triangle number `i` on. -/
def meshFrags (palette : Nat → Vec3) (positions : List Vec4) (color : Vec3) (urc : Bool)
    (width height : Int) (cull_behind cull_front : Bool) : Nat → List U32Vec3 → List Frag
  | _, [] => []
  | i, t :: rest =>
    triFrags palette positions color urc width height cull_behind cull_front i t ++
      meshFrags palette positions color urc width height cull_behind cull_front (i + 1) rest

/-- The triangle `t'` has the vertex indices of `t` in one of the six orders. -/
def PermTri (t t' : U32Vec3) : Prop :=
  t' = ⟨t.x, t.y, t.z⟩ ∨ t' = ⟨t.x, t.z, t.y⟩ ∨ t' = ⟨t.y, t.x, t.z⟩ ∨
    t' = ⟨t.y, t.z, t.x⟩ ∨ t' = ⟨t.z, t.x, t.y⟩ ∨ t' = ⟨t.z, t.y, t.x⟩

/-! ## Binary32 arithmetic

The definitions above read `float` as `ℚ`.  The definitions below read it as
IEEE 754 binary32 with round to nearest, ties to even, gradual underflow,
overflow to infinity, and NaN; they are used to evaluate `rasterize_mesh` at
inputs where rounding, overflow or NaN decide the outcome.  The sign of a
zero is not modelled (a division by zero takes the sign of the dividend). -/

/-- A binary32 value: the finite value `m * 2^e`, an infinity (`neg` says
which), or NaN. -/
inductive F32 where
  | fin (m : Int) (e : Int)
  | inf (neg : Bool)
  | nan
  deriving DecidableEq, Repr

namespace F32

/-- The position of the highest set bit of `n`, found in at most `fuel`
halvings. -/
def log2 : Nat → Nat → Nat
  | 0, _ => 0
  | fuel + 1, n => if n < 2 then 0 else log2 fuel (n / 2) + 1

/-- The finite value `m * 2^e` written with an odd `m` (or as `0 * 2^0`). -/
def norm (m e : Int) : F32 :=
  if m = 0 then fin 0 0
  else
    let a := m.natAbs
    let t := log2 512 (Nat.gcd a (2 ^ log2 512 a))
    fin (m / ((2 ^ t : Nat) : Int)) (e + t)

/-- The binary32 value of the exact number `m * 2^e`: 24 significant bits
(fewer below `2^-126`), nearest with ties to even, infinity from `2^128` on. -/
def round (m e : Int) : F32 :=
  if m = 0 then fin 0 0
  else
    let a := m.natAbs
    let E : Int := (log2 512 a : Int) + e
    let q : Int := max (E - 23) (-149)
    let n : Nat :=
      if q ≤ e then a * 2 ^ (e - q).toNat
      else
        let s := (q - e).toNat
        let n0 := a / 2 ^ s
        let r := a % 2 ^ s
        let h := 2 ^ (s - 1)
        if r > h ∨ (r = h ∧ n0 % 2 = 1) then n0 + 1 else n0
    if 128 ≤ (log2 512 n : Int) + q then inf (decide (m < 0))
    else norm (if m < 0 then -(n : Int) else (n : Int)) q

/-- The conversion of an `int` to `float`. -/
def ofInt (n : Int) : F32 := round n 0

/-- Unary minus. -/
def neg : F32 → F32
  | fin m e => fin (-m) e
  | inf s => inf (!s)
  | nan => nan

/-- The function `std::abs`. -/
def abs : F32 → F32
  | fin m e => fin |m| e
  | inf _ => inf false
  | nan => nan

/-- The operator `+`. -/
def add : F32 → F32 → F32
  | fin m1 e1, fin m2 e2 =>
    let e := min e1 e2
    round (m1 * 2 ^ (e1 - e).toNat + m2 * 2 ^ (e2 - e).toNat) e
  | fin _ _, inf s => inf s
  | inf s, fin _ _ => inf s
  | inf s1, inf s2 => if s1 = s2 then inf s1 else nan
  | _, _ => nan

/-- The operator `-`. -/
def sub (a b : F32) : F32 := add a (neg b)

/-- The operator `*`. -/
def mul : F32 → F32 → F32
  | fin m1 e1, fin m2 e2 => round (m1 * m2) (e1 + e2)
  | fin m _, inf s => if m = 0 then nan else inf (decide (m < 0) != s)
  | inf s, fin m _ => if m = 0 then nan else inf (decide (m < 0) != s)
  | inf s1, inf s2 => inf (s1 != s2)
  | _, _ => nan

/-- The operator `/`.  The quotient is computed with 40 extra bits and a
sticky bit for the remainder, then rounded once. -/
def div : F32 → F32 → F32
  | fin m1 e1, fin m2 e2 =>
    if m2 = 0 then (if m1 = 0 then nan else inf (decide (m1 < 0)))
    else
      let k := log2 512 m2.natAbs + 40
      let N := m1.natAbs * 2 ^ k
      let Q := N / m2.natAbs
      let R := N % m2.natAbs
      let M : Int := ((2 * Q + (if R = 0 then 0 else 1) : Nat) : Int)
      round (if decide (m1 < 0) != decide (m2 < 0) then -M else M) (e1 - e2 - (k : Int) - 1)
  | fin _ _, inf _ => fin 0 0
  | inf s, fin m _ => inf (s != decide (m < 0))
  | _, _ => nan

/-- The operator `<`; false when an operand is NaN. -/
def lt : F32 → F32 → Bool
  | fin m1 e1, fin m2 e2 =>
    let e := min e1 e2
    decide (m1 * 2 ^ (e1 - e).toNat < m2 * 2 ^ (e2 - e).toNat)
  | fin _ _, inf s => !s
  | inf s, fin _ _ => s
  | inf s1, inf s2 => s1 && !s2
  | _, _ => false

/-- The operator `<=`; false when an operand is NaN. -/
def le : F32 → F32 → Bool
  | fin m1 e1, fin m2 e2 =>
    let e := min e1 e2
    decide (m1 * 2 ^ (e1 - e).toNat ≤ m2 * 2 ^ (e2 - e).toNat)
  | fin _ _, inf s => !s
  | inf s, fin _ _ => s
  | inf s1, inf s2 => s1 || !s2
  | _, _ => false

/-- The conversion `(int)std::floor(v)`; `none` when the value is outside the
range of `int`, where the conversion is undefined. -/
def floorInt : F32 → Option Int
  | fin m e =>
    let v : Int := if 0 ≤ e then m * 2 ^ e.toNat else m / 2 ^ (-e).toNat
    if -2147483648 ≤ v ∧ v ≤ 2147483647 then some v else none
  | _ => none

/-- The conversion `(int)std::ceil(v)`; `none` when the value is outside the
range of `int`. -/
def ceilInt : F32 → Option Int
  | fin m e =>
    let v : Int := if 0 ≤ e then m * 2 ^ e.toNat else -((-m) / 2 ^ (-e).toNat)
    if -2147483648 ≤ v ∧ v ≤ 2147483647 then some v else none
  | _ => none

/-- The function `std::sqrt` on `float`: the correctly rounded square root. -/
def sqrt : F32 → F32
  | fin m e =>
    if m < 0 then nan
    else if m = 0 then fin 0 0
    else
      let m' : Nat := if e % 2 = 0 then m.natAbs else 2 * m.natAbs
      let e' : Int := if e % 2 = 0 then e else e - 1
      let M := m' * 2 ^ 80
      let s := Nat.sqrt M
      round ((2 * s + (if s * s = M then 0 else 1) : Nat) : Int) (e' / 2 - 41)
  | inf false => inf false
  | inf true => nan
  | nan => nan

/-- The function `std::min` on an initializer list of three values. -/
def min3 (a b c : F32) : F32 :=
  let s := if lt b a then b else a
  if lt c s then c else s

/-- The function `std::max` on an initializer list of three values. -/
def max3 (a b c : F32) : F32 :=
  let s := if lt a b then b else a
  if lt s c then c else s

end F32

/-! ## The mesh rasterizer in binary32

The function `rasterize_mesh` once more, with every `float` operation of the
source replaced by the binary32 operation: each `+`, `-`, `*`, `/` rounds on
its own (no fused multiply-add, no excess precision), `glm::cross`, `glm::dot`,
`glm::inversesqrt` and `glm::normalize` are expanded as the glm headers define
them, and a `float`-to-`int` conversion of a value outside the range of `int`
is a fault, as is an access outside a buffer. -/

/-- The type `glm::vec2` over binary32. -/
structure Vec2F where
  x : F32
  y : F32
  deriving DecidableEq, Repr

/-- The type `glm::vec3` over binary32. -/
structure Vec3F where
  x : F32
  y : F32
  z : F32
  deriving DecidableEq, Repr

/-- The type `glm::vec4` over binary32. -/
structure Vec4F where
  x : F32
  y : F32
  z : F32
  w : F32
  deriving DecidableEq, Repr

/-- The colour buffer `image` and the depth buffer `zbuffer` over binary32. -/
structure BuffersF where
  image : List Vec3F
  zbuffer : List F32
  deriving DecidableEq, Repr

/-- The two ways a run of the binary32 model can fail to produce buffers: an
access outside a buffer, or a `float`-to-`int` conversion outside the range of
`int`. -/
inductive FaultF where
  | outOfBounds
  | conversion
  deriving DecidableEq, Repr

/-- A failed buffer access is a failed buffer access in the binary32 model. -/
def liftFault {α : Type} : Except Fault α → Except FaultF α
  | .ok a => .ok a
  | .error _ => .error .outOfBounds

/-- The lambda `ndc_to_screen` of `rasterize_mesh` (lines 130-136) in
binary32: `p / p.w` divides each component, `(ndc.x + 1.0f) * 0.5f * (width - 1)`
multiplies from the left, `width - 1` is converted to `float`. -/
def ndc_to_screenF (width height : Int) (p : Vec4F) : Vec2F :=
  { x := F32.mul (F32.mul (F32.add (F32.div p.x p.w) (.fin 1 0)) (.fin 1 (-1)))
      (F32.ofInt (width - 1))
    y := F32.mul (F32.mul (F32.add (F32.div p.y p.w) (.fin 1 0)) (.fin 1 (-1)))
      (F32.ofInt (height - 1)) }

/-- Lines 185-189 in binary32: `(alpha, beta, gamma)` at the centre of pixel
`(x, y)`, from `p0`, the edge vectors `v0 = p1 - p0`, `v1 = p2 - p0` and
`denom`. -/
def baryAtF (p0 v0 v1 : Vec2F) (denom : F32) (x y : Int) : F32 × F32 × F32 :=
  let v2x := F32.sub (F32.add (F32.ofInt x) (.fin 1 (-1))) p0.x
  let v2y := F32.sub (F32.add (F32.ofInt y) (.fin 1 (-1))) p0.y
  let alpha := F32.div (F32.sub (F32.mul v2x v1.y) (F32.mul v1.x v2y)) denom
  let beta := F32.div (F32.sub (F32.mul v0.x v2y) (F32.mul v2x v0.y)) denom
  let gamma := F32.sub (F32.sub (.fin 1 0) alpha) beta
  (alpha, beta, gamma)

/-- Line 191 in binary32: the coverage test `alpha >= 0 && beta >= 0 &&
gamma >= 0`. -/
def coveredF (p0 v0 v1 : Vec2F) (denom : F32) (x y : Int) : Bool :=
  let (alpha, beta, gamma) := baryAtF p0 v0 v1 denom x y
  F32.le (.fin 0 0) alpha && F32.le (.fin 0 0) beta && F32.le (.fin 0 0) gamma

/-- Lines 193-195 in binary32: the depth computed for a covered pixel. -/
def meshDepthF (p0 v0 v1 : Vec2F) (denom z0 z1 z2 : F32) (x y : Int) : F32 :=
  let (alpha, beta, gamma) := baryAtF p0 v0 v1 denom x y
  F32.add (F32.add (F32.mul alpha z0) (F32.mul beta z1)) (F32.mul gamma z2)

/-- Line 199 in binary32: the test `z < -1.0f || z > 1.0f` under which
`rasterize_mesh` skips the pixel. -/
def meshDepthSkipF (z : F32) : Bool :=
  F32.lt z (.fin (-1) 0) || F32.lt (.fin 1 0) z

/-- Line 76 in binary32: the depth part `z >= -1.0f && z <= 1.0f` of the guard
under which `rasterize_lines` writes the pixel. -/
def lineDepthGuardF (z : F32) : Bool :=
  F32.le (.fin (-1) 0) z && F32.le z (.fin 1 0)

/-- Lines 185-208 in binary32: the body of the inner pixel loop. -/
def meshFragmentF (width : Int) (use_zbuffer show_zbuffer : Bool) (tri_color : Vec3F)
    (p0 v0 v1 : Vec2F) (denom z0 z1 z2 : F32) (x y : Int) (b : BuffersF) :
    Except FaultF BuffersF :=
  if coveredF p0 v0 v1 denom x y then
    let z := meshDepthF p0 v0 v1 denom z0 z1 z2 x y
    let idx := y * width + x
    if meshDepthSkipF z then pure b
    else do
      let pass ← if !use_zbuffer then pure true
                 else do
                   let d ← liftFault (readAt b.zbuffer idx)
                   pure (F32.lt z d)
      if pass then do
        let zb ← liftFault (writeAt b.zbuffer idx z)
        if !show_zbuffer then do
          let image ← liftFault (writeAt b.image idx tri_color)
          pure { image := image, zbuffer := zb }
        else pure { b with zbuffer := zb }
      else pure b
  else pure b

/-- Lines 170-173 in binary32: the clamped integer bounding box
`(xmin, xmax, ymin, ymax)`; `none` when a conversion to `int` is out of range. -/
def boundingBoxF (width height : Int) (p0 p1 p2 : Vec2F) : Option (Int × Int × Int × Int) := do
  let fx ← F32.floorInt (F32.min3 p0.x p1.x p2.x)
  let cx ← F32.ceilInt (F32.max3 p0.x p1.x p2.x)
  let fy ← F32.floorInt (F32.min3 p0.y p1.y p2.y)
  let cy ← F32.ceilInt (F32.max3 p0.y p1.y p2.y)
  pure (max 0 fx, min (width - 1) cx, max 0 fy, min (height - 1) cy)

/-- Line 177 in binary32: the edge-function denominator
`v0.x * v1.y - v1.x * v0.y` of the screen points. -/
def edgeDenomF (p0 p1 p2 : Vec2F) : F32 :=
  F32.sub (F32.mul (F32.sub p1.x p0.x) (F32.sub p2.y p0.y))
    (F32.mul (F32.sub p2.x p0.x) (F32.sub p1.y p0.y))

/-- The literal `1e-6f` of line 178: the binary32 number `8796093 * 2^-43`. -/
def epsF : F32 := .fin 8796093 (-43)

/-- Lines 166-210 in binary32: screen mapping, bounding box, degeneracy test
and the two pixel loops for one triangle that passed the culling tests. -/
def meshFillF (width height : Int) (use_zbuffer show_zbuffer : Bool) (tri_color : Vec3F)
    (p0_ndc p1_ndc p2_ndc : Vec4F) (b : BuffersF) : Except FaultF BuffersF :=
  let p0 := ndc_to_screenF width height p0_ndc
  let p1 := ndc_to_screenF width height p1_ndc
  let p2 := ndc_to_screenF width height p2_ndc
  match boundingBoxF width height p0 p1 p2 with
  | none => .error .conversion
  | some (xmin, xmax, ymin, ymax) =>
    let v0 : Vec2F := ⟨F32.sub p1.x p0.x, F32.sub p1.y p0.y⟩
    let v1 : Vec2F := ⟨F32.sub p2.x p0.x, F32.sub p2.y p0.y⟩
    let denom := edgeDenomF p0 p1 p2
    if F32.lt (F32.abs denom) epsF then pure b
    else
      (intRange ymin ymax).foldlM (fun b y =>
        (intRange xmin xmax).foldlM (fun b x =>
          meshFragmentF width use_zbuffer show_zbuffer tri_color p0 v0 v1 denom
            (F32.div p0_ndc.z p0_ndc.w) (F32.div p1_ndc.z p1_ndc.w)
            (F32.div p2_ndc.z p2_ndc.w) x y b) b) b

/-- Line 149 in binary32: the behind-camera test. -/
def behindCameraF (p0 p1 p2 : Vec4F) : Bool :=
  F32.lt p0.w (.fin 0 0) || F32.lt p1.w (.fin 0 0) || F32.lt p2.w (.fin 0 0)

/-- Lines 156-157 in binary32: `glm::cross` of the clip-space xyz edge
vectors `p1 - p0` and `p2 - p0`. -/
def crossF (p0 p1 p2 : Vec4F) : Vec3F :=
  let v0x := F32.sub p1.x p0.x
  let v0y := F32.sub p1.y p0.y
  let v0z := F32.sub p1.z p0.z
  let v1x := F32.sub p2.x p0.x
  let v1y := F32.sub p2.y p0.y
  let v1z := F32.sub p2.z p0.z
  { x := F32.sub (F32.mul v0y v1z) (F32.mul v1y v0z)
    y := F32.sub (F32.mul v0z v1x) (F32.mul v1z v0x)
    z := F32.sub (F32.mul v0x v1y) (F32.mul v1x v0y) }

/-- The function `glm::normalize` on `vec3`: `v * inversesqrt(dot(v, v))`
with `dot(v, v) = v.x * v.x + v.y * v.y + v.z * v.z` summed from the left and
`inversesqrt(s) = 1.0f / sqrt(s)`. -/
def normalizeF (v : Vec3F) : Vec3F :=
  let dot := F32.add (F32.add (F32.mul v.x v.x) (F32.mul v.y v.y)) (F32.mul v.z v.z)
  let s := F32.div (.fin 1 0) (F32.sqrt dot)
  { x := F32.mul v.x s, y := F32.mul v.y s, z := F32.mul v.z s }

/-- Lines 156-160 in binary32: the front-face test `normal.z > 0` on the
normalised cross product. -/
def frontFacingF (p0 p1 p2 : Vec4F) : Bool :=
  F32.lt (.fin 0 0) (normalizeF (crossF p0 p1 p2)).z

/-- Lines 140-210 in binary32: the body of the triangle loop for triangle
number `i`.  `palette` stands for `ex3::get_random_color`. -/
def meshTriangleF (palette : Nat → Vec3F) (positions : List Vec4F) (color : Vec3F)
    (use_random_triangle_colors : Bool) (width height : Int)
    (use_zbuffer show_zbuffer cull_behind_camera cull_front_faces : Bool)
    (i : Nat) (tri : U32Vec3) (b : BuffersF) : Except FaultF BuffersF := do
  let p0_ndc ← liftFault (readNat positions tri.x)
  let p1_ndc ← liftFault (readNat positions tri.y)
  let p2_ndc ← liftFault (readNat positions tri.z)
  if cull_behind_camera && behindCameraF p0_ndc p1_ndc p2_ndc then pure b
  else if cull_front_faces && frontFacingF p0_ndc p1_ndc p2_ndc then pure b
  else
    let tri_color := if use_random_triangle_colors then palette i else color
    meshFillF width height use_zbuffer show_zbuffer tri_color p0_ndc p1_ndc p2_ndc b

/-- Lines 138-211 in binary32: the triangle loop, from triangle number `i`
on. -/
def meshLoopF (palette : Nat → Vec3F) (positions : List Vec4F) (color : Vec3F)
    (use_random_triangle_colors : Bool) (width height : Int)
    (use_zbuffer show_zbuffer cull_behind_camera cull_front_faces : Bool) :
    Nat → List U32Vec3 → BuffersF → Except FaultF BuffersF
  | _, [], b => pure b
  | i, tri :: rest, b => do
    let b ← meshTriangleF palette positions color use_random_triangle_colors width height
      use_zbuffer show_zbuffer cull_behind_camera cull_front_faces i tri b
    meshLoopF palette positions color use_random_triangle_colors width height
      use_zbuffer show_zbuffer cull_behind_camera cull_front_faces (i + 1) rest b

/-- The function `glm::clamp` on `float`: `min(max(v, lo), hi)` with
`max(a, b) = (a < b) ? b : a` and `min(a, b) = (b < a) ? b : a`. -/
def clampF (v lo hi : F32) : F32 :=
  let m := if F32.lt v lo then lo else v
  if F32.lt hi m then hi else m

/-- Lines 220-224 in binary32: one pixel of the depth visualization. -/
def depthPixelF (width : Int) (x y : Int) (b : BuffersF) : Except FaultF BuffersF := do
  let idx := y * width + x
  let z ← liftFault (readAt b.zbuffer idx)
  let depth_color :=
    clampF (F32.sub (.fin 1 0) (F32.div (F32.add z (.fin 1 0)) (.fin 2 0))) (.fin 0 0) (.fin 1 0)
  let image ← liftFault (writeAt b.image idx ⟨depth_color, depth_color, depth_color⟩)
  pure { b with image := image }

/-- Lines 214-227 in binary32: the depth-visualization pass. -/
def depthPassF (width height : Int) (b : BuffersF) : Except FaultF BuffersF :=
  (intRange 0 (height - 1)).foldlM (fun b y =>
    (intRange 0 (width - 1)).foldlM (fun b x => depthPixelF width x y b) b) b

/-- The function `rasterize_mesh` in binary32. -/
def rasterize_meshF (palette : Nat → Vec3F) (positions : List Vec4F) (indices : List U32Vec3)
    (color : Vec3F) (use_random_triangle_colors : Bool) (width height : Int) (b : BuffersF)
    (use_zbuffer show_zbuffer cull_behind_camera cull_front_faces : Bool) :
    Except FaultF BuffersF := do
  let b ← meshLoopF palette positions color use_random_triangle_colors width height
    use_zbuffer show_zbuffer cull_behind_camera cull_front_faces 0 indices b
  if show_zbuffer then depthPassF width height b else pure b

/-- The buffers after the clear of the frame loop, in binary32: colour
`(0,0,0)` and depth `1.0`. -/
def clearedBuffersF (width height : Int) : BuffersF :=
  { image := List.replicate (width * height).toNat ⟨.fin 0 0, .fin 0 0, .fin 0 0⟩
    zbuffer := List.replicate (width * height).toNat (.fin 1 0) }

/-- Both binary32 buffers have `width * height` entries. -/
def SizedF (width height : Int) (b : BuffersF) : Prop :=
  (b.image.length : Int) = width * height ∧ (b.zbuffer.length : Int) = width * height

/-- The colour at index `k` of the result of a call, if the call returned. -/
def imageAtF (r : Except FaultF BuffersF) (k : Nat) : Option Vec3F :=
  match r with
  | .ok b => b.image[k]?
  | .error _ => none

/-- The depth at index `k` of the result of a call, if the call returned. -/
def depthAtF (r : Except FaultF BuffersF) (k : Nat) : Option F32 :=
  match r with
  | .ok b => b.zbuffer[k]?
  | .error _ => none

/-- The colour `(1,1,1)`. -/
def whiteF : Vec3F := ⟨.fin 1 0, .fin 1 0, .fin 1 0⟩

/-- The exact value of a finite binary32 number (`0` for an infinity or NaN). -/
def F32.toRat : F32 → ℚ
  | .fin m e => (m : ℚ) * (2 : ℚ) ^ e
  | _ => 0

/-- The exact values of the components of a binary32 clip-space position. -/
def Vec4F.toRat (p : Vec4F) : Vec4 :=
  ⟨p.x.toRat, p.y.toRat, p.z.toRat, p.w.toRat⟩

/-- The exact values of the components of a binary32 screen point. -/
def Vec2F.toRat (p : Vec2F) : Vec2 :=
  ⟨p.x.toRat, p.y.toRat⟩

/-- Whether a value of the model is a binary32 number, written the way the
operations return it: rounding `m * 2^e` to binary32 gives `m` and `e` back. -/
def F32.isBinary32 : F32 → Bool
  | .fin m e => decide (F32.round m e = .fin m e)
  | _ => true

/-- Whether the four components of a position are binary32 numbers. -/
def Vec4F.isBinary32 (p : Vec4F) : Bool :=
  p.x.isBinary32 && p.y.isBinary32 && p.z.isBinary32 && p.w.isBinary32

end Raster

/-! # Theorems -/

namespace Raster

/-! ## Pixel indices -/

theorem pixel_index_bounds {width height x y : Int} (hx0 : 0 ≤ x) (hx : x < width)
    (hy0 : 0 ≤ y) (hy : y < height) :
    0 ≤ y * width + x ∧ y * width + x < width * height := by
  have hw : 0 < width := by omega
  constructor
  · have := mul_nonneg hy0 hw.le
    omega
  · have h1 : (y + 1) * width ≤ height * width :=
      mul_le_mul_of_nonneg_right (by omega) hw.le
    have h2 : (y + 1) * width = y * width + width := by ring
    have h3 : height * width = width * height := by ring
    omega

theorem pixel_index_inj {width x y x' y' : Int} (hx0 : 0 ≤ x) (hx : x < width)
    (hx0' : 0 ≤ x') (hx' : x' < width)
    (h : y * width + x = y' * width + x') : x = x' ∧ y = y' := by
  have hy : y = y' := by
    by_contra hne
    rcases lt_or_gt_of_ne hne with hlt | hgt
    · have h1 : (y + 1) * width ≤ y' * width :=
        mul_le_mul_of_nonneg_right (by omega) (by omega)
      have h2 : (y + 1) * width = y * width + width := by ring
      omega
    · have h1 : (y' + 1) * width ≤ y * width :=
        mul_le_mul_of_nonneg_right (by omega) (by omega)
      have h2 : (y' + 1) * width = y' * width + width := by ring
      omega
  subst hy
  exact ⟨by omega, rfl⟩

/-! ## Writes applied to buffers -/

theorem applyFrag_length (test writeZ writeC : Bool) (b : Buffers) (f : Frag) :
    (applyFrag test writeZ writeC b f).image.length = b.image.length ∧
    (applyFrag test writeZ writeC b f).zbuffer.length = b.zbuffer.length := by
  unfold applyFrag
  split
  · exact ⟨rfl, rfl⟩
  · constructor <;> dsimp only <;> split <;> simp

theorem applyFrag_sized {width height : Int} (test writeZ writeC : Bool) {b : Buffers}
    (f : Frag) (hb : Sized width height b) :
    Sized width height (applyFrag test writeZ writeC b f) := by
  obtain ⟨h1, h2⟩ := applyFrag_length test writeZ writeC b f
  unfold Sized at *
  rw [h1, h2]
  exact hb

theorem foldl_applyFrag_sized {width height : Int} (test writeZ writeC : Bool)
    (fs : List Frag) {b : Buffers} (hb : Sized width height b) :
    Sized width height (fs.foldl (applyFrag test writeZ writeC) b) := by
  induction fs generalizing b with
  | nil => exact hb
  | cons f fs ih => exact ih (applyFrag_sized test writeZ writeC f hb)

theorem getD_set_eq_ite {α : Type} (l : List α) (i k : Nat) (a d : α) (hi : i < l.length) :
    (l.set i a).getD k d = if i = k then a else l.getD k d := by
  simp only [List.getD_eq_getElem?_getD, List.getElem?_set]
  by_cases h : i = k
  · subst h
    simp [hi]
  · simp [h]

theorem pixel_applyFrag (test writeZ writeC : Bool) (b : Buffers) (f : Frag) (k : Nat)
    (hi : f.idx < b.image.length) (hz : f.idx < b.zbuffer.length) :
    pixel (applyFrag test writeZ writeC b f) k =
      if f.idx = k then pixStep test writeZ writeC (pixel b k) f else pixel b k := by
  unfold applyFrag pixStep pixel
  by_cases hk : f.idx = k
  · subst hk
    simp only [if_true]
    split
    · rfl
    · cases writeC <;> cases writeZ <;>
        simp only [if_true, if_false, Bool.false_eq_true, getD_set_eq_ite _ _ _ _ _ hi,
          getD_set_eq_ite _ _ _ _ _ hz]
  · simp only [if_neg hk]
    split
    · rfl
    · cases writeC <;> cases writeZ <;>
        simp only [if_true, if_false, Bool.false_eq_true, getD_set_eq_ite _ _ _ _ _ hi,
          getD_set_eq_ite _ _ _ _ _ hz, if_neg hk]

theorem pixel_foldl_applyFrag (test writeZ writeC : Bool) (fs : List Frag) (b : Buffers)
    (k : Nat) (hlen : b.zbuffer.length = b.image.length)
    (hfs : ∀ f ∈ fs, f.idx < b.image.length) :
    pixel (fs.foldl (applyFrag test writeZ writeC) b) k =
      (fs.filter (fun f => decide (f.idx = k))).foldl (pixStep test writeZ writeC)
        (pixel b k) := by
  induction fs generalizing b with
  | nil => rfl
  | cons f fs ih =>
    obtain ⟨h1, h2⟩ := applyFrag_length test writeZ writeC b f
    have hf : f.idx < b.image.length := hfs f (List.mem_cons_self _ _)
    rw [List.foldl_cons, ih _ (by rw [h1, h2]; exact hlen)
      (fun g hg => by rw [h1]; exact hfs g (List.mem_cons_of_mem _ hg)),
      pixel_applyFrag _ _ _ _ _ _ hf (by rw [hlen]; exact hf)]
    by_cases hk : f.idx = k
    · simp [List.filter_cons, hk]
    · simp [List.filter_cons, hk]

/-! ## The line traversal -/

theorem lineSetupInt_geom (x0 y0 x1 y1 : Int) (z0 z1 : ℚ) :
    LineGeom (lineSetupInt x0 y0 x1 y1 z0 z1).1 x0 y0 := by
  constructor
  · exact abs_nonneg _
  · exact abs_nonneg _
  · simp only [lineSetupInt]; split <;> simp
  · simp only [lineSetupInt]; split <;> simp
  · simp only [lineSetupInt]
    split
    · rw [abs_of_pos (by omega)]; ring
    · rw [abs_of_nonpos (by omega)]; ring
  · simp only [lineSetupInt]
    split
    · rw [abs_of_pos (by omega)]; ring
    · rw [abs_of_nonpos (by omega)]; ring
  · rfl

theorem lineSetupInt_inv (x0 y0 x1 y1 : Int) (z0 z1 : ℚ) :
    LineInv (lineSetupInt x0 y0 x1 y1 z0 z1).1 x0 y0 (lineSetupInt x0 y0 x1 y1 z0 z1).2 0 0 := by
  have hdx : 0 ≤ |x1 - x0| := abs_nonneg _
  have hdy : 0 ≤ |y1 - y0| := abs_nonneg _
  constructor <;> (try simp only [lineSetupInt]) <;> intros <;> first | omega | simp

/-- The exit test holds exactly when both step counts have reached their deltas. -/
theorem lineDone_iff {s : LineSetup} {xs ys : Int} {st : LineState} {i j : Int}
    (g : LineGeom s xs ys) (inv : LineInv s xs ys st i j) :
    lineDone s st = true ↔ i = s.dx ∧ j = s.dy := by
  have hx := inv.hx
  have hy := inv.hy
  have hx1 := g.hx1
  have hy1 := g.hy1
  simp only [lineDone, decide_eq_true_eq]
  rcases g.sx1 with h1 | h1 <;> rcases g.sy1 with h2 | h2 <;> rw [h1] at hx hx1 <;>
    rw [h2] at hy hy1 <;> constructor <;> rintro ⟨a, b⟩ <;> constructor <;> omega

/-- While the loop has not exited, the step count of the dominant axis is
below its delta. -/
theorem lineInv_not_done {s : LineSetup} {xs ys : Int} {st : LineState} {i j : Int}
    (g : LineGeom s xs ys) (inv : LineInv s xs ys st i j) (hd : lineDone s st = false) :
    (s.dy ≤ s.dx → i < s.dx) ∧ (s.dx < s.dy → j < s.dy) := by
  have hnd : ¬ (i = s.dx ∧ j = s.dy) := by
    rw [← lineDone_iff g inv, hd]; simp
  have herr := inv.herr
  have hi := inv.hi
  have hj := inv.hj
  have hi0 := inv.hi0
  have hj0 := inv.hj0
  have dx0 := g.dx0
  have dy0 := g.dy0
  constructor
  · intro hle
    by_contra hlt
    have hi' : i = s.dx := by omega
    have hjlt : j + 1 ≤ s.dy := by
      by_contra h
      exact hnd ⟨hi', by omega⟩
    obtain ⟨hlo, _⟩ := inv.hA hle
    have hdxpos : 0 < s.dx := by omega
    have hp : s.dx * (j + 1) ≤ s.dx * s.dy := mul_le_mul_of_nonneg_left hjlt dx0
    rw [hi'] at herr
    nlinarith
  · intro hlt
    by_contra hge
    have hj' : j = s.dy := by omega
    have hilt : i + 1 ≤ s.dx := by
      by_contra h
      exact hnd ⟨by omega, hj'⟩
    obtain ⟨_, hhi⟩ := inv.hB hlt
    have hp : s.dy * (i + 1) ≤ s.dy * s.dx := mul_le_mul_of_nonneg_left hilt dy0
    rw [hj'] at herr
    nlinarith

/-- One loop iteration preserves the invariant; the step counts advance as the
two tests of lines 100 and 105 say. -/
theorem lineInv_advance {s : LineSetup} {xs ys : Int} {st : LineState} {i j : Int}
    (g : LineGeom s xs ys) (inv : LineInv s xs ys st i j) (hd : lineDone s st = false) :
    LineInv s xs ys (lineAdvance s st)
      (if 2 * st.err > -s.dy then i + 1 else i) (if 2 * st.err < s.dx then j + 1 else j) := by
  obtain ⟨hA', hB'⟩ := lineInv_not_done g inv hd
  obtain ⟨hx0, hy0, herr, hi0, hj0, hi, hj, hstepx, hstepy, hA, hB, hD⟩ := inv
  have dx0 := g.dx0
  have dy0 := g.dy0
  have hyj : 2 * st.err < s.dx → j + 1 ≤ s.dy := by
    intro h
    rcases le_or_lt s.dy s.dx with hle | hlt
    · by_contra hc
      have hj' : j = s.dy := by omega
      have := hA' hle
      have hp : 0 ≤ s.dy * (s.dx - i - 1) := mul_nonneg dy0 (by omega)
      rw [hj'] at herr
      nlinarith
    · have := hB' hlt
      omega
  have hxi : 2 * st.err > -s.dy → i + 1 ≤ s.dx := by
    intro h
    rcases le_or_lt s.dy s.dx with hle | hlt
    · have := hA' hle
      omega
    · by_contra hc
      have hi' : i = s.dx := by omega
      have := hB' hlt
      have hp : 0 ≤ s.dx * (s.dy - j - 1) := mul_nonneg dx0 (by omega)
      rw [hi'] at herr
      nlinarith
  have hxs : s.dy ≤ s.dx → 2 * st.err > -s.dy := by
    intro h
    have := hA h
    have := hA' h
    rcases eq_or_lt_of_le h with he | hl
    · have := hD he.symm
      omega
    · omega
  have hys : s.dx < s.dy → 2 * st.err < s.dx := by
    intro h
    have := hB h
    omega
  by_cases hx : 2 * st.err > -s.dy <;> by_cases hy : 2 * st.err < s.dx
  all_goals simp only [hx, hy, if_true, if_false]
  all_goals have hxi' := hxi
  all_goals have hyj' := hyj
  all_goals constructor
  all_goals try simp only [lineAdvance, hx, hy, decide_True, decide_False, if_true, if_false,
    Bool.false_eq_true]
  all_goals first
    | (intro h; have h1 := hA h; have h2 := hstepx h; have h3 := hxs h; omega)
    | (intro h; have h1 := hB (by omega); have h2 := hstepy (by omega)
       have h3 := hys (by omega); omega)
    | (intro h; have h1 := hD h; have h2 := hxs (by omega); omega)
    | (intro h; have h2 := hstepy h; omega)
    | linarith
    | omega

/-! ## Buffer accesses inside the viewport -/

theorem writeAt_ok {α : Type} (v : List α) (idx : Int) (a : α) (h0 : 0 ≤ idx)
    (h : idx.toNat < v.length) : writeAt v idx a = .ok (v.set idx.toNat a) := by
  unfold writeAt
  rw [if_pos ⟨h0, h⟩]

theorem readAt_ok (v : List ℚ) (idx : Int) (h0 : 0 ≤ idx) (h : idx.toNat < v.length) :
    readAt v idx = .ok (v.getD idx.toNat 0) := by
  unfold readAt readNat
  rw [if_pos h0, List.getD_eq_getElem?_getD, List.getElem?_eq_getElem h]
  rfl

theorem index_lt_of_sized {width height x y : Int} {b : Buffers}
    (hb : Sized width height b) (hx0 : 0 ≤ x) (hx : x < width) (hy0 : 0 ≤ y)
    (hy : y < height) :
    0 ≤ y * width + x ∧ (y * width + x).toNat < b.image.length ∧
      (y * width + x).toNat < b.zbuffer.length := by
  obtain ⟨h0, h1⟩ := pixel_index_bounds hx0 hx hy0 hy
  obtain ⟨hi, hz⟩ := hb
  refine ⟨h0, ?_, ?_⟩ <;> omega

/-- On buffers of the target's size the guarded write of the line rasterizer
never faults, and it is the write named by `lineFrag`. -/
theorem linePlot_eq {width height : Int} (use_zbuffer : Bool) (color : Vec3)
    (s : LineSetup) (st : LineState) {b : Buffers} (hb : Sized width height b) :
    linePlot width height use_zbuffer color st.x0 st.y0 (lineDepth s st.step) b =
      .ok (match lineFrag width height color s st with
           | some f => applyFrag use_zbuffer use_zbuffer true b f
           | none => b) := by
  unfold linePlot lineFrag
  split
  · rename_i hg
    obtain ⟨hx0, hx, hy0, hy, -, -⟩ := hg
    obtain ⟨h0, hi, hz⟩ := index_lt_of_sized hb hx0 hx hy0 hy
    cases use_zbuffer
    · simp only [Bool.not_false, if_true, writeAt_ok _ _ _ h0 hi, applyFrag]
      rfl
    · simp only [Bool.not_true, Bool.false_eq_true, if_false, readAt_ok _ _ h0 hz, applyFrag]
      by_cases hlt : lineDepth s st.step < b.zbuffer.getD (st.y0 * width + st.x0).toNat 0
      · simp only [bind, Except.bind, hlt, if_true, writeAt_ok _ _ _ h0 hi,
          writeAt_ok _ _ _ h0 hz]
        simp [pure, Except.pure]
      · simp only [bind, Except.bind, hlt, if_false]
        simp [pure, Except.pure]
  · rfl

/-- While the loop has not exited, `step` is below `steps`. -/
theorem lineInv_step_lt {s : LineSetup} {xs ys : Int} {st : LineState} {i j : Int}
    (g : LineGeom s xs ys) (inv : LineInv s xs ys st i j) (hd : lineDone s st = false) :
    0 ≤ st.step ∧ st.step < s.steps := by
  obtain ⟨hA, hB⟩ := lineInv_not_done g inv hd
  have hs := g.hsteps
  have hi0 := inv.hi0
  have hj0 := inv.hj0
  rcases le_or_lt s.dy s.dx with hle | hlt
  · have h1 := inv.hstepx hle
    have h2 := hA hle
    rw [max_eq_left hle] at hs
    omega
  · have h1 := inv.hstepy hlt.le
    have h2 := hB hlt
    rw [max_eq_right hlt.le] at hs
    omega

/-- At every state of the invariant, `step` is between `0` and `steps`. -/
theorem lineInv_step_le {s : LineSetup} {xs ys : Int} {st : LineState} {i j : Int}
    (g : LineGeom s xs ys) (inv : LineInv s xs ys st i j) :
    0 ≤ st.step ∧ st.step ≤ s.steps := by
  have hs := g.hsteps
  have hi0 := inv.hi0
  have hj0 := inv.hj0
  have hi := inv.hi
  have hj := inv.hj
  rcases le_or_lt s.dy s.dx with hle | hlt
  · have h1 := inv.hstepx hle
    rw [max_eq_left hle] at hs
    omega
  · have h1 := inv.hstepy hlt.le
    rw [max_eq_right hlt.le] at hs
    omega

theorem lineAdvance_step (s : LineSetup) (st : LineState) :
    (lineAdvance s st).step = st.step + 1 := rfl

/-- With fuel for the remaining steps the traversal loop returns, without a
fault, the buffers obtained by applying the writes of the visited states in
order. -/
theorem lineLoop_eq {width height : Int} (use_zbuffer : Bool) (color : Vec3)
    {s : LineSetup} {xs ys : Int} (g : LineGeom s xs ys) (fuel : Nat) :
    ∀ (st : LineState) (i j : Int) (b : Buffers), LineInv s xs ys st i j →
      Sized width height b → (s.steps - st.step).toNat < fuel →
      lineLoop width height use_zbuffer color s fuel st b =
        .ok (((lineTrace s fuel st).filterMap (lineFrag width height color s)).foldl
          (applyFrag use_zbuffer use_zbuffer true) b) := by
  induction fuel with
  | zero => intro st i j b _ _ h; omega
  | succ n ih =>
    intro st i j b inv hb hfuel
    unfold lineLoop lineTrace
    rw [linePlot_eq use_zbuffer color s st hb]
    by_cases hd : lineDone s st = true
    · simp only [hd, if_true, bind, Except.bind, pure, Except.pure]
      cases hf : lineFrag width height color s st <;> simp [List.filterMap_cons, hf]
    · have hd' : lineDone s st = false := by simpa using hd
      have hb' : Sized width height (match lineFrag width height color s st with
          | some f => applyFrag use_zbuffer use_zbuffer true b f
          | none => b) := by
        cases lineFrag width height color s st with
        | none => exact hb
        | some f => exact applyFrag_sized _ _ _ f hb
      have hlt := lineInv_step_lt g inv hd'
      have hrec := ih (lineAdvance s st) _ _ _ (lineInv_advance g inv hd') hb'
        (by rw [lineAdvance_step]; omega)
      simp only [hd', Bool.false_eq_true, if_false, bind, Except.bind]
      rw [hrec]
      cases hf : lineFrag width height color s st <;> simp [List.filterMap_cons, hf]

/-- Every visited state satisfies the invariant. -/
theorem lineTrace_inv {s : LineSetup} {xs ys : Int} (g : LineGeom s xs ys) (fuel : Nat) :
    ∀ (st : LineState) (i j : Int), LineInv s xs ys st i j →
      ∀ st' ∈ lineTrace s fuel st, ∃ i' j', LineInv s xs ys st' i' j' := by
  induction fuel with
  | zero => intro st i j _ st' h; simp [lineTrace] at h
  | succ n ih =>
    intro st i j inv st' h
    unfold lineTrace at h
    by_cases hd : lineDone s st = true
    · simp only [hd, if_true, List.mem_singleton] at h
      exact ⟨i, j, h ▸ inv⟩
    · have hd' : lineDone s st = false := by simpa using hd
      simp only [hd', Bool.false_eq_true, if_false, List.mem_cons] at h
      rcases h with h | h
      · exact ⟨i, j, h ▸ inv⟩
      · exact ih _ _ _ (lineInv_advance g inv hd') st' h

/-- Two consecutive entries of the trace are one loop iteration apart. -/
theorem lineTrace_consecutive {s : LineSetup} {xs ys : Int} (g : LineGeom s xs ys)
    (fuel : Nat) :
    ∀ (st : LineState) (i j : Int) (k : Nat) (a c : LineState), LineInv s xs ys st i j →
      (lineTrace s fuel st)[k]? = some a → (lineTrace s fuel st)[k + 1]? = some c →
      lineDone s a = false ∧ c = lineAdvance s a ∧ ∃ i' j', LineInv s xs ys a i' j' := by
  induction fuel with
  | zero => intro st i j k a c _ h; simp [lineTrace] at h
  | succ n ih =>
    intro st i j k a c inv ha hc
    unfold lineTrace at ha hc
    by_cases hd : lineDone s st = true
    · simp [hd] at hc
    · have hd' : lineDone s st = false := by simpa using hd
      simp only [hd', Bool.false_eq_true, if_false] at ha hc
      cases k with
      | zero =>
        simp only [List.getElem?_cons_zero, Option.some.injEq] at ha
        simp only [zero_add, List.getElem?_cons_succ] at hc
        subst ha
        refine ⟨hd', ?_, i, j, inv⟩
        cases n with
        | zero => simp [lineTrace] at hc
        | succ m =>
          unfold lineTrace at hc
          split at hc <;> simp at hc <;> exact hc.symm
      | succ k =>
        simp only [List.getElem?_cons_succ] at ha hc
        exact ih _ _ _ k a c (lineInv_advance g inv hd') ha hc

/-- While the loop has not exited, the test that advances the dominant axis
succeeds. -/
theorem lineInv_dominant {s : LineSetup} {xs ys : Int} {st : LineState} {i j : Int}
    (g : LineGeom s xs ys) (inv : LineInv s xs ys st i j) (hd : lineDone s st = false) :
    (s.dy ≤ s.dx → 2 * st.err > -s.dy) ∧ (s.dx ≤ s.dy → 2 * st.err < s.dx) := by
  obtain ⟨hA', hB'⟩ := lineInv_not_done g inv hd
  have hi0 := inv.hi0
  have hj0 := inv.hj0
  constructor
  · intro h
    have := inv.hA h
    have := hA' h
    rcases eq_or_lt_of_le h with he | hl
    · have := inv.hD he.symm
      omega
    · omega
  · intro h
    rcases eq_or_lt_of_le h with he | hl
    · have := inv.hD he
      have := hA' (by omega)
      omega
    · have := inv.hB hl
      omega

theorem lineAdvance_x (s : LineSetup) (st : LineState) :
    (lineAdvance s st).x0 = if 2 * st.err > -s.dy then st.x0 + s.sx else st.x0 := by
  by_cases h : 2 * st.err > -s.dy <;> simp [lineAdvance, h]

theorem lineAdvance_y (s : LineSetup) (st : LineState) :
    (lineAdvance s st).y0 = if 2 * st.err < s.dx then st.y0 + s.sy else st.y0 := by
  by_cases h : 2 * st.err < s.dx <;> simp [lineAdvance, h]

/-- The scaled distance of a visited state from the ideal line is at most half
the dominant delta. -/
theorem lineInv_accuracy {s : LineSetup} {xs ys : Int} {st : LineState} {i j : Int}
    (g : LineGeom s xs ys) (inv : LineInv s xs ys st i j) :
    2 * |s.dx * (st.y0 - ys) * s.sy - s.dy * (st.x0 - xs) * s.sx| ≤ max s.dx s.dy := by
  have herr := inv.herr
  have hxy : s.dx * (st.y0 - ys) * s.sy - s.dy * (st.x0 - xs) * s.sx =
      s.dx * j - s.dy * i := by
    rw [inv.hx, inv.hy]
    rcases g.sx1 with h1 | h1 <;> rcases g.sy1 with h2 | h2 <;> rw [h1, h2] <;> ring
  rw [hxy]
  have h2 : (2 : Int) * |s.dx * j - s.dy * i| = |2 * (s.dx * j - s.dy * i)| := by
    rw [abs_mul]; simp
  rw [h2, abs_le]
  rcases le_or_lt s.dy s.dx with hle | hlt
  · obtain ⟨ha, hb⟩ := inv.hA hle
    rw [max_eq_left hle]
    constructor <;> linarith
  · obtain ⟨ha, hb⟩ := inv.hB hlt
    rw [max_eq_right hlt.le]
    constructor <;> linarith

/-- C6: every pixel visited by the traversal of the segment from `(xs, ys)` to
`(xe, ye)` lies within half a pixel of the ideal segment along the minor axis:
`2 * |dx * (y - ys) * sy - dy * (x - xs) * sx| ≤ max dx dy`. -/
theorem line_accuracy (xs ys xe ye : Int) (z0 z1 : ℚ) (fuel : Nat) (st : LineState)
    (h : st ∈ lineTrace (lineSetupInt xs ys xe ye z0 z1).1 fuel
      (lineSetupInt xs ys xe ye z0 z1).2) :
    2 * |(|xe - xs|) * (st.y0 - ys) * (if ys < ye then 1 else -1) -
        (|ye - ys|) * (st.x0 - xs) * (if xs < xe then 1 else -1)| ≤
      max (|xe - xs|) (|ye - ys|) := by
  obtain ⟨i, j, inv⟩ := lineTrace_inv (lineSetupInt_geom xs ys xe ye z0 z1) fuel _ 0 0
    (lineSetupInt_inv xs ys xe ye z0 z1) st h
  have hacc := lineInv_accuracy (lineSetupInt_geom xs ys xe ye z0 z1) inv
  simp only [lineSetupInt] at hacc
  exact hacc

/-- The traversal of the segment `(0,0)-(5,2)` visits `(2,1)`, which is within
half a pixel of the ideal segment. -/
theorem line_accuracy_witness :
    (⟨2, 1, 4, 2⟩ : LineState) ∈ lineTrace (lineSetupInt 0 0 5 2 0 1).1 10
        (lineSetupInt 0 0 5 2 0 1).2 ∧
      2 * |(|(5 : Int) - 0|) * ((⟨2, 1, 4, 2⟩ : LineState).y0 - 0) *
          (if (0 : Int) < 2 then 1 else -1) -
        (|(2 : Int) - 0|) * ((⟨2, 1, 4, 2⟩ : LineState).x0 - 0) *
          (if (0 : Int) < 5 then 1 else -1)| ≤
      max (|(5 : Int) - 0|) (|(2 : Int) - 0|) :=
  ⟨by decide, line_accuracy 0 0 5 2 0 1 10 ⟨2, 1, 4, 2⟩ (by decide)⟩

/-- A visited state lies in every interval that holds both end points. -/
theorem lineInv_between {s : LineSetup} {xs ys : Int} {st : LineState} {i j : Int}
    (g : LineGeom s xs ys) (inv : LineInv s xs ys st i j) (lo hi lo' hi' : Int)
    (h1 : lo ≤ xs) (h2 : xs ≤ hi) (h3 : lo ≤ s.x1) (h4 : s.x1 ≤ hi)
    (h5 : lo' ≤ ys) (h6 : ys ≤ hi') (h7 : lo' ≤ s.y1) (h8 : s.y1 ≤ hi') :
    lo ≤ st.x0 ∧ st.x0 ≤ hi ∧ lo' ≤ st.y0 ∧ st.y0 ≤ hi' := by
  have hx := inv.hx
  have hy := inv.hy
  have hx1 := g.hx1
  have hy1 := g.hy1
  have hi0 := inv.hi0
  have hj0 := inv.hj0
  have hi := inv.hi
  have hj := inv.hj
  rcases g.sx1 with e1 | e1 <;> rcases g.sy1 with e2 | e2 <;> rw [e1] at hx hx1 <;>
    rw [e2] at hy hy1 <;> refine ⟨?_, ?_, ?_, ?_⟩ <;> omega

/-- The interpolated depth lies between the two end depths. -/
theorem lineDepth_range (s : LineSetup) (step : Int) (h0 : 0 ≤ step) (h1 : step ≤ s.steps)
    (hz0 : -1 ≤ s.z0) (hz0' : s.z0 ≤ 1) (hz1 : -1 ≤ s.z1) (hz1' : s.z1 ≤ 1) :
    -1 ≤ lineDepth s step ∧ lineDepth s step ≤ 1 := by
  unfold lineDepth
  by_cases hs : s.steps = 0
  · simp only [hs, if_true]
    constructor <;> linarith
  · simp only [hs, if_false]
    have hpos : (0 : ℚ) < (s.steps : ℚ) := by
      have : 0 < s.steps := by omega
      exact_mod_cast this
    have ht0 : (0 : ℚ) ≤ (step : ℚ) / (s.steps : ℚ) :=
      div_nonneg (by exact_mod_cast h0) hpos.le
    have ht1 : (step : ℚ) / (s.steps : ℚ) ≤ 1 := by
      rw [div_le_one hpos]
      exact_mod_cast h1
    generalize (step : ℚ) / (s.steps : ℚ) = t at ht0 ht1
    constructor <;> nlinarith

/-- Without the depth test, a non-empty run of writes of one colour leaves
that colour. -/
theorem foldl_pixStep_color (writeZ : Bool) (c : Vec3) (fs : List Frag) (p : Vec3 × ℚ)
    (hne : fs ≠ []) (hc : ∀ f ∈ fs, f.color = c) :
    (fs.foldl (pixStep false writeZ true) p).1 = c := by
  induction fs generalizing p with
  | nil => exact absurd rfl hne
  | cons f fs ih =>
    cases fs with
    | nil => simpa [pixStep] using hc f (List.mem_cons_self _ _)
    | cons g gs =>
      rw [List.foldl_cons]
      exact ih _ (by simp) (fun x hx => hc x (List.mem_cons_of_mem _ hx))

/-- Writes that do not store depth leave the depth alone. -/
theorem foldl_pixStep_depth (test writeC : Bool) (fs : List Frag) (p : Vec3 × ℚ) :
    (fs.foldl (pixStep test false writeC) p).2 = p.2 := by
  induction fs generalizing p with
  | nil => rfl
  | cons f fs ih =>
    rw [List.foldl_cons, ih]
    unfold pixStep
    split <;> simp

theorem image_of_pixel (b : Buffers) (k : Nat) (h : k < b.image.length) :
    b.image[k]? = some (pixel b k).1 := by
  simp [pixel, List.getD_eq_getElem?_getD, List.getElem?_eq_getElem h]

theorem zbuffer_of_pixel (b : Buffers) (k : Nat) (h : k < b.zbuffer.length) :
    b.zbuffer[k]? = some (pixel b k).2 := by
  simp [pixel, List.getD_eq_getElem?_getD, List.getElem?_eq_getElem h]

/-- The writes of a line segment stay inside buffers of the target's size. -/
theorem lineFrag_idx_lt {width height : Int} {color : Vec3} {s : LineSetup}
    {st : LineState} {f : Frag} {b : Buffers} (hb : Sized width height b)
    (h : lineFrag width height color s st = some f) :
    f.idx < b.image.length ∧ f.color = color ∧
      f.idx = (st.y0 * width + st.x0).toNat ∧ f.z = lineDepth s st.step ∧
      0 ≤ st.x0 ∧ st.x0 < width ∧ 0 ≤ st.y0 ∧ st.y0 < height ∧
      -1 ≤ f.z ∧ f.z ≤ 1 := by
  unfold lineFrag at h
  split at h
  · rename_i hg
    obtain ⟨hx0, hx, hy0, hy, hz0, hz1⟩ := hg
    obtain ⟨_, hi, _⟩ := index_lt_of_sized hb hx0 hx hy0 hy
    simp only [Option.some.injEq] at h
    subst h
    exact ⟨hi, rfl, rfl, rfl, hx0, hx, hy0, hy, hz0, hz1⟩
  · simp at h

/-- One loop iteration moves by exactly one along the dominant axis and by at
most one along the other. -/
theorem lineAdvance_gap {s : LineSetup} {xs ys : Int} {st : LineState} {i j : Int}
    (g : LineGeom s xs ys) (inv : LineInv s xs ys st i j) (hd : lineDone s st = false) :
    (s.dy ≤ s.dx → |(lineAdvance s st).x0 - st.x0| = 1 ∧ |(lineAdvance s st).y0 - st.y0| ≤ 1) ∧
    (s.dx ≤ s.dy → |(lineAdvance s st).y0 - st.y0| = 1 ∧ |(lineAdvance s st).x0 - st.x0| ≤ 1) := by
  obtain ⟨hA, hB⟩ := lineInv_dominant g inv hd
  have hsx : |s.sx| = 1 := by rcases g.sx1 with h | h <;> rw [h] <;> rfl
  have hsy : |s.sy| = 1 := by rcases g.sy1 with h | h <;> rw [h] <;> rfl
  have hx : |(lineAdvance s st).x0 - st.x0| ≤ 1 := by
    rw [lineAdvance_x]
    split
    · rw [add_sub_cancel_left, hsx]
    · simp
  have hy : |(lineAdvance s st).y0 - st.y0| ≤ 1 := by
    rw [lineAdvance_y]
    split
    · rw [add_sub_cancel_left, hsy]
    · simp
  constructor
  · intro h
    refine ⟨?_, hy⟩
    rw [lineAdvance_x, if_pos (hA h), add_sub_cancel_left, hsx]
  · intro h
    refine ⟨?_, hx⟩
    rw [lineAdvance_y, if_pos (hB h), add_sub_cancel_left, hsy]

/-- C5: in the traversal of the segment from `(x0, y0)` to `(x1, y1)` two
consecutively visited pixels differ by exactly 1 along the dominant axis and by
at most 1 along the other; and for a segment whose end points are inside the
viewport, with both depths in `[-1, 1]` and `use_zbuffer = false`, the loop
returns without a fault and every visited pixel holds the segment's colour. -/
theorem line_no_gaps (x0 y0 x1 y1 : Int) (z0 z1 : ℚ) (fuel : Nat) :
    (∀ (k : Nat) (a c : LineState),
      (lineTrace (lineSetupInt x0 y0 x1 y1 z0 z1).1 fuel
        (lineSetupInt x0 y0 x1 y1 z0 z1).2)[k]? = some a →
      (lineTrace (lineSetupInt x0 y0 x1 y1 z0 z1).1 fuel
        (lineSetupInt x0 y0 x1 y1 z0 z1).2)[k + 1]? = some c →
      (|y1 - y0| ≤ |x1 - x0| → |c.x0 - a.x0| = 1 ∧ |c.y0 - a.y0| ≤ 1) ∧
      (|x1 - x0| ≤ |y1 - y0| → |c.y0 - a.y0| = 1 ∧ |c.x0 - a.x0| ≤ 1)) ∧
    (∀ (width height : Int) (color : Vec3) (b : Buffers), Sized width height b →
      0 ≤ x0 → x0 < width → 0 ≤ y0 → y0 < height →
      0 ≤ x1 → x1 < width → 0 ≤ y1 → y1 < height →
      -1 ≤ z0 → z0 ≤ 1 → -1 ≤ z1 → z1 ≤ 1 →
      (max (|x1 - x0|) (|y1 - y0|)).toNat < fuel →
      ∃ b', lineLoop width height false color (lineSetupInt x0 y0 x1 y1 z0 z1).1 fuel
          (lineSetupInt x0 y0 x1 y1 z0 z1).2 b = .ok b' ∧
        ∀ v ∈ lineTrace (lineSetupInt x0 y0 x1 y1 z0 z1).1 fuel
            (lineSetupInt x0 y0 x1 y1 z0 z1).2,
          0 ≤ v.x0 ∧ v.x0 < width ∧ 0 ≤ v.y0 ∧ v.y0 < height ∧
            b'.image[(v.y0 * width + v.x0).toNat]? = some color) := by
  have g := lineSetupInt_geom x0 y0 x1 y1 z0 z1
  have inv0 := lineSetupInt_inv x0 y0 x1 y1 z0 z1
  constructor
  · intro k a c ha hc
    obtain ⟨hd, hadv, i, j, inv⟩ := lineTrace_consecutive g fuel _ 0 0 k a c inv0 ha hc
    have hgap := lineAdvance_gap g inv hd
    rw [← hadv] at hgap
    simp only [lineSetupInt] at hgap
    exact hgap
  · intro width height color b hb hx0 hx0' hy0 hy0' hx1 hx1' hy1 hy1' hz0 hz0' hz1 hz1' hfuel
    refine ⟨_, lineLoop_eq false color g fuel _ 0 0 b inv0 hb ?_, ?_⟩
    · simpa [lineSetupInt] using hfuel
    · intro v hv
      obtain ⟨i, j, inv⟩ := lineTrace_inv g fuel _ 0 0 inv0 v hv
      obtain ⟨hvx0, hvx, hvy0, hvy⟩ := lineInv_between g inv 0 (width - 1) 0 (height - 1)
        hx0 (by omega) (by simpa [lineSetupInt] using hx1)
        (by simp only [lineSetupInt]; omega) hy0 (by omega)
        (by simpa [lineSetupInt] using hy1) (by simp only [lineSetupInt]; omega)
      obtain ⟨hs0, hs1⟩ := lineInv_step_le g inv
      obtain ⟨hd0, hd1⟩ := lineDepth_range (lineSetupInt x0 y0 x1 y1 z0 z1).1 v.step hs0 hs1
        hz0 hz0' hz1 hz1'
      refine ⟨hvx0, by omega, hvy0, by omega, ?_⟩
      obtain ⟨h0, hi, hz⟩ := index_lt_of_sized hb hvx0 (by omega : v.x0 < width) hvy0
        (by omega : v.y0 < height)
      have hfrag : lineFrag width height color (lineSetupInt x0 y0 x1 y1 z0 z1).1 v =
          some ⟨(v.y0 * width + v.x0).toNat,
            lineDepth (lineSetupInt x0 y0 x1 y1 z0 z1).1 v.step, color⟩ := by
        unfold lineFrag
        rw [if_pos ⟨hvx0, by omega, hvy0, by omega, hd0, hd1⟩]
      have hsz := foldl_applyFrag_sized false false true
        ((lineTrace (lineSetupInt x0 y0 x1 y1 z0 z1).1 fuel
          (lineSetupInt x0 y0 x1 y1 z0 z1).2).filterMap
          (lineFrag width height color (lineSetupInt x0 y0 x1 y1 z0 z1).1)) hb
      have hlen : (v.y0 * width + v.x0).toNat < (List.foldl (applyFrag false false true) b
          ((lineTrace (lineSetupInt x0 y0 x1 y1 z0 z1).1 fuel
          (lineSetupInt x0 y0 x1 y1 z0 z1).2).filterMap
          (lineFrag width height color (lineSetupInt x0 y0 x1 y1 z0 z1).1))).image.length := by
        have := hsz.1
        have := hb.1
        omega
      rw [image_of_pixel _ _ hlen, pixel_foldl_applyFrag _ _ _ _ _ _ (by
        have := hb.1
        have := hb.2
        omega) (fun f hf => by
          obtain ⟨w, _, hw⟩ := List.mem_filterMap.1 hf
          exact (lineFrag_idx_lt hb hw).1)]
      congr 1
      apply foldl_pixStep_color
      · intro hnil
        have hmem : (⟨(v.y0 * width + v.x0).toNat,
            lineDepth (lineSetupInt x0 y0 x1 y1 z0 z1).1 v.step, color⟩ : Frag) ∈
            List.filter (fun f => decide (f.idx = (v.y0 * width + v.x0).toNat))
              ((lineTrace (lineSetupInt x0 y0 x1 y1 z0 z1).1 fuel
                (lineSetupInt x0 y0 x1 y1 z0 z1).2).filterMap
                (lineFrag width height color (lineSetupInt x0 y0 x1 y1 z0 z1).1)) := by
          rw [List.mem_filter]
          exact ⟨List.mem_filterMap.2 ⟨v, hv, hfrag⟩, by simp⟩
        rw [hnil] at hmem
        simp at hmem
      · intro f hf
        obtain ⟨hf', _⟩ := List.mem_filter.1 hf
        obtain ⟨w, _, hw⟩ := List.mem_filterMap.1 hf'
        exact (lineFrag_idx_lt hb hw).2.1

theorem clearedBuffers_sized (width height : Int) (h : 0 ≤ width * height) :
    Sized width height (clearedBuffers width height) := by
  unfold Sized clearedBuffers
  simp only [List.length_replicate]
  omega

/-- The segment `(0,0)-(5,2)` in an `8 × 8` target: the loop returns and its
six visited pixels hold the colour. -/
theorem line_no_gaps_witness :
    ∃ b', lineLoop 8 8 false ⟨1, 0, 0⟩ (lineSetupInt 0 0 5 2 0 1).1 10
        (lineSetupInt 0 0 5 2 0 1).2 (clearedBuffers 8 8) = .ok b' ∧
      ∀ v ∈ lineTrace (lineSetupInt 0 0 5 2 0 1).1 10 (lineSetupInt 0 0 5 2 0 1).2,
        0 ≤ v.x0 ∧ v.x0 < 8 ∧ 0 ≤ v.y0 ∧ v.y0 < 8 ∧
          b'.image[(v.y0 * 8 + v.x0).toNat]? = some ⟨1, 0, 0⟩ :=
  (line_no_gaps 0 0 5 2 0 1 10).2 8 8 ⟨1, 0, 0⟩ (clearedBuffers 8 8)
    (clearedBuffers_sized 8 8 (by decide)) (by decide) (by decide) (by decide) (by decide)
    (by decide) (by decide) (by decide) (by decide) (by norm_num) (by norm_num)
    (by norm_num) (by norm_num) (by decide)

/-! ## A `rasterize_lines` call as a list of writes -/

theorem lineFuel_spec (width height : Int) (points : List Vec4) :
    ∀ (k : Nat) (p0 p1 : Vec4), points[2 * k]? = some p0 → points[2 * k + 1]? = some p1 →
      (lineSetup width height p0 p1).1.steps.toNat < lineFuel width height points := by
  induction points using lineFuel.induct width height with
  | case1 q0 q1 rest ih =>
    intro k p0 p1 h0 h1
    unfold lineFuel
    cases k with
    | zero =>
      simp only [Nat.mul_zero, List.getElem?_cons_zero, Option.some.injEq, zero_add,
        List.getElem?_cons_succ] at h0 h1
      subst h0 h1
      omega
    | succ k =>
      have e0 : 2 * (k + 1) = (2 * k + 1) + 1 := by ring
      have e1 : 2 * (k + 1) + 1 = (2 * k + 1 + 1) + 1 := by ring
      rw [e0, List.getElem?_cons_succ, List.getElem?_cons_succ] at h0
      rw [e1, List.getElem?_cons_succ, List.getElem?_cons_succ] at h1
      have := ih k p0 p1 h0 h1
      omega
  | case2 l hl =>
    intro k p0 p1 h0 h1
    exfalso
    match l, hl with
    | [], _ => simp at h0
    | [a], _ =>
      cases k with
      | zero => simp at h1
      | succ k =>
        rw [show 2 * (k + 1) = (2 * k + 1) + 1 by ring] at h0
        simp at h0
    | a :: c :: r, hl => exact hl a c r rfl

theorem lineSetup_geom (width height : Int) (p0 p1 : Vec4) :
    LineGeom (lineSetup width height p0 p1).1
      (roundHalfAway (ndc_to_screen width height p0).x)
      (roundHalfAway (ndc_to_screen width height p0).y) :=
  lineSetupInt_geom _ _ _ _ _ _

theorem lineSetup_inv (width height : Int) (p0 p1 : Vec4) :
    LineInv (lineSetup width height p0 p1).1
      (roundHalfAway (ndc_to_screen width height p0).x)
      (roundHalfAway (ndc_to_screen width height p0).y)
      (lineSetup width height p0 p1).2 0 0 :=
  lineSetupInt_inv _ _ _ _ _ _

theorem lineSetup_step (width height : Int) (p0 p1 : Vec4) :
    (lineSetup width height p0 p1).2.step = 0 := rfl

/-- The body of the segment loop, for an in-range segment on buffers of the
target's size and with enough fuel, applies the segment's writes. -/
theorem lineSegment_eq {width height : Int} (use_zbuffer : Bool) (fuel : Nat)
    (points : List Vec4) (colors : List Vec3) (k : Nat) {p0 p1 : Vec4} {c : Vec3}
    {b : Buffers} (h0 : points[2 * k]? = some p0) (h1 : points[2 * k + 1]? = some p1)
    (hc : colors[k]? = some c) (hb : Sized width height b)
    (hfuel : (lineSetup width height p0 p1).1.steps.toNat < fuel) :
    lineSegment fuel points colors width height use_zbuffer (2 * k) b =
      .ok ((segmentFrags fuel points colors width height k).foldl
        (applyFrag use_zbuffer use_zbuffer true) b) := by
  have hk : 2 * k / 2 = k := by omega
  unfold lineSegment segmentFrags readNat
  simp only [h0, h1, hk, hc, bind, Except.bind]
  exact lineLoop_eq use_zbuffer c (lineSetup_geom width height p0 p1) fuel _ 0 0 b
    (lineSetup_inv width height p0 p1) hb (by rw [lineSetup_step]; simpa using hfuel)

theorem getElem?_of_lt {α : Type} (l : List α) (i : Nat) (h : i < l.length) :
    ∃ a, l[i]? = some a :=
  ⟨l.get ⟨i, h⟩, List.getElem?_eq_getElem h⟩

theorem linesFrags_succ (fuel : Nat) (points : List Vec4) (colors : List Vec3)
    (width height : Int) (n : Nat) :
    linesFrags fuel points colors width height (n + 1) =
      linesFrags fuel points colors width height n ++
        segmentFrags fuel points colors width height n := by
  unfold linesFrags
  rw [List.range_succ, List.flatMap_append]
  simp

theorem segmentFrags_mem {fuel : Nat} {points : List Vec4} {colors : List Vec3}
    {width height : Int} {k : Nat} {f : Frag}
    (hf : f ∈ segmentFrags fuel points colors width height k) :
    ∃ p0 p1 c, points[2 * k]? = some p0 ∧ points[2 * k + 1]? = some p1 ∧
      colors[k]? = some c ∧
      ∃ st ∈ lineTrace (lineSetup width height p0 p1).1 fuel (lineSetup width height p0 p1).2,
        lineFrag width height c (lineSetup width height p0 p1).1 st = some f := by
  unfold segmentFrags at hf
  split at hf
  · rename_i p0 p1 c h0 h1 hc
    obtain ⟨st, hst, hfr⟩ := List.mem_filterMap.1 hf
    exact ⟨p0, p1, c, h0, h1, hc, st, hst, hfr⟩
  · simp at hf

theorem segmentFrags_idx_lt {fuel : Nat} {points : List Vec4} {colors : List Vec3}
    {width height : Int} {k : Nat} {b : Buffers} (hb : Sized width height b) :
    ∀ f ∈ segmentFrags fuel points colors width height k, f.idx < b.image.length := by
  intro f hf
  obtain ⟨p0, p1, c, -, -, -, st, -, hfr⟩ := segmentFrags_mem hf
  exact (lineFrag_idx_lt hb hfr).1

theorem linesFrags_idx_lt {fuel : Nat} {points : List Vec4} {colors : List Vec3}
    {width height : Int} {n : Nat} {b : Buffers} (hb : Sized width height b) :
    ∀ f ∈ linesFrags fuel points colors width height n, f.idx < b.image.length := by
  intro f hf
  obtain ⟨k, -, hk⟩ := List.mem_flatMap.1 hf
  exact segmentFrags_idx_lt hb f hk

/-- The first `n` iterations of the segment loop apply the writes of the first
`n` segments. -/
theorem rasterize_lines_prefix {width height : Int} (use_zbuffer : Bool) (fuel : Nat)
    (points : List Vec4) (colors : List Vec3) {b : Buffers}
    (hlen : points.length = 2 * colors.length) (hb : Sized width height b)
    (hfuel : lineFuel width height points ≤ fuel) :
    ∀ n, n ≤ colors.length →
      (List.range n).foldlM
        (fun b k => lineSegment fuel points colors width height use_zbuffer (2 * k) b) b =
      .ok ((linesFrags fuel points colors width height n).foldl
        (applyFrag use_zbuffer use_zbuffer true) b) := by
  intro n
  induction n with
  | zero => intro _; rfl
  | succ n ih =>
    intro hn
    obtain ⟨q0, h0⟩ := getElem?_of_lt points (2 * n) (by omega)
    obtain ⟨q1, h1⟩ := getElem?_of_lt points (2 * n + 1) (by omega)
    obtain ⟨c, hc⟩ := getElem?_of_lt colors n (by omega)
    rw [List.range_succ, List.foldlM_append, ih (by omega), linesFrags_succ,
      List.foldl_append]
    simp only [bind, Except.bind, List.foldlM_cons, List.foldlM_nil]
    rw [lineSegment_eq use_zbuffer fuel points colors n h0 h1 hc
      (foldl_applyFrag_sized _ _ _ _ hb)
      (lt_of_lt_of_le (lineFuel_spec width height points n _ _ h0 h1) hfuel)]
    rfl

/-- For an even-length point list with one colour per segment, buffers of the
target's size and enough fuel, `rasterize_lines` returns without a fault the
buffers obtained by applying the writes of all segments in order. -/
theorem rasterize_lines_eq {width height : Int} (use_zbuffer : Bool) (fuel : Nat)
    (points : List Vec4) (colors : List Vec3) {b : Buffers}
    (heven : points.length % 2 = 0) (hcol : colors.length = points.length / 2)
    (hb : Sized width height b) (hfuel : lineFuel width height points ≤ fuel) :
    rasterize_lines fuel points colors width height b use_zbuffer =
      .ok ((linesFrags fuel points colors width height colors.length).foldl
        (applyFrag use_zbuffer use_zbuffer true) b) := by
  unfold rasterize_lines
  have hn : (points.length + 1) / 2 = colors.length := by omega
  rw [hn]
  exact rasterize_lines_prefix use_zbuffer fuel points colors (by omega) hb hfuel _ le_rfl

/-- A write whose index differs from `k` leaves entry `k` of both buffers. -/
theorem foldl_applyFrag_unchanged (test writeZ writeC : Bool) (fs : List Frag) (b : Buffers)
    (k : Nat) (hk : ∀ f ∈ fs, f.idx ≠ k) :
    (fs.foldl (applyFrag test writeZ writeC) b).image[k]? = b.image[k]? ∧
      (fs.foldl (applyFrag test writeZ writeC) b).zbuffer[k]? = b.zbuffer[k]? := by
  induction fs generalizing b with
  | nil => exact ⟨rfl, rfl⟩
  | cons f fs ih =>
    have hne : f.idx ≠ k := hk f (List.mem_cons_self _ _)
    obtain ⟨h1, h2⟩ := ih (applyFrag test writeZ writeC b f)
      (fun g hg => hk g (List.mem_cons_of_mem _ hg))
    rw [List.foldl_cons, h1, h2]
    unfold applyFrag
    split
    · exact ⟨rfl, rfl⟩
    · constructor <;> dsimp only <;> split <;>
        first | rfl | exact List.getElem?_set_ne hne

/-- A write of a segment comes from a visit in the sense of `lineVisits`. -/
theorem lineVisits_of_frag {fuel : Nat} {width height : Int} {p0 p1 : Vec4} {c : Vec3}
    {st : LineState} {f : Frag} {b : Buffers} (hb : Sized width height b)
    (hst : st ∈ lineTrace (lineSetup width height p0 p1).1 fuel
      (lineSetup width height p0 p1).2)
    (hf : lineFrag width height c (lineSetup width height p0 p1).1 st = some f) :
    lineVisits fuel width height p0 p1 st.x0 st.y0 ∧
      f.idx = (st.y0 * width + st.x0).toNat := by
  obtain ⟨-, -, hidx, hz, hx0, hx, hy0, hy, hz0, hz1⟩ := lineFrag_idx_lt hb hf
  rw [hz] at hz0 hz1
  exact ⟨⟨st, hst, rfl, rfl, hx0, hx, hy0, hy, hz0, hz1⟩, hidx⟩

/-- C7: for buffers of the target's size, an even-length point list and one
colour per segment, `rasterize_lines` returns without a fault (no access
outside `points`, `colors`, `image` or `zbuffer`), keeps the buffer sizes,
and every entry of `image` or `zbuffer` that differs afterwards has the index
`y * width + x` of a pixel `(x, y)` that some segment visits inside the
viewport with interpolated depth in `[-1, 1]`. -/
theorem lines_write_bounds (fuel : Nat) (points : List Vec4) (colors : List Vec3)
    (width height : Int) (b : Buffers) (use_zbuffer : Bool)
    (hb : Sized width height b) (heven : points.length % 2 = 0)
    (hcol : colors.length = points.length / 2)
    (hfuel : lineFuel width height points ≤ fuel) :
    ∃ b', rasterize_lines fuel points colors width height b use_zbuffer = .ok b' ∧
      Sized width height b' ∧
      ∀ idx : Nat, (b'.image[idx]? ≠ b.image[idx]? ∨ b'.zbuffer[idx]? ≠ b.zbuffer[idx]?) →
        ∃ (k : Nat) (p0 p1 : Vec4) (x y : Int),
          points[2 * k]? = some p0 ∧ points[2 * k + 1]? = some p1 ∧
          lineVisits fuel width height p0 p1 x y ∧ idx = (y * width + x).toNat := by
  refine ⟨_, rasterize_lines_eq use_zbuffer fuel points colors heven hcol hb hfuel,
    foldl_applyFrag_sized _ _ _ _ hb, ?_⟩
  intro idx hch
  by_cases hex : ∃ f ∈ linesFrags fuel points colors width height colors.length, f.idx = idx
  · obtain ⟨f, hf, hidx⟩ := hex
    obtain ⟨k, -, hk⟩ := List.mem_flatMap.1 hf
    obtain ⟨p0, p1, c, h0, h1, -, st, hst, hfr⟩ := segmentFrags_mem hk
    obtain ⟨hv, hi⟩ := lineVisits_of_frag hb hst hfr
    exact ⟨k, p0, p1, st.x0, st.y0, h0, h1, hv, by rw [← hidx, hi]⟩
  · exfalso
    obtain ⟨h1, h2⟩ := foldl_applyFrag_unchanged use_zbuffer use_zbuffer true
      (linesFrags fuel points colors width height colors.length) b idx
      (fun f hf hidx => hex ⟨f, hf, hidx⟩)
    rcases hch with h | h
    · exact h h1
    · exact h h2

/-- C9: with `use_zbuffer = false`, a pixel that segment `k` visits inside the
viewport with depth in `[-1, 1]`, and that no later segment visits so, holds
the colour of segment `k` after `rasterize_lines`, whatever the depth buffer
holds and whatever the depths of the segments are. -/
theorem lines_last_writer (fuel : Nat) (points : List Vec4) (colors : List Vec3)
    (width height : Int) (b : Buffers) (hb : Sized width height b)
    (heven : points.length % 2 = 0) (hcol : colors.length = points.length / 2)
    (hfuel : lineFuel width height points ≤ fuel)
    (k : Nat) (p0 p1 : Vec4) (c : Vec3) (x y : Int)
    (hp0 : points[2 * k]? = some p0) (hp1 : points[2 * k + 1]? = some p1)
    (hc : colors[k]? = some c)
    (hvis : lineVisits fuel width height p0 p1 x y)
    (hlast : ∀ (k' : Nat) (q0 q1 : Vec4), k < k' → points[2 * k']? = some q0 →
      points[2 * k' + 1]? = some q1 → ¬ lineVisits fuel width height q0 q1 x y) :
    ∃ b', rasterize_lines fuel points colors width height b false = .ok b' ∧
      b'.image[(y * width + x).toNat]? = some c := by
  refine ⟨_, rasterize_lines_eq false fuel points colors heven hcol hb hfuel, ?_⟩
  obtain ⟨st, hst, hstx, hsty, hx0, hx, hy0, hy, hz0, hz1⟩ := hvis
  obtain ⟨h0, hi, hz⟩ := index_lt_of_sized hb hx0 hx hy0 hy
  have hkc : k < colors.length := by
    by_contra h
    rw [List.getElem?_eq_none (by omega)] at hc
    simp at hc
  have key : ∀ n, k < n → n ≤ colors.length →
      (pixel ((linesFrags fuel points colors width height n).foldl
        (applyFrag false false true) b) (y * width + x).toNat).1 = c := by
    intro n
    induction n with
    | zero => intro h; omega
    | succ n ih =>
      intro hkn hn
      have hbn := foldl_applyFrag_sized false false true
        (linesFrags fuel points colors width height n) hb
      rw [linesFrags_succ, List.foldl_append, pixel_foldl_applyFrag _ _ _ _ _ _
        (by have := hbn.1; have := hbn.2; omega) (segmentFrags_idx_lt hbn)]
      by_cases hnk : n = k
      · subst hnk
        apply foldl_pixStep_color
        · intro hnil
          have hmem : (⟨(y * width + x).toNat,
              lineDepth (lineSetup width height p0 p1).1 st.step, c⟩ : Frag) ∈
              List.filter (fun f => decide (f.idx = (y * width + x).toNat))
                (segmentFrags fuel points colors width height n) := by
            rw [List.mem_filter]
            refine ⟨?_, by simp⟩
            unfold segmentFrags
            simp only [hp0, hp1, hc]
            refine List.mem_filterMap.2 ⟨st, hst, ?_⟩
            unfold lineFrag
            rw [if_pos ⟨by omega, by omega, by omega, by omega, hz0, hz1⟩, hstx, hsty]
          rw [hnil] at hmem
          simp at hmem
        · intro f hf
          obtain ⟨hf', -⟩ := List.mem_filter.1 hf
          obtain ⟨q0, q1, c', -, -, hc', st', -, hfr⟩ := segmentFrags_mem hf'
          rw [hc] at hc'
          simp only [Option.some.injEq] at hc'
          rw [hc']
          exact (lineFrag_idx_lt hb hfr).2.1
      · have hempty : List.filter (fun f => decide (f.idx = (y * width + x).toNat))
            (segmentFrags fuel points colors width height n) = [] := by
          rw [List.filter_eq_nil_iff]
          intro f hf hidx
          simp only [decide_eq_true_eq] at hidx
          obtain ⟨q0, q1, c', hq0, hq1, -, st', hst', hfr⟩ := segmentFrags_mem hf
          obtain ⟨hv, hi'⟩ := lineVisits_of_frag hb hst' hfr
          obtain ⟨-, -, -, -, hx0', hx', hy0', hy', -, -⟩ := lineFrag_idx_lt hb hfr
          obtain ⟨h0', -⟩ := pixel_index_bounds hx0' hx' hy0' hy'
          have heq : st'.y0 * width + st'.x0 = y * width + x := by
            rw [hi'] at hidx
            omega
          obtain ⟨e1, e2⟩ := pixel_index_inj hx0' hx' hx0 hx heq
          rw [e1, e2] at hv
          exact hlast n q0 q1 (by omega) hq0 hq1 hv
        rw [hempty]
        exact ih (by omega) (by omega)
  have hbN := foldl_applyFrag_sized false false true
    (linesFrags fuel points colors width height colors.length) hb
  rw [image_of_pixel _ _ (by have := hbN.1; have := hb.1; omega), key _ hkc le_rfl]

/-- With the depth test on, the guarded write at an in-range pixel stores
colour and depth when the depth is strictly below the stored one, and is the
identity otherwise. -/
theorem linePlot_test {width height : Int} (color : Vec3) {x y : Int} {z : ℚ} {b : Buffers}
    (hb : Sized width height b) (hx0 : 0 ≤ x) (hx : x < width) (hy0 : 0 ≤ y)
    (hy : y < height) (hz0 : -1 ≤ z) (hz1 : z ≤ 1) :
    linePlot width height true color x y z b =
      .ok (if z < b.zbuffer.getD (y * width + x).toNat 0 then
        { image := b.image.set (y * width + x).toNat color
          zbuffer := b.zbuffer.set (y * width + x).toNat z }
      else b) := by
  obtain ⟨h0, hi, hz⟩ := index_lt_of_sized hb hx0 hx hy0 hy
  unfold linePlot
  rw [if_pos ⟨hx0, hx, hy0, hy, hz0, hz1⟩]
  simp only [Bool.not_true, Bool.false_eq_true, if_false, readAt_ok _ _ h0 hz]
  by_cases hlt : z < b.zbuffer.getD (y * width + x).toNat 0
  · simp only [bind, Except.bind, hlt, if_true, writeAt_ok _ _ _ h0 hi,
      writeAt_ok _ _ _ h0 hz]
    rfl
  · simp only [bind, Except.bind, hlt, if_false]
    rfl

/-- Two visited states of one segment at the same pixel have the same `step`. -/
theorem lineInv_step_eq {s : LineSetup} {xs ys : Int} {st st' : LineState}
    {i j i' j' : Int} (g : LineGeom s xs ys) (inv : LineInv s xs ys st i j)
    (inv' : LineInv s xs ys st' i' j') (hx : st.x0 = st'.x0) (hy : st.y0 = st'.y0) :
    st.step = st'.step := by
  have h1 := inv.hx
  have h2 := inv'.hx
  have h3 := inv.hy
  have h4 := inv'.hy
  have hi : i = i' := by
    rcases g.sx1 with e | e <;> rw [e] at h1 h2 <;> omega
  have hj : j = j' := by
    rcases g.sy1 with e | e <;> rw [e] at h3 h4 <;> omega
  rcases le_or_lt s.dy s.dx with hle | hlt
  · rw [inv.hstepx hle, inv'.hstepx hle, hi]
  · rw [inv.hstepy hlt.le, inv'.hstepy hlt.le, hj]

/-- Depth-tested writes never raise the stored depth, and leave it at most the
depth of every write applied. -/
theorem foldl_pixStep_depth_le (writeC : Bool) (fs : List Frag) (p : Vec3 × ℚ) :
    (fs.foldl (pixStep true true writeC) p).2 ≤ p.2 ∧
      ∀ f ∈ fs, (fs.foldl (pixStep true true writeC) p).2 ≤ f.z := by
  induction fs generalizing p with
  | nil => exact ⟨le_refl _, fun f hf => by simp at hf⟩
  | cons g gs ih =>
    obtain ⟨h1, h2⟩ := ih (pixStep true true writeC p g)
    have hstep : (pixStep true true writeC p g).2 ≤ p.2 ∧
        (pixStep true true writeC p g).2 ≤ g.z := by
      unfold pixStep
      by_cases h : g.z < p.2
      · simp [h, h.le]
      · simp [h, not_lt.1 h]
    rw [List.foldl_cons]
    refine ⟨le_trans h1 hstep.1, ?_⟩
    intro f hf
    rcases List.mem_cons.1 hf with rfl | hf'
    · exact le_trans h1 hstep.2
    · exact h2 f hf'

/-- Depth-tested writes that are not nearer than the stored depth change
nothing. -/
theorem foldl_pixStep_noop (writeZ writeC : Bool) (fs : List Frag) (p : Vec3 × ℚ)
    (h : ∀ f ∈ fs, p.2 ≤ f.z) : fs.foldl (pixStep true writeZ writeC) p = p := by
  induction fs with
  | nil => rfl
  | cons g gs ih =>
    have hg : ¬ g.z < p.2 := not_lt.2 (h g (List.mem_cons_self _ _))
    have hstep : pixStep true writeZ writeC p g = p := by
      unfold pixStep
      simp [hg]
    rw [List.foldl_cons, hstep]
    exact ih (fun f hf => h f (List.mem_cons_of_mem _ hf))

/-- C8: with `use_zbuffer = true`, the write of the line rasterizer at an
in-range pixel with stored depth `d` happens exactly when the interpolated
depth `z` is strictly below `d`; a write stores the colour in `image[idx]` and
`z` in `zbuffer[idx]`, and otherwise the buffers are returned as they are.
When two segments of one call visit the pixel with equal depth, the pixel
ends as in the call with the first segment alone: the colour of the earlier
segment is kept. -/
theorem line_depth_test (width height : Int) (b : Buffers) (x y : Int)
    (hb : Sized width height b) (hx0 : 0 ≤ x) (hx : x < width)
    (hy0 : 0 ≤ y) (hy : y < height) :
    (∀ (color : Vec3) (z : ℚ), -1 ≤ z → z ≤ 1 →
      ∃ d, b.zbuffer[(y * width + x).toNat]? = some d ∧
        (z < d → ∃ b', linePlot width height true color x y z b = .ok b' ∧
          b' = { image := b.image.set (y * width + x).toNat color
                 zbuffer := b.zbuffer.set (y * width + x).toNat z } ∧
          b'.image[(y * width + x).toNat]? = some color ∧
          b'.zbuffer[(y * width + x).toNat]? = some z) ∧
        (¬ z < d → linePlot width height true color x y z b = .ok b)) ∧
    (∀ (fuel : Nat) (p0 p1 q0 q1 : Vec4) (c1 c2 : Vec3) (st1 st2 : LineState),
      lineFuel width height [p0, p1, q0, q1] ≤ fuel →
      st1 ∈ lineTrace (lineSetup width height p0 p1).1 fuel (lineSetup width height p0 p1).2 →
      st1.x0 = x → st1.y0 = y →
      st2 ∈ lineTrace (lineSetup width height q0 q1).1 fuel (lineSetup width height q0 q1).2 →
      st2.x0 = x → st2.y0 = y →
      lineDepth (lineSetup width height p0 p1).1 st1.step =
        lineDepth (lineSetup width height q0 q1).1 st2.step →
      -1 ≤ lineDepth (lineSetup width height p0 p1).1 st1.step →
      lineDepth (lineSetup width height p0 p1).1 st1.step ≤ 1 →
      ∃ b1 b2, rasterize_lines fuel [p0, p1] [c1] width height b true = .ok b1 ∧
        rasterize_lines fuel [p0, p1, q0, q1] [c1, c2] width height b true = .ok b2 ∧
        b2.image[(y * width + x).toNat]? = b1.image[(y * width + x).toNat]? ∧
        b2.zbuffer[(y * width + x).toNat]? = b1.zbuffer[(y * width + x).toNat]?) := by
  obtain ⟨h0, hi, hz⟩ := index_lt_of_sized hb hx0 hx hy0 hy
  have hlen : b.zbuffer.length = b.image.length := by
    have := hb.1
    have := hb.2
    omega
  constructor
  · intro color z hz0 hz1
    have hd : b.zbuffer.getD (y * width + x).toNat 0 = (pixel b (y * width + x).toNat).2 := rfl
    refine ⟨(pixel b (y * width + x).toNat).2, zbuffer_of_pixel _ _ hz, ?_, ?_⟩
    · intro hlt
      refine ⟨_, ?_, rfl, ?_, ?_⟩
      · rw [linePlot_test color hb hx0 hx hy0 hy hz0 hz1, hd, if_pos hlt]
      · simp [List.getElem?_set, hi]
      · simp [List.getElem?_set, hz]
    · intro hlt
      rw [linePlot_test color hb hx0 hx hy0 hy hz0 hz1, hd, if_neg hlt]
  · intro fuel p0 p1 q0 q1 c1 c2 st1 st2 hfuel hst1 hx1 hy1 hst2 hx2 hy2 heq hz0 hz1
    have hfuel1 : lineFuel width height [p0, p1] ≤ fuel := by
      simp only [lineFuel] at hfuel ⊢
      omega
    have e1 := rasterize_lines_eq true fuel [p0, p1] [c1] (by simp) (by simp) hb hfuel1
    have e2 := rasterize_lines_eq true fuel [p0, p1, q0, q1] [c1, c2] (by simp) (by simp) hb
      hfuel
    have l1 : linesFrags fuel [p0, p1] [c1] width height [c1].length =
        (lineTrace (lineSetup width height p0 p1).1 fuel
          (lineSetup width height p0 p1).2).filterMap
          (lineFrag width height c1 (lineSetup width height p0 p1).1) := by
      simp [linesFrags, segmentFrags, List.range_succ]
    have l2 : linesFrags fuel [p0, p1, q0, q1] [c1, c2] width height [c1, c2].length =
        (lineTrace (lineSetup width height p0 p1).1 fuel
          (lineSetup width height p0 p1).2).filterMap
          (lineFrag width height c1 (lineSetup width height p0 p1).1) ++
        (lineTrace (lineSetup width height q0 q1).1 fuel
          (lineSetup width height q0 q1).2).filterMap
          (lineFrag width height c2 (lineSetup width height q0 q1).1) := by
      simp [linesFrags, segmentFrags, List.range_succ]
    rw [l1] at e1
    rw [l2] at e2
    refine ⟨_, _, e1, e2, ?_⟩
    have hs1 := foldl_applyFrag_sized true true true
      ((lineTrace (lineSetup width height p0 p1).1 fuel
        (lineSetup width height p0 p1).2).filterMap
        (lineFrag width height c1 (lineSetup width height p0 p1).1)) hb
    have hlen1 := hs1.1
    have hlen1z := hs1.2
    have hbi := hb.1
    have hpix : pixel (List.foldl (applyFrag true true true) b
          ((lineTrace (lineSetup width height p0 p1).1 fuel
            (lineSetup width height p0 p1).2).filterMap
            (lineFrag width height c1 (lineSetup width height p0 p1).1) ++
          (lineTrace (lineSetup width height q0 q1).1 fuel
            (lineSetup width height q0 q1).2).filterMap
            (lineFrag width height c2 (lineSetup width height q0 q1).1)))
          (y * width + x).toNat =
        pixel (List.foldl (applyFrag true true true) b
          ((lineTrace (lineSetup width height p0 p1).1 fuel
            (lineSetup width height p0 p1).2).filterMap
            (lineFrag width height c1 (lineSetup width height p0 p1).1)))
          (y * width + x).toNat := by
      rw [List.foldl_append, pixel_foldl_applyFrag true true true _ _ _
        (by omega) (fun f hf => by
          obtain ⟨w, _, hw⟩ := List.mem_filterMap.1 hf
          exact (lineFrag_idx_lt hs1 hw).1)]
      apply foldl_pixStep_noop
      intro f hf
      obtain ⟨hf', hidx⟩ := List.mem_filter.1 hf
      simp only [decide_eq_true_eq] at hidx
      obtain ⟨w, hw, hfr⟩ := List.mem_filterMap.1 hf'
      obtain ⟨-, -, hfi, hfz, a1, a2, a3, a4, -, -⟩ := lineFrag_idx_lt hb hfr
      obtain ⟨i0, -⟩ := pixel_index_bounds a1 a2 a3 a4
      obtain ⟨ex, ey⟩ := pixel_index_inj a1 a2 hx0 hx
        (by rw [hfi] at hidx; omega : w.y0 * width + w.x0 = y * width + x)
      obtain ⟨iw, jw, invw⟩ := lineTrace_inv (lineSetup_geom width height q0 q1) fuel _ 0 0
        (lineSetup_inv width height q0 q1) w hw
      obtain ⟨i2, j2, inv2⟩ := lineTrace_inv (lineSetup_geom width height q0 q1) fuel _ 0 0
        (lineSetup_inv width height q0 q1) st2 hst2
      have hstep : w.step = st2.step :=
        lineInv_step_eq (lineSetup_geom width height q0 q1) invw inv2
          (by rw [ex, hx2]) (by rw [ey, hy2])
      rw [hfz, hstep, ← heq]
      rw [pixel_foldl_applyFrag true true true _ _ _ hlen (fun f hf => by
          obtain ⟨w, _, hw⟩ := List.mem_filterMap.1 hf
          exact (lineFrag_idx_lt hb hw).1)]
      refine (foldl_pixStep_depth_le true _ _).2
        ⟨(y * width + x).toNat, lineDepth (lineSetup width height p0 p1).1 st1.step, c1⟩ ?_
      rw [List.mem_filter]
      refine ⟨List.mem_filterMap.2 ⟨st1, hst1, ?_⟩, by simp⟩
      unfold lineFrag
      rw [if_pos ⟨by omega, by omega, by omega, by omega, hz0, hz1⟩, hx1, hy1]
    have hs2 := foldl_applyFrag_sized true true true
      ((lineTrace (lineSetup width height p0 p1).1 fuel
        (lineSetup width height p0 p1).2).filterMap
        (lineFrag width height c1 (lineSetup width height p0 p1).1) ++
      (lineTrace (lineSetup width height q0 q1).1 fuel
        (lineSetup width height q0 q1).2).filterMap
        (lineFrag width height c2 (lineSetup width height q0 q1).1)) hb
    have hlen2 := hs2.1
    have hlen2z := hs2.2
    rw [image_of_pixel _ _ (by omega), zbuffer_of_pixel _ _ (by omega), hpix,
      image_of_pixel _ _ (by omega), zbuffer_of_pixel _ _ (by omega)]
    exact ⟨rfl, rfl⟩

/-! ## Concrete runs -/

theorem roundHalfAway_intCast (n : Int) : roundHalfAway (n : ℚ) = n := by
  unfold roundHalfAway
  split
  · rw [Int.floor_eq_iff]
    constructor <;> linarith
  · rw [Int.ceil_eq_iff]
    constructor <;> linarith

/-- In a `3 × 3` target NDC `-1, 0, 1` map to the pixel coordinates `0, 1, 2`. -/
theorem lineSetup_three (a b c d : Int) (z0 z1 : ℚ) :
    lineSetup 3 3 ⟨a, b, z0, 1⟩ ⟨c, d, z1, 1⟩ =
      lineSetupInt (a + 1) (b + 1) (c + 1) (d + 1) z0 z1 := by
  have h : ∀ n : Int, roundHalfAway (((n : ℚ) + 1) * (1 / 2) * (((3 - 1 : Int)) : ℚ)) =
      n + 1 := by
    intro n
    have e : ((n : ℚ) + 1) * (1 / 2) * (((3 - 1 : Int)) : ℚ) = ((n + 1 : Int) : ℚ) := by
      push_cast
      ring
    rw [e, roundHalfAway_intCast]
  simp only [lineSetup, ndc_to_screen, div_one, h]

/-- C7 at the diagonal of a `3 × 3` target, depth test on. -/
theorem lines_write_bounds_witness :
    ∃ b', rasterize_lines 5 [⟨(-1 : Int), (-1 : Int), 0, 1⟩, ⟨(1 : Int), (1 : Int), 0, 1⟩]
        [⟨1, 0, 0⟩] 3 3 (clearedBuffers 3 3) true = .ok b' ∧
      Sized 3 3 b' ∧
      ∀ idx : Nat, (b'.image[idx]? ≠ (clearedBuffers 3 3).image[idx]? ∨
          b'.zbuffer[idx]? ≠ (clearedBuffers 3 3).zbuffer[idx]?) →
        ∃ (k : Nat) (p0 p1 : Vec4) (x y : Int),
          [(⟨(-1 : Int), (-1 : Int), 0, 1⟩ : Vec4), ⟨(1 : Int), (1 : Int), 0, 1⟩][2 * k]? =
            some p0 ∧
          [(⟨(-1 : Int), (-1 : Int), 0, 1⟩ : Vec4), ⟨(1 : Int), (1 : Int), 0, 1⟩][2 * k + 1]? =
            some p1 ∧
          lineVisits 5 3 3 p0 p1 x y ∧ idx = (y * 3 + x).toNat :=
  lines_write_bounds 5 [⟨(-1 : Int), (-1 : Int), 0, 1⟩, ⟨(1 : Int), (1 : Int), 0, 1⟩]
    [⟨1, 0, 0⟩] 3 3 (clearedBuffers 3 3) true (clearedBuffers_sized 3 3 (by decide))
    (by decide) (by decide)
    (by simp only [lineFuel, lineSetup_three]; decide)

/-- C8 at the centre pixel of a cleared `3 × 3` target: a write with depth `0`,
and the two diagonals, which cross there with equal depth `0`. -/
theorem line_depth_test_witness :
    (∃ d, (clearedBuffers 3 3).zbuffer[((1 : Int) * 3 + 1).toNat]? = some d ∧
      ((0 : ℚ) < d → ∃ b', linePlot 3 3 true ⟨1, 0, 0⟩ 1 1 0 (clearedBuffers 3 3) = .ok b' ∧
        b' = { image := (clearedBuffers 3 3).image.set ((1 : Int) * 3 + 1).toNat ⟨1, 0, 0⟩
               zbuffer := (clearedBuffers 3 3).zbuffer.set ((1 : Int) * 3 + 1).toNat 0 } ∧
        b'.image[((1 : Int) * 3 + 1).toNat]? = some ⟨1, 0, 0⟩ ∧
        b'.zbuffer[((1 : Int) * 3 + 1).toNat]? = some 0) ∧
      (¬ (0 : ℚ) < d → linePlot 3 3 true ⟨1, 0, 0⟩ 1 1 0 (clearedBuffers 3 3) =
        .ok (clearedBuffers 3 3))) ∧
    (∃ b1 b2,
      rasterize_lines 5 [⟨(-1 : Int), (-1 : Int), 0, 1⟩, ⟨(1 : Int), (1 : Int), 0, 1⟩]
        [⟨1, 0, 0⟩] 3 3 (clearedBuffers 3 3) true = .ok b1 ∧
      rasterize_lines 5
        [⟨(-1 : Int), (-1 : Int), 0, 1⟩, ⟨(1 : Int), (1 : Int), 0, 1⟩,
          ⟨(-1 : Int), (1 : Int), 0, 1⟩, ⟨(1 : Int), (-1 : Int), 0, 1⟩]
        [⟨1, 0, 0⟩, ⟨0, 1, 0⟩] 3 3 (clearedBuffers 3 3) true = .ok b2 ∧
      b2.image[((1 : Int) * 3 + 1).toNat]? = b1.image[((1 : Int) * 3 + 1).toNat]? ∧
      b2.zbuffer[((1 : Int) * 3 + 1).toNat]? = b1.zbuffer[((1 : Int) * 3 + 1).toNat]?) :=
  ⟨(line_depth_test 3 3 (clearedBuffers 3 3) 1 1 (clearedBuffers_sized 3 3 (by decide))
      (by decide) (by decide) (by decide) (by decide)).1 ⟨1, 0, 0⟩ 0 (by norm_num)
      (by norm_num),
    (line_depth_test 3 3 (clearedBuffers 3 3) 1 1 (clearedBuffers_sized 3 3 (by decide))
      (by decide) (by decide) (by decide) (by decide)).2 5
      ⟨(-1 : Int), (-1 : Int), 0, 1⟩ ⟨(1 : Int), (1 : Int), 0, 1⟩
      ⟨(-1 : Int), (1 : Int), 0, 1⟩ ⟨(1 : Int), (-1 : Int), 0, 1⟩ ⟨1, 0, 0⟩ ⟨0, 1, 0⟩
      ⟨1, 1, 0, 1⟩ ⟨1, 1, 0, 1⟩
      (by simp only [lineFuel, lineSetup_three]; decide)
      (by rw [lineSetup_three]; decide) rfl rfl
      (by rw [lineSetup_three]; decide) rfl rfl
      (by rw [lineSetup_three, lineSetup_three]; simp [lineDepth, lineSetupInt])
      (by rw [lineSetup_three]; simp [lineDepth, lineSetupInt])
      (by rw [lineSetup_three]; simp [lineDepth, lineSetupInt])⟩

/-- C9 at the crossing of the two diagonals of a `3 × 3` target: the centre
pixel holds the colour of the second segment. -/
theorem lines_last_writer_witness :
    ∃ b', rasterize_lines 5
        [⟨(-1 : Int), (-1 : Int), 0, 1⟩, ⟨(1 : Int), (1 : Int), 0, 1⟩,
          ⟨(-1 : Int), (1 : Int), 0, 1⟩, ⟨(1 : Int), (-1 : Int), 0, 1⟩]
        [⟨1, 0, 0⟩, ⟨0, 1, 0⟩] 3 3 (clearedBuffers 3 3) false = .ok b' ∧
      b'.image[((1 : Int) * 3 + 1).toNat]? = some ⟨0, 1, 0⟩ :=
  lines_last_writer 5
    [⟨(-1 : Int), (-1 : Int), 0, 1⟩, ⟨(1 : Int), (1 : Int), 0, 1⟩,
      ⟨(-1 : Int), (1 : Int), 0, 1⟩, ⟨(1 : Int), (-1 : Int), 0, 1⟩]
    [⟨1, 0, 0⟩, ⟨0, 1, 0⟩] 3 3 (clearedBuffers 3 3)
    (clearedBuffers_sized 3 3 (by decide)) (by decide) (by decide)
    (by simp only [lineFuel, lineSetup_three]; decide)
    1 ⟨(-1 : Int), (1 : Int), 0, 1⟩ ⟨(1 : Int), (-1 : Int), 0, 1⟩ ⟨0, 1, 0⟩ 1 1
    (by rfl) (by rfl) (by rfl)
    (by
      unfold lineVisits
      rw [lineSetup_three]
      refine ⟨⟨1, 1, 0, 1⟩, by decide, rfl, rfl, by decide, by decide, by decide, by decide,
        ?_, ?_⟩ <;> simp [lineDepth, lineSetupInt])
    (by
      intro k' q0 q1 hk h0
      rw [List.getElem?_eq_none (by simp only [List.length_cons, List.length_nil]; omega)] at h0
      cases h0)

/-! ## The triangle fill as a list of writes -/

theorem mem_intRange (lo hi v : Int) : v ∈ intRange lo hi ↔ lo ≤ v ∧ v ≤ hi := by
  unfold intRange
  simp only [List.mem_map, List.mem_range]
  constructor
  · rintro ⟨k, hk, rfl⟩
    omega
  · rintro ⟨h1, h2⟩
    exact ⟨(v - lo).toNat, by omega, by omega⟩

/-- On buffers of the target's size the body of the pixel loop never faults
inside the viewport, and it is the write named by `meshFrag`. -/
theorem meshFragment_eq {width height : Int} (use_zbuffer show_zbuffer : Bool)
    (tri_color : Vec3) (p0 p1 p2 : Vec2) (z0 z1 z2 : ℚ) {x y : Int} {b : Buffers}
    (hb : Sized width height b) (hx0 : 0 ≤ x) (hx : x < width) (hy0 : 0 ≤ y)
    (hy : y < height) :
    meshFragment width use_zbuffer show_zbuffer tri_color p0 p1 p2 z0 z1 z2 x y b =
      .ok (match meshFrag width tri_color p0 p1 p2 z0 z1 z2 x y with
           | some f => applyFrag use_zbuffer true (!show_zbuffer) b f
           | none => b) := by
  obtain ⟨h0, hi, hz⟩ := index_lt_of_sized hb hx0 hx hy0 hy
  unfold meshFragment meshFrag
  by_cases hcov : covered p0 p1 p2 x y = true
  · by_cases hr : meshDepth p0 p1 p2 z0 z1 z2 x y < -1 ∨ meshDepth p0 p1 p2 z0 z1 z2 x y > 1
    · simp only [hcov, hr, if_true, not_true_eq_false, and_false, if_false]
      rfl
    · simp only [hcov, hr, if_true, if_false, not_false_eq_true, and_self, applyFrag]
      cases use_zbuffer
      · cases show_zbuffer <;>
          simp only [Bool.not_false, Bool.not_true, if_true, bind, Except.bind, pure,
            Except.pure, writeAt_ok _ _ _ h0 hi, writeAt_ok _ _ _ h0 hz, Bool.false_and,
            if_false, Bool.false_eq_true]
      · simp only [Bool.not_true, Bool.false_eq_true, if_false, readAt_ok _ _ h0 hz, bind,
          Except.bind, pure, Except.pure, Bool.true_and]
        by_cases hlt : meshDepth p0 p1 p2 z0 z1 z2 x y <
            b.zbuffer.getD (y * width + x).toNat 0
        · cases show_zbuffer <;>
            simp only [hlt, decide_True, decide_False, if_true, if_false, Bool.not_true,
              Bool.not_false, Bool.false_eq_true, not_true_eq_false, Bool.not_eq_true,
              writeAt_ok _ _ _ h0 hi, writeAt_ok _ _ _ h0 hz]
        · simp only [hlt, decide_True, decide_False, if_true, if_false, Bool.not_true,
              Bool.not_false, Bool.false_eq_true, not_false_eq_true]
  · simp only [hcov, Bool.false_eq_true, if_false, false_and]
    rfl

theorem meshRow_eq {width height : Int} (use_zbuffer show_zbuffer : Bool)
    (tri_color : Vec3) (p0 p1 p2 : Vec2) (z0 z1 z2 : ℚ) {y : Int} (hy0 : 0 ≤ y)
    (hy : y < height) (xs : List Int) (hxs : ∀ x ∈ xs, 0 ≤ x ∧ x < width) :
    ∀ {b : Buffers}, Sized width height b →
      xs.foldlM (fun b x =>
        meshFragment width use_zbuffer show_zbuffer tri_color p0 p1 p2 z0 z1 z2 x y b) b =
      .ok ((xs.filterMap (fun x => meshFrag width tri_color p0 p1 p2 z0 z1 z2 x y)).foldl
        (applyFrag use_zbuffer true (!show_zbuffer)) b) := by
  induction xs with
  | nil => intro b _; rfl
  | cons x xs ih =>
    intro b hb
    obtain ⟨hx0, hx⟩ := hxs x (List.mem_cons_self _ _)
    rw [List.foldlM_cons, meshFragment_eq use_zbuffer show_zbuffer tri_color p0 p1 p2 z0 z1 z2
      hb hx0 hx hy0 hy]
    simp only [bind, Except.bind]
    cases hf : meshFrag width tri_color p0 p1 p2 z0 z1 z2 x y with
    | none =>
      rw [ih (fun v hv => hxs v (List.mem_cons_of_mem _ hv)) hb]
      simp [List.filterMap_cons, hf]
    | some f =>
      rw [ih (fun v hv => hxs v (List.mem_cons_of_mem _ hv))
        (applyFrag_sized _ _ _ f hb)]
      simp [List.filterMap_cons, hf]

theorem meshRows_eq {width height : Int} (use_zbuffer show_zbuffer : Bool)
    (tri_color : Vec3) (p0 p1 p2 : Vec2) (z0 z1 z2 : ℚ) (xs : List Int)
    (hxs : ∀ x ∈ xs, 0 ≤ x ∧ x < width) (ys : List Int)
    (hys : ∀ y ∈ ys, 0 ≤ y ∧ y < height) :
    ∀ {b : Buffers}, Sized width height b →
      ys.foldlM (fun b y => xs.foldlM (fun b x =>
        meshFragment width use_zbuffer show_zbuffer tri_color p0 p1 p2 z0 z1 z2 x y b) b) b =
      .ok ((ys.flatMap (fun y =>
        xs.filterMap (fun x => meshFrag width tri_color p0 p1 p2 z0 z1 z2 x y))).foldl
        (applyFrag use_zbuffer true (!show_zbuffer)) b) := by
  induction ys with
  | nil => intro b _; rfl
  | cons y ys ih =>
    intro b hb
    obtain ⟨hy0, hy⟩ := hys y (List.mem_cons_self _ _)
    rw [List.foldlM_cons, meshRow_eq use_zbuffer show_zbuffer tri_color p0 p1 p2 z0 z1 z2
      hy0 hy xs hxs hb]
    simp only [bind, Except.bind]
    rw [ih (fun v hv => hys v (List.mem_cons_of_mem _ hv))
      (foldl_applyFrag_sized _ _ _ _ hb), List.flatMap_cons, List.foldl_append]

/-- On buffers of the target's size the fill of a triangle returns, without a
fault, the buffers obtained by applying its writes in scan order. -/
theorem meshFill_eq {width height : Int} (use_zbuffer show_zbuffer : Bool)
    (tri_color : Vec3) (p0_ndc p1_ndc p2_ndc : Vec4) {b : Buffers}
    (hb : Sized width height b) :
    meshFill width height use_zbuffer show_zbuffer tri_color p0_ndc p1_ndc p2_ndc b =
      .ok ((fillFrags width height tri_color p0_ndc p1_ndc p2_ndc).foldl
        (applyFrag use_zbuffer true (!show_zbuffer)) b) := by
  unfold meshFill fillFrags boundingBox
  dsimp only
  split
  · rfl
  · refine @meshRows_eq width height _ _ _ _ _ _ _ _ _ _ ?_ _ ?_ b hb
    · intro x hx
      rw [mem_intRange] at hx
      have := le_max_left (0 : Int) ⌊min (ndc_to_screen width height p0_ndc).x
        (min (ndc_to_screen width height p1_ndc).x (ndc_to_screen width height p2_ndc).x)⌋
      have := min_le_left (width - 1) ⌈max (ndc_to_screen width height p0_ndc).x
        (max (ndc_to_screen width height p1_ndc).x (ndc_to_screen width height p2_ndc).x)⌉
      omega
    · intro y hy
      rw [mem_intRange] at hy
      have := le_max_left (0 : Int) ⌊min (ndc_to_screen width height p0_ndc).y
        (min (ndc_to_screen width height p1_ndc).y (ndc_to_screen width height p2_ndc).y)⌋
      have := min_le_left (height - 1) ⌈max (ndc_to_screen width height p0_ndc).y
        (max (ndc_to_screen width height p1_ndc).y (ndc_to_screen width height p2_ndc).y)⌉
      omega

/-! ## Barycentric coordinates and the bounding box -/

/-- For a triangle with non-zero edge-function denominator, the values
`alpha`, `beta`, `gamma` of lines 187-189 are the barycentric coordinates of
the pixel centre belonging to `p1`, `p2` and `p0` respectively. -/
theorem baryAt_point (p0 p1 p2 : Vec2) (x y : Int) (hden : edgeDenom p0 p1 p2 ≠ 0) :
    (x : ℚ) + 1 / 2 = (baryAt p0 p1 p2 x y).2.2 * p0.x + (baryAt p0 p1 p2 x y).1 * p1.x +
        (baryAt p0 p1 p2 x y).2.1 * p2.x ∧
    (y : ℚ) + 1 / 2 = (baryAt p0 p1 p2 x y).2.2 * p0.y + (baryAt p0 p1 p2 x y).1 * p1.y +
        (baryAt p0 p1 p2 x y).2.1 * p2.y ∧
    (baryAt p0 p1 p2 x y).2.2 + (baryAt p0 p1 p2 x y).1 + (baryAt p0 p1 p2 x y).2.1 = 1 := by
  unfold edgeDenom at hden
  simp only [baryAt]
  refine ⟨?_, ?_, ?_⟩
  · field_simp
    ring
  · field_simp
    ring
  · ring

/-- Barycentric coordinates are unique: any `l0, l1, l2` with sum 1 that
reproduce the pixel centre are the values computed by the code. -/
theorem baryAt_unique (p0 p1 p2 : Vec2) (x y : Int) (hden : edgeDenom p0 p1 p2 ≠ 0)
    (l0 l1 l2 : ℚ) (hsum : l0 + l1 + l2 = 1)
    (hx : (x : ℚ) + 1 / 2 = l0 * p0.x + l1 * p1.x + l2 * p2.x)
    (hy : (y : ℚ) + 1 / 2 = l0 * p0.y + l1 * p1.y + l2 * p2.y) :
    baryAt p0 p1 p2 x y = (l1, l2, l0) := by
  unfold edgeDenom at hden
  have h0 : l0 = 1 - l1 - l2 := by linarith
  subst h0
  have ha : ((x : ℚ) + 1 / 2 - p0.x) * (p2.y - p0.y) - (p2.x - p0.x) * ((y : ℚ) + 1 / 2 - p0.y) =
      l1 * ((p1.x - p0.x) * (p2.y - p0.y) - (p2.x - p0.x) * (p1.y - p0.y)) := by
    rw [hx, hy]
    ring
  have hb : (p1.x - p0.x) * ((y : ℚ) + 1 / 2 - p0.y) - ((x : ℚ) + 1 / 2 - p0.x) * (p1.y - p0.y) =
      l2 * ((p1.x - p0.x) * (p2.y - p0.y) - (p2.x - p0.x) * (p1.y - p0.y)) := by
    rw [hx, hy]
    ring
  simp only [baryAt, ha, hb, mul_div_assoc, div_self hden, mul_one]

/-- For a triangle with non-zero denominator the coverage test of line 191
holds exactly when the pixel centre lies in the closed triangle. -/
theorem covered_iff_inTriangle (p0 p1 p2 : Vec2) (x y : Int)
    (hden : edgeDenom p0 p1 p2 ≠ 0) :
    covered p0 p1 p2 x y = true ↔ InTriangle p0 p1 p2 ((x : ℚ) + 1 / 2) ((y : ℚ) + 1 / 2) := by
  constructor
  · intro h
    simp only [covered, decide_eq_true_eq] at h
    obtain ⟨h1, h2, h3⟩ := baryAt_point p0 p1 p2 x y hden
    exact ⟨_, _, _, h.2.2, h.1, h.2.1, h3, h1, h2⟩
  · rintro ⟨l0, l1, l2, h0, h1, h2, hsum, hx, hy⟩
    simp only [covered, baryAt_unique p0 p1 p2 x y hden l0 l1 l2 hsum hx hy,
      decide_eq_true_eq]
    exact ⟨h1, h2, h0⟩

/-- A convex combination lies between the least and the greatest value. -/
theorem convex_between (a b c l0 l1 l2 : ℚ) (h0 : 0 ≤ l0) (h1 : 0 ≤ l1) (h2 : 0 ≤ l2)
    (hsum : l0 + l1 + l2 = 1) :
    min a (min b c) ≤ l0 * a + l1 * b + l2 * c ∧ l0 * a + l1 * b + l2 * c ≤ max a (max b c) := by
  have ha : min a (min b c) ≤ a := min_le_left _ _
  have hb : min a (min b c) ≤ b := le_trans (min_le_right _ _) (min_le_left _ _)
  have hc : min a (min b c) ≤ c := le_trans (min_le_right _ _) (min_le_right _ _)
  have ha' : a ≤ max a (max b c) := le_max_left _ _
  have hb' : b ≤ max a (max b c) := le_trans (le_max_left _ _) (le_max_right _ _)
  have hc' : c ≤ max a (max b c) := le_trans (le_max_right _ _) (le_max_right _ _)
  generalize min a (min b c) = m at ha hb hc
  generalize max a (max b c) = M at ha' hb' hc'
  have e : l0 = 1 - l1 - l2 := by linarith
  subst e
  constructor <;> nlinarith [mul_nonneg h0 (sub_nonneg.2 ha), mul_nonneg h1 (sub_nonneg.2 hb),
    mul_nonneg h2 (sub_nonneg.2 hc), mul_nonneg h0 (sub_nonneg.2 ha'),
    mul_nonneg h1 (sub_nonneg.2 hb'), mul_nonneg h2 (sub_nonneg.2 hc')]

/-- The clamped bounding box of lines 170-173 contains every pixel of the
viewport whose centre lies between the least and the greatest coordinate. -/
theorem box_contains (n v : Int) (a b c q : ℚ) (hv0 : 0 ≤ v) (hv : v < n)
    (hlo : min a (min b c) ≤ q) (hhi : q ≤ max a (max b c)) (hq : q = (v : ℚ) + 1 / 2) :
    v ∈ intRange (max 0 ⌊min a (min b c)⌋) (min (n - 1) ⌈max a (max b c)⌉) := by
  rw [mem_intRange]
  constructor
  · apply max_le hv0
    rw [Int.floor_le_iff]
    linarith
  · apply le_min (by omega)
    rw [Int.le_ceil_iff]
    linarith

/-- For vertex depths in `[-1, 1]` the depth of a covered pixel is in `[-1, 1]`. -/
theorem meshDepth_range (p0 p1 p2 : Vec2) (z0 z1 z2 : ℚ) (x y : Int)
    (hcov : covered p0 p1 p2 x y = true)
    (h0 : -1 ≤ z0 ∧ z0 ≤ 1) (h1 : -1 ≤ z1 ∧ z1 ≤ 1) (h2 : -1 ≤ z2 ∧ z2 ≤ 1) :
    -1 ≤ meshDepth p0 p1 p2 z0 z1 z2 x y ∧ meshDepth p0 p1 p2 z0 z1 z2 x y ≤ 1 := by
  simp only [covered, decide_eq_true_eq] at hcov
  obtain ⟨ha, hb, hc⟩ := hcov
  have hg : (baryAt p0 p1 p2 x y).2.2 =
      1 - (baryAt p0 p1 p2 x y).1 - (baryAt p0 p1 p2 x y).2.1 := rfl
  simp only [meshDepth]
  generalize (baryAt p0 p1 p2 x y).2.2 = g at hc hg
  generalize (baryAt p0 p1 p2 x y).1 = al at ha hg
  generalize (baryAt p0 p1 p2 x y).2.1 = be at hb hg
  subst hg
  obtain ⟨h0a, h0b⟩ := h0
  obtain ⟨h1a, h1b⟩ := h1
  obtain ⟨h2a, h2b⟩ := h2
  constructor <;> nlinarith [mul_nonneg ha (sub_nonneg.2 h0a), mul_nonneg hb (sub_nonneg.2 h1a),
    mul_nonneg hc (sub_nonneg.2 h2a), mul_nonneg ha (sub_nonneg.2 h0b),
    mul_nonneg hb (sub_nonneg.2 h1b), mul_nonneg hc (sub_nonneg.2 h2b)]

/-! ## The fill of one triangle at one pixel -/

theorem pixStep_idem (test writeZ writeC : Bool) (p : Vec3 × ℚ) (f : Frag) :
    pixStep test writeZ writeC (pixStep test writeZ writeC p f) f =
      pixStep test writeZ writeC p f := by
  unfold pixStep
  cases test <;> cases writeZ <;> cases writeC <;> by_cases h : f.z < p.2 <;> simp [h]

/-- A run of copies of one write acts like a single write. -/
theorem foldl_pixStep_same (test writeZ writeC : Bool) (g : Frag) (fs : List Frag)
    (p : Vec3 × ℚ) (h : ∀ f ∈ fs, f = g) :
    fs.foldl (pixStep test writeZ writeC) p =
      if fs = [] then p else pixStep test writeZ writeC p g := by
  induction fs generalizing p with
  | nil => rfl
  | cons f fs ih =>
    have hf : f = g := h f (List.mem_cons_self _ _)
    subst hf
    rw [List.foldl_cons, ih _ (fun x hx => h x (List.mem_cons_of_mem _ hx))]
    by_cases hnil : fs = []
    · simp [hnil]
    · simp [hnil, pixStep_idem]

theorem box_in_viewport {width height : Int} (p0 p1 p2 : Vec2) {x y : Int}
    (hx : x ∈ intRange (boundingBox width height p0 p1 p2).1
      (boundingBox width height p0 p1 p2).2.1)
    (hy : y ∈ intRange (boundingBox width height p0 p1 p2).2.2.1
      (boundingBox width height p0 p1 p2).2.2.2) :
    0 ≤ x ∧ x < width ∧ 0 ≤ y ∧ y < height := by
  rw [mem_intRange] at hx hy
  simp only [boundingBox] at hx hy
  have := le_max_left (0 : Int) ⌊min p0.x (min p1.x p2.x)⌋
  have := min_le_left (width - 1) ⌈max p0.x (max p1.x p2.x)⌉
  have := le_max_left (0 : Int) ⌊min p0.y (min p1.y p2.y)⌋
  have := min_le_left (height - 1) ⌈max p0.y (max p1.y p2.y)⌉
  refine ⟨?_, ?_, ?_, ?_⟩ <;> omega

theorem meshFrag_some {width : Int} {c : Vec3} {p0 p1 p2 : Vec2} {z0 z1 z2 : ℚ} {x y : Int}
    {f : Frag} :
    meshFrag width c p0 p1 p2 z0 z1 z2 x y = some f ↔
      (covered p0 p1 p2 x y = true ∧
        ¬ (meshDepth p0 p1 p2 z0 z1 z2 x y < -1 ∨ meshDepth p0 p1 p2 z0 z1 z2 x y > 1)) ∧
      f = ⟨(y * width + x).toNat, meshDepth p0 p1 p2 z0 z1 z2 x y, c⟩ := by
  unfold meshFrag
  split
  · rename_i h
    constructor
    · intro hf
      exact ⟨h, (Option.some.inj hf).symm⟩
    · rintro ⟨-, rfl⟩
      rfl
  · rename_i h
    constructor
    · intro hf
      cases hf
    · rintro ⟨h', -⟩
      exact absurd h' h

theorem fillFrags_mem {width height : Int} {c : Vec3} {q0 q1 q2 : Vec4} {f : Frag} :
    f ∈ fillFrags width height c q0 q1 q2 ↔
      ∃ x y : Int,
        x ∈ intRange (boundingBox width height (ndc_to_screen width height q0)
            (ndc_to_screen width height q1) (ndc_to_screen width height q2)).1
          (boundingBox width height (ndc_to_screen width height q0)
            (ndc_to_screen width height q1) (ndc_to_screen width height q2)).2.1 ∧
        y ∈ intRange (boundingBox width height (ndc_to_screen width height q0)
            (ndc_to_screen width height q1) (ndc_to_screen width height q2)).2.2.1
          (boundingBox width height (ndc_to_screen width height q0)
            (ndc_to_screen width height q1) (ndc_to_screen width height q2)).2.2.2 ∧
        fillHits width height q0 q1 q2 x y ∧
        f = ⟨(y * width + x).toNat, fillDepth width height q0 q1 q2 x y, c⟩ := by
  unfold fillFrags fillHits fillDepth
  dsimp only
  split
  · rename_i hdeg
    constructor
    · intro hf
      simp at hf
    · rintro ⟨x, y, -, -, hh, -⟩
      exact absurd hdeg hh.1
  · rename_i hdeg
    simp only [List.mem_flatMap, List.mem_filterMap, meshFrag_some, hdeg, not_false_eq_true,
      true_and]
    constructor
    · rintro ⟨y, hy, x, hx, hh, hf⟩
      exact ⟨x, y, hx, hy, hh, hf⟩
    · rintro ⟨x, y, hx, hy, hh, hf⟩
      exact ⟨y, hy, x, hx, hh, hf⟩

theorem fillFrags_idx_lt {width height : Int} {c : Vec3} {q0 q1 q2 : Vec4} {b : Buffers}
    (hb : Sized width height b) :
    ∀ f ∈ fillFrags width height c q0 q1 q2, f.idx < b.image.length := by
  intro f hf
  obtain ⟨x, y, hx, hy, -, rfl⟩ := fillFrags_mem.1 hf
  obtain ⟨hx0, hx1, hy0, hy1⟩ := box_in_viewport _ _ _ hx hy
  exact (index_lt_of_sized hb hx0 hx1 hy0 hy1).2.1

/-- A pixel of the viewport that the fill hits is inside the clamped bounding
box, so the scan reaches it. -/
theorem fillHits_in_box {width height : Int} {q0 q1 q2 : Vec4} {x y : Int}
    (hx0 : 0 ≤ x) (hx : x < width) (hy0 : 0 ≤ y) (hy : y < height)
    (h : fillHits width height q0 q1 q2 x y) :
    x ∈ intRange (boundingBox width height (ndc_to_screen width height q0)
        (ndc_to_screen width height q1) (ndc_to_screen width height q2)).1
      (boundingBox width height (ndc_to_screen width height q0)
        (ndc_to_screen width height q1) (ndc_to_screen width height q2)).2.1 ∧
    y ∈ intRange (boundingBox width height (ndc_to_screen width height q0)
        (ndc_to_screen width height q1) (ndc_to_screen width height q2)).2.2.1
      (boundingBox width height (ndc_to_screen width height q0)
        (ndc_to_screen width height q1) (ndc_to_screen width height q2)).2.2.2 := by
  obtain ⟨hdeg, hcov, -⟩ := h
  have hden : edgeDenom (ndc_to_screen width height q0) (ndc_to_screen width height q1)
      (ndc_to_screen width height q2) ≠ 0 := by
    intro h0
    rw [h0] at hdeg
    norm_num at hdeg
  obtain ⟨l0, l1, l2, h0, h1, h2, hsum, hpx, hpy⟩ :=
    (covered_iff_inTriangle _ _ _ x y hden).1 hcov
  obtain ⟨hxa, hxb⟩ := convex_between (ndc_to_screen width height q0).x
    (ndc_to_screen width height q1).x (ndc_to_screen width height q2).x l0 l1 l2 h0 h1 h2 hsum
  obtain ⟨hya, hyb⟩ := convex_between (ndc_to_screen width height q0).y
    (ndc_to_screen width height q1).y (ndc_to_screen width height q2).y l0 l1 l2 h0 h1 h2 hsum
  exact ⟨box_contains width x _ _ _ _ hx0 hx hxa hxb hpx.symm,
    box_contains height y _ _ _ _ hy0 hy hya hyb hpy.symm⟩

/-- The fill of one triangle, seen at one pixel of the viewport: if the fill
hits the pixel, the pixel takes one depth-tested write of the triangle's
colour and depth; otherwise it is left alone. -/
theorem fill_pixel {width height : Int} (use_zbuffer show_zbuffer : Bool) (c : Vec3)
    (q0 q1 q2 : Vec4) {b : Buffers} (hb : Sized width height b) {x y : Int}
    (hx0 : 0 ≤ x) (hx : x < width) (hy0 : 0 ≤ y) (hy : y < height) :
    pixel ((fillFrags width height c q0 q1 q2).foldl
        (applyFrag use_zbuffer true (!show_zbuffer)) b) (y * width + x).toNat =
      if fillHits width height q0 q1 q2 x y then
        pixStep use_zbuffer true (!show_zbuffer) (pixel b (y * width + x).toNat)
          ⟨(y * width + x).toNat, fillDepth width height q0 q1 q2 x y, c⟩
      else pixel b (y * width + x).toNat := by
  rw [pixel_foldl_applyFrag _ _ _ _ _ _ (by have := hb.1; have := hb.2; omega)
    (fillFrags_idx_lt hb),
    foldl_pixStep_same _ _ _ ⟨(y * width + x).toNat, fillDepth width height q0 q1 q2 x y, c⟩]
  · by_cases hh : fillHits width height q0 q1 q2 x y
    · obtain ⟨hbx, hby⟩ := fillHits_in_box hx0 hx hy0 hy hh
      have hmem : (⟨(y * width + x).toNat, fillDepth width height q0 q1 q2 x y, c⟩ : Frag) ∈
          List.filter (fun f => decide (f.idx = (y * width + x).toNat))
            (fillFrags width height c q0 q1 q2) := by
        rw [List.mem_filter]
        exact ⟨fillFrags_mem.2 ⟨x, y, hbx, hby, hh, rfl⟩, by simp⟩
      rw [if_pos hh, if_neg (List.ne_nil_of_mem hmem)]
    · rw [if_neg hh, if_pos]
      rw [List.filter_eq_nil_iff]
      intro f hf hidx
      simp only [decide_eq_true_eq] at hidx
      obtain ⟨x', y', hx', hy', hh', rfl⟩ := fillFrags_mem.1 hf
      obtain ⟨a1, a2, a3, a4⟩ := box_in_viewport _ _ _ hx' hy'
      obtain ⟨i0, -⟩ := pixel_index_bounds a1 a2 a3 a4
      obtain ⟨j0, -⟩ := pixel_index_bounds hx0 hx hy0 hy
      obtain ⟨e1, e2⟩ := pixel_index_inj a1 a2 hx0 hx
        (by simp only at hidx; omega : y' * width + x' = y * width + x)
      rw [e1, e2] at hh'
      exact hh hh'
  · intro f hf
    obtain ⟨hf', hidx⟩ := List.mem_filter.1 hf
    simp only [decide_eq_true_eq] at hidx
    obtain ⟨x', y', hx', hy', hh', rfl⟩ := fillFrags_mem.1 hf'
    obtain ⟨a1, a2, a3, a4⟩ := box_in_viewport _ _ _ hx' hy'
    obtain ⟨i0, -⟩ := pixel_index_bounds a1 a2 a3 a4
    obtain ⟨j0, -⟩ := pixel_index_bounds hx0 hx hy0 hy
    obtain ⟨e1, e2⟩ := pixel_index_inj a1 a2 hx0 hx
      (by simp only at hidx; omega : y' * width + x' = y * width + x)
    rw [e1, e2]

/-! ## A `rasterize_mesh` call with one triangle -/

theorem readNat_ok {α : Type} {v : List α} {i : Nat} {a : α} (h : v[i]? = some a) :
    readNat v i = .ok a := by
  unfold readNat
  rw [h]

/-- The body of the triangle loop on buffers of the target's size, for a
triangle whose three indices are inside the position buffer. -/
theorem meshTriangle_eq {width height : Int} (palette : Nat → Vec3) (positions : List Vec4)
    (color : Vec3) (urc use_zbuffer show_zbuffer cull_behind cull_front : Bool) (i : Nat)
    (tri : U32Vec3) {q0 q1 q2 : Vec4} {b : Buffers} (h0 : positions[tri.x]? = some q0)
    (h1 : positions[tri.y]? = some q1) (h2 : positions[tri.z]? = some q2)
    (hb : Sized width height b) :
    meshTriangle palette positions color urc width height use_zbuffer show_zbuffer
        cull_behind cull_front i tri b =
      .ok (if (cull_behind && behindCamera q0 q1 q2) = true then b
        else if (cull_front && frontFacing q0 q1 q2) = true then b
        else (fillFrags width height (if urc = true then palette i else color) q0 q1 q2).foldl
          (applyFrag use_zbuffer true (!show_zbuffer)) b) := by
  unfold meshTriangle
  simp only [readNat_ok h0, readNat_ok h1, readNat_ok h2, bind, Except.bind]
  split
  · rfl
  · split
    · rfl
    · exact meshFill_eq use_zbuffer show_zbuffer _ q0 q1 q2 hb

/-- A call with one triangle, culling and depth visualization off. -/
theorem mesh_single_eq {width height : Int} (palette : Nat → Vec3) (positions : List Vec4)
    (color : Vec3) (urc use_zbuffer : Bool) (tri : U32Vec3) {q0 q1 q2 : Vec4} {b : Buffers}
    (h0 : positions[tri.x]? = some q0) (h1 : positions[tri.y]? = some q1)
    (h2 : positions[tri.z]? = some q2) (hb : Sized width height b) :
    rasterize_mesh palette positions [tri] color urc width height b use_zbuffer false
        false false =
      .ok ((fillFrags width height (if urc = true then palette 0 else color) q0 q1 q2).foldl
        (applyFrag use_zbuffer true true) b) := by
  unfold rasterize_mesh meshLoop meshLoop
  rw [meshTriangle_eq palette positions color urc use_zbuffer false false false 0 tri
    h0 h1 h2 hb]
  rfl

/-- C1: a call with one non-degenerate triangle, culling off, no depth test,
no depth visualization, vertex depths in `[-1, 1]`: the call returns without a
fault, and at every pixel of the viewport `image` holds the triangle's colour
if the pixel centre `(x + 1/2, y + 1/2)` has non-negative barycentric
coordinates with respect to the three screen-space vertices, and keeps its old
entry otherwise.  The clamped bounding box loses no such pixel. -/
theorem mesh_coverage (palette : Nat → Vec3) (positions : List Vec4) (tri : U32Vec3)
    (color : Vec3) (urc : Bool) (width height : Int) (b : Buffers) (q0 q1 q2 : Vec4)
    (hb : Sized width height b) (h0 : positions[tri.x]? = some q0)
    (h1 : positions[tri.y]? = some q1) (h2 : positions[tri.z]? = some q2)
    (hden : 8796093 / 8796093022208 ≤ |edgeDenom (ndc_to_screen width height q0)
      (ndc_to_screen width height q1) (ndc_to_screen width height q2)|)
    (hz0 : -1 ≤ q0.z / q0.w ∧ q0.z / q0.w ≤ 1) (hz1 : -1 ≤ q1.z / q1.w ∧ q1.z / q1.w ≤ 1)
    (hz2 : -1 ≤ q2.z / q2.w ∧ q2.z / q2.w ≤ 1) :
    ∃ b', rasterize_mesh palette positions [tri] color urc width height b false false
        false false = .ok b' ∧
      ∀ x y : Int, 0 ≤ x → x < width → 0 ≤ y → y < height →
        (InTriangle (ndc_to_screen width height q0) (ndc_to_screen width height q1)
            (ndc_to_screen width height q2) ((x : ℚ) + 1 / 2) ((y : ℚ) + 1 / 2) →
          b'.image[(y * width + x).toNat]? = some (if urc = true then palette 0 else color)) ∧
        (¬ InTriangle (ndc_to_screen width height q0) (ndc_to_screen width height q1)
            (ndc_to_screen width height q2) ((x : ℚ) + 1 / 2) ((y : ℚ) + 1 / 2) →
          b'.image[(y * width + x).toNat]? = b.image[(y * width + x).toNat]?) := by
  refine ⟨_, mesh_single_eq palette positions color urc false tri h0 h1 h2 hb, ?_⟩
  intro x y hx0 hx hy0 hy
  have hden0 : edgeDenom (ndc_to_screen width height q0) (ndc_to_screen width height q1)
      (ndc_to_screen width height q2) ≠ 0 := by
    intro h
    rw [h] at hden
    norm_num at hden
  obtain ⟨i0, hi, -⟩ := index_lt_of_sized hb hx0 hx hy0 hy
  have hsz := foldl_applyFrag_sized false true true
    (fillFrags width height (if urc = true then palette 0 else color) q0 q1 q2) hb
  have hpix := fill_pixel false false (if urc = true then palette 0 else color) q0 q1 q2 hb
    hx0 hx hy0 hy
  simp only [Bool.not_false] at hpix
  rw [image_of_pixel _ _ (by have := hsz.1; have := hb.1; omega), hpix,
    image_of_pixel _ _ hi]
  have hiff : fillHits width height q0 q1 q2 x y ↔
      InTriangle (ndc_to_screen width height q0) (ndc_to_screen width height q1)
        (ndc_to_screen width height q2) ((x : ℚ) + 1 / 2) ((y : ℚ) + 1 / 2) := by
    rw [← covered_iff_inTriangle _ _ _ x y hden0]
    constructor
    · intro h
      exact h.2.1
    · intro h
      obtain ⟨ha, hb'⟩ := meshDepth_range _ _ _ _ _ _ x y h hz0 hz1 hz2
      exact ⟨not_lt.2 hden, h, by unfold fillDepth; rintro (h' | h') <;> linarith⟩
  constructor
  · intro hin
    rw [if_pos (hiff.2 hin)]
    simp [pixStep]
  · intro hin
    rw [if_neg (fun h => hin (hiff.1 h))]

theorem pixel_cleared (width height : Int) (k : Nat) (hk : k < (width * height).toNat) :
    pixel (clearedBuffers width height) k = (⟨0, 0, 0⟩, 1) := by
  simp [pixel, clearedBuffers, List.getD_eq_getElem?_getD, List.getElem?_replicate, hk]

/-- A call with one triangle, culling and depth visualization off, seen at the
pixels of the viewport. -/
theorem mesh_single_pixel {width height : Int} (palette : Nat → Vec3)
    (positions : List Vec4) (color : Vec3) (urc use_zbuffer : Bool) (tri : U32Vec3)
    {q0 q1 q2 : Vec4} {b : Buffers} (h0 : positions[tri.x]? = some q0)
    (h1 : positions[tri.y]? = some q1) (h2 : positions[tri.z]? = some q2)
    (hb : Sized width height b) :
    ∃ b', rasterize_mesh palette positions [tri] color urc width height b use_zbuffer false
        false false = .ok b' ∧ Sized width height b' ∧
      ∀ x y : Int, 0 ≤ x → x < width → 0 ≤ y → y < height →
        pixel b' (y * width + x).toNat =
          if fillHits width height q0 q1 q2 x y then
            pixStep use_zbuffer true true (pixel b (y * width + x).toNat)
              ⟨(y * width + x).toNat, fillDepth width height q0 q1 q2 x y,
                if urc = true then palette 0 else color⟩
          else pixel b (y * width + x).toNat := by
  refine ⟨_, mesh_single_eq palette positions color urc use_zbuffer tri h0 h1 h2 hb,
    foldl_applyFrag_sized _ _ _ _ hb, ?_⟩
  intro x y hx0 hx hy0 hy
  have hpix := fill_pixel use_zbuffer false (if urc = true then palette 0 else color)
    q0 q1 q2 hb hx0 hx hy0 hy
  simp only [Bool.not_false] at hpix
  exact hpix

theorem buffers_of_pixel {width height : Int} {b : Buffers} (hb : Sized width height b)
    {x y : Int} (hx0 : 0 ≤ x) (hx : x < width) (hy0 : 0 ≤ y) (hy : y < height)
    {c : Vec3} {z : ℚ} (h : pixel b (y * width + x).toNat = (c, z)) :
    b.image[(y * width + x).toNat]? = some c ∧ b.zbuffer[(y * width + x).toNat]? = some z := by
  obtain ⟨-, hi, hz⟩ := index_lt_of_sized hb hx0 hx hy0 hy
  rw [image_of_pixel _ _ hi, zbuffer_of_pixel _ _ hz, h]
  exact ⟨rfl, rfl⟩

/-- C3: two triangles `A` and `B` drawn by two one-triangle calls with the
depth test on, culling and depth visualization off, starting from buffers
whose depth at the pixel is the clear value `1`.  At a pixel that both fills
hit, with depths `-1 ≤ zA < zB ≤ 1`, the final colour is `cA` and the final
depth is `zA`, whether `A` is drawn first or `B` is. -/
theorem depth_test_order_independent (palette : Nat → Vec3) (posA posB : List Vec4)
    (triA triB : U32Vec3) (cA cB : Vec3) (width height : Int) (b : Buffers)
    (a0 a1 a2 b0 b1 b2 : Vec4) (x y : Int)
    (hA0 : posA[triA.x]? = some a0) (hA1 : posA[triA.y]? = some a1)
    (hA2 : posA[triA.z]? = some a2) (hB0 : posB[triB.x]? = some b0)
    (hB1 : posB[triB.y]? = some b1) (hB2 : posB[triB.z]? = some b2)
    (hb : Sized width height b) (hx0 : 0 ≤ x) (hx : x < width) (hy0 : 0 ≤ y) (hy : y < height)
    (hclear : b.zbuffer[(y * width + x).toNat]? = some 1)
    (hdenA : 8796093 / 8796093022208 ≤ |edgeDenom (ndc_to_screen width height a0)
      (ndc_to_screen width height a1) (ndc_to_screen width height a2)|)
    (hdenB : 8796093 / 8796093022208 ≤ |edgeDenom (ndc_to_screen width height b0)
      (ndc_to_screen width height b1) (ndc_to_screen width height b2)|)
    (hcovA : covered (ndc_to_screen width height a0) (ndc_to_screen width height a1)
      (ndc_to_screen width height a2) x y = true)
    (hcovB : covered (ndc_to_screen width height b0) (ndc_to_screen width height b1)
      (ndc_to_screen width height b2) x y = true)
    (hzA : -1 ≤ fillDepth width height a0 a1 a2 x y)
    (hlt : fillDepth width height a0 a1 a2 x y < fillDepth width height b0 b1 b2 x y)
    (hzB : fillDepth width height b0 b1 b2 x y ≤ 1) :
    ∃ bA bAB bB bBA : Buffers,
      rasterize_mesh palette posA [triA] cA false width height b true false false false =
        .ok bA ∧
      rasterize_mesh palette posB [triB] cB false width height bA true false false false =
        .ok bAB ∧
      rasterize_mesh palette posB [triB] cB false width height b true false false false =
        .ok bB ∧
      rasterize_mesh palette posA [triA] cA false width height bB true false false false =
        .ok bBA ∧
      bAB.image[(y * width + x).toNat]? = some cA ∧
      bAB.zbuffer[(y * width + x).toNat]? = some (fillDepth width height a0 a1 a2 x y) ∧
      bBA.image[(y * width + x).toNat]? = some cA ∧
      bBA.zbuffer[(y * width + x).toNat]? = some (fillDepth width height a0 a1 a2 x y) := by
  obtain ⟨bA, eA, sA, pA⟩ := mesh_single_pixel palette posA cA false true triA hA0 hA1 hA2 hb
  obtain ⟨bAB, eAB, sAB, pAB⟩ :=
    mesh_single_pixel palette posB cB false true triB hB0 hB1 hB2 sA
  obtain ⟨bB, eB, sB, pB⟩ := mesh_single_pixel palette posB cB false true triB hB0 hB1 hB2 hb
  obtain ⟨bBA, eBA, sBA, pBA⟩ :=
    mesh_single_pixel palette posA cA false true triA hA0 hA1 hA2 sB
  have hitA : fillHits width height a0 a1 a2 x y :=
    ⟨not_lt.2 hdenA, hcovA, by rintro (h | h) <;> linarith⟩
  have hitB : fillHits width height b0 b1 b2 x y :=
    ⟨not_lt.2 hdenB, hcovB, by rintro (h | h) <;> linarith⟩
  obtain ⟨-, -, hzlen⟩ := index_lt_of_sized hb hx0 hx hy0 hy
  have hd : (pixel b (y * width + x).toNat).2 = 1 := by
    have := zbuffer_of_pixel b _ hzlen
    rw [hclear] at this
    exact (Option.some.inj this).symm
  have hAB : pixel bAB (y * width + x).toNat = (cA, fillDepth width height a0 a1 a2 x y) := by
    rw [pAB x y hx0 hx hy0 hy, if_pos hitB, pA x y hx0 hx hy0 hy, if_pos hitA]
    have h1 : fillDepth width height a0 a1 a2 x y < (pixel b (y * width + x).toNat).2 := by
      rw [hd]; linarith
    have h2 : ¬ fillDepth width height b0 b1 b2 x y < fillDepth width height a0 a1 a2 x y :=
      not_lt.2 hlt.le
    simp [pixStep, h1, h2]
  have hBA : pixel bBA (y * width + x).toNat = (cA, fillDepth width height a0 a1 a2 x y) := by
    rw [pBA x y hx0 hx hy0 hy, if_pos hitA, pB x y hx0 hx hy0 hy, if_pos hitB]
    have h1 : fillDepth width height a0 a1 a2 x y < (pixel b (y * width + x).toNat).2 := by
      rw [hd]; linarith
    by_cases h3 : fillDepth width height b0 b1 b2 x y < (pixel b (y * width + x).toNat).2
    · simp [pixStep, h3, hlt]
    · simp [pixStep, h3, h1]
  obtain ⟨r1, r2⟩ := buffers_of_pixel sAB hx0 hx hy0 hy hAB
  obtain ⟨r3, r4⟩ := buffers_of_pixel sBA hx0 hx hy0 hy hBA
  exact ⟨bA, bAB, bB, bBA, eA, eAB, eB, eBA, r1, r2, r3, r4⟩

/-! ## The right-triangle scenario -/

theorem scenario_bary (x y : Int) :
    baryAt ⟨10, 10⟩ ⟨50, 10⟩ ⟨10, 50⟩ x y =
      (((x : ℚ) - 19 / 2) / 40, ((y : ℚ) - 19 / 2) / 40,
        1 - ((x : ℚ) - 19 / 2) / 40 - ((y : ℚ) - 19 / 2) / 40) := by
  simp only [baryAt]
  norm_num
  refine ⟨?_, ?_, ?_⟩ <;> ring

theorem scenario_covered (x y : Int) :
    covered ⟨10, 10⟩ ⟨50, 10⟩ ⟨10, 50⟩ x y = true ↔ 10 ≤ x ∧ 10 ≤ y ∧ x + y ≤ 59 := by
  simp only [covered, scenario_bary, decide_eq_true_eq]
  constructor
  · rintro ⟨h1, h2, h3⟩
    have e1 : (19 : ℚ) / 2 ≤ (x : ℚ) := by
      have := (div_nonneg_iff.1 h1)
      rcases this with ⟨a, -⟩ | ⟨-, b⟩
      · linarith
      · norm_num at b
    have e2 : (19 : ℚ) / 2 ≤ (y : ℚ) := by
      have := (div_nonneg_iff.1 h2)
      rcases this with ⟨a, -⟩ | ⟨-, b⟩
      · linarith
      · norm_num at b
    have e3 : (x : ℚ) + (y : ℚ) ≤ 59 := by linarith
    refine ⟨?_, ?_, ?_⟩
    · by_contra h
      have : x ≤ 9 := by omega
      have : (x : ℚ) ≤ 9 := by exact_mod_cast this
      linarith
    · by_contra h
      have : y ≤ 9 := by omega
      have : (y : ℚ) ≤ 9 := by exact_mod_cast this
      linarith
    · exact_mod_cast e3
  · rintro ⟨h1, h2, h3⟩
    have e1 : (10 : ℚ) ≤ (x : ℚ) := by exact_mod_cast h1
    have e2 : (10 : ℚ) ≤ (y : ℚ) := by exact_mod_cast h2
    have e3 : (x : ℚ) + (y : ℚ) ≤ 59 := by exact_mod_cast h3
    refine ⟨?_, ?_, ?_⟩
    · apply div_nonneg <;> linarith
    · apply div_nonneg <;> linarith
    · linarith

/-- C4, with arithmetic read as exact: one triangle whose vertices map to the
screen points `(10,10)`, `(50,10)`, `(10,50)` of a `64 × 64` target,
post-divide depth `0` at every vertex, depth test on, no culling, no depth
visualization, buffers cleared to colour `(0,0,0)` and depth `1`: the pixels
with `x ≥ 10`, `y ≥ 10`, `x + y ≤ 59` end with the base colour and depth `0`,
every other pixel keeps colour `(0,0,0)` and depth `1`.  In binary32 pixels
on `x + y = 59` can fail the coverage test. -/
theorem mesh_scenario (palette : Nat → Vec3) (positions : List Vec4) (tri : U32Vec3)
    (color : Vec3) (q0 q1 q2 : Vec4) (h0 : positions[tri.x]? = some q0)
    (h1 : positions[tri.y]? = some q1) (h2 : positions[tri.z]? = some q2)
    (hs0 : ndc_to_screen 64 64 q0 = ⟨10, 10⟩) (hs1 : ndc_to_screen 64 64 q1 = ⟨50, 10⟩)
    (hs2 : ndc_to_screen 64 64 q2 = ⟨10, 50⟩)
    (hd0 : q0.z / q0.w = 0) (hd1 : q1.z / q1.w = 0) (hd2 : q2.z / q2.w = 0) :
    ∃ b', rasterize_mesh palette positions [tri] color false 64 64 (clearedBuffers 64 64)
        true false false false = .ok b' ∧
      ∀ x y : Int, 0 ≤ x → x < 64 → 0 ≤ y → y < 64 →
        (10 ≤ x ∧ 10 ≤ y ∧ x + y ≤ 59 →
          b'.image[(y * 64 + x).toNat]? = some color ∧
          b'.zbuffer[(y * 64 + x).toNat]? = some 0) ∧
        (¬ (10 ≤ x ∧ 10 ≤ y ∧ x + y ≤ 59) →
          b'.image[(y * 64 + x).toNat]? = some ⟨0, 0, 0⟩ ∧
          b'.zbuffer[(y * 64 + x).toNat]? = some 1) := by
  have hb : Sized 64 64 (clearedBuffers 64 64) := clearedBuffers_sized 64 64 (by decide)
  obtain ⟨b', e, hs, hp⟩ := mesh_single_pixel palette positions color false true tri h0 h1 h2 hb
  refine ⟨b', e, ?_⟩
  intro x y hx0 hx hy0 hy
  have hdepth : fillDepth 64 64 q0 q1 q2 x y = 0 := by
    simp only [fillDepth, meshDepth, hd0, hd1, hd2, mul_zero, add_zero]
  have hhit : fillHits 64 64 q0 q1 q2 x y ↔ 10 ≤ x ∧ 10 ≤ y ∧ x + y ≤ 59 := by
    rw [← scenario_covered]
    unfold fillHits
    rw [hdepth, hs0, hs1, hs2]
    constructor
    · intro h
      exact h.2.1
    · intro h
      refine ⟨?_, h, ?_⟩
      · norm_num [edgeDenom]
      · norm_num
  have hclr : pixel (clearedBuffers 64 64) (y * 64 + x).toNat = (⟨0, 0, 0⟩, 1) :=
    pixel_cleared 64 64 _ (by omega)
  have hpix := hp x y hx0 hx hy0 hy
  rw [hclr, hdepth] at hpix
  constructor
  · intro hin
    rw [if_pos (hhit.2 hin)] at hpix
    apply buffers_of_pixel hs hx0 hx hy0 hy
    rw [hpix]
    simp [pixStep]
  · intro hout
    rw [if_neg (fun h => hout (hhit.1 h))] at hpix
    exact buffers_of_pixel hs hx0 hx hy0 hy hpix

/-! ## Culling behind the camera -/

theorem meshLoop_culled (palette : Nat → Vec3) (positions : List Vec4) (color : Vec3)
    (urc : Bool) (width height : Int) (use_zbuffer show_zbuffer cull_front : Bool)
    (indices : List U32Vec3)
    (hall : ∀ tri ∈ indices, ∃ q0 q1 q2 : Vec4, positions[tri.x]? = some q0 ∧
      positions[tri.y]? = some q1 ∧ positions[tri.z]? = some q2 ∧
      (q0.w < 0 ∨ q1.w < 0 ∨ q2.w < 0)) :
    ∀ (i : Nat) (b : Buffers),
      meshLoop palette positions color urc width height use_zbuffer show_zbuffer true
        cull_front i indices b = .ok b := by
  induction indices with
  | nil => intro i b; rfl
  | cons tri rest ih =>
    intro i b
    obtain ⟨q0, q1, q2, h0, h1, h2, hw⟩ := hall tri (List.mem_cons_self _ _)
    have hbc : behindCamera q0 q1 q2 = true := by
      simp only [behindCamera, decide_eq_true_eq]
      exact hw
    unfold meshLoop meshTriangle
    simp only [readNat_ok h0, readNat_ok h1, readNat_ok h2, bind, Except.bind, hbc,
      Bool.and_self, if_true, pure, Except.pure]
    exact ih (fun t ht => hall t (List.mem_cons_of_mem _ ht)) (i + 1) b

/-- C10: with `cull_behind_camera = true` and `show_zbuffer = false`, a call in
which every triangle has a vertex with `w < 0` returns both buffers unchanged,
whatever the other flags are; with `cull_behind_camera = false` the body of
the triangle loop for such a triangle is the front-face test followed by the
fill, with no test on `w`. -/
theorem near_cull (palette : Nat → Vec3) (positions : List Vec4) (indices : List U32Vec3)
    (color : Vec3) (urc : Bool) (width height : Int) (b : Buffers)
    (use_zbuffer cull_front : Bool)
    (hall : ∀ tri ∈ indices, ∃ q0 q1 q2 : Vec4, positions[tri.x]? = some q0 ∧
      positions[tri.y]? = some q1 ∧ positions[tri.z]? = some q2 ∧
      (q0.w < 0 ∨ q1.w < 0 ∨ q2.w < 0)) :
    rasterize_mesh palette positions indices color urc width height b use_zbuffer false
        true cull_front = .ok b ∧
    ∀ (i : Nat) (tri : U32Vec3) (q0 q1 q2 : Vec4) (show_zbuffer : Bool) (b1 : Buffers),
      tri ∈ indices → positions[tri.x]? = some q0 → positions[tri.y]? = some q1 →
      positions[tri.z]? = some q2 →
      meshTriangle palette positions color urc width height use_zbuffer show_zbuffer false
          cull_front i tri b1 =
        if (cull_front && frontFacing q0 q1 q2) = true then .ok b1
        else meshFill width height use_zbuffer show_zbuffer
          (if urc = true then palette i else color) q0 q1 q2 b1 := by
  constructor
  · unfold rasterize_mesh
    rw [meshLoop_culled palette positions color urc width height use_zbuffer false
      cull_front indices hall 0 b]
    rfl
  · intro i tri q0 q1 q2 show_zbuffer b1 _ h0 h1 h2
    unfold meshTriangle
    simp only [readNat_ok h0, readNat_ok h1, readNat_ok h2, bind, Except.bind,
      Bool.false_and, Bool.false_eq_true, if_false]
    split <;> rfl

/-- C10 on a triangle of a `3 × 3` target whose three vertices have `w = -1`. -/
theorem near_cull_witness :
    rasterize_mesh (fun _ => ⟨0, 0, 0⟩)
        [⟨1, 1, 0, -1⟩, ⟨-1, 1, 0, -1⟩, ⟨1, -1, 0, -1⟩] [⟨0, 1, 2⟩] ⟨1, 1, 1⟩ false 3 3
        (clearedBuffers 3 3) true false true false = .ok (clearedBuffers 3 3) ∧
    ∀ (i : Nat) (tri : U32Vec3) (q0 q1 q2 : Vec4) (show_zbuffer : Bool) (b1 : Buffers),
      tri ∈ [(⟨0, 1, 2⟩ : U32Vec3)] →
      [(⟨1, 1, 0, -1⟩ : Vec4), ⟨-1, 1, 0, -1⟩, ⟨1, -1, 0, -1⟩][tri.x]? = some q0 →
      [(⟨1, 1, 0, -1⟩ : Vec4), ⟨-1, 1, 0, -1⟩, ⟨1, -1, 0, -1⟩][tri.y]? = some q1 →
      [(⟨1, 1, 0, -1⟩ : Vec4), ⟨-1, 1, 0, -1⟩, ⟨1, -1, 0, -1⟩][tri.z]? = some q2 →
      meshTriangle (fun _ => ⟨0, 0, 0⟩) [⟨1, 1, 0, -1⟩, ⟨-1, 1, 0, -1⟩, ⟨1, -1, 0, -1⟩]
          ⟨1, 1, 1⟩ false 3 3 true show_zbuffer false false i tri b1 =
        if (false && frontFacing q0 q1 q2) = true then .ok b1
        else meshFill 3 3 true show_zbuffer
          (if false = true then (fun _ => (⟨0, 0, 0⟩ : Vec3)) i else ⟨1, 1, 1⟩) q0 q1 q2 b1 :=
  near_cull (fun _ => ⟨0, 0, 0⟩) [⟨1, 1, 0, -1⟩, ⟨-1, 1, 0, -1⟩, ⟨1, -1, 0, -1⟩]
    [⟨0, 1, 2⟩] ⟨1, 1, 1⟩ false 3 3 (clearedBuffers 3 3) true false
    (by
      intro tri ht
      rw [List.mem_singleton] at ht
      subst ht
      exact ⟨⟨1, 1, 0, -1⟩, ⟨-1, 1, 0, -1⟩, ⟨1, -1, 0, -1⟩, rfl, rfl, rfl,
        Or.inl (by norm_num)⟩)

/-! ## Concrete triangles -/

/-- In a `3 × 3` target a vertex `(a, b, z, 1)` maps to the screen point
`(a + 1, b + 1)`. -/
theorem ndc_to_screen_three (a b z : ℚ) :
    ndc_to_screen 3 3 ⟨a, b, z, 1⟩ = ⟨a + 1, b + 1⟩ := by
  simp only [ndc_to_screen, div_one]
  norm_num
  constructor <;> ring

/-- C1 on the triangle with screen vertices `(0,0)`, `(2,0)`, `(0,2)` of a
`3 × 3` target. -/
theorem mesh_coverage_witness :
    ∃ b', rasterize_mesh (fun _ => ⟨0, 0, 0⟩)
        [⟨-1, -1, 0, 1⟩, ⟨1, -1, 0, 1⟩, ⟨-1, 1, 0, 1⟩] [⟨0, 1, 2⟩] ⟨1, 1, 1⟩ false 3 3
        (clearedBuffers 3 3) false false false false = .ok b' ∧
      ∀ x y : Int, 0 ≤ x → x < 3 → 0 ≤ y → y < 3 →
        (InTriangle (ndc_to_screen 3 3 ⟨-1, -1, 0, 1⟩) (ndc_to_screen 3 3 ⟨1, -1, 0, 1⟩)
            (ndc_to_screen 3 3 ⟨-1, 1, 0, 1⟩) ((x : ℚ) + 1 / 2) ((y : ℚ) + 1 / 2) →
          b'.image[(y * 3 + x).toNat]? =
            some (if false = true then (fun _ => (⟨0, 0, 0⟩ : Vec3)) 0 else ⟨1, 1, 1⟩)) ∧
        (¬ InTriangle (ndc_to_screen 3 3 ⟨-1, -1, 0, 1⟩) (ndc_to_screen 3 3 ⟨1, -1, 0, 1⟩)
            (ndc_to_screen 3 3 ⟨-1, 1, 0, 1⟩) ((x : ℚ) + 1 / 2) ((y : ℚ) + 1 / 2) →
          b'.image[(y * 3 + x).toNat]? = (clearedBuffers 3 3).image[(y * 3 + x).toNat]?) :=
  mesh_coverage (fun _ => ⟨0, 0, 0⟩) [⟨-1, -1, 0, 1⟩, ⟨1, -1, 0, 1⟩, ⟨-1, 1, 0, 1⟩]
    ⟨0, 1, 2⟩ ⟨1, 1, 1⟩ false 3 3 (clearedBuffers 3 3) ⟨-1, -1, 0, 1⟩ ⟨1, -1, 0, 1⟩
    ⟨-1, 1, 0, 1⟩ (clearedBuffers_sized 3 3 (by decide)) rfl rfl rfl
    (by simp only [ndc_to_screen_three, edgeDenom]; norm_num)
    (by norm_num) (by norm_num) (by norm_num)

/-- C4, with arithmetic read as exact, for the clip-space vertices
`(-43/63, -43/63)`, `(37/63, -43/63)`, `(-43/63, 37/63)` at `z = 0`, `w = 1`. -/
theorem mesh_scenario_witness :
    ∃ b', rasterize_mesh (fun _ => ⟨0, 0, 0⟩)
        [⟨-43 / 63, -43 / 63, 0, 1⟩, ⟨37 / 63, -43 / 63, 0, 1⟩, ⟨-43 / 63, 37 / 63, 0, 1⟩]
        [⟨0, 1, 2⟩] ⟨1, 1, 1⟩ false 64 64 (clearedBuffers 64 64)
        true false false false = .ok b' ∧
      ∀ x y : Int, 0 ≤ x → x < 64 → 0 ≤ y → y < 64 →
        (10 ≤ x ∧ 10 ≤ y ∧ x + y ≤ 59 →
          b'.image[(y * 64 + x).toNat]? = some ⟨1, 1, 1⟩ ∧
          b'.zbuffer[(y * 64 + x).toNat]? = some 0) ∧
        (¬ (10 ≤ x ∧ 10 ≤ y ∧ x + y ≤ 59) →
          b'.image[(y * 64 + x).toNat]? = some ⟨0, 0, 0⟩ ∧
          b'.zbuffer[(y * 64 + x).toNat]? = some 1) :=
  mesh_scenario (fun _ => ⟨0, 0, 0⟩)
    [⟨-43 / 63, -43 / 63, 0, 1⟩, ⟨37 / 63, -43 / 63, 0, 1⟩, ⟨-43 / 63, 37 / 63, 0, 1⟩]
    ⟨0, 1, 2⟩ ⟨1, 1, 1⟩ ⟨-43 / 63, -43 / 63, 0, 1⟩ ⟨37 / 63, -43 / 63, 0, 1⟩
    ⟨-43 / 63, 37 / 63, 0, 1⟩ rfl rfl rfl
    (by simp only [ndc_to_screen]; norm_num) (by simp only [ndc_to_screen]; norm_num)
    (by simp only [ndc_to_screen]; norm_num) (by norm_num) (by norm_num) (by norm_num)

/-- C3 at pixel `(0,0)` of a `3 × 3` target: the same screen triangle drawn at
depth `0` (colour red) and at depth `1/2` (colour green). -/
theorem depth_test_order_independent_witness :
    ∃ bA bAB bB bBA : Buffers,
      rasterize_mesh (fun _ => ⟨0, 0, 0⟩)
        [⟨-1, -1, 0, 1⟩, ⟨1, -1, 0, 1⟩, ⟨-1, 1, 0, 1⟩] [⟨0, 1, 2⟩] ⟨1, 0, 0⟩ false 3 3
        (clearedBuffers 3 3) true false false false = .ok bA ∧
      rasterize_mesh (fun _ => ⟨0, 0, 0⟩)
        [⟨-1, -1, 1 / 2, 1⟩, ⟨1, -1, 1 / 2, 1⟩, ⟨-1, 1, 1 / 2, 1⟩] [⟨0, 1, 2⟩] ⟨0, 1, 0⟩
        false 3 3 bA true false false false = .ok bAB ∧
      rasterize_mesh (fun _ => ⟨0, 0, 0⟩)
        [⟨-1, -1, 1 / 2, 1⟩, ⟨1, -1, 1 / 2, 1⟩, ⟨-1, 1, 1 / 2, 1⟩] [⟨0, 1, 2⟩] ⟨0, 1, 0⟩
        false 3 3 (clearedBuffers 3 3) true false false false = .ok bB ∧
      rasterize_mesh (fun _ => ⟨0, 0, 0⟩)
        [⟨-1, -1, 0, 1⟩, ⟨1, -1, 0, 1⟩, ⟨-1, 1, 0, 1⟩] [⟨0, 1, 2⟩] ⟨1, 0, 0⟩ false 3 3
        bB true false false false = .ok bBA ∧
      bAB.image[((0 : Int) * 3 + 0).toNat]? = some ⟨1, 0, 0⟩ ∧
      bAB.zbuffer[((0 : Int) * 3 + 0).toNat]? =
        some (fillDepth 3 3 ⟨-1, -1, 0, 1⟩ ⟨1, -1, 0, 1⟩ ⟨-1, 1, 0, 1⟩ 0 0) ∧
      bBA.image[((0 : Int) * 3 + 0).toNat]? = some ⟨1, 0, 0⟩ ∧
      bBA.zbuffer[((0 : Int) * 3 + 0).toNat]? =
        some (fillDepth 3 3 ⟨-1, -1, 0, 1⟩ ⟨1, -1, 0, 1⟩ ⟨-1, 1, 0, 1⟩ 0 0) :=
  depth_test_order_independent (fun _ => ⟨0, 0, 0⟩)
    [⟨-1, -1, 0, 1⟩, ⟨1, -1, 0, 1⟩, ⟨-1, 1, 0, 1⟩]
    [⟨-1, -1, 1 / 2, 1⟩, ⟨1, -1, 1 / 2, 1⟩, ⟨-1, 1, 1 / 2, 1⟩]
    ⟨0, 1, 2⟩ ⟨0, 1, 2⟩ ⟨1, 0, 0⟩ ⟨0, 1, 0⟩ 3 3 (clearedBuffers 3 3)
    ⟨-1, -1, 0, 1⟩ ⟨1, -1, 0, 1⟩ ⟨-1, 1, 0, 1⟩
    ⟨-1, -1, 1 / 2, 1⟩ ⟨1, -1, 1 / 2, 1⟩ ⟨-1, 1, 1 / 2, 1⟩ 0 0
    rfl rfl rfl rfl rfl rfl (clearedBuffers_sized 3 3 (by decide))
    (by decide) (by decide) (by decide) (by decide)
    (by simp [clearedBuffers])
    (by simp only [ndc_to_screen_three, edgeDenom]; norm_num)
    (by simp only [ndc_to_screen_three, edgeDenom]; norm_num)
    (by simp only [ndc_to_screen_three, covered, baryAt]; norm_num)
    (by simp only [ndc_to_screen_three, covered, baryAt]; norm_num)
    (by simp only [fillDepth, ndc_to_screen_three, meshDepth, baryAt]; norm_num)
    (by simp only [fillDepth, ndc_to_screen_three, meshDepth, baryAt]; norm_num)
    (by simp only [fillDepth, ndc_to_screen_three, meshDepth, baryAt]; norm_num)

/-- With the barycentric weights `l0, l1, l2` of the pixel centre for `p0`,
`p1`, `p2`, the depth of lines 193-195 is `l1 * z0 + l2 * z1 + l0 * z2`: the
weight of `p1` multiplies the depth of `p0`, the weight of `p2` that of `p1`,
and the weight of `p0` that of `p2`. -/
theorem meshDepth_weights (p0 p1 p2 : Vec2) (z0 z1 z2 : ℚ) (x y : Int)
    (hden : edgeDenom p0 p1 p2 ≠ 0) (l0 l1 l2 : ℚ) (hsum : l0 + l1 + l2 = 1)
    (hx : (x : ℚ) + 1 / 2 = l0 * p0.x + l1 * p1.x + l2 * p2.x)
    (hy : (y : ℚ) + 1 / 2 = l0 * p0.y + l1 * p1.y + l2 * p2.y) :
    meshDepth p0 p1 p2 z0 z1 z2 x y = l1 * z0 + l2 * z1 + l0 * z2 := by
  simp only [meshDepth, baryAt_unique p0 p1 p2 x y hden l0 l1 l2 hsum hx hy]

/-- In a `2 × 2` target a vertex `(a, b, z, 1)` maps to the screen point
`((a + 1) / 2, (b + 1) / 2)`. -/
theorem ndc_to_screen_two (a b z : ℚ) :
    ndc_to_screen 2 2 ⟨a, b, z, 1⟩ = ⟨(a + 1) / 2, (b + 1) / 2⟩ := by
  simp only [ndc_to_screen, div_one]
  norm_num
  constructor <;> ring

/-- C2 (the code departs from the claim): in a `2 × 2` target the vertex
`p0 = (0, 0, 0, 1)` maps to the centre `(1/2, 1/2)` of pixel `(0, 0)` and has
post-divide depth `0`, while `p2 = (0, 1, 1/2, 1)` has depth `1/2`.  The call
stores depth `1/2` at pixel `(0, 0)`: the pixel centre that coincides with
`p0` receives the depth of `p2`, not that of `p0`. -/
theorem mesh_depth_at_vertex :
    ndc_to_screen 2 2 ⟨0, 0, 0, 1⟩ = ⟨((0 : Int) : ℚ) + 1 / 2, ((0 : Int) : ℚ) + 1 / 2⟩ ∧
    (⟨0, 0, 0, 1⟩ : Vec4).z / (⟨0, 0, 0, 1⟩ : Vec4).w = 0 ∧
    ∃ b', rasterize_mesh (fun _ => ⟨0, 0, 0⟩)
        [⟨0, 0, 0, 1⟩, ⟨1, 0, 0, 1⟩, ⟨0, 1, 1 / 2, 1⟩] [⟨0, 1, 2⟩] ⟨1, 1, 1⟩ false 2 2
        (clearedBuffers 2 2) true false false false = .ok b' ∧
      b'.zbuffer[((0 : Int) * 2 + 0).toNat]? = some (1 / 2) := by
  refine ⟨?_, by norm_num, ?_⟩
  · rw [ndc_to_screen_two]
    norm_num
  · obtain ⟨b', e, hs, hp⟩ := @mesh_single_pixel 2 2 (fun _ => ⟨0, 0, 0⟩)
      [⟨0, 0, 0, 1⟩, ⟨1, 0, 0, 1⟩, ⟨0, 1, 1 / 2, 1⟩] ⟨1, 1, 1⟩ false true ⟨0, 1, 2⟩
      ⟨0, 0, 0, 1⟩ ⟨1, 0, 0, 1⟩ ⟨0, 1, 1 / 2, 1⟩ (clearedBuffers 2 2) rfl rfl rfl
      (clearedBuffers_sized 2 2 (by decide))
    refine ⟨b', e, ?_⟩
    have hpix := hp 0 0 (by decide) (by decide) (by decide) (by decide)
    have hd : fillDepth 2 2 ⟨0, 0, 0, 1⟩ ⟨1, 0, 0, 1⟩ ⟨0, 1, 1 / 2, 1⟩ 0 0 = 1 / 2 := by
      simp only [fillDepth, ndc_to_screen_two, meshDepth, baryAt]
      norm_num
    have hh : fillHits 2 2 ⟨0, 0, 0, 1⟩ ⟨1, 0, 0, 1⟩ ⟨0, 1, 1 / 2, 1⟩ 0 0 := by
      unfold fillHits
      rw [hd]
      refine ⟨?_, ?_, ?_⟩
      · simp only [ndc_to_screen_two, edgeDenom]
        norm_num [abs_of_pos]
      · simp only [ndc_to_screen_two, covered, baryAt]
        norm_num
      · norm_num
    rw [if_pos hh, hd, pixel_cleared 2 2 _ (by decide)] at hpix
    have hval : pixel b' ((0 : Int) * 2 + 0).toNat = (⟨1, 1, 1⟩, 1 / 2) := by
      rw [hpix]
      simp only [pixStep]
      norm_num
    exact (buffers_of_pixel hs (by decide) (by decide) (by decide) (by decide) hval).2

/-- A triangle of a `3 × 3` target whose three vertices have `w = -1`: with
`cull_behind_camera = false` the fill runs and pixel `(0, 0)` takes the base
colour. -/
theorem near_cull_off_fixture :
    ∃ b', rasterize_mesh (fun _ => ⟨0, 0, 0⟩)
        [⟨1, 1, 0, -1⟩, ⟨-1, 1, 0, -1⟩, ⟨1, -1, 0, -1⟩] [⟨0, 1, 2⟩] ⟨1, 1, 1⟩ false 3 3
        (clearedBuffers 3 3) true false false false = .ok b' ∧
      b'.image[((0 : Int) * 3 + 0).toNat]? = some ⟨1, 1, 1⟩ := by
  have hscr : ∀ a b z : ℚ, ndc_to_screen 3 3 ⟨a, b, z, -1⟩ = ⟨-a + 1, -b + 1⟩ := by
    intro a b z
    simp only [ndc_to_screen]
    norm_num
    constructor <;> ring
  obtain ⟨b', e, hs, hp⟩ := @mesh_single_pixel 3 3 (fun _ => ⟨0, 0, 0⟩)
    [⟨1, 1, 0, -1⟩, ⟨-1, 1, 0, -1⟩, ⟨1, -1, 0, -1⟩] ⟨1, 1, 1⟩ false true ⟨0, 1, 2⟩
    ⟨1, 1, 0, -1⟩ ⟨-1, 1, 0, -1⟩ ⟨1, -1, 0, -1⟩ (clearedBuffers 3 3) rfl rfl rfl
    (clearedBuffers_sized 3 3 (by decide))
  refine ⟨b', e, ?_⟩
  have hpix := hp 0 0 (by decide) (by decide) (by decide) (by decide)
  have hd : fillDepth 3 3 ⟨1, 1, 0, -1⟩ ⟨-1, 1, 0, -1⟩ ⟨1, -1, 0, -1⟩ 0 0 = 0 := by
    simp only [fillDepth, meshDepth]
    norm_num
  have hh : fillHits 3 3 ⟨1, 1, 0, -1⟩ ⟨-1, 1, 0, -1⟩ ⟨1, -1, 0, -1⟩ 0 0 := by
    unfold fillHits
    rw [hd]
    refine ⟨?_, ?_, ?_⟩
    · simp only [hscr, edgeDenom]
      norm_num
    · simp only [hscr, covered, baryAt]
      norm_num
    · norm_num
  rw [if_pos hh, hd, pixel_cleared 3 3 _ (by decide)] at hpix
  have hval : pixel b' ((0 : Int) * 3 + 0).toNat = (⟨1, 1, 1⟩, 0) := by
    rw [hpix]
    simp only [pixStep]
    norm_num
  exact (buffers_of_pixel hs (by decide) (by decide) (by decide) (by decide) hval).1

/-! ## Front-face culling -/

theorem frontFacing_iff (p0 p1 p2 : Vec4) : frontFacing p0 p1 p2 = true ↔ 0 < crossZ p0 p1 p2 := by
  simp only [frontFacing, crossZ, decide_eq_true_eq, gt_iff_lt]

/-- Scaling by `inversesqrt` of the squared length does not change the sign
test: whenever `inversesqrt` is positive on positive arguments, `normal.z > 0`
holds exactly when the z-component of the cross product is positive. -/
theorem frontFacingNormalized_iff (invsqrt : ℚ → ℚ) (hpos : ∀ d, 0 < d → 0 < invsqrt d)
    (p0 p1 p2 : Vec4) :
    frontFacingNormalized invsqrt p0 p1 p2 = true ↔ 0 < crossZ p0 p1 p2 := by
  simp only [frontFacingNormalized, crossZ, decide_eq_true_eq, gt_iff_lt]
  have hc : (p1.x - p0.x) * (p2.y - p0.y) - (p2.x - p0.x) * (p1.y - p0.y) =
      (p1.x - p0.x) * (p2.y - p0.y) - (p1.y - p0.y) * (p2.x - p0.x) := by ring
  rw [hc]
  generalize (p1.x - p0.x) * (p2.y - p0.y) - (p1.y - p0.y) * (p2.x - p0.x) = cz
  generalize (p1.y - p0.y) * (p2.z - p0.z) - (p2.y - p0.y) * (p1.z - p0.z) = cx
  generalize (p1.z - p0.z) * (p2.x - p0.x) - (p2.z - p0.z) * (p1.x - p0.x) = cy
  constructor
  · intro h
    by_contra hcz
    have hle : cz ≤ 0 := not_lt.1 hcz
    rcases eq_or_lt_of_le hle with h0 | hneg
    · rw [h0, zero_mul] at h
      exact lt_irrefl _ h
    · have hd : 0 < cx * cx + cy * cy + cz * cz := by nlinarith [mul_self_nonneg cx, mul_self_nonneg cy]
      have := hpos _ hd
      nlinarith
  · intro h
    have hd : 0 < cx * cx + cy * cy + cz * cz := by nlinarith [mul_self_nonneg cx, mul_self_nonneg cy]
    exact mul_pos h (hpos _ hd)

/-- Swapping two vertices negates the z-component of the cross product. -/
theorem crossZ_swap (p0 p1 p2 : Vec4) :
    crossZ p0 p2 p1 = -crossZ p0 p1 p2 ∧ crossZ p1 p0 p2 = -crossZ p0 p1 p2 ∧
      crossZ p2 p1 p0 = -crossZ p0 p1 p2 := by
  simp only [crossZ]
  refine ⟨?_, ?_, ?_⟩ <;> ring

theorem meshTriangle_front_culled (palette : Nat → Vec3) (positions : List Vec4)
    (color : Vec3) (urc : Bool) (width height : Int) (uz sz cb : Bool) (i : Nat)
    (tri : U32Vec3) {q0 q1 q2 : Vec4} (b : Buffers) (h0 : positions[tri.x]? = some q0)
    (h1 : positions[tri.y]? = some q1) (h2 : positions[tri.z]? = some q2)
    (hc : 0 < crossZ q0 q1 q2) :
    meshTriangle palette positions color urc width height uz sz cb true i tri b = .ok b := by
  have hf : frontFacing q0 q1 q2 = true := (frontFacing_iff q0 q1 q2).2 hc
  unfold meshTriangle
  simp only [readNat_ok h0, readNat_ok h1, readNat_ok h2, bind, Except.bind, hf,
    Bool.and_self, if_true]
  split <;> rfl

theorem meshTriangle_front_kept (palette : Nat → Vec3) (positions : List Vec4)
    (color : Vec3) (urc : Bool) (width height : Int) (uz sz cb : Bool) (i : Nat)
    (tri : U32Vec3) {q0 q1 q2 : Vec4} (b : Buffers) (h0 : positions[tri.x]? = some q0)
    (h1 : positions[tri.y]? = some q1) (h2 : positions[tri.z]? = some q2)
    (hc : crossZ q0 q1 q2 ≤ 0) :
    meshTriangle palette positions color urc width height uz sz cb true i tri b =
      meshTriangle palette positions color urc width height uz sz cb false i tri b := by
  have hf : frontFacing q0 q1 q2 = false := by
    rw [← Bool.not_eq_true, frontFacing_iff]
    exact not_lt.2 hc
  unfold meshTriangle
  simp only [readNat_ok h0, readNat_ok h1, readNat_ok h2, bind, Except.bind, hf,
    Bool.and_false, Bool.false_and, Bool.false_eq_true, if_false]

/-- C11, with arithmetic read as exact: with `cull_front_faces = true` the
body of the triangle loop returns the buffers unchanged when the z-component
of `(p1 - p0) × (p2 - p0)` (clip space, not divided) is strictly positive, and
is the body with the flag off when it is `≤ 0`; the test `normal.z > 0` on the
normalized cross product is this sign test whenever the inverse square root
is positive on positive numbers.  For a non-zero z-component exactly one of
the triangle and its copy with the last two indices swapped is discarded, the
other one is processed as with the flag off.  In binary32 the cross product
can overflow and the normalisation yield NaN. -/
theorem front_face_cull (palette : Nat → Vec3) (positions : List Vec4) (color : Vec3)
    (urc : Bool) (width height : Int) (uz sz cb : Bool) (i : Nat) (tri : U32Vec3)
    (q0 q1 q2 : Vec4) (b : Buffers) (h0 : positions[tri.x]? = some q0)
    (h1 : positions[tri.y]? = some q1) (h2 : positions[tri.z]? = some q2) :
    (∀ invsqrt : ℚ → ℚ, (∀ d, 0 < d → 0 < invsqrt d) →
      (frontFacingNormalized invsqrt q0 q1 q2 = true ↔ 0 < crossZ q0 q1 q2)) ∧
    (0 < crossZ q0 q1 q2 →
      meshTriangle palette positions color urc width height uz sz cb true i tri b = .ok b) ∧
    (crossZ q0 q1 q2 ≤ 0 →
      meshTriangle palette positions color urc width height uz sz cb true i tri b =
        meshTriangle palette positions color urc width height uz sz cb false i tri b) ∧
    (crossZ q0 q1 q2 ≠ 0 →
      (0 < crossZ q0 q1 q2 ∧
        meshTriangle palette positions color urc width height uz sz cb true i tri b = .ok b ∧
        meshTriangle palette positions color urc width height uz sz cb true i
            ⟨tri.x, tri.z, tri.y⟩ b =
          meshTriangle palette positions color urc width height uz sz cb false i
            ⟨tri.x, tri.z, tri.y⟩ b) ∨
      (crossZ q0 q1 q2 < 0 ∧
        meshTriangle palette positions color urc width height uz sz cb true i
            ⟨tri.x, tri.z, tri.y⟩ b = .ok b ∧
        meshTriangle palette positions color urc width height uz sz cb true i tri b =
          meshTriangle palette positions color urc width height uz sz cb false i tri b)) := by
  have hswap := (crossZ_swap q0 q1 q2).1
  refine ⟨fun invsqrt hpos => frontFacingNormalized_iff invsqrt hpos q0 q1 q2,
    meshTriangle_front_culled palette positions color urc width height uz sz cb i tri b
      h0 h1 h2,
    meshTriangle_front_kept palette positions color urc width height uz sz cb i tri b
      h0 h1 h2, ?_⟩
  intro hne
  rcases lt_or_gt_of_ne hne with hneg | hpos
  · right
    refine ⟨hneg, ?_, ?_⟩
    · exact meshTriangle_front_culled palette positions color urc width height uz sz cb i
        ⟨tri.x, tri.z, tri.y⟩ b h0 h2 h1 (by rw [hswap]; linarith)
    · exact meshTriangle_front_kept palette positions color urc width height uz sz cb i tri b
        h0 h1 h2 hneg.le
  · left
    refine ⟨hpos, ?_, ?_⟩
    · exact meshTriangle_front_culled palette positions color urc width height uz sz cb i
        tri b h0 h1 h2 hpos
    · exact meshTriangle_front_kept palette positions color urc width height uz sz cb i
        ⟨tri.x, tri.z, tri.y⟩ b h0 h2 h1 (by rw [hswap]; linarith)

/-- C11, with arithmetic read as exact, on a counter-clockwise triangle: with
the flag on it is discarded. -/
theorem front_face_cull_witness :
    meshTriangle (fun _ => ⟨0, 0, 0⟩) [⟨0, 0, 0, 1⟩, ⟨1, 0, 0, 1⟩, ⟨0, 1, 0, 1⟩] ⟨1, 1, 1⟩
        false 3 3 true false false true 0 ⟨0, 1, 2⟩ (clearedBuffers 3 3) =
      .ok (clearedBuffers 3 3) :=
  (front_face_cull (fun _ => ⟨0, 0, 0⟩) [⟨0, 0, 0, 1⟩, ⟨1, 0, 0, 1⟩, ⟨0, 1, 0, 1⟩]
    ⟨1, 1, 1⟩ false 3 3 true false false 0 ⟨0, 1, 2⟩ ⟨0, 0, 0, 1⟩ ⟨1, 0, 0, 1⟩ ⟨0, 1, 0, 1⟩
    (clearedBuffers 3 3) rfl rfl rfl).2.1 (by norm_num [crossZ])

/-! ## Degenerate triangles -/

theorem meshLoop_append (palette : Nat → Vec3) (positions : List Vec4) (color : Vec3)
    (urc : Bool) (width height : Int) (uz sz cb cf : Bool) (l1 l2 : List U32Vec3) :
    ∀ (i : Nat) (b : Buffers),
      meshLoop palette positions color urc width height uz sz cb cf i (l1 ++ l2) b =
        (meshLoop palette positions color urc width height uz sz cb cf i l1 b >>= fun b1 =>
          meshLoop palette positions color urc width height uz sz cb cf (i + l1.length) l2 b1) := by
  induction l1 with
  | nil => intro i b; rfl
  | cons t l1 ih =>
    intro i b
    simp only [List.cons_append, meshLoop, List.length_cons]
    cases hm : meshTriangle palette positions color urc width height uz sz cb cf i t b with
    | error e => rfl
    | ok b1 =>
      simp only [bind, Except.bind]
      have := ih (i + 1) b1
      simp only [bind, Except.bind] at this
      rw [show i + (l1.length + 1) = i + 1 + l1.length by omega]
      exact this

/-- Without random colours the triangle loop does not depend on the number of
its first triangle. -/
theorem meshLoop_index_free (palette : Nat → Vec3) (positions : List Vec4) (color : Vec3)
    (width height : Int) (uz sz cb cf : Bool) (l : List U32Vec3) :
    ∀ (i j : Nat) (b : Buffers),
      meshLoop palette positions color false width height uz sz cb cf i l b =
        meshLoop palette positions color false width height uz sz cb cf j l b := by
  induction l with
  | nil => intro i j b; rfl
  | cons t l ih =>
    intro i j b
    have ht : meshTriangle palette positions color false width height uz sz cb cf i t b =
        meshTriangle palette positions color false width height uz sz cb cf j t b := by
      simp only [meshTriangle, Bool.false_eq_true, if_false]
    simp only [meshLoop, ht]
    cases meshTriangle palette positions color false width height uz sz cb cf j t b with
    | error e => rfl
    | ok b1 =>
      simp only [bind, Except.bind]
      exact ih (i + 1) (j + 1) b1

theorem meshTriangle_degenerate (palette : Nat → Vec3) (positions : List Vec4)
    (color : Vec3) (urc : Bool) (width height : Int) (uz sz cb cf : Bool) (i : Nat)
    (tri : U32Vec3) {q0 q1 q2 : Vec4} (b : Buffers) (h0 : positions[tri.x]? = some q0)
    (h1 : positions[tri.y]? = some q1) (h2 : positions[tri.z]? = some q2)
    (hdeg : |edgeDenom (ndc_to_screen width height q0) (ndc_to_screen width height q1)
      (ndc_to_screen width height q2)| < 8796093 / 8796093022208) :
    meshTriangle palette positions color urc width height uz sz cb cf i tri b = .ok b := by
  unfold meshTriangle
  simp only [readNat_ok h0, readNat_ok h1, readNat_ok h2, bind, Except.bind]
  split
  · rfl
  · split
    · rfl
    · unfold meshFill
      simp only [hdeg, if_true]
      rfl

/-! ## Zero-length segments -/

/-- C20: a segment whose two end points round to the same pixel has
`steps = 0`, so `t = 0`; its traversal visits exactly the start state, with
depth equal to the start point's post-divide `z`; and the call with this one
segment returns without a fault and changes no buffer entry other than the one
of that pixel. -/
theorem zero_length_segment (fuel : Nat) (p0 p1 : Vec4) (c : Vec3) (width height : Int)
    (b : Buffers) (uz : Bool) (hb : Sized width height b) (hfuel : 0 < fuel)
    (hx : roundHalfAway (ndc_to_screen width height p0).x =
      roundHalfAway (ndc_to_screen width height p1).x)
    (hy : roundHalfAway (ndc_to_screen width height p0).y =
      roundHalfAway (ndc_to_screen width height p1).y) :
    (lineSetup width height p0 p1).1.steps = 0 ∧
    lineTrace (lineSetup width height p0 p1).1 fuel (lineSetup width height p0 p1).2 =
      [⟨roundHalfAway (ndc_to_screen width height p0).x,
        roundHalfAway (ndc_to_screen width height p0).y, 0, 0⟩] ∧
    lineDepth (lineSetup width height p0 p1).1 0 = p0.z / p0.w ∧
    ∃ b', rasterize_lines fuel [p0, p1] [c] width height b uz = .ok b' ∧
      ∀ k : Nat, k ≠ (roundHalfAway (ndc_to_screen width height p0).y * width +
          roundHalfAway (ndc_to_screen width height p0).x).toNat →
        b'.image[k]? = b.image[k]? ∧ b'.zbuffer[k]? = b.zbuffer[k]? := by
  have hsetup : lineSetup width height p0 p1 =
      ({ x1 := roundHalfAway (ndc_to_screen width height p0).x
         y1 := roundHalfAway (ndc_to_screen width height p0).y
         dx := 0, dy := 0, sx := -1, sy := -1, steps := 0
         z0 := p0.z / p0.w, z1 := p1.z / p1.w },
       { x0 := roundHalfAway (ndc_to_screen width height p0).x
         y0 := roundHalfAway (ndc_to_screen width height p0).y
         err := 0, step := 0 }) := by
    simp only [lineSetup, lineSetupInt, ← hx, ← hy, sub_self, abs_zero, lt_irrefl, if_false,
      max_self]
  have htrace : lineTrace (lineSetup width height p0 p1).1 fuel
      (lineSetup width height p0 p1).2 =
      [⟨roundHalfAway (ndc_to_screen width height p0).x,
        roundHalfAway (ndc_to_screen width height p0).y, 0, 0⟩] := by
    rw [hsetup]
    obtain ⟨n, rfl⟩ : ∃ n, fuel = n + 1 := ⟨fuel - 1, by omega⟩
    simp [lineTrace, lineDone]
  have hfuel' : lineFuel width height [p0, p1] ≤ fuel := by
    simp only [lineFuel, hsetup]
    simp
    omega
  refine ⟨by rw [hsetup], htrace, by rw [hsetup]; simp [lineDepth], _,
    rasterize_lines_eq uz fuel [p0, p1] [c] (by simp) (by simp) hb hfuel', ?_⟩
  intro k hk
  apply foldl_applyFrag_unchanged
  intro f hf
  obtain ⟨j, -, hj⟩ := List.mem_flatMap.1 hf
  obtain ⟨a0, a1, c', e0, e1, -, st, hst, hfr⟩ := segmentFrags_mem hj
  have hj0 : j = 0 := by
    by_contra hne
    rw [List.getElem?_eq_none (by simp only [List.length_cons, List.length_nil]; omega)] at e0
    cases e0
  subst hj0
  simp only [Nat.mul_zero, List.getElem?_cons_zero, Option.some.injEq, zero_add,
    List.getElem?_cons_succ] at e0 e1
  subst e0 e1
  rw [htrace, List.mem_singleton] at hst
  obtain ⟨-, -, hidx, -⟩ := lineFrag_idx_lt hb hfr
  rw [hidx, hst]
  exact fun h => hk h.symm

/-- C20 for a segment that starts and ends at the centre of a `3 × 3` target. -/
theorem zero_length_segment_witness :
    lineTrace (lineSetup 3 3 ⟨0, 0, 0, 1⟩ ⟨0, 0, 0, 1⟩).1 1
        (lineSetup 3 3 ⟨0, 0, 0, 1⟩ ⟨0, 0, 0, 1⟩).2 =
      [⟨roundHalfAway (ndc_to_screen 3 3 ⟨0, 0, 0, 1⟩).x,
        roundHalfAway (ndc_to_screen 3 3 ⟨0, 0, 0, 1⟩).y, 0, 0⟩] :=
  (zero_length_segment 1 ⟨0, 0, 0, 1⟩ ⟨0, 0, 0, 1⟩ ⟨1, 0, 0⟩ 3 3 (clearedBuffers 3 3) true
    (clearedBuffers_sized 3 3 (by decide)) (by decide) rfl rfl).2.1

/-! ## Whole calls of the triangle rasterizer -/

theorem validTri_reads {positions : List Vec4} {t : U32Vec3} (h : ValidTri positions t) :
    ∃ q0 q1 q2 : Vec4, positions[t.x]? = some q0 ∧ positions[t.y]? = some q1 ∧
      positions[t.z]? = some q2 := by
  obtain ⟨q0, h0⟩ := getElem?_of_lt positions t.x h.1
  obtain ⟨q1, h1⟩ := getElem?_of_lt positions t.y h.2.1
  obtain ⟨q2, h2⟩ := getElem?_of_lt positions t.z h.2.2
  exact ⟨q0, q1, q2, h0, h1, h2⟩

/-- The body of the triangle loop, seen at the pixels of the viewport: a
triangle that passes the culling tests and hits the pixel applies one write,
any other triangle leaves the pixel alone. -/
theorem meshTriangle_pixel {width height : Int} (palette : Nat → Vec3)
    (positions : List Vec4) (color : Vec3) (urc uz sz cb cf : Bool) (i : Nat)
    (tri : U32Vec3) {q0 q1 q2 : Vec4} {b : Buffers} (h0 : positions[tri.x]? = some q0)
    (h1 : positions[tri.y]? = some q1) (h2 : positions[tri.z]? = some q2)
    (hb : Sized width height b) :
    ∃ b', meshTriangle palette positions color urc width height uz sz cb cf i tri b = .ok b' ∧
      Sized width height b' ∧
      ∀ x y : Int, 0 ≤ x → x < width → 0 ≤ y → y < height →
        (triHits positions cb cf width height tri x y →
          pixel b' (y * width + x).toNat =
            pixStep uz true (!sz) (pixel b (y * width + x).toNat)
              ⟨(y * width + x).toNat, fillDepth width height q0 q1 q2 x y,
                if urc = true then palette i else color⟩) ∧
        (¬ triHits positions cb cf width height tri x y →
          pixel b' (y * width + x).toNat = pixel b (y * width + x).toNat) := by
  have hiff : ∀ x y : Int, triHits positions cb cf width height tri x y ↔
      ((cb && behindCamera q0 q1 q2) = false ∧ (cf && frontFacing q0 q1 q2) = false ∧
        fillHits width height q0 q1 q2 x y) := by
    intro x y
    constructor
    · rintro ⟨a0, a1, a2, e0, e1, e2, hcb, hcf, hh⟩
      rw [h0] at e0
      rw [h1] at e1
      rw [h2] at e2
      cases e0
      cases e1
      cases e2
      exact ⟨hcb, hcf, hh⟩
    · rintro ⟨hcb, hcf, hh⟩
      exact ⟨q0, q1, q2, h0, h1, h2, hcb, hcf, hh⟩
  refine ⟨_, meshTriangle_eq palette positions color urc uz sz cb cf i tri h0 h1 h2 hb,
    ?_, ?_⟩
  · split
    · exact hb
    · split
      · exact hb
      · exact foldl_applyFrag_sized _ _ _ _ hb
  · intro x y hx0 hx hy0 hy
    constructor
    · intro hhit
      obtain ⟨e1, e2, hh⟩ := (hiff x y).1 hhit
      rw [if_neg (by rw [e1]; simp), if_neg (by rw [e2]; simp),
        fill_pixel uz sz _ q0 q1 q2 hb hx0 hx hy0 hy, if_pos hh]
    · intro hno
      by_cases hcb : (cb && behindCamera q0 q1 q2) = true
      · rw [if_pos hcb]
      · by_cases hcf : (cf && frontFacing q0 q1 q2) = true
        · rw [if_neg hcb, if_pos hcf]
        · rw [if_neg hcb, if_neg hcf, fill_pixel uz sz _ q0 q1 q2 hb hx0 hx hy0 hy]
          have e1 : (cb && behindCamera q0 q1 q2) = false := by simpa using hcb
          have e2 : (cf && frontFacing q0 q1 q2) = false := by simpa using hcf
          rw [if_neg (fun hh => hno ((hiff x y).2 ⟨e1, e2, hh⟩))]

/-- The triangle loop on buffers of the target's size, for triangles whose
indices are inside the position buffer: it returns without a fault, keeps
the buffer sizes, and leaves every pixel that none of its triangles hits. -/
theorem meshLoop_run {width height : Int} (palette : Nat → Vec3) (positions : List Vec4)
    (color : Vec3) (urc uz sz cb cf : Bool) (l : List U32Vec3)
    (hvalid : ∀ t ∈ l, ValidTri positions t) :
    ∀ (i : Nat) {b : Buffers}, Sized width height b →
      ∃ b', meshLoop palette positions color urc width height uz sz cb cf i l b = .ok b' ∧
        Sized width height b' ∧
        ∀ x y : Int, 0 ≤ x → x < width → 0 ≤ y → y < height →
          (∀ t ∈ l, ¬ triHits positions cb cf width height t x y) →
          pixel b' (y * width + x).toNat = pixel b (y * width + x).toNat := by
  induction l with
  | nil =>
    intro i b hb
    exact ⟨b, rfl, hb, fun _ _ _ _ _ _ _ => rfl⟩
  | cons t l ih =>
    intro i b hb
    obtain ⟨q0, q1, q2, h0, h1, h2⟩ := validTri_reads (hvalid t (List.mem_cons_self _ _))
    obtain ⟨b1, e1, s1, p1⟩ := meshTriangle_pixel palette positions color urc uz sz cb cf i t
      h0 h1 h2 hb
    obtain ⟨b2, e2, s2, p2⟩ := ih (fun u hu => hvalid u (List.mem_cons_of_mem _ hu)) (i + 1) s1
    refine ⟨b2, ?_, s2, ?_⟩
    · simp only [meshLoop, e1, bind, Except.bind]
      exact e2
    · intro x y hx0 hx hy0 hy hno
      rw [p2 x y hx0 hx hy0 hy (fun u hu => hno u (List.mem_cons_of_mem _ hu)),
        (p1 x y hx0 hx hy0 hy).2 (hno t (List.mem_cons_self _ _))]

theorem applyFrag_zbuffer (test writeC : Bool) (b : Buffers) (f : Frag) :
    (applyFrag test false writeC b f).zbuffer = b.zbuffer := by
  unfold applyFrag
  split <;> simp

theorem foldl_applyFrag_zbuffer (test writeC : Bool) (fs : List Frag) (b : Buffers) :
    (fs.foldl (applyFrag test false writeC) b).zbuffer = b.zbuffer := by
  induction fs generalizing b with
  | nil => rfl
  | cons f fs ih => rw [List.foldl_cons, ih, applyFrag_zbuffer]

theorem depthPixel_eq {width height : Int} {x y : Int} {b : Buffers}
    (hb : Sized width height b) (hx0 : 0 ≤ x) (hx : x < width) (hy0 : 0 ≤ y)
    (hy : y < height) :
    depthPixel width x y b =
      .ok (applyFrag false false true b
        ⟨(y * width + x).toNat, 0, depthColor (b.zbuffer.getD (y * width + x).toNat 0)⟩) := by
  obtain ⟨h0, hi, hz⟩ := index_lt_of_sized hb hx0 hx hy0 hy
  unfold depthPixel
  simp only [readAt_ok _ _ h0 hz, bind, Except.bind, writeAt_ok _ _ _ h0 hi, applyFrag,
    depthColor]
  rfl

theorem depthRow_eq {width height : Int} {y : Int} (hy0 : 0 ≤ y) (hy : y < height)
    (zb : List ℚ) (xs : List Int) (hxs : ∀ x ∈ xs, 0 ≤ x ∧ x < width) :
    ∀ {b : Buffers}, Sized width height b → b.zbuffer = zb →
      xs.foldlM (fun b x => depthPixel width x y b) b =
        .ok ((xs.map (fun x =>
          (⟨(y * width + x).toNat, 0, depthColor (zb.getD (y * width + x).toNat 0)⟩ : Frag))).foldl
          (applyFrag false false true) b) := by
  induction xs with
  | nil => intro b _ _; rfl
  | cons x xs ih =>
    intro b hb hzb
    obtain ⟨hx0, hx⟩ := hxs x (List.mem_cons_self _ _)
    rw [List.foldlM_cons, depthPixel_eq hb hx0 hx hy0 hy]
    simp only [bind, Except.bind]
    rw [ih (fun v hv => hxs v (List.mem_cons_of_mem _ hv)) (applyFrag_sized _ _ _ _ hb)
      (by rw [applyFrag_zbuffer, hzb]), hzb]
    rfl

/-- On buffers of the target's size the depth-visualization pass returns,
without a fault, the buffers obtained by applying its writes. -/
theorem depthPass_eq {width height : Int} {b : Buffers} (hb : Sized width height b) :
    depthPass width height b =
      .ok ((depthFrags width height b.zbuffer).foldl (applyFrag false false true) b) := by
  unfold depthPass depthFrags
  have key : ∀ (ys : List Int), (∀ y ∈ ys, 0 ≤ y ∧ y < height) →
      ∀ {c : Buffers}, Sized width height c → c.zbuffer = b.zbuffer →
        ys.foldlM (fun b y =>
          (intRange 0 (width - 1)).foldlM (fun b x => depthPixel width x y b) b) c =
        .ok ((ys.flatMap (fun y => (intRange 0 (width - 1)).map (fun x =>
          (⟨(y * width + x).toNat, 0,
            depthColor (b.zbuffer.getD (y * width + x).toNat 0)⟩ : Frag)))).foldl
          (applyFrag false false true) c) := by
    intro ys
    induction ys with
    | nil => intro _ c _ _; rfl
    | cons y ys ih =>
      intro hys c hc hzc
      obtain ⟨hy0, hy⟩ := hys y (List.mem_cons_self _ _)
      rw [List.foldlM_cons, depthRow_eq hy0 hy b.zbuffer (intRange 0 (width - 1))
        (fun x hx => by rw [mem_intRange] at hx; omega) hc hzc]
      simp only [bind, Except.bind]
      rw [ih (fun v hv => hys v (List.mem_cons_of_mem _ hv))
        (foldl_applyFrag_sized _ _ _ _ hc) (by rw [foldl_applyFrag_zbuffer, hzc]),
        List.flatMap_cons, List.foldl_append]
  exact key _ (fun y hy => by rw [mem_intRange] at hy; omega) hb rfl

theorem depthFrags_mem {width height : Int} {zb : List ℚ} {f : Frag}
    (hf : f ∈ depthFrags width height zb) :
    ∃ x y : Int, 0 ≤ x ∧ x < width ∧ 0 ≤ y ∧ y < height ∧
      f = ⟨(y * width + x).toNat, 0, depthColor (zb.getD (y * width + x).toNat 0)⟩ := by
  unfold depthFrags at hf
  obtain ⟨y, hy, hf'⟩ := List.mem_flatMap.1 hf
  obtain ⟨x, hx, rfl⟩ := List.mem_map.1 hf'
  rw [mem_intRange] at hx hy
  exact ⟨x, y, by omega, by omega, by omega, by omega, rfl⟩

theorem mem_depthFrags {width height : Int} (zb : List ℚ) {x y : Int}
    (hx0 : 0 ≤ x) (hx : x < width) (hy0 : 0 ≤ y) (hy : y < height) :
    (⟨(y * width + x).toNat, 0, depthColor (zb.getD (y * width + x).toNat 0)⟩ : Frag) ∈
      depthFrags width height zb := by
  unfold depthFrags
  refine List.mem_flatMap.2 ⟨y, by rw [mem_intRange]; omega, ?_⟩
  exact List.mem_map.2 ⟨x, by rw [mem_intRange]; omega, rfl⟩

/-- Every index below `width * height` is the index of a pixel of the viewport. -/
theorem index_decompose {width height : Int} (idx : Nat)
    (hidx : (idx : Int) < width * height) (hw : 0 ≤ width) :
    ∃ x y : Int, 0 ≤ x ∧ x < width ∧ 0 ≤ y ∧ y < height ∧ (y * width + x).toNat = idx := by
  have hwpos : 0 < width := by
    rcases eq_or_lt_of_le hw with h | h
    · rw [← h, zero_mul] at hidx
      omega
    · exact h
  refine ⟨(idx : Int) % width, (idx : Int) / width, Int.emod_nonneg _ hwpos.ne',
    Int.emod_lt_of_pos _ hwpos, Int.ediv_nonneg (by omega) hw, ?_, ?_⟩
  · exact Int.ediv_lt_of_lt_mul hwpos (by rw [mul_comm]; exact hidx)
  · have := Int.ediv_add_emod (idx : Int) width
    have e : (idx : Int) / width * width + (idx : Int) % width = idx := by
      rw [mul_comm]
      exact this
    rw [e]
    exact Int.toNat_ofNat idx

/-- The depth-visualization pass, seen at one index: the depth stays, the
colour becomes the grey value of the depth. -/
theorem depthPass_pixel {width height : Int} {b : Buffers} (hb : Sized width height b)
    (hw : 0 ≤ width) :
    ∃ b', depthPass width height b = .ok b' ∧ Sized width height b' ∧
      b'.zbuffer = b.zbuffer ∧
      ∀ idx : Nat, (idx : Int) < width * height →
        b'.image[idx]? = some (depthColor (b.zbuffer.getD idx 0)) := by
  have hs := foldl_applyFrag_sized false false true (depthFrags width height b.zbuffer) hb
  refine ⟨_, depthPass_eq hb, hs, foldl_applyFrag_zbuffer _ _ _ _, ?_⟩
  intro idx hidx
  obtain ⟨x, y, hx0, hx, hy0, hy, rfl⟩ := index_decompose idx hidx hw
  obtain ⟨-, hi, hz⟩ := index_lt_of_sized hb hx0 hx hy0 hy
  rw [image_of_pixel _ _ (by have := hs.1; have := hb.1; omega),
    pixel_foldl_applyFrag _ _ _ _ _ _ (by have := hb.1; have := hb.2; omega)
      (fun f hf => by
        obtain ⟨x', y', a1, a2, a3, a4, rfl⟩ := depthFrags_mem hf
        exact (index_lt_of_sized hb a1 a2 a3 a4).2.1)]
  congr 1
  apply foldl_pixStep_color
  · intro hnil
    have hmem : (⟨(y * width + x).toNat, 0,
        depthColor (b.zbuffer.getD (y * width + x).toNat 0)⟩ : Frag) ∈
        List.filter (fun f => decide (f.idx = (y * width + x).toNat))
          (depthFrags width height b.zbuffer) := by
      rw [List.mem_filter]
      exact ⟨mem_depthFrags _ hx0 hx hy0 hy, by simp⟩
    rw [hnil] at hmem
    simp at hmem
  · intro f hf
    obtain ⟨hf', hidx'⟩ := List.mem_filter.1 hf
    simp only [decide_eq_true_eq] at hidx'
    obtain ⟨x', y', -, -, -, -, rfl⟩ := depthFrags_mem hf'
    simp only at hidx'
    simp only [hidx']

/-- C12: with `show_zbuffer = true`, on buffers of the target's size and with
triangle indices inside the position buffer, `rasterize_mesh` returns without
a fault, and for every index below `width * height` the colour is `(c, c, c)`
with `c = clamp(1 - (d + 1) / 2, 0, 1)` for the final depth `d` at that
index; depth `-1` gives white and depth `1` gives black. -/
theorem depth_visualization (palette : Nat → Vec3) (positions : List Vec4)
    (indices : List U32Vec3) (color : Vec3) (urc : Bool) (width height : Int) (b : Buffers)
    (uz cb cf : Bool) (hb : Sized width height b) (hw : 0 ≤ width)
    (hvalid : ∀ t ∈ indices, ValidTri positions t) :
    ∃ b', rasterize_mesh palette positions indices color urc width height b uz true cb cf =
        .ok b' ∧
      (∀ idx : Nat, (idx : Int) < width * height →
        ∃ d, b'.zbuffer[idx]? = some d ∧
          b'.image[idx]? = some ⟨clamp (1 - (d + 1) / 2) 0 1, clamp (1 - (d + 1) / 2) 0 1,
            clamp (1 - (d + 1) / 2) 0 1⟩) ∧
      clamp (1 - ((-1 : ℚ) + 1) / 2) 0 1 = 1 ∧ clamp (1 - ((1 : ℚ) + 1) / 2) 0 1 = 0 := by
  obtain ⟨b1, e1, s1, -⟩ := meshLoop_run palette positions color urc uz true cb cf indices
    hvalid 0 hb
  obtain ⟨b2, e2, s2, hz2, p2⟩ := depthPass_pixel s1 hw
  refine ⟨b2, ?_, ?_, ?_, ?_⟩
  · unfold rasterize_mesh
    simp only [e1, bind, Except.bind, if_true]
    exact e2
  · intro idx hidx
    have hlen : idx < b1.zbuffer.length := by
      have := s1.2
      omega
    refine ⟨b1.zbuffer.getD idx 0, ?_, p2 idx hidx⟩
    rw [hz2, List.getD_eq_getElem?_getD, List.getElem?_eq_getElem hlen]
    rfl
  · norm_num [clamp]
  · norm_num [clamp]

/-- C12 on one triangle in a cleared `3 × 3` target. -/
theorem depth_visualization_witness :
    ∃ b', rasterize_mesh (fun _ => ⟨0, 0, 0⟩)
        [⟨-1, -1, 0, 1⟩, ⟨1, -1, 0, 1⟩, ⟨-1, 1, 0, 1⟩] [⟨0, 1, 2⟩] ⟨1, 1, 1⟩ false 3 3
        (clearedBuffers 3 3) true true false false = .ok b' ∧
      (∀ idx : Nat, (idx : Int) < 3 * 3 →
        ∃ d, b'.zbuffer[idx]? = some d ∧
          b'.image[idx]? = some ⟨clamp (1 - (d + 1) / 2) 0 1, clamp (1 - (d + 1) / 2) 0 1,
            clamp (1 - (d + 1) / 2) 0 1⟩) ∧
      clamp (1 - ((-1 : ℚ) + 1) / 2) 0 1 = 1 ∧ clamp (1 - ((1 : ℚ) + 1) / 2) 0 1 = 0 :=
  depth_visualization (fun _ => ⟨0, 0, 0⟩) [⟨-1, -1, 0, 1⟩, ⟨1, -1, 0, 1⟩, ⟨-1, 1, 0, 1⟩]
    [⟨0, 1, 2⟩] ⟨1, 1, 1⟩ false 3 3 (clearedBuffers 3 3) true false false
    (clearedBuffers_sized 3 3 (by decide)) (by decide)
    (by
      intro t ht
      rw [List.mem_singleton] at ht
      subst ht
      exact ⟨by decide, by decide, by decide⟩)

/-! ## Zero-size render targets -/

theorem sized_zero {width height : Int} {b : Buffers} (hb : Sized width height b)
    (hz : width = 0 ∨ height = 0) : b.image = [] ∧ b.zbuffer = [] := by
  have hprod : width * height = 0 := by
    rcases hz with h | h <;> rw [h] <;> simp
  obtain ⟨h1, h2⟩ := hb
  rw [hprod] at h1 h2
  exact ⟨List.length_eq_zero.1 (by omega), List.length_eq_zero.1 (by omega)⟩

theorem sized_zero_eq {width height : Int} {b b' : Buffers} (hb : Sized width height b)
    (hb' : Sized width height b') (hz : width = 0 ∨ height = 0) : b' = b := by
  obtain ⟨h1, h2⟩ := sized_zero hb hz
  obtain ⟨h3, h4⟩ := sized_zero hb' hz
  cases b
  cases b'
  simp only at h1 h2 h3 h4
  rw [h1, h2, h3, h4]

/-- C15: for `width = 0` or `height = 0` the buffers of the target's size are
empty, every read or write of an empty buffer is a fault of the model, and
both rasterizers return the buffers without a fault, for every geometry of
valid shape and every flag combination; the screen mapping divides by `w`
only, so the zero size causes no division by zero. -/
theorem zero_size_target (fuel : Nat) (points : List Vec4) (colors : List Vec3)
    (palette : Nat → Vec3) (positions : List Vec4) (indices : List U32Vec3) (color : Vec3)
    (urc : Bool) (width height : Int) (b : Buffers) (uz sz cb cf : Bool)
    (hb : Sized width height b) (hzero : width = 0 ∨ height = 0)
    (heven : points.length % 2 = 0) (hcol : colors.length = points.length / 2)
    (hfuel : lineFuel width height points ≤ fuel)
    (hvalid : ∀ t ∈ indices, ValidTri positions t) :
    (b.image = [] ∧ b.zbuffer = []) ∧
    (∀ idx : Int, readAt b.zbuffer idx = .error .outOfBounds ∧
      ∀ a : Vec3, writeAt b.image idx a = .error .outOfBounds) ∧
    rasterize_lines fuel points colors width height b uz = .ok b ∧
    rasterize_mesh palette positions indices color urc width height b uz sz cb cf = .ok b ∧
    (∀ p : Vec4, p.w ≠ 0 →
      ndc_to_screen_checked width height p = some (ndc_to_screen width height p)) := by
  obtain ⟨hi, hz⟩ := sized_zero hb hzero
  refine ⟨⟨hi, hz⟩, ?_, ?_, ?_, ?_⟩
  · intro idx
    rw [hi, hz]
    constructor
    · unfold readAt readNat
      split <;> simp
    · intro a
      unfold writeAt
      simp
  · rw [rasterize_lines_eq uz fuel points colors heven hcol hb hfuel]
    exact congrArg Except.ok (sized_zero_eq hb (foldl_applyFrag_sized _ _ _ _ hb) hzero)
  · obtain ⟨b1, e1, s1, -⟩ := meshLoop_run palette positions color urc uz sz cb cf indices
      hvalid 0 hb
    have hb1 : b1 = b := sized_zero_eq hb s1 hzero
    subst hb1
    unfold rasterize_mesh
    simp only [e1, bind, Except.bind]
    cases sz
    · rfl
    · simp only [if_true]
      rw [depthPass_eq s1]
      exact congrArg Except.ok (sized_zero_eq s1 (foldl_applyFrag_sized _ _ _ _ s1) hzero)
  · intro p hp
    simp only [ndc_to_screen_checked, ndc_to_screen, if_neg hp]

/-- In a `0 × 0` target the vertices `(-1,-1)` and `(1,1)` map to the pixel
coordinates `(0,0)` and `(-1,-1)`. -/
theorem lineSetup_zero_diagonal (z0 z1 : ℚ) :
    lineSetup 0 0 ⟨-1, -1, z0, 1⟩ ⟨1, 1, z1, 1⟩ = lineSetupInt 0 0 (-1) (-1) z0 z1 := by
  have e0 : ((-1 : ℚ) + 1) * (1 / 2) * (((0 - 1 : Int)) : ℚ) = ((0 : Int) : ℚ) := by
    norm_num
  have e1 : ((1 : ℚ) + 1) * (1 / 2) * (((0 - 1 : Int)) : ℚ) = ((-1 : Int) : ℚ) := by
    norm_num
  simp only [lineSetup, ndc_to_screen, div_one, e0, e1, roundHalfAway_intCast]

/-- C15 on a `0 × 0` target with one segment and one triangle. -/
theorem zero_size_target_witness :
    rasterize_lines 5 [⟨-1, -1, 0, 1⟩, ⟨1, 1, 0, 1⟩] [⟨1, 0, 0⟩] 0 0 (clearedBuffers 0 0)
        true = .ok (clearedBuffers 0 0) ∧
    rasterize_mesh (fun _ => ⟨0, 0, 0⟩) [⟨-1, -1, 0, 1⟩, ⟨1, -1, 0, 1⟩, ⟨-1, 1, 0, 1⟩]
        [⟨0, 1, 2⟩] ⟨1, 1, 1⟩ false 0 0 (clearedBuffers 0 0) true true false false =
      .ok (clearedBuffers 0 0) :=
  ⟨(zero_size_target 5 [⟨-1, -1, 0, 1⟩, ⟨1, 1, 0, 1⟩] [⟨1, 0, 0⟩] (fun _ => ⟨0, 0, 0⟩)
      [⟨-1, -1, 0, 1⟩, ⟨1, -1, 0, 1⟩, ⟨-1, 1, 0, 1⟩] [⟨0, 1, 2⟩] ⟨1, 1, 1⟩ false 0 0
      (clearedBuffers 0 0) true true false false (clearedBuffers_sized 0 0 (by decide))
      (Or.inl rfl) (by decide) (by decide)
      (by simp only [lineFuel, lineSetup_zero_diagonal]; decide)
      (by
        intro t ht
        rw [List.mem_singleton] at ht
        subst ht
        exact ⟨by decide, by decide, by decide⟩)).2.2.1,
    (zero_size_target 5 [⟨-1, -1, 0, 1⟩, ⟨1, 1, 0, 1⟩] [⟨1, 0, 0⟩] (fun _ => ⟨0, 0, 0⟩)
      [⟨-1, -1, 0, 1⟩, ⟨1, -1, 0, 1⟩, ⟨-1, 1, 0, 1⟩] [⟨0, 1, 2⟩] ⟨1, 1, 1⟩ false 0 0
      (clearedBuffers 0 0) true true false false (clearedBuffers_sized 0 0 (by decide))
      (Or.inl rfl) (by decide) (by decide)
      (by simp only [lineFuel, lineSetup_zero_diagonal]; decide)
      (by
        intro t ht
        rw [List.mem_singleton] at ht
        subst ht
        exact ⟨by decide, by decide, by decide⟩)).2.2.2.1⟩

/-! ## Malformed line input -/

theorem roundHalfAway_zero : roundHalfAway 0 = 0 := by
  have := roundHalfAway_intCast 0
  simpa using this

/-- C14 (the code departs from the claim): `rasterize_lines` has no check of
its input shape.  For a point list of length 1 the first iteration reads
`points[1]`, outside the list; for two points and no colour it reads
`colors[0]`, outside the list; and for two points with two colours (count
mismatch) the call is not aborted: in a cleared `1 × 1` target it draws the
segment with the first colour. -/
theorem malformed_lines_not_rejected :
    (∀ (fuel : Nat) (p : Vec4) (colors : List Vec3) (width height : Int) (b : Buffers)
        (uz : Bool),
      rasterize_lines fuel [p] colors width height b uz = .error .outOfBounds) ∧
    (∀ (fuel : Nat) (p0 p1 : Vec4) (width height : Int) (b : Buffers) (uz : Bool),
      rasterize_lines fuel [p0, p1] [] width height b uz = .error .outOfBounds) ∧
    rasterize_lines 1 [⟨0, 0, 0, 1⟩, ⟨0, 0, 0, 1⟩] [⟨1, 0, 0⟩, ⟨0, 1, 0⟩] 1 1
        (clearedBuffers 1 1) false =
      .ok { image := [⟨1, 0, 0⟩], zbuffer := [1] } := by
  refine ⟨?_, ?_, ?_⟩
  · intro fuel p colors width height b uz
    simp [rasterize_lines, lineSegment, readNat, List.range_succ, bind, Except.bind]
  · intro fuel p0 p1 width height b uz
    simp [rasterize_lines, lineSegment, readNat, List.range_succ, bind, Except.bind]
  · have hs : lineSetup 1 1 ⟨0, 0, 0, 1⟩ ⟨0, 0, 0, 1⟩ = lineSetupInt 0 0 0 0 0 0 := by
      simp [lineSetup, ndc_to_screen, roundHalfAway_zero]
    simp only [rasterize_lines, lineSegment, readNat, List.length_cons, List.length_nil,
      List.range_succ, List.range_zero, List.nil_append, List.foldlM_cons, List.foldlM_nil,
      Nat.mul_zero, List.getElem?_cons_zero, List.getElem?_cons_succ, zero_add,
      Nat.zero_div, bind, Except.bind, hs, pure, Except.pure]
    simp [lineLoop, linePlot, lineDepth, lineSetupInt, lineDone, writeAt, clearedBuffers,
      bind, Except.bind, pure, Except.pure]

/-! ## The frame driver -/

/-- C16 (the code departs from the claim): the resize handling only skips a
viewport with a zero side.  For the viewport `5 × 5` and the subsampling rate
`12` it sets `width = height = 5 / 12 = 0` and resizes the image to no
entries, although `width = height = 100` before. -/
theorem resize_to_zero (resized : Bool) (image : List Vec3) :
    resizeHandling true resized 5 5 12 { width := 100, height := 100, image := image } =
      { width := 0, height := 0, image := [] } := by
  have h : Int.tdiv 5 12 = 0 := by decide
  simp [resizeHandling, resizeImage, h]

theorem resizeImage_length (n : Int) (image : List Vec3) :
    (resizeImage n image).length = n.toNat := by
  unfold resizeImage
  rw [List.length_append, List.length_take, List.length_replicate]
  omega

theorem initDriver_inv (vw vh : Int) (hw : 0 ≤ vw) (hh : 0 ≤ vh) : DriverInv (initDriver vw vh) := by
  have h1 : 0 ≤ Int.tdiv vw 4 := Int.tdiv_nonneg hw (by decide)
  have h2 : 0 ≤ Int.tdiv vh 4 := Int.tdiv_nonneg hh (by decide)
  refine ⟨h1, h2, ?_⟩
  simp only [initDriver, List.length_replicate]
  have := mul_nonneg h1 h2
  omega

theorem resizeHandling_inv (changed resized : Bool) (vw vh rate : Int) (s : DriverState)
    (hs : DriverInv s) (hw : 0 ≤ vw) (hh : 0 ≤ vh) (hr : 0 ≤ rate) :
    DriverInv (resizeHandling changed resized vw vh rate s) := by
  unfold resizeHandling
  split
  · split
    · have h1 : 0 ≤ Int.tdiv vw rate := Int.tdiv_nonneg hw hr
      have h2 : 0 ≤ Int.tdiv vh rate := Int.tdiv_nonneg hh hr
      refine ⟨h1, h2, ?_⟩
      simp only [resizeImage_length]
      have := mul_nonneg h1 h2
      omega
    · exact hs
  · exact hs

theorem fillRow_ok {width height : Int} {y : Int} (hy0 : 0 ≤ y) (hy : y < height)
    (xs : List Int) (hxs : ∀ x ∈ xs, 0 ≤ x ∧ x < width) :
    ∀ (img : List Vec3), (img.length : Int) = width * height →
      ∃ img', xs.foldlM (fun img x => writeAt img (y * width + x) (⟨0, 0, 0⟩ : Vec3)) img =
          .ok img' ∧ img'.length = img.length := by
  induction xs with
  | nil => intro img _; exact ⟨img, rfl, rfl⟩
  | cons x xs ih =>
    intro img himg
    obtain ⟨hx0, hx⟩ := hxs x (List.mem_cons_self _ _)
    obtain ⟨h0, h1⟩ := pixel_index_bounds hx0 hx hy0 hy
    have hlt : (y * width + x).toNat < img.length := by omega
    obtain ⟨img', e, hl⟩ := ih (fun v hv => hxs v (List.mem_cons_of_mem _ hv))
      (img.set (y * width + x).toNat ⟨0, 0, 0⟩) (by rw [List.length_set]; exact himg)
    refine ⟨img', ?_, by rw [hl, List.length_set]⟩
    rw [List.foldlM_cons, writeAt_ok _ _ _ h0 hlt]
    exact e

theorem fillRows_ok {width height : Int} (xs : List Int) (hxs : ∀ x ∈ xs, 0 ≤ x ∧ x < width)
    (ys : List Int) (hys : ∀ y ∈ ys, 0 ≤ y ∧ y < height) :
    ∀ (img : List Vec3), (img.length : Int) = width * height →
      ∃ img', ys.foldlM (fun img y =>
          xs.foldlM (fun img x => writeAt img (y * width + x) (⟨0, 0, 0⟩ : Vec3)) img) img =
          .ok img' ∧ img'.length = img.length := by
  induction ys with
  | nil => intro img _; exact ⟨img, rfl, rfl⟩
  | cons y ys ih =>
    intro img himg
    obtain ⟨hy0, hy⟩ := hys y (List.mem_cons_self _ _)
    obtain ⟨img1, e1, l1⟩ := fillRow_ok hy0 hy xs hxs img himg
    obtain ⟨img2, e2, l2⟩ := ih (fun v hv => hys v (List.mem_cons_of_mem _ hv)) img1
      (by rw [l1]; exact himg)
    refine ⟨img2, ?_, by rw [l2, l1]⟩
    rw [List.foldlM_cons, e1]
    exact e2

/-- The clearing code of a frame, run on a colour buffer of `width * height`
entries, yields the cleared buffer pair without a fault. -/
theorem clearFrame_eq (s : DriverState) (use_zbuffer : Bool) (hs : DriverInv s) :
    clearFrame s use_zbuffer = .ok (clearedBuffers s.width s.height) := by
  obtain ⟨hw, hh, hlen⟩ := hs
  obtain ⟨img, e, hl⟩ := fillRows_ok (intRange 0 (s.width - 1))
    (fun x hx => by rw [mem_intRange] at hx; omega) (intRange 0 (s.height - 1))
    (fun y hy => by rw [mem_intRange] at hy; omega) s.image hlen
  have hn : img.length = (s.width * s.height).toNat := by omega
  unfold clearFrame clearedBuffers
  simp only [e, bind, Except.bind, pure, Except.pure, List.map_const', hn,
    List.length_replicate, ite_self]

/-- C17: in every iteration of the frame loop - from a state with non-negative
sizes and a colour buffer of `width * height` entries, for viewports with
non-negative sides, subsampling rates `≥ 1`, and rasterizer calls that keep
the length of the colour buffer - the buffer pair at the call of
`rasterize_lines` has `width * height` entries each, every colour `(0,0,0)`
and every depth `1`, whether or not the size changed in that frame; the
initial state of `main` is such a state. -/
theorem frame_buffers_cleared (inputs : List FrameInput) (s : DriverState)
    (hs : DriverInv s)
    (hin : ∀ inp ∈ inputs, 0 ≤ inp.vw ∧ 0 ≤ inp.vh ∧ 1 ≤ inp.rate ∧
      ∀ b : Buffers, (inp.draw b).length = b.image.length) :
    (frameBuffers inputs s).length = inputs.length ∧
    (∀ r ∈ frameBuffers inputs s,
      r.2.2 = .ok (clearedBuffers r.1 r.2.1) ∧ Sized r.1 r.2.1 (clearedBuffers r.1 r.2.1) ∧
      (∀ c ∈ (clearedBuffers r.1 r.2.1).image, c = ⟨0, 0, 0⟩) ∧
      (∀ d ∈ (clearedBuffers r.1 r.2.1).zbuffer, d = 1)) ∧
    (∀ vw vh : Int, 0 ≤ vw → 0 ≤ vh → DriverInv (initDriver vw vh)) := by
  refine ⟨?_, ?_, initDriver_inv⟩
  · induction inputs generalizing s with
    | nil => rfl
    | cons inp rest ih =>
      obtain ⟨hw, hh, hr, hd⟩ := hin inp (List.mem_cons_self _ _)
      have hs1 := resizeHandling_inv inp.changed inp.resized inp.vw inp.vh inp.rate s hs hw hh
        (by omega)
      simp only [frameBuffers, clearFrame_eq _ inp.use_zbuffer hs1, List.length_cons]
      rw [ih _ ?_ (fun i hi => hin i (List.mem_cons_of_mem _ hi))]
      refine ⟨hs1.1, hs1.2.1, ?_⟩
      simp only [hd, clearedBuffers, List.length_replicate]
      have := mul_nonneg hs1.1 hs1.2.1
      omega
  · induction inputs generalizing s with
    | nil => intro r hr; simp [frameBuffers] at hr
    | cons inp rest ih =>
      obtain ⟨hw, hh, hr, hd⟩ := hin inp (List.mem_cons_self _ _)
      have hs1 := resizeHandling_inv inp.changed inp.resized inp.vw inp.vh inp.rate s hs hw hh
        (by omega)
      intro r hmem
      simp only [frameBuffers, clearFrame_eq _ inp.use_zbuffer hs1, List.mem_cons] at hmem
      rcases hmem with rfl | hmem
      · refine ⟨rfl, clearedBuffers_sized _ _ (mul_nonneg hs1.1 hs1.2.1), ?_, ?_⟩
        · intro c hc
          exact (List.mem_replicate.1 hc).2
        · intro d hd'
          exact (List.mem_replicate.1 hd').2
      · refine ih _ ?_ (fun i hi => hin i (List.mem_cons_of_mem _ hi)) r hmem
        refine ⟨hs1.1, hs1.2.1, ?_⟩
        simp only [hd, clearedBuffers, List.length_replicate]
        have := mul_nonneg hs1.1 hs1.2.1
        omega

/-- C17 on one frame in which the resolution changes from `100 × 100` (with a
white colour buffer left by the previous frame) to `50 × 50`. -/
theorem frame_buffers_cleared_witness :
    (frameBuffers [⟨true, true, 200, 200, 4, true, fun b => b.image⟩]
        { width := 100, height := 100, image := List.replicate 10000 ⟨1, 1, 1⟩ }).length = 1 ∧
    ∀ r ∈ frameBuffers [⟨true, true, 200, 200, 4, true, fun b => b.image⟩]
        { width := 100, height := 100, image := List.replicate 10000 ⟨1, 1, 1⟩ },
      r.2.2 = .ok (clearedBuffers r.1 r.2.1) :=
  have h := frame_buffers_cleared [⟨true, true, 200, 200, 4, true, fun b => b.image⟩]
    { width := 100, height := 100, image := List.replicate 10000 ⟨1, 1, 1⟩ }
    ⟨by decide, by decide, by simp only [List.length_replicate]; decide⟩
    (by
      intro inp hinp
      rw [List.mem_singleton] at hinp
      subst hinp
      exact ⟨by decide, by decide, by decide, fun _ => rfl⟩)
  ⟨h.1, fun r hr => (h.2.1 r hr).1⟩

/-! ## The colour table of `ex3::get_random_color` -/

theorem fill_foldl (draw : Nat → ℚ) (n : Nat) (s : PaletteState)
    (hn : n ≤ s.random_colors.length) :
    (List.range n).foldl (fillStep draw) s =
      { engine := s.engine + 3 * n
        random_colors := (List.range n).map (fun k =>
            (⟨draw (s.engine + 3 * k), draw (s.engine + 3 * k + 1),
              draw (s.engine + 3 * k + 2)⟩ : Vec3)) ++ s.random_colors.drop n } := by
  induction n with
  | zero => simp
  | succ n ih =>
    rw [List.range_succ, List.foldl_append, ih (by omega)]
    simp only [List.foldl_cons, List.foldl_nil, fillStep, List.map_append, List.map_cons,
      List.map_nil, List.append_assoc]
    congr 1
    · have hl : ((List.range n).map (fun k =>
            (⟨draw (s.engine + 3 * k), draw (s.engine + 3 * k + 1),
              draw (s.engine + 3 * k + 2)⟩ : Vec3))).length = n := by simp
      have hd : s.random_colors.drop n =
          s.random_colors[n] :: s.random_colors.drop (n + 1) := List.drop_eq_getElem_cons hn
      rw [List.set_append_right _ _ (by omega), hl, Nat.sub_self, hd]
      simp only [List.set_cons_zero, Nat.add_assoc, List.singleton_append]

theorem filledPalette_get (draw : Nat → ℚ) (i : Nat) :
    (filledPalette draw).random_colors[i % num_random_colors]? = some (paletteColor draw i) := by
  have h : i % num_random_colors < num_random_colors := Nat.mod_lt _ (by decide)
  simp only [filledPalette, paletteColor, List.getElem?_map, List.getElem?_range h,
    Option.map_some']

theorem fill_init (draw : Nat → ℚ) :
    (List.range (resizeImage num_random_colors ([] : List Vec3)).length).foldl (fillStep draw)
        { engine := 0, random_colors := resizeImage num_random_colors ([] : List Vec3) } =
      filledPalette draw := by
  have hl : (resizeImage num_random_colors ([] : List Vec3)).length = num_random_colors := by
    rw [resizeImage_length, Int.toNat_ofNat]
  rw [fill_foldl draw _ _ (le_refl _), hl, List.drop_eq_nil_of_le (le_of_eq hl)]
  simp only [List.append_nil, filledPalette, Nat.zero_add]

/-- The first call fills the table and returns entry `i % 1024`. -/
theorem get_random_color_init (draw : Nat → ℚ) (i : Nat) :
    get_random_color draw paletteInit i = .ok (paletteColor draw i, filledPalette draw) := by
  unfold get_random_color
  simp only [paletteInit, List.isEmpty_nil, if_true, fill_init,
    readNat_ok (filledPalette_get draw i), bind, Except.bind, pure, Except.pure]

/-- A call on the filled table returns entry `i % 1024` and changes nothing. -/
theorem get_random_color_filled (draw : Nat → ℚ) (i : Nat) :
    get_random_color draw (filledPalette draw) i =
      .ok (paletteColor draw i, filledPalette draw) := by
  have hne : (filledPalette draw).random_colors.isEmpty = false := by
    simp [filledPalette, num_random_colors, List.isEmpty_iff]
  unfold get_random_color
  simp only [hne, Bool.false_eq_true, if_false, readNat_ok (filledPalette_get draw i), bind,
    Except.bind, pure, Except.pure]

theorem get_random_color_reach (draw : Nat → ℚ) (s : PaletteState) (i : Nat)
    (hs : s = paletteInit ∨ s = filledPalette draw) :
    get_random_color draw s i = .ok (paletteColor draw i, filledPalette draw) := by
  rcases hs with rfl | rfl
  · exact get_random_color_init draw i
  · exact get_random_color_filled draw i

theorem paletteRun_reach (draw : Nat → ℚ) (history : List Nat) :
    ∀ s, (s = paletteInit ∨ s = filledPalette draw) →
      ∃ s', paletteRun draw history s = .ok s' ∧ (s' = paletteInit ∨ s' = filledPalette draw) := by
  induction history with
  | nil => intro s hs; exact ⟨s, rfl, hs⟩
  | cons i rest ih =>
    intro s hs
    obtain ⟨s', e, hs'⟩ := ih (filledPalette draw) (Or.inr rfl)
    refine ⟨s', ?_, hs'⟩
    simp only [paletteRun, get_random_color_reach draw s i hs, bind, Except.bind]
    exact e

/-- The body of the triangle loop with the static variables passed along
computes the buffers of `meshTriangle` for the table colours, and leaves the
static variables untouched or filled. -/
theorem meshTriangleStatic_eq (draw : Nat → ℚ) (positions : List Vec4) (color : Vec3)
    (urc : Bool) (width height : Int) (use_zbuffer show_zbuffer cull_behind cull_front : Bool)
    (i : Nat) (tri : U32Vec3) (s : PaletteState) (b : Buffers)
    (hs : s = paletteInit ∨ s = filledPalette draw) :
    ∃ s', (s' = paletteInit ∨ s' = filledPalette draw) ∧
      meshTriangleStatic draw positions color urc width height use_zbuffer show_zbuffer
          cull_behind cull_front i tri (s, b) =
        (meshTriangle (paletteColor draw) positions color urc width height use_zbuffer
          show_zbuffer cull_behind cull_front i tri b).map (fun b' => (s', b')) := by
  unfold meshTriangleStatic meshTriangle
  cases h0 : readNat positions tri.x with
  | error e => exact ⟨s, hs, rfl⟩
  | ok p0 =>
    cases h1 : readNat positions tri.y with
    | error e => exact ⟨s, hs, rfl⟩
    | ok p1 =>
      cases h2 : readNat positions tri.z with
      | error e => exact ⟨s, hs, rfl⟩
      | ok p2 =>
        simp only [bind, Except.bind]
        by_cases c1 : (cull_behind && behindCamera p0 p1 p2) = true
        · refine ⟨s, hs, ?_⟩
          simp only [c1, if_true, pure, Except.pure, Except.map]
        · by_cases c2 : (cull_front && frontFacing p0 p1 p2) = true
          · refine ⟨s, hs, ?_⟩
            simp only [c1, c2, if_true, if_false, Bool.false_eq_true, pure, Except.pure,
              Except.map]
          · cases urc
            · refine ⟨s, hs, ?_⟩
              simp only [c1, c2, if_false, Bool.false_eq_true, pure, Except.pure]
              cases meshFill width height use_zbuffer show_zbuffer color p0 p1 p2 b <;> rfl
            · refine ⟨filledPalette draw, Or.inr rfl, ?_⟩
              simp only [c1, c2, if_false, if_true, Bool.false_eq_true,
                get_random_color_reach draw s i hs, pure, Except.pure]
              cases meshFill width height use_zbuffer show_zbuffer (paletteColor draw i)
                p0 p1 p2 b <;> rfl

theorem meshLoopStatic_eq (draw : Nat → ℚ) (positions : List Vec4) (color : Vec3)
    (urc : Bool) (width height : Int) (use_zbuffer show_zbuffer cull_behind cull_front : Bool)
    (tris : List U32Vec3) :
    ∀ (i : Nat) (s : PaletteState) (b : Buffers), (s = paletteInit ∨ s = filledPalette draw) →
      ∃ s', (s' = paletteInit ∨ s' = filledPalette draw) ∧
        meshLoopStatic draw positions color urc width height use_zbuffer show_zbuffer
            cull_behind cull_front i tris (s, b) =
          (meshLoop (paletteColor draw) positions color urc width height use_zbuffer
            show_zbuffer cull_behind cull_front i tris b).map (fun b' => (s', b')) := by
  induction tris with
  | nil => intro i s b hs; exact ⟨s, hs, rfl⟩
  | cons tri rest ih =>
    intro i s b hs
    obtain ⟨s1, hs1, e1⟩ := meshTriangleStatic_eq draw positions color urc width height
      use_zbuffer show_zbuffer cull_behind cull_front i tri s b hs
    simp only [meshLoopStatic, meshLoop, e1, bind, Except.bind]
    cases meshTriangle (paletteColor draw) positions color urc width height use_zbuffer
      show_zbuffer cull_behind cull_front i tri b with
    | error e => exact ⟨s, hs, rfl⟩
    | ok b1 =>
      obtain ⟨s2, hs2, e2⟩ := ih (i + 1) s1 b1 hs1
      exact ⟨s2, hs2, e2⟩

/-- The function `rasterize_mesh` with the static variables passed along
computes the buffers of `rasterize_mesh` for the table colours. -/
theorem rasterize_mesh_static_eq (draw : Nat → ℚ) (positions : List Vec4)
    (indices : List U32Vec3) (color : Vec3) (urc : Bool) (width height : Int)
    (use_zbuffer show_zbuffer cull_behind cull_front : Bool) (s : PaletteState) (b : Buffers)
    (hs : s = paletteInit ∨ s = filledPalette draw) :
    ∃ s', (s' = paletteInit ∨ s' = filledPalette draw) ∧
      rasterize_mesh_static draw positions indices color urc width height use_zbuffer
          show_zbuffer cull_behind cull_front (s, b) =
        (rasterize_mesh (paletteColor draw) positions indices color urc width height b
          use_zbuffer show_zbuffer cull_behind cull_front).map (fun b' => (s', b')) := by
  obtain ⟨s1, hs1, e1⟩ := meshLoopStatic_eq draw positions color urc width height use_zbuffer
    show_zbuffer cull_behind cull_front indices 0 s b hs
  refine ⟨s1, hs1, ?_⟩
  simp only [rasterize_mesh_static, rasterize_mesh, e1, bind, Except.bind]
  cases meshLoop (paletteColor draw) positions color urc width height use_zbuffer
    show_zbuffer cull_behind cull_front 0 indices b with
  | error e => rfl
  | ok b1 =>
    cases show_zbuffer
    · rfl
    · simp only [Except.map, if_true, bind, Except.bind]
      cases depthPass width height b1 <;> rfl

theorem runCalls_state_free (draw : Nat → ℚ) (width height : Int) (calls : List DrawCall) :
    ∀ (s1 s2 : PaletteState) (b : Buffers), (s1 = paletteInit ∨ s1 = filledPalette draw) →
      (s2 = paletteInit ∨ s2 = filledPalette draw) →
      (runCalls draw width height calls (s1, b)).map Prod.snd =
        (runCalls draw width height calls (s2, b)).map Prod.snd := by
  induction calls with
  | nil => intro s1 s2 b _ _; rfl
  | cons c rest ih =>
    intro s1 s2 b h1 h2
    cases c with
    | lines fuel points colors use_zbuffer =>
      simp only [runCalls, bind, Except.bind]
      cases rasterize_lines fuel points colors width height b use_zbuffer with
      | error e => rfl
      | ok b1 => exact ih s1 s2 b1 h1 h2
    | mesh positions indices color urc use_zbuffer show_zbuffer cull_behind cull_front =>
      obtain ⟨t1, ht1, e1⟩ := rasterize_mesh_static_eq draw positions indices color urc width
        height use_zbuffer show_zbuffer cull_behind cull_front s1 b h1
      obtain ⟨t2, ht2, e2⟩ := rasterize_mesh_static_eq draw positions indices color urc width
        height use_zbuffer show_zbuffer cull_behind cull_front s2 b h2
      simp only [runCalls, bind, Except.bind, e1, e2]
      cases rasterize_mesh (paletteColor draw) positions indices color urc width height b
        use_zbuffer show_zbuffer cull_behind cull_front with
      | error e => rfl
      | ok b1 => exact ih t1 t2 b1 ht1 ht2

/-- C18: `ex3::get_random_color` fills its table on the first call and never
changes it afterwards; after any two histories of requested indices it returns
for index `i` the same colour, entry `i % 1024` of the table, and any sequence
of `rasterize_lines` / `rasterize_mesh` calls run on the same buffers (such as
the freshly cleared ones) after the two histories yields the same colour and
depth buffers, or the same fault. -/
theorem frame_deterministic (draw : Nat → ℚ) (history1 history2 : List Nat) (i : Nat)
    (width height : Int) (calls : List DrawCall) (b : Buffers) :
    ∃ s1 s2, paletteRun draw history1 paletteInit = .ok s1 ∧
      paletteRun draw history2 paletteInit = .ok s2 ∧
      get_random_color draw s1 i = .ok (paletteColor draw i, filledPalette draw) ∧
      get_random_color draw s2 i = .ok (paletteColor draw i, filledPalette draw) ∧
      get_random_color draw (filledPalette draw) i =
        .ok (paletteColor draw i, filledPalette draw) ∧
      (runCalls draw width height calls (s1, b)).map Prod.snd =
        (runCalls draw width height calls (s2, b)).map Prod.snd ∧
      (runCalls draw width height calls (s1, clearedBuffers width height)).map Prod.snd =
        (runCalls draw width height calls (s2, clearedBuffers width height)).map Prod.snd := by
  obtain ⟨s1, e1, h1⟩ := paletteRun_reach draw history1 paletteInit (Or.inl rfl)
  obtain ⟨s2, e2, h2⟩ := paletteRun_reach draw history2 paletteInit (Or.inl rfl)
  exact ⟨s1, s2, e1, e2, get_random_color_reach draw s1 i h1, get_random_color_reach draw s2 i h2,
    get_random_color_filled draw i, runCalls_state_free draw width height calls s1 s2 b h1 h2,
    runCalls_state_free draw width height calls s1 s2 _ h1 h2⟩

/-! ## Termination and the parameter of the line traversal -/

theorem lineDone_step {s : LineSetup} {xs ys : Int} {st : LineState} {i j : Int}
    (g : LineGeom s xs ys) (inv : LineInv s xs ys st i j) (hd : lineDone s st = true) :
    st.step = s.steps := by
  obtain ⟨hi, hj⟩ := (lineDone_iff g inv).1 hd
  have hs := g.hsteps
  rcases le_or_lt s.dy s.dx with hle | hlt
  · have h1 := inv.hstepx hle
    rw [max_eq_left hle] at hs
    omega
  · have h1 := inv.hstepy hlt.le
    rw [max_eq_right hlt.le] at hs
    omega

/-- With fuel for the remaining steps the trace has one state per remaining
value of `step`, the state number `k` has made `k` more steps, and the last
state passes the exit test. -/
theorem lineTrace_spec {s : LineSetup} {xs ys : Int} (g : LineGeom s xs ys) (fuel : Nat) :
    ∀ (st : LineState) (i j : Int), LineInv s xs ys st i j →
      (s.steps - st.step).toNat < fuel →
      (lineTrace s fuel st).length = (s.steps - st.step).toNat + 1 ∧
      (∀ (k : Nat) (a : LineState), (lineTrace s fuel st)[k]? = some a →
        a.step = st.step + k) ∧
      ∃ last, (lineTrace s fuel st).getLast? = some last ∧ lineDone s last = true := by
  induction fuel with
  | zero => intro st i j _ h; omega
  | succ n ih =>
    intro st i j inv hfuel
    unfold lineTrace
    by_cases hd : lineDone s st = true
    · have hstep := lineDone_step g inv hd
      simp only [hd, if_true, List.length_singleton]
      refine ⟨by rw [hstep]; simp, ?_, st, rfl, hd⟩
      intro k a ha
      cases k with
      | zero =>
        simp only [List.getElem?_cons_zero, Option.some.injEq] at ha
        subst ha
        simp
      | succ k => simp at ha
    · have hd' : lineDone s st = false := by simpa using hd
      have hlt := lineInv_step_lt g inv hd'
      obtain ⟨hlen, hk, last, hlast, hdone⟩ := ih (lineAdvance s st) _ _
        (lineInv_advance g inv hd') (by rw [lineAdvance_step]; omega)
      rw [lineAdvance_step] at hlen hk
      simp only [hd', Bool.false_eq_true, if_false, List.length_cons, hlen]
      refine ⟨by omega, ?_, last, ?_, hdone⟩
      · intro k a ha
        cases k with
        | zero =>
          simp only [List.getElem?_cons_zero, Option.some.injEq] at ha
          subst ha
          simp
        | succ k =>
          simp only [List.getElem?_cons_succ] at ha
          rw [hk k a ha]
          push_cast
          ring
      · rw [List.getLast?_cons, hlast]
        rfl

theorem writeAt_fault {α : Type} {v : List α} {idx : Int} {a : α} {e : Fault}
    (h : writeAt v idx a = .error e) : e = .outOfBounds := by
  unfold writeAt at h
  split at h
  · simp at h
  · simp only [Except.error.injEq] at h
    exact h.symm

theorem readAt_fault {α : Type} {v : List α} {idx : Int} {e : Fault}
    (h : readAt v idx = .error e) : e = .outOfBounds := by
  unfold readAt readNat at h
  split at h
  · split at h
    · simp at h
    · simp only [Except.error.injEq] at h
      exact h.symm
  · simp only [Except.error.injEq] at h
    exact h.symm

/-- The guarded pixel write never reports missing fuel. -/
theorem linePlot_fault (width height : Int) (use_zbuffer : Bool) (color : Vec3) (x0 y0 : Int)
    (z : ℚ) (b : Buffers) :
    linePlot width height use_zbuffer color x0 y0 z b ≠ .error .outOfFuel := by
  unfold linePlot
  split
  · cases use_zbuffer
    · simp only [Bool.not_false, if_true, bind, Except.bind, pure, Except.pure]
      cases hw : writeAt b.image (y0 * width + x0) color with
      | error e => rw [writeAt_fault hw]; simp
      | ok v => simp
    · simp only [Bool.not_true, Bool.false_eq_true, if_false, bind, Except.bind, pure,
        Except.pure]
      cases hr : readAt b.zbuffer (y0 * width + x0) with
      | error e => rw [readAt_fault hr]; simp
      | ok d =>
        simp only
        split
        · cases hw : writeAt b.zbuffer (y0 * width + x0) z with
          | error e => rw [writeAt_fault hw]; simp
          | ok v =>
            simp only
            cases hw2 : writeAt b.image (y0 * width + x0) color with
            | error e => rw [writeAt_fault hw2]; simp
            | ok v2 => simp
        · simp
  · simp [pure, Except.pure]

/-- With fuel for the remaining steps the traversal loop reaches its exit test
or an out-of-range access; it never stops for lack of fuel. -/
theorem lineLoop_fault {width height : Int} (use_zbuffer : Bool) (color : Vec3)
    {s : LineSetup} {xs ys : Int} (g : LineGeom s xs ys) (fuel : Nat) :
    ∀ (st : LineState) (i j : Int) (b : Buffers), LineInv s xs ys st i j →
      (s.steps - st.step).toNat < fuel →
      lineLoop width height use_zbuffer color s fuel st b ≠ .error .outOfFuel := by
  induction fuel with
  | zero => intro st i j b _ h; omega
  | succ n ih =>
    intro st i j b inv hfuel
    unfold lineLoop
    have hp := linePlot_fault width height use_zbuffer color st.x0 st.y0 (lineDepth s st.step) b
    cases hplot : linePlot width height use_zbuffer color st.x0 st.y0 (lineDepth s st.step) b with
    | error e =>
      rw [hplot] at hp
      simpa [bind, Except.bind] using hp
    | ok b1 =>
      simp only [bind, Except.bind]
      by_cases hd : lineDone s st = true
      · simp [hd, pure, Except.pure]
      · have hd' : lineDone s st = false := by simpa using hd
        have hlt := lineInv_step_lt g inv hd'
        simp only [hd', Bool.false_eq_true, if_false]
        exact ih (lineAdvance s st) _ _ b1 (lineInv_advance g inv hd')
          (by rw [lineAdvance_step]; omega)

theorem readNat_fault {α : Type} {v : List α} {i : Nat} {e : Fault}
    (h : readNat v i = .error e) : e = .outOfBounds := by
  unfold readNat at h
  split at h
  · simp at h
  · simp only [Except.error.injEq] at h
    exact h.symm

theorem readNat_some {α : Type} {v : List α} {i : Nat} {a : α}
    (h : readNat v i = .ok a) : v[i]? = some a := by
  unfold readNat at h
  split at h
  · rename_i a' heq
    simp only [Except.ok.injEq] at h
    rw [heq, h]
  · simp at h

theorem lineSegment_fault (fuel : Nat) (points : List Vec4) (colors : List Vec3)
    (width height : Int) (use_zbuffer : Bool) (k : Nat) (b : Buffers)
    (hfuel : lineFuel width height points ≤ fuel) :
    lineSegment fuel points colors width height use_zbuffer (2 * k) b ≠ .error .outOfFuel := by
  unfold lineSegment
  cases h0 : readNat points (2 * k) with
  | error e => rw [readNat_fault h0]; simp [bind, Except.bind]
  | ok p0 =>
    cases h1 : readNat points (2 * k + 1) with
    | error e => rw [readNat_fault h1]; simp [bind, Except.bind]
    | ok p1 =>
      cases hc : readNat colors (2 * k / 2) with
      | error e => rw [readNat_fault hc]; simp [bind, Except.bind]
      | ok c =>
        simp only [bind, Except.bind]
        have hf := lineFuel_spec width height points k p0 p1 (readNat_some h0) (readNat_some h1)
        exact lineLoop_fault use_zbuffer c (lineSetup_geom width height p0 p1) fuel _ 0 0 b
          (lineSetup_inv width height p0 p1) (by rw [lineSetup_step]; simp; omega)

theorem foldlM_fault {α β : Type} (f : β → α → Except Fault β) (l : List α)
    (h : ∀ b a, a ∈ l → f b a ≠ .error .outOfFuel) :
    ∀ b, l.foldlM f b ≠ .error .outOfFuel := by
  induction l with
  | nil => intro b; simp [pure, Except.pure]
  | cons a rest ih =>
    intro b
    rw [List.foldlM_cons]
    cases hf : f b a with
    | error e =>
      have := h b a (List.mem_cons_self _ _)
      rw [hf] at this
      simpa [bind, Except.bind] using this
    | ok b1 =>
      simp only [bind, Except.bind]
      exact ih (fun b a ha => h b a (List.mem_cons_of_mem _ ha)) b1

/-- With fuel `lineFuel` a call of `rasterize_lines` never stops for lack of
fuel, whatever the buffers and colours are. -/
theorem rasterize_lines_fault (fuel : Nat) (points : List Vec4) (colors : List Vec3)
    (width height : Int) (b : Buffers) (use_zbuffer : Bool)
    (hfuel : lineFuel width height points ≤ fuel) :
    rasterize_lines fuel points colors width height b use_zbuffer ≠ .error .outOfFuel := by
  unfold rasterize_lines
  exact foldlM_fault _ _
    (fun b k _ => lineSegment_fault fuel points colors width height use_zbuffer k b hfuel) b

/-- C21: for all integer start and end pixels the `while (true)` loop of
`rasterize_lines` stops after `max(dx, dy) + 1` visits - with that much fuel
or more it never runs out of fuel, on buffers of the target's size it
returns - and the last pixel it visits is `(x1, y1)`.  Hence a call of
`rasterize_lines` never runs out of fuel `lineFuel` (or more), and returns for
an even-length point list with one colour per segment on buffers of the
target's size. -/
theorem line_terminates (x0 y0 x1 y1 : Int) (z0 z1 : ℚ) (extra : Nat) :
    (∃ last, (lineTrace (lineSetupInt x0 y0 x1 y1 z0 z1).1
        ((lineSetupInt x0 y0 x1 y1 z0 z1).1.steps.toNat + 1 + extra)
        (lineSetupInt x0 y0 x1 y1 z0 z1).2).getLast? = some last ∧
      last.x0 = x1 ∧ last.y0 = y1) ∧
    (lineTrace (lineSetupInt x0 y0 x1 y1 z0 z1).1
        ((lineSetupInt x0 y0 x1 y1 z0 z1).1.steps.toNat + 1 + extra)
        (lineSetupInt x0 y0 x1 y1 z0 z1).2).length = (max |x1 - x0| |y1 - y0|).toNat + 1 ∧
    (∀ (width height : Int) (use_zbuffer : Bool) (color : Vec3) (b : Buffers),
      lineLoop width height use_zbuffer color (lineSetupInt x0 y0 x1 y1 z0 z1).1
        ((lineSetupInt x0 y0 x1 y1 z0 z1).1.steps.toNat + 1 + extra)
        (lineSetupInt x0 y0 x1 y1 z0 z1).2 b ≠ .error .outOfFuel) ∧
    (∀ (width height : Int) (use_zbuffer : Bool) (color : Vec3) (b : Buffers),
      Sized width height b →
      ∃ b', lineLoop width height use_zbuffer color (lineSetupInt x0 y0 x1 y1 z0 z1).1
        ((lineSetupInt x0 y0 x1 y1 z0 z1).1.steps.toNat + 1 + extra)
        (lineSetupInt x0 y0 x1 y1 z0 z1).2 b = .ok b') ∧
    (∀ (points : List Vec4) (colors : List Vec3) (width height : Int) (b : Buffers)
        (use_zbuffer : Bool),
      rasterize_lines (lineFuel width height points + extra) points colors width height b
        use_zbuffer ≠ .error .outOfFuel) ∧
    (∀ (points : List Vec4) (colors : List Vec3) (width height : Int) (b : Buffers)
        (use_zbuffer : Bool),
      points.length % 2 = 0 → colors.length = points.length / 2 → Sized width height b →
      ∃ b', rasterize_lines (lineFuel width height points + extra) points colors width height b
        use_zbuffer = .ok b') := by
  have g := lineSetupInt_geom x0 y0 x1 y1 z0 z1
  have inv := lineSetupInt_inv x0 y0 x1 y1 z0 z1
  have hstep : (lineSetupInt x0 y0 x1 y1 z0 z1).2.step = 0 := rfl
  have hfuel : ((lineSetupInt x0 y0 x1 y1 z0 z1).1.steps -
      (lineSetupInt x0 y0 x1 y1 z0 z1).2.step).toNat <
      (lineSetupInt x0 y0 x1 y1 z0 z1).1.steps.toNat + 1 + extra := by
    rw [hstep, sub_zero]
    omega
  obtain ⟨hlen, _, last, hlast, hdone⟩ := lineTrace_spec g _ _ 0 0 inv hfuel
  refine ⟨⟨last, hlast, ?_⟩, ?_, ?_, ?_, ?_, ?_⟩
  · have hd : last.x0 = (lineSetupInt x0 y0 x1 y1 z0 z1).1.x1 ∧
        last.y0 = (lineSetupInt x0 y0 x1 y1 z0 z1).1.y1 := by
      simpa [lineDone] using hdone
    exact hd
  · rw [hlen, hstep, sub_zero]
    rfl
  · intro width height use_zbuffer color b
    exact lineLoop_fault use_zbuffer color g _ _ 0 0 b inv hfuel
  · intro width height use_zbuffer color b hb
    exact ⟨_, lineLoop_eq use_zbuffer color g _ _ 0 0 b inv hb hfuel⟩
  · intro points colors width height b use_zbuffer
    exact rasterize_lines_fault _ points colors width height b use_zbuffer (Nat.le_add_right _ _)
  · intro points colors width height b use_zbuffer heven hcol hb
    exact ⟨_, rasterize_lines_eq use_zbuffer _ points colors heven hcol hb
      (Nat.le_add_right _ _)⟩

/-- C21 for the segment from pixel `(0,0)` to pixel `(3,1)` in a cleared
`4 × 2` target. -/
theorem line_terminates_witness :
    (∃ last, (lineTrace (lineSetupInt 0 0 3 1 0 0).1
        ((lineSetupInt 0 0 3 1 0 0).1.steps.toNat + 1 + 0)
        (lineSetupInt 0 0 3 1 0 0).2).getLast? = some last ∧ last.x0 = 3 ∧ last.y0 = 1) ∧
    ∃ b', lineLoop 4 2 true ⟨1, 1, 1⟩ (lineSetupInt 0 0 3 1 0 0).1
        ((lineSetupInt 0 0 3 1 0 0).1.steps.toNat + 1 + 0)
        (lineSetupInt 0 0 3 1 0 0).2 (clearedBuffers 4 2) = .ok b' :=
  ⟨(line_terminates 0 0 3 1 0 0 0).1,
    (line_terminates 0 0 3 1 0 0 0).2.2.2.1 4 2 true ⟨1, 1, 1⟩ (clearedBuffers 4 2)
      (clearedBuffers_sized 4 2 (by decide))⟩

/-- C24: for integer end points with `steps = max(dx, dy) > 0` the traversal
visits `steps + 1` pixels; the visit number `k` (`k = 0..steps`) has
`step = k`, lies `k` pixels from the start along the dominant axis, and gets
the depth `(1 - t) * z0 + t * z1` with `t = k / steps`: the first visit gets
`z0`, the last one `z1`. -/
theorem line_parameter (x0 y0 x1 y1 : Int) (z0 z1 : ℚ) (extra : Nat)
    (hsteps : 0 < max |x1 - x0| |y1 - y0|) :
    (lineTrace (lineSetupInt x0 y0 x1 y1 z0 z1).1
        ((max |x1 - x0| |y1 - y0|).toNat + 1 + extra)
        (lineSetupInt x0 y0 x1 y1 z0 z1).2).length = (max |x1 - x0| |y1 - y0|).toNat + 1 ∧
    (∀ k : Nat, (k : Int) ≤ max |x1 - x0| |y1 - y0| →
      ∃ a, (lineTrace (lineSetupInt x0 y0 x1 y1 z0 z1).1
          ((max |x1 - x0| |y1 - y0|).toNat + 1 + extra)
          (lineSetupInt x0 y0 x1 y1 z0 z1).2)[k]? = some a ∧
        a.step = k ∧
        (|y1 - y0| ≤ |x1 - x0| → a.x0 = x0 + (if x0 < x1 then 1 else -1) * k) ∧
        (|x1 - x0| ≤ |y1 - y0| → a.y0 = y0 + (if y0 < y1 then 1 else -1) * k) ∧
        lineDepth (lineSetupInt x0 y0 x1 y1 z0 z1).1 a.step =
          (1 - (k : ℚ) / ((max |x1 - x0| |y1 - y0| : Int) : ℚ)) * z0 +
            (k : ℚ) / ((max |x1 - x0| |y1 - y0| : Int) : ℚ) * z1) ∧
    lineDepth (lineSetupInt x0 y0 x1 y1 z0 z1).1 0 = z0 ∧
    lineDepth (lineSetupInt x0 y0 x1 y1 z0 z1).1 (max |x1 - x0| |y1 - y0|) = z1 := by
  have g := lineSetupInt_geom x0 y0 x1 y1 z0 z1
  have inv := lineSetupInt_inv x0 y0 x1 y1 z0 z1
  have hst : (lineSetupInt x0 y0 x1 y1 z0 z1).1.steps = max |x1 - x0| |y1 - y0| := rfl
  have hstep : (lineSetupInt x0 y0 x1 y1 z0 z1).2.step = 0 := rfl
  have hfuel : ((lineSetupInt x0 y0 x1 y1 z0 z1).1.steps -
      (lineSetupInt x0 y0 x1 y1 z0 z1).2.step).toNat <
      (max |x1 - x0| |y1 - y0|).toNat + 1 + extra := by
    rw [hstep, sub_zero, hst]
    omega
  obtain ⟨hlen, hk, -⟩ := lineTrace_spec g _ _ 0 0 inv hfuel
  rw [hstep, sub_zero, hst] at hlen
  have hne : ((max |x1 - x0| |y1 - y0| : Int) : ℚ) ≠ 0 := by
    have : (0 : ℚ) < ((max |x1 - x0| |y1 - y0| : Int) : ℚ) := by exact_mod_cast hsteps
    exact ne_of_gt this
  have hne' : max |x1 - x0| |y1 - y0| ≠ 0 := ne_of_gt hsteps
  refine ⟨hlen, ?_, ?_, ?_⟩
  · intro k hkle
    have hlt : k < (lineTrace (lineSetupInt x0 y0 x1 y1 z0 z1).1
        ((max |x1 - x0| |y1 - y0|).toNat + 1 + extra)
        (lineSetupInt x0 y0 x1 y1 z0 z1).2).length := by
      rw [hlen]
      omega
    obtain ⟨a, ha⟩ := getElem?_of_lt _ _ hlt
    have hak : a.step = k := by
      have := hk k a ha
      rw [hstep] at this
      simpa using this
    obtain ⟨i', j', inv'⟩ := lineTrace_inv g _ _ 0 0 inv a (List.getElem?_mem ha)
    refine ⟨a, ha, hak, ?_, ?_, ?_⟩
    · intro hdom
      have h1 := inv'.hstepx hdom
      have h2 := inv'.hx
      rw [← h1, hak] at h2
      exact h2
    · intro hdom
      have h1 := inv'.hstepy hdom
      have h2 := inv'.hy
      rw [← h1, hak] at h2
      exact h2
    · rw [hak]
      simp only [lineDepth, hst, hne', if_false, Int.cast_natCast]
      rfl
  · simp only [lineDepth, hst, hne', if_false, Int.cast_zero, zero_div]
    show (1 - 0) * z0 + 0 * z1 = z0
    ring
  · simp only [lineDepth, hst, hne', if_false, div_self hne]
    show (1 - 1) * z0 + 1 * z1 = z1
    ring

/-- C24 for the segment from pixel `(0,0)` at depth `-1` to pixel `(3,1)` at
depth `1`: four visits, the first at depth `-1`, the last at depth `1`. -/
theorem line_parameter_witness :
    (0 : Int) < max |3 - 0| |1 - 0| ∧
    (lineTrace (lineSetupInt 0 0 3 1 (-1) 1).1 ((max |(3 : Int) - 0| |1 - 0|).toNat + 1 + 0)
        (lineSetupInt 0 0 3 1 (-1) 1).2).length = (max |(3 : Int) - 0| |1 - 0|).toNat + 1 ∧
    lineDepth (lineSetupInt 0 0 3 1 (-1) 1).1 0 = -1 ∧
    lineDepth (lineSetupInt 0 0 3 1 (-1) 1).1 (max |3 - 0| |1 - 0|) = 1 :=
  ⟨by decide, (line_parameter 0 0 3 1 (-1) 1 0 (by decide)).1,
    (line_parameter 0 0 3 1 (-1) 1 0 (by decide)).2.2.1,
    (line_parameter 0 0 3 1 (-1) 1 0 (by decide)).2.2.2⟩

/-! ## Buffer accesses of the triangle rasterizer -/

/-- On buffers of the target's size and with every triangle index inside the
position buffer, `rasterize_mesh` returns buffers of the target's size. -/
theorem rasterize_mesh_ok {width height : Int} (palette : Nat → Vec3) (positions : List Vec4)
    (indices : List U32Vec3) (color : Vec3) (urc uz sz cb cf : Bool) {b : Buffers}
    (hb : Sized width height b) (hvalid : ∀ t ∈ indices, ValidTri positions t) :
    ∃ b', rasterize_mesh palette positions indices color urc width height b uz sz cb cf =
        .ok b' ∧ Sized width height b' := by
  obtain ⟨b1, e1, s1, -⟩ := meshLoop_run palette positions color urc uz sz cb cf indices
    hvalid 0 hb
  unfold rasterize_mesh
  simp only [e1, bind, Except.bind]
  cases sz
  · exact ⟨b1, rfl, s1⟩
  · simp only [if_true, depthPass_eq s1]
    exact ⟨_, rfl, foldl_applyFrag_sized _ _ _ _ s1⟩

theorem access_fault {α : Type} (v : List α) (idx : Int)
    (h : idx < 0 ∨ (v.length : Int) ≤ idx) :
    readAt v idx = .error .outOfBounds ∧ ∀ a : α, writeAt v idx a = .error .outOfBounds := by
  constructor
  · unfold readAt readNat
    split
    · have hn : v[idx.toNat]? = none := by
        rw [List.getElem?_eq_none_iff]
        omega
      rw [hn]
    · rfl
  · intro a
    unfold writeAt
    rw [if_neg]
    omega

/-- C25: on colour and depth buffers of `width * height` entries and with every
triangle index inside the position buffer, `rasterize_mesh` returns without an
out-of-range access (in the model every access outside a buffer is a fault),
for arbitrary vertex coordinates: the pixels `(x, y)` of the clamped bounding
box lie in `[0, width-1] × [0, height-1]`, so the index `y * width + x` of
every fill access and of every access of the depth-visualization pass lies in
`[0, width * height)`. -/
theorem mesh_access_bounds (palette : Nat → Vec3) (positions : List Vec4)
    (indices : List U32Vec3) (color : Vec3) (urc : Bool) (width height : Int) (b : Buffers)
    (uz sz cb cf : Bool) (hb : Sized width height b)
    (hvalid : ∀ t ∈ indices, ValidTri positions t) :
    (∃ b', rasterize_mesh palette positions indices color urc width height b uz sz cb cf =
        .ok b' ∧ Sized width height b') ∧
    (∀ (p0 p1 p2 : Vec2) (x y : Int),
      x ∈ intRange (boundingBox width height p0 p1 p2).1
        (boundingBox width height p0 p1 p2).2.1 →
      y ∈ intRange (boundingBox width height p0 p1 p2).2.2.1
        (boundingBox width height p0 p1 p2).2.2.2 →
      (0 ≤ x ∧ x < width ∧ 0 ≤ y ∧ y < height) ∧
        0 ≤ y * width + x ∧ y * width + x < width * height) ∧
    (∀ (c : Vec3) (q0 q1 q2 : Vec4), ∀ f ∈ fillFrags width height c q0 q1 q2,
      (f.idx : Int) < width * height) ∧
    (∀ (zb : List ℚ), ∀ f ∈ depthFrags width height zb, (f.idx : Int) < width * height) ∧
    (∀ (idx : Int), idx < 0 ∨ width * height ≤ idx →
      readAt b.zbuffer idx = .error .outOfBounds ∧
      (∀ a : ℚ, writeAt b.zbuffer idx a = .error .outOfBounds) ∧
      ∀ a : Vec3, writeAt b.image idx a = .error .outOfBounds) := by
  refine ⟨rasterize_mesh_ok palette positions indices color urc uz sz cb cf hb hvalid,
    ?_, ?_, ?_, ?_⟩
  · intro p0 p1 p2 x y hx hy
    have h := box_in_viewport p0 p1 p2 hx hy
    exact ⟨h, pixel_index_bounds h.1 h.2.1 h.2.2.1 h.2.2.2⟩
  · intro c q0 q1 q2 f hf
    have := fillFrags_idx_lt hb f hf
    have h1 := hb.1
    omega
  · intro zb f hf
    obtain ⟨x, y, hx0, hx, hy0, hy, rfl⟩ := depthFrags_mem hf
    have := pixel_index_bounds hx0 hx hy0 hy
    show (((y * width + x).toNat : Nat) : Int) < width * height
    omega
  · intro idx hidx
    have h1 := hb.1
    have h2 := hb.2
    exact ⟨(access_fault b.zbuffer idx (by omega)).1, (access_fault b.zbuffer idx (by omega)).2,
      (access_fault b.image idx (by omega)).2⟩

/-- C25 for a triangle with vertices far outside a cleared `3 × 3` target. -/
theorem mesh_access_bounds_witness :
    ∃ b', rasterize_mesh (fun _ => ⟨0, 0, 0⟩)
        [⟨-1000, -1000, 0, 1⟩, ⟨1000, -1000, 0, 1⟩, ⟨-1000, 1000, 0, 1⟩] [⟨0, 1, 2⟩]
        ⟨1, 1, 1⟩ false 3 3 (clearedBuffers 3 3) true true false false = .ok b' ∧
      Sized 3 3 b' :=
  (mesh_access_bounds (fun _ => ⟨0, 0, 0⟩)
    [⟨-1000, -1000, 0, 1⟩, ⟨1000, -1000, 0, 1⟩, ⟨-1000, 1000, 0, 1⟩] [⟨0, 1, 2⟩]
    ⟨1, 1, 1⟩ false 3 3 (clearedBuffers 3 3) true true false false
    (clearedBuffers_sized 3 3 (by decide))
    (by
      intro t ht
      rw [List.mem_singleton] at ht
      subst ht
      exact ⟨by decide, by decide, by decide⟩)).1

/-! ## The depth range -/

theorem writeAt_mem {α : Type} {v v' : List α} {idx : Int} {a : α}
    (h : writeAt v idx a = .ok v') : ∀ d ∈ v', d = a ∨ d ∈ v := by
  unfold writeAt at h
  split at h
  · simp only [Except.ok.injEq] at h
    subst h
    intro d hd
    exact (List.mem_or_eq_of_mem_set hd).symm
  · simp at h

theorem writeAt_range {v v' : List ℚ} {idx : Int} {z : ℚ}
    (h : writeAt v idx z = .ok v') (hz : -1 ≤ z ∧ z ≤ 1)
    (hv : ∀ d ∈ v, -1 ≤ d ∧ d ≤ 1) : ∀ d ∈ v', -1 ≤ d ∧ d ≤ 1 := by
  intro d hd
  rcases writeAt_mem h d hd with rfl | hmem
  · exact hz
  · exact hv d hmem

theorem foldlM_inv {α β : Type} (P : β → Prop) (f : β → α → Except Fault β) (l : List α)
    (h : ∀ b a b', a ∈ l → f b a = .ok b' → P b → P b') :
    ∀ b b', l.foldlM f b = .ok b' → P b → P b' := by
  induction l with
  | nil =>
    intro b b' hr hb
    simp only [List.foldlM_nil, pure, Except.pure, Except.ok.injEq] at hr
    exact hr ▸ hb
  | cons a rest ih =>
    intro b b' hr hb
    rw [List.foldlM_cons] at hr
    cases hf : f b a with
    | error e => simp [hf, bind, Except.bind] at hr
    | ok b1 =>
      simp only [hf, bind, Except.bind] at hr
      exact ih (fun b a b' ha => h b a b' (List.mem_cons_of_mem _ ha)) b1 b' hr
        (h b a b1 (List.mem_cons_self _ _) hf hb)

/-- The guarded pixel write of the line rasterizer keeps the depth range. -/
theorem linePlot_range {width height : Int} {use_zbuffer : Bool} {color : Vec3} {x0 y0 : Int}
    {z : ℚ} {b b' : Buffers}
    (h : linePlot width height use_zbuffer color x0 y0 z b = .ok b') (hb : DepthInRange b) :
    DepthInRange b' := by
  unfold linePlot at h
  split at h
  · rename_i hg
    cases use_zbuffer
    · simp only [Bool.not_false, if_true, bind, Except.bind, pure, Except.pure] at h
      cases hw : writeAt b.image (y0 * width + x0) color with
      | error e => simp [hw] at h
      | ok v =>
        simp only [hw, Except.ok.injEq] at h
        subst h
        exact hb
    · simp only [Bool.not_true, Bool.false_eq_true, if_false, bind, Except.bind, pure,
        Except.pure] at h
      cases hr : readAt b.zbuffer (y0 * width + x0) with
      | error e => simp [hr] at h
      | ok d =>
        simp only [hr] at h
        split at h
        · cases hw : writeAt b.zbuffer (y0 * width + x0) z with
          | error e => simp [hw] at h
          | ok v =>
            simp only [hw] at h
            cases hw2 : writeAt b.image (y0 * width + x0) color with
            | error e => simp [hw2] at h
            | ok v2 =>
              simp only [hw2, Except.ok.injEq] at h
              subst h
              exact writeAt_range hw ⟨hg.2.2.2.2.1, hg.2.2.2.2.2⟩ hb
        · simp only [Except.ok.injEq] at h
          subst h
          exact hb
  · simp only [pure, Except.pure, Except.ok.injEq] at h
    subst h
    exact hb

theorem lineLoop_range {width height : Int} {use_zbuffer : Bool} {color : Vec3}
    {s : LineSetup} (fuel : Nat) :
    ∀ (st : LineState) (b b' : Buffers),
      lineLoop width height use_zbuffer color s fuel st b = .ok b' → DepthInRange b →
      DepthInRange b' := by
  induction fuel with
  | zero => intro st b b' h; simp [lineLoop] at h
  | succ n ih =>
    intro st b b' h hb
    unfold lineLoop at h
    cases hp : linePlot width height use_zbuffer color st.x0 st.y0 (lineDepth s st.step) b with
    | error e => simp [hp, bind, Except.bind] at h
    | ok b1 =>
      have hb1 := linePlot_range hp hb
      simp only [hp, bind, Except.bind] at h
      split at h
      · simp only [pure, Except.pure, Except.ok.injEq] at h
        exact h ▸ hb1
      · exact ih _ b1 b' h hb1

theorem lineSegment_range {fuel : Nat} {points : List Vec4} {colors : List Vec3}
    {width height : Int} {use_zbuffer : Bool} {i : Nat} {b b' : Buffers}
    (h : lineSegment fuel points colors width height use_zbuffer i b = .ok b')
    (hb : DepthInRange b) : DepthInRange b' := by
  unfold lineSegment at h
  cases h0 : readNat points i with
  | error e => simp [h0, bind, Except.bind] at h
  | ok p0 =>
    cases h1 : readNat points (i + 1) with
    | error e => simp [h0, h1, bind, Except.bind] at h
    | ok p1 =>
      cases hc : readNat colors (i / 2) with
      | error e => simp [h0, h1, hc, bind, Except.bind] at h
      | ok c =>
        simp only [h0, h1, hc, bind, Except.bind] at h
        exact lineLoop_range fuel _ b b' h hb

/-- A call of `rasterize_lines` that returns keeps the depth range. -/
theorem rasterize_lines_range {fuel : Nat} {points : List Vec4} {colors : List Vec3}
    {width height : Int} {use_zbuffer : Bool} {b b' : Buffers}
    (h : rasterize_lines fuel points colors width height b use_zbuffer = .ok b')
    (hb : DepthInRange b) : DepthInRange b' := by
  unfold rasterize_lines at h
  exact foldlM_inv DepthInRange _ _ (fun b k b' _ hs hb => lineSegment_range hs hb) b b' h hb

/-- The body of the inner pixel loop keeps the depth range. -/
theorem meshFragment_range {width : Int} {use_zbuffer show_zbuffer : Bool} {tri_color : Vec3}
    {p0 p1 p2 : Vec2} {z0 z1 z2 : ℚ} {x y : Int} {b b' : Buffers}
    (h : meshFragment width use_zbuffer show_zbuffer tri_color p0 p1 p2 z0 z1 z2 x y b =
      .ok b') (hb : DepthInRange b) : DepthInRange b' := by
  unfold meshFragment at h
  split at h
  · simp only at h
    split at h
    · simp only [pure, Except.pure, Except.ok.injEq] at h
      exact h ▸ hb
    · rename_i hz
      have hzr : -1 ≤ meshDepth p0 p1 p2 z0 z1 z2 x y ∧ meshDepth p0 p1 p2 z0 z1 z2 x y ≤ 1 := by
        constructor
        · by_contra hc
          exact hz (Or.inl (lt_of_not_le hc))
        · by_contra hc
          exact hz (Or.inr (lt_of_not_le hc))
      have key : ∀ (pass : Bool),
          (if pass = true then (do
              let zb ← writeAt b.zbuffer (y * width + x) (meshDepth p0 p1 p2 z0 z1 z2 x y)
              if (!show_zbuffer) = true then do
                let image ← writeAt b.image (y * width + x) tri_color
                pure { image := image, zbuffer := zb }
              else pure { b with zbuffer := zb })
            else (pure b : Except Fault Buffers)) = .ok b' → DepthInRange b' := by
        intro pass hp
        cases pass
        · simp only [Bool.false_eq_true, if_false, pure, Except.pure, Except.ok.injEq] at hp
          exact hp ▸ hb
        · simp only [if_true, bind, Except.bind] at hp
          cases hw : writeAt b.zbuffer (y * width + x) (meshDepth p0 p1 p2 z0 z1 z2 x y) with
          | error e => simp [hw] at hp
          | ok zb =>
            have hzb := writeAt_range hw hzr hb
            simp only [hw] at hp
            split at hp
            · cases hw2 : writeAt b.image (y * width + x) tri_color with
              | error e => simp [hw2] at hp
              | ok im =>
                simp only [hw2, pure, Except.pure, Except.ok.injEq] at hp
                subst hp
                exact hzb
            · simp only [pure, Except.pure, Except.ok.injEq] at hp
              subst hp
              exact hzb
      cases use_zbuffer
      · simp only [Bool.not_false, if_true, bind, Except.bind, pure, Except.pure] at h
        exact key true (by simpa [bind, Except.bind, pure, Except.pure] using h)
      · simp only [Bool.not_true, Bool.false_eq_true, if_false, bind, Except.bind, pure,
          Except.pure] at h
        cases hr : readAt b.zbuffer (y * width + x) with
        | error e => simp [hr] at h
        | ok d =>
          simp only [hr] at h
          exact key (decide (meshDepth p0 p1 p2 z0 z1 z2 x y < d))
            (by simpa [bind, Except.bind, pure, Except.pure] using h)
  · simp only [pure, Except.pure, Except.ok.injEq] at h
    exact h ▸ hb

theorem meshFill_range {width height : Int} {use_zbuffer show_zbuffer : Bool}
    {tri_color : Vec3} {p0_ndc p1_ndc p2_ndc : Vec4} {b b' : Buffers}
    (h : meshFill width height use_zbuffer show_zbuffer tri_color p0_ndc p1_ndc p2_ndc b =
      .ok b') (hb : DepthInRange b) : DepthInRange b' := by
  unfold meshFill at h
  simp only at h
  split at h
  · simp only [pure, Except.pure, Except.ok.injEq] at h
    exact h ▸ hb
  · exact foldlM_inv DepthInRange _ _
      (fun b y b' _ hrow hb0 => foldlM_inv DepthInRange _ _
        (fun b x b' _ hpix hb1 => meshFragment_range hpix hb1) b b' hrow hb0) b b' h hb

theorem meshTriangle_range {palette : Nat → Vec3} {positions : List Vec4} {color : Vec3}
    {urc : Bool} {width height : Int} {uz sz cb cf : Bool} {i : Nat} {tri : U32Vec3}
    {b b' : Buffers}
    (h : meshTriangle palette positions color urc width height uz sz cb cf i tri b = .ok b')
    (hb : DepthInRange b) : DepthInRange b' := by
  unfold meshTriangle at h
  cases h0 : readNat positions tri.x with
  | error e => simp [h0, bind, Except.bind] at h
  | ok p0 =>
    cases h1 : readNat positions tri.y with
    | error e => simp [h0, h1, bind, Except.bind] at h
    | ok p1 =>
      cases h2 : readNat positions tri.z with
      | error e => simp [h0, h1, h2, bind, Except.bind] at h
      | ok p2 =>
        simp only [h0, h1, h2, bind, Except.bind] at h
        split at h
        · simp only [pure, Except.pure, Except.ok.injEq] at h
          exact h ▸ hb
        · split at h
          · simp only [pure, Except.pure, Except.ok.injEq] at h
            exact h ▸ hb
          · exact meshFill_range h hb

theorem meshLoop_range {palette : Nat → Vec3} {positions : List Vec4} {color : Vec3}
    {urc : Bool} {width height : Int} {uz sz cb cf : Bool} (l : List U32Vec3) :
    ∀ (i : Nat) (b b' : Buffers),
      meshLoop palette positions color urc width height uz sz cb cf i l b = .ok b' →
      DepthInRange b → DepthInRange b' := by
  induction l with
  | nil =>
    intro i b b' h hb
    simp only [meshLoop, pure, Except.pure, Except.ok.injEq] at h
    exact h ▸ hb
  | cons tri rest ih =>
    intro i b b' h hb
    unfold meshLoop at h
    cases ht : meshTriangle palette positions color urc width height uz sz cb cf i tri b with
    | error e => simp [ht, bind, Except.bind] at h
    | ok b1 =>
      simp only [ht, bind, Except.bind] at h
      exact ih (i + 1) b1 b' h (meshTriangle_range ht hb)

theorem depthPixel_range {width : Int} {x y : Int} {b b' : Buffers}
    (h : depthPixel width x y b = .ok b') (hb : DepthInRange b) : DepthInRange b' := by
  unfold depthPixel at h
  cases hr : readAt b.zbuffer (y * width + x) with
  | error e => simp [hr, bind, Except.bind] at h
  | ok z =>
    simp only [hr, bind, Except.bind] at h
    split at h
    · simp at h
    · simp only [pure, Except.pure, Except.ok.injEq] at h
      subst h
      exact hb

theorem depthPass_range {width height : Int} {b b' : Buffers}
    (h : depthPass width height b = .ok b') (hb : DepthInRange b) : DepthInRange b' := by
  unfold depthPass at h
  exact foldlM_inv DepthInRange _ _
    (fun b y b' _ hrow hb0 => foldlM_inv DepthInRange _ _
      (fun b x b' _ hpix hb1 => depthPixel_range hpix hb1) b b' hrow hb0) b b' h hb

/-- A call of `rasterize_mesh` that returns keeps the depth range. -/
theorem rasterize_mesh_range {palette : Nat → Vec3} {positions : List Vec4}
    {indices : List U32Vec3} {color : Vec3} {urc : Bool} {width height : Int}
    {uz sz cb cf : Bool} {b b' : Buffers}
    (h : rasterize_mesh palette positions indices color urc width height b uz sz cb cf =
      .ok b') (hb : DepthInRange b) : DepthInRange b' := by
  unfold rasterize_mesh at h
  cases hl : meshLoop palette positions color urc width height uz sz cb cf 0 indices b with
  | error e => simp [hl, bind, Except.bind] at h
  | ok b1 =>
    have hb1 := meshLoop_range indices 0 b b1 hl hb
    simp only [hl, bind, Except.bind] at h
    split at h
    · exact depthPass_range h hb1
    · simp only [pure, Except.pure, Except.ok.injEq] at h
      exact h ▸ hb1

theorem clamp_in_range (d : ℚ) (h : -1 ≤ d ∧ d ≤ 1) :
    clamp (1 - (d + 1) / 2) 0 1 = 1 - (d + 1) / 2 := by
  unfold clamp
  rw [max_eq_left (by linarith [h.1, h.2]), min_eq_left (by linarith [h.1, h.2])]

theorem clearedBuffers_range (width height : Int) : DepthInRange (clearedBuffers width height) := by
  intro d hd
  have := (List.mem_replicate.1 hd).2
  subst this
  constructor <;> norm_num

/-- The depth-range invariant in exact arithmetic, where every depth is a
number: if every depth-buffer entry lies in `[-1, 1]` before a call of
`rasterize_lines` or `rasterize_mesh`, then for all rational inputs and all
flags every entry lies in `[-1, 1]` when the call returns (and it returns on
buffers of the target's size for well-formed input); a sample whose
interpolated depth is outside `[-1, 1]` leaves the buffers as they are, and on
the resulting depths the clamp of the depth visualization is the identity.
In binary32 the guard of `rasterize_mesh` lets a NaN depth through. -/
theorem depth_range_invariant (b : Buffers) (hz : DepthInRange b) :
    (∀ (fuel : Nat) (points : List Vec4) (colors : List Vec3) (width height : Int)
        (uz : Bool) (b' : Buffers),
      rasterize_lines fuel points colors width height b uz = .ok b' → DepthInRange b') ∧
    (∀ (palette : Nat → Vec3) (positions : List Vec4) (indices : List U32Vec3) (color : Vec3)
        (urc : Bool) (width height : Int) (uz sz cb cf : Bool) (b' : Buffers),
      rasterize_mesh palette positions indices color urc width height b uz sz cb cf = .ok b' →
      DepthInRange b' ∧
        ∀ d ∈ b'.zbuffer, clamp (1 - (d + 1) / 2) 0 1 = 1 - (d + 1) / 2) ∧
    (∀ (fuel : Nat) (points : List Vec4) (colors : List Vec3) (width height : Int)
        (uz : Bool), Sized width height b → points.length % 2 = 0 →
      colors.length = points.length / 2 → lineFuel width height points ≤ fuel →
      ∃ b', rasterize_lines fuel points colors width height b uz = .ok b' ∧
        DepthInRange b') ∧
    (∀ (palette : Nat → Vec3) (positions : List Vec4) (indices : List U32Vec3) (color : Vec3)
        (urc : Bool) (width height : Int) (uz sz cb cf : Bool), Sized width height b →
      (∀ t ∈ indices, ValidTri positions t) →
      ∃ b', rasterize_mesh palette positions indices color urc width height b uz sz cb cf =
          .ok b' ∧ DepthInRange b') ∧
    (∀ (width height : Int) (uz : Bool) (color : Vec3) (x y : Int) (z : ℚ) (b0 : Buffers),
      z < -1 ∨ 1 < z → linePlot width height uz color x y z b0 = .ok b0) ∧
    (∀ (width : Int) (uz sz : Bool) (c : Vec3) (p0 p1 p2 : Vec2) (z0 z1 z2 : ℚ) (x y : Int)
        (b0 : Buffers),
      meshDepth p0 p1 p2 z0 z1 z2 x y < -1 ∨ meshDepth p0 p1 p2 z0 z1 z2 x y > 1 →
      meshFragment width uz sz c p0 p1 p2 z0 z1 z2 x y b0 = .ok b0) := by
  refine ⟨?_, ?_, ?_, ?_, ?_, ?_⟩
  · intro fuel points colors width height uz b' h
    exact rasterize_lines_range h hz
  · intro palette positions indices color urc width height uz sz cb cf b' h
    have hr := rasterize_mesh_range h hz
    exact ⟨hr, fun d hd => clamp_in_range d (hr d hd)⟩
  · intro fuel points colors width height uz hb heven hcol hfuel
    have e := rasterize_lines_eq uz fuel points colors heven hcol hb hfuel
    exact ⟨_, e, rasterize_lines_range e hz⟩
  · intro palette positions indices color urc width height uz sz cb cf hb hvalid
    obtain ⟨b', e, -⟩ := rasterize_mesh_ok palette positions indices color urc uz sz cb cf hb
      hvalid
    exact ⟨b', e, rasterize_mesh_range e hz⟩
  · intro width height uz color x y z b0 hout
    unfold linePlot
    rw [if_neg]
    · rfl
    · intro hg
      rcases hout with h | h
      · exact absurd hg.2.2.2.2.1 (not_le.2 h)
      · exact absurd hg.2.2.2.2.2 (not_le.2 h)
  · intro width uz sz c p0 p1 p2 z0 z1 z2 x y b0 hout
    unfold meshFragment
    split
    · simp only [hout, if_true]
      rfl
    · rfl

/-- The depth-range invariant in exact arithmetic for one triangle drawn
into a cleared `3 × 3` target. -/
theorem depth_range_invariant_witness :
    DepthInRange (clearedBuffers 3 3) ∧
    ∃ b', rasterize_mesh (fun _ => ⟨0, 0, 0⟩)
        [⟨-1, -1, 0, 1⟩, ⟨1, -1, 0, 1⟩, ⟨-1, 1, 0, 1⟩] [⟨0, 1, 2⟩] ⟨1, 1, 1⟩ false 3 3
        (clearedBuffers 3 3) true true false false = .ok b' ∧ DepthInRange b' :=
  ⟨clearedBuffers_range 3 3,
    (depth_range_invariant (clearedBuffers 3 3) (clearedBuffers_range 3 3)).2.2.2.1
      (fun _ => ⟨0, 0, 0⟩) [⟨-1, -1, 0, 1⟩, ⟨1, -1, 0, 1⟩, ⟨-1, 1, 0, 1⟩] [⟨0, 1, 2⟩]
      ⟨1, 1, 1⟩ false 3 3 true true false false (clearedBuffers_sized 3 3 (by decide))
      (by
        intro t ht
        rw [List.mem_singleton] at ht
        subst ht
        exact ⟨by decide, by decide, by decide⟩)⟩

/-! ## Generated meshes -/

theorem length_flatMap_const {α β : Type} (l : List α) (f : α → List β) (c : Nat)
    (h : ∀ a, (f a).length = c) : (l.flatMap f).length = l.length * c := by
  induction l with
  | nil => simp
  | cons a rest ih =>
    rw [List.flatMap_cons, List.length_append, ih, h, List.length_cons]
    ring

theorem length_grid {β : Type} (n m : Nat) (f : Nat → Nat → β) :
    ((List.range n).flatMap (fun i => (List.range m).map (fun j => f i j))).length = n * m := by
  rw [length_flatMap_const _ _ m (fun i => by simp), List.length_range]

theorem create_sphere_positions (sinf cosf : ℚ → ℚ) (n m : Nat) (scale : Vec3) (w : Bool) :
    (create_sphere_geometry sinf cosf n m scale w).positions.length = n * m := by
  unfold create_sphere_geometry
  exact length_grid n m _

/-- C23 (the code departs from the claim): with a `uvs` vector the box
generator returns 16 texture coordinates for its 8 vertices - eight `(0,0)`
entries from `resize(8)` followed by the eight appended coordinates, so
`uvs[1]` is `(0,0)` and the coordinate `(1,0)` of vertex 1 sits at index 9 -
and the sphere generator returns `(n * m mod 2^32) + n * m` entries for its
`n * m` vertices, `8` entries for `n = m = 2`. -/
theorem uvs_doubled :
    (∀ scale : Vec3,
      (create_box_geometry scale true).positions.length = 8 ∧
      (create_box_geometry scale true).uvs =
        some [⟨0, 0⟩, ⟨0, 0⟩, ⟨0, 0⟩, ⟨0, 0⟩, ⟨0, 0⟩, ⟨0, 0⟩, ⟨0, 0⟩, ⟨0, 0⟩,
          ⟨0, 0⟩, ⟨1, 0⟩, ⟨0, 1⟩, ⟨1, 1⟩, ⟨0, 0⟩, ⟨1, 0⟩, ⟨0, 1⟩, ⟨1, 1⟩]) ∧
    (∀ (sinf cosf : ℚ → ℚ) (n m : Nat) (scale : Vec3),
      (create_sphere_geometry sinf cosf n m scale true).positions.length = n * m ∧
      (create_sphere_geometry sinf cosf n m scale true).uvs.map List.length =
        some ((n * m) % u32 + n * m)) ∧
    (∀ (sinf cosf : ℚ → ℚ) (scale : Vec3),
      (create_sphere_geometry sinf cosf 2 2 scale true).positions.length = 4 ∧
      (create_sphere_geometry sinf cosf 2 2 scale true).uvs.map List.length = some 8) := by
  have hs : ∀ (sinf cosf : ℚ → ℚ) (n m : Nat) (scale : Vec3),
      (create_sphere_geometry sinf cosf n m scale true).uvs.map List.length =
        some ((n * m) % u32 + n * m) := by
    intro sinf cosf n m scale
    simp only [create_sphere_geometry, if_true, Option.map_some', List.length_append,
      length_grid, resizeUvs, List.take_nil, List.nil_append, List.length_replicate,
      List.length_nil, Nat.sub_zero]
  refine ⟨?_, ?_, ?_⟩
  · intro scale
    refine ⟨by simp [create_box_geometry], ?_⟩
    simp only [create_box_geometry, if_true, resizeUvs]
    decide
  · intro sinf cosf n m scale
    exact ⟨create_sphere_positions sinf cosf n m scale true, hs sinf cosf n m scale⟩
  · intro sinf cosf scale
    exact ⟨create_sphere_positions sinf cosf 2 2 scale true, hs sinf cosf 2 2 scale⟩

theorem foldlM_option_inv {α β : Type} (P : β → Prop) (f : β → α → Option β) (l : List α)
    (h : ∀ b a b', a ∈ l → f b a = some b' → P b → P b') :
    ∀ b b', l.foldlM f b = some b' → P b → P b' := by
  induction l with
  | nil =>
    intro b b' hr hb
    simp only [List.foldlM_nil, pure, Option.some.injEq] at hr
    exact hr ▸ hb
  | cons a rest ih =>
    intro b b' hr hb
    rw [List.foldlM_cons] at hr
    cases hf : f b a with
    | none => simp [hf] at hr
    | some b1 =>
      simp only [hf, Option.some_bind] at hr
      exact ih (fun b a b' ha => h b a b' (List.mem_cons_of_mem _ ha)) b1 b' hr
        (h b a b1 (List.mem_cons_self _ _) hf hb)

theorem foldlM_option_some {α β : Type} (f : β → α → Option β) (l : List α)
    (h : ∀ b a, a ∈ l → ∃ b', f b a = some b') : ∀ b, ∃ b', l.foldlM f b = some b' := by
  induction l with
  | nil => intro b; exact ⟨b, rfl⟩
  | cons a rest ih =>
    intro b
    obtain ⟨b1, hf⟩ := h b a (List.mem_cons_self _ _)
    obtain ⟨b2, h2⟩ := ih (fun b a ha => h b a (List.mem_cons_of_mem _ ha)) b1
    exact ⟨b2, by rw [List.foldlM_cons, hf]; exact h2⟩

/-- Every index of the sphere generator is below `n * m`, for `n ≥ 1`. -/
theorem sphere_index_bound (sinf cosf : ℚ → ℚ) (n m : Nat) (scale : Vec3) (w : Bool)
    (hn : 1 ≤ n) :
    ∀ t ∈ (create_sphere_geometry sinf cosf n m scale w).indices,
      t.x < n * m ∧ t.y < n * m ∧ t.z < n * m := by
  intro t ht
  simp only [create_sphere_geometry, List.mem_flatMap, List.mem_range, List.mem_append] at ht
  obtain ⟨i, hi, j, hj, ht⟩ := ht
  have hi' : i + 2 ≤ n := by
    unfold u32 at hi
    omega
  have hmul : (i + 2) * m ≤ n * m := Nat.mul_le_mul_right m hi'
  have hexp : (i + 2) * m = i * m + 2 * m := by ring
  have hmod : (j + 1) % u32 % m < m := Nat.mod_lt _ (by omega)
  unfold u32 at ht hmod
  rcases ht with ht | ht
  · split at ht
    · rw [List.mem_singleton] at ht
      subst ht
      refine ⟨?_, ?_, ?_⟩ <;> simp only <;> omega
    · simp at ht
  · split at ht
    · rw [List.mem_singleton] at ht
      subst ht
      refine ⟨?_, ?_, ?_⟩ <;> simp only <;> omega
    · simp at ht

/-- The index loops of the torus generator, when they return, return indices
below `n * m`. -/
theorem torus_index_bound (n m : Nat) (l : List U32Vec3) (h : torusIndices n m = some l) :
    ∀ t ∈ l, t.x < n * m ∧ t.y < n * m ∧ t.z < n * m := by
  unfold torusIndices at h
  refine foldlM_option_inv (fun acc => ∀ t ∈ acc, t.x < n * m ∧ t.y < n * m ∧ t.z < n * m)
    _ _ ?_ [] l h (by simp)
  intro acc i acc' hi hrow hacc
  rw [List.mem_range] at hi
  refine foldlM_option_inv
    (fun acc => ∀ t ∈ acc, t.x < n * m ∧ t.y < n * m ∧ t.z < n * m) _ _ ?_ acc acc' hrow hacc
  intro acc j acc' hj hstep hacc
  rw [List.mem_range] at hj
  simp only at hstep
  split at hstep
  · simp at hstep
  · rename_i hnm
    simp only [Option.some.injEq] at hstep
    subst hstep
    have h1 : (i + 1) * m ≤ n * m := Nat.mul_le_mul_right m hi
    have h1' : (i + 1) * m = i * m + m := by ring
    have ha : (i + 1) % u32 % n < n := Nat.mod_lt _ (by omega)
    have h2 : ((i + 1) % u32 % n + 1) * m ≤ n * m := Nat.mul_le_mul_right m ha
    have h2' : ((i + 1) % u32 % n + 1) * m = (i + 1) % u32 % n * m + m := by ring
    have hk : ∀ v : Nat, v % ((n * m) % u32) < n * m :=
      fun v => lt_of_lt_of_le (Nat.mod_lt _ (Nat.pos_of_ne_zero hnm)) (Nat.mod_le _ _)
    have hvi : ((i * m) % u32 + j) % u32 < n * m := by
      unfold u32
      omega
    have hvj : (((i + 1) % u32 % n * m) % u32 + j) % u32 < n * m := by
      unfold u32 at h2 h2' ⊢
      omega
    intro t ht
    rw [List.mem_append] at ht
    rcases ht with ht | ht
    · exact hacc t ht
    · simp only [List.mem_cons, List.mem_singleton, List.not_mem_nil, or_false] at ht
      rcases ht with rfl | rfl
      · exact ⟨hvi, hvj, hk _⟩
      · exact ⟨hvj, hk _, hk _⟩

/-- The index loops of the torus generator return when `n * m` does not wrap
to `0`. -/
theorem torus_index_some (n m : Nat) (hnm : (n * m) % u32 ≠ 0) :
    ∃ l, torusIndices n m = some l := by
  unfold torusIndices
  refine foldlM_option_some _ _ ?_ []
  intro acc i _
  refine foldlM_option_some _ _ ?_ acc
  intro acc j _
  simp only [hnm, if_false]
  exact ⟨_, rfl⟩

theorem create_torus_some {sinf cosf : ℚ → ℚ} {n m : Nat} {r R : Vec3} {w : Bool}
    {g : Geometry} (h : create_torus_geometry sinf cosf n m r R w = some g) :
    g.positions.length = n * m ∧ torusIndices n m = some g.indices := by
  unfold create_torus_geometry at h
  cases hl : torusIndices n m with
  | none => simp [hl] at h
  | some l =>
    simp only [hl, Option.bind_eq_bind, Option.some_bind, pure, Option.some.injEq] at h
    subst h
    exact ⟨length_grid n m _, rfl⟩

/-- C26: every index emitted by `create_box_geometry` is below
`8 = positions.size()`; for `n ≥ 2`, `m ≥ 1` every index emitted by
`create_sphere_geometry(n, m, ...)` is below `n * m = positions.size()`; for
`n ≥ 1`, `m ≥ 1` every index that `create_torus_geometry(n, m, ...)` emits is
below `n * m = positions.size()`, and the generator returns whenever the
`unsigned int` product `n * m` is not `0` (otherwise its `% (n * m)` divides
by zero before any index is emitted). -/
theorem generated_indices_in_range :
    (∀ (scale : Vec3) (w : Bool),
      (create_box_geometry scale w).positions.length = 8 ∧
      ∀ t ∈ (create_box_geometry scale w).indices, t.x < 8 ∧ t.y < 8 ∧ t.z < 8) ∧
    (∀ (sinf cosf : ℚ → ℚ) (n m : Nat) (scale : Vec3) (w : Bool), 2 ≤ n → 1 ≤ m →
      (create_sphere_geometry sinf cosf n m scale w).positions.length = n * m ∧
      ∀ t ∈ (create_sphere_geometry sinf cosf n m scale w).indices,
        t.x < n * m ∧ t.y < n * m ∧ t.z < n * m) ∧
    (∀ (sinf cosf : ℚ → ℚ) (n m : Nat) (r R : Vec3) (w : Bool), 1 ≤ n → 1 ≤ m →
      (∀ g, create_torus_geometry sinf cosf n m r R w = some g →
        g.positions.length = n * m ∧
        ∀ t ∈ g.indices, t.x < n * m ∧ t.y < n * m ∧ t.z < n * m) ∧
      ((n * m) % u32 ≠ 0 → ∃ g, create_torus_geometry sinf cosf n m r R w = some g)) := by
  refine ⟨?_, ?_, ?_⟩
  · intro scale w
    refine ⟨by simp [create_box_geometry], ?_⟩
    have hi : (create_box_geometry scale w).indices =
        [⟨2, 1, 0⟩, ⟨3, 1, 2⟩, ⟨2, 6, 7⟩, ⟨7, 3, 2⟩, ⟨0, 4, 2⟩, ⟨2, 4, 6⟩,
          ⟨3, 7, 5⟩, ⟨5, 1, 3⟩, ⟨5, 4, 0⟩, ⟨5, 0, 1⟩, ⟨4, 5, 6⟩, ⟨6, 5, 7⟩] := rfl
    rw [hi]
    decide
  · intro sinf cosf n m scale w hn _
    exact ⟨create_sphere_positions sinf cosf n m scale w,
      sphere_index_bound sinf cosf n m scale w (by omega)⟩
  · intro sinf cosf n m r R w _ _
    constructor
    · intro g hg
      obtain ⟨hp, hl⟩ := create_torus_some hg
      exact ⟨hp, torus_index_bound n m g.indices hl⟩
    · intro hnm
      obtain ⟨l, hl⟩ := torus_index_some n m hnm
      unfold create_torus_geometry
      simp only [hl, Option.bind_eq_bind, Option.some_bind, pure]
      exact ⟨_, rfl⟩

/-- C26 for the sphere and the torus with `n = m = 16`, the resolution of the
short overloads. -/
theorem generated_indices_in_range_witness :
    (∀ t ∈ (create_sphere_geometry (fun x => x) (fun x => x) 16 16 ⟨1, 1, 1⟩ false).indices,
      t.x < 16 * 16 ∧ t.y < 16 * 16 ∧ t.z < 16 * 16) ∧
    ∃ g, create_torus_geometry (fun x => x) (fun x => x) 16 16 ⟨1, 1, 1⟩ ⟨2, 2, 2⟩ false =
      some g :=
  ⟨(generated_indices_in_range.2.1 (fun x => x) (fun x => x) 16 16 ⟨1, 1, 1⟩ false
      (by decide) (by decide)).2,
    (generated_indices_in_range.2.2 (fun x => x) (fun x => x) 16 16 ⟨1, 1, 1⟩ ⟨2, 2, 2⟩ false
      (by decide) (by decide)).2 (by decide)⟩

/-! ## The perspective camera -/

/-- When the `Projection` bit is set, `projection()` recomputes the matrix from
the current parameters. -/
theorem projection_dirty (perspective : ℚ → ℚ → ℚ → ℚ → Mat4) (c : PerspectiveCamera)
    (h : c.m_dirty &&& 1 ≠ 0) :
    (c.projection perspective).1 =
      perspective (c.m_fov_y * pi_f / 180) c.m_aspect c.m_z_near c.m_z_far := by
  unfold PerspectiveCamera.projection
  rw [if_pos h]

theorem or_one_and_one (d : Nat) : (d ||| 1) &&& 1 ≠ 0 := by
  rw [Nat.and_one_is_mod]
  have h : (d ||| 1).testBit 0 = true := by simp [Nat.testBit_or]
  rw [Nat.testBit_zero, decide_eq_true_eq] at h
  rw [h]
  decide

theorem or_two_and_one (d : Nat) : (d ||| 2) &&& 1 = d &&& 1 := by
  apply Nat.eq_of_testBit_eq
  intro i
  simp only [Nat.testBit_and, Nat.testBit_or]
  cases i with
  | zero => simp
  | succ k => simp [Nat.testBit_succ]

/-- After a setter of a projection parameter as the last such call,
`projection()` returns the matrix of the current parameters. -/
theorem projection_after_setter (perspective : ℚ → ℚ → ℚ → ℚ → Mat4) (op : CameraOp)
    (c : PerspectiveCamera) (h : op.isProjection = true) :
    ((op.apply c).projection perspective).1 =
      perspective ((op.apply c).m_fov_y * pi_f / 180) (op.apply c).m_aspect
        (op.apply c).m_z_near (op.apply c).m_z_far := by
  apply projection_dirty
  cases op <;> first
    | exact or_one_and_one _
    | simp [CameraOp.isProjection] at h

theorem set_views_state (views : List Mat4) :
    ∀ c : PerspectiveCamera,
      (views.foldl (fun c v => c.set_view v) c).m_dirty &&& 1 = c.m_dirty &&& 1 ∧
      (views.foldl (fun c v => c.set_view v) c).m_projection = c.m_projection := by
  induction views with
  | nil => intro c; exact ⟨rfl, rfl⟩
  | cons v rest ih =>
    intro c
    obtain ⟨h1, h2⟩ := ih (c.set_view v)
    rw [List.foldl_cons, h1, h2]
    exact ⟨or_two_and_one c.m_dirty, rfl⟩

/-- C30 (the code departs from the claim): the constructor stores the identity
matrix as projection and marks it clean, so directly after construction, and
after any number of `set_view` calls, `projection()` returns `glm::mat4(1)`;
that is the perspective matrix of the camera's parameters only if this matrix
is the identity. -/
theorem camera_projection_stale (perspective : ℚ → ℚ → ℚ → ℚ → Mat4)
    (fov_y aspect z_near z_far : ℚ) (views : List Mat4) :
    ((PerspectiveCamera.new fov_y aspect z_near z_far).projection perspective).1 =
      mat4_identity ∧
    ((views.foldl (fun c v => c.set_view v)
      (PerspectiveCamera.new fov_y aspect z_near z_far)).projection perspective).1 =
      mat4_identity ∧
    (((PerspectiveCamera.new fov_y aspect z_near z_far).projection perspective).1 =
        perspective (fov_y * pi_f / 180) aspect z_near z_far ↔
      perspective (fov_y * pi_f / 180) aspect z_near z_far = mat4_identity) ∧
    ((PerspectiveCamera.new 45 1 1 (9 / 2)).projection perspective).1 = mat4_identity := by
  have h0 : ∀ f a n r : ℚ,
      ((PerspectiveCamera.new f a n r).projection perspective).1 = mat4_identity := by
    intro f a n r
    simp [PerspectiveCamera.projection, PerspectiveCamera.new]
  refine ⟨h0 _ _ _ _, ?_, ?_, h0 _ _ _ _⟩
  · obtain ⟨h1, h2⟩ := set_views_state views (PerspectiveCamera.new fov_y aspect z_near z_far)
    unfold PerspectiveCamera.projection
    rw [if_neg]
    · rw [h2]
      rfl
    · rw [h1]
      simp [PerspectiveCamera.new]
  · rw [h0]
    exact eq_comm

/-! ## The last column and row -/

theorem ndc_to_screen_le (width height : Int) (q : Vec4) :
    (1 ≤ width → q.x / q.w ≤ 1 → (ndc_to_screen width height q).x ≤ ((width - 1 : Int) : ℚ)) ∧
    (1 ≤ height → q.y / q.w ≤ 1 →
      (ndc_to_screen width height q).y ≤ ((height - 1 : Int) : ℚ)) := by
  constructor
  · intro hw hq
    have h0 : (0 : ℚ) ≤ ((width - 1 : Int) : ℚ) := by exact_mod_cast (by omega : 0 ≤ width - 1)
    simp only [ndc_to_screen]
    nlinarith
  · intro hh hq
    have h0 : (0 : ℚ) ≤ ((height - 1 : Int) : ℚ) := by exact_mod_cast (by omega : 0 ≤ height - 1)
    simp only [ndc_to_screen]
    nlinarith

theorem convex_le (a b c l0 l1 l2 M : ℚ) (h0 : 0 ≤ l0) (h1 : 0 ≤ l1) (h2 : 0 ≤ l2)
    (hsum : l0 + l1 + l2 = 1) (ha : a ≤ M) (hb : b ≤ M) (hc : c ≤ M) :
    l0 * a + l1 * b + l2 * c ≤ M := by
  have e0 := mul_le_mul_of_nonneg_left ha h0
  have e1 := mul_le_mul_of_nonneg_left hb h1
  have e2 := mul_le_mul_of_nonneg_left hc h2
  have : l0 * M + l1 * M + l2 * M = M := by
    rw [← add_mul, ← add_mul, hsum, one_mul]
  linarith

/-- The fill of a triangle whose post-divide `x` (resp. `y`) coordinates are
at most `1` does not reach its depth test in column `width - 1` (resp. row
`height - 1`). -/
theorem fillHits_last {width height : Int} {q0 q1 q2 : Vec4} :
    (1 ≤ width → q0.x / q0.w ≤ 1 → q1.x / q1.w ≤ 1 → q2.x / q2.w ≤ 1 →
      ∀ y : Int, ¬ fillHits width height q0 q1 q2 (width - 1) y) ∧
    (1 ≤ height → q0.y / q0.w ≤ 1 → q1.y / q1.w ≤ 1 → q2.y / q2.w ≤ 1 →
      ∀ x : Int, ¬ fillHits width height q0 q1 q2 x (height - 1)) := by
  constructor
  · intro hw h0 h1 h2 y hhit
    obtain ⟨hden, hcov, -⟩ := hhit
    have hden' : edgeDenom (ndc_to_screen width height q0) (ndc_to_screen width height q1)
        (ndc_to_screen width height q2) ≠ 0 := by
      intro hz
      rw [hz] at hden
      norm_num at hden
    obtain ⟨l0, l1, l2, n0, n1, n2, hsum, hx, -⟩ :=
      (covered_iff_inTriangle _ _ _ _ _ hden').1 hcov
    have := convex_le _ _ _ l0 l1 l2 _ n0 n1 n2 hsum
      ((ndc_to_screen_le width height q0).1 hw h0) ((ndc_to_screen_le width height q1).1 hw h1)
      ((ndc_to_screen_le width height q2).1 hw h2)
    linarith
  · intro hh h0 h1 h2 x hhit
    obtain ⟨hden, hcov, -⟩ := hhit
    have hden' : edgeDenom (ndc_to_screen width height q0) (ndc_to_screen width height q1)
        (ndc_to_screen width height q2) ≠ 0 := by
      intro hz
      rw [hz] at hden
      norm_num at hden
    obtain ⟨l0, l1, l2, n0, n1, n2, hsum, -, hy⟩ :=
      (covered_iff_inTriangle _ _ _ _ _ hden').1 hcov
    have := convex_le _ _ _ l0 l1 l2 _ n0 n1 n2 hsum
      ((ndc_to_screen_le width height q0).2 hh h0) ((ndc_to_screen_le width height q1).2 hh h1)
      ((ndc_to_screen_le width height q2).2 hh h2)
    linarith

theorem pixel_eq_buffers {width height : Int} {b b' : Buffers} (hb : Sized width height b)
    (hb' : Sized width height b') {x y : Int} (hx0 : 0 ≤ x) (hx : x < width) (hy0 : 0 ≤ y)
    (hy : y < height) (h : pixel b' (y * width + x).toNat = pixel b (y * width + x).toNat) :
    b'.image[(y * width + x).toNat]? = b.image[(y * width + x).toNat]? ∧
      b'.zbuffer[(y * width + x).toNat]? = b.zbuffer[(y * width + x).toNat]? := by
  obtain ⟨h0, h1⟩ := pixel_index_bounds hx0 hx hy0 hy
  have l1 := hb.1
  have l2 := hb.2
  have l1' := hb'.1
  have l2' := hb'.2
  rw [image_of_pixel b' _ (by omega), image_of_pixel b _ (by omega),
    zbuffer_of_pixel b' _ (by omega), zbuffer_of_pixel b _ (by omega), h]
  exact ⟨rfl, rfl⟩

/-- C29, with arithmetic read as exact: for `width, height ≥ 1`, a triangle
whose three vertices have post-divide `x ≤ 1` passes the tests of the fill at
no pixel of column `width - 1`, and one whose vertices have post-divide
`y ≤ 1` at no pixel of row `height - 1`; so a call of `rasterize_mesh` (depth
visualization off) on such triangles leaves the colour and the depth of every
pixel of that column (row) as they were.  In binary32 the rounded barycentric
coordinates of a centre outside the triangle can all be `≥ 0`. -/
theorem last_column_unreachable (palette : Nat → Vec3) (positions : List Vec4)
    (indices : List U32Vec3) (color : Vec3) (urc : Bool) (width height : Int) (b : Buffers)
    (uz cb cf : Bool) (hw : 1 ≤ width) (hh : 1 ≤ height) (hb : Sized width height b)
    (hvalid : ∀ t ∈ indices, ValidTri positions t) :
    (∀ q0 q1 q2 : Vec4, q0.x / q0.w ≤ 1 → q1.x / q1.w ≤ 1 → q2.x / q2.w ≤ 1 →
      ∀ y : Int, ¬ fillHits width height q0 q1 q2 (width - 1) y) ∧
    (∀ q0 q1 q2 : Vec4, q0.y / q0.w ≤ 1 → q1.y / q1.w ≤ 1 → q2.y / q2.w ≤ 1 →
      ∀ x : Int, ¬ fillHits width height q0 q1 q2 x (height - 1)) ∧
    ∃ b', rasterize_mesh palette positions indices color urc width height b uz false cb cf =
        .ok b' ∧
      ((∀ t ∈ indices, ∀ q0 q1 q2 : Vec4, positions[t.x]? = some q0 →
          positions[t.y]? = some q1 → positions[t.z]? = some q2 →
          q0.x / q0.w ≤ 1 ∧ q1.x / q1.w ≤ 1 ∧ q2.x / q2.w ≤ 1) →
        ∀ y : Int, 0 ≤ y → y < height →
          b'.image[(y * width + (width - 1)).toNat]? =
              b.image[(y * width + (width - 1)).toNat]? ∧
            b'.zbuffer[(y * width + (width - 1)).toNat]? =
              b.zbuffer[(y * width + (width - 1)).toNat]?) ∧
      ((∀ t ∈ indices, ∀ q0 q1 q2 : Vec4, positions[t.x]? = some q0 →
          positions[t.y]? = some q1 → positions[t.z]? = some q2 →
          q0.y / q0.w ≤ 1 ∧ q1.y / q1.w ≤ 1 ∧ q2.y / q2.w ≤ 1) →
        ∀ x : Int, 0 ≤ x → x < width →
          b'.image[((height - 1) * width + x).toNat]? =
              b.image[((height - 1) * width + x).toNat]? ∧
            b'.zbuffer[((height - 1) * width + x).toNat]? =
              b.zbuffer[((height - 1) * width + x).toNat]?) := by
  refine ⟨fun q0 q1 q2 h0 h1 h2 => fillHits_last.1 hw h0 h1 h2,
    fun q0 q1 q2 h0 h1 h2 => fillHits_last.2 hh h0 h1 h2, ?_⟩
  obtain ⟨b', e, s', hp⟩ := meshLoop_run palette positions color urc uz false cb cf indices
    hvalid 0 hb
  refine ⟨b', ?_, ?_, ?_⟩
  · unfold rasterize_mesh
    simp only [e, bind, Except.bind, Bool.false_eq_true, if_false]
    rfl
  · intro hxs y hy0 hy
    refine pixel_eq_buffers hb s' (by omega) (by omega) hy0 hy
      (hp (width - 1) y (by omega) (by omega) hy0 hy ?_)
    intro t ht hhit
    obtain ⟨q0, q1, q2, r0, r1, r2, -, -, hfill⟩ := hhit
    obtain ⟨a0, a1, a2⟩ := hxs t ht q0 q1 q2 r0 r1 r2
    exact fillHits_last.1 hw a0 a1 a2 y hfill
  · intro hys x hx0 hx
    refine pixel_eq_buffers hb s' hx0 hx (by omega) (by omega)
      (hp x (height - 1) hx0 hx (by omega) (by omega) ?_)
    intro t ht hhit
    obtain ⟨q0, q1, q2, r0, r1, r2, -, -, hfill⟩ := hhit
    obtain ⟨a0, a1, a2⟩ := hys t ht q0 q1 q2 r0 r1 r2
    exact fillHits_last.2 hh a0 a1 a2 x hfill

/-- C29, with arithmetic read as exact, for the triangle `(-1,-1), (1,-1),
(-1,1)` in a cleared `3 × 3` target: column `2` keeps its cleared values. -/
theorem last_column_unreachable_witness :
    ∃ b', rasterize_mesh (fun _ => ⟨0, 0, 0⟩)
        [⟨-1, -1, 0, 1⟩, ⟨1, -1, 0, 1⟩, ⟨-1, 1, 0, 1⟩] [⟨0, 1, 2⟩] ⟨1, 1, 1⟩ false 3 3
        (clearedBuffers 3 3) true false false false = .ok b' ∧
      ∀ y : Int, 0 ≤ y → y < 3 →
        b'.image[(y * 3 + (3 - 1)).toNat]? =
            (clearedBuffers 3 3).image[(y * 3 + (3 - 1)).toNat]? ∧
          b'.zbuffer[(y * 3 + (3 - 1)).toNat]? =
            (clearedBuffers 3 3).zbuffer[(y * 3 + (3 - 1)).toNat]? := by
  obtain ⟨b', e, hcol, -⟩ := (last_column_unreachable (fun _ => ⟨0, 0, 0⟩)
    [⟨-1, -1, 0, 1⟩, ⟨1, -1, 0, 1⟩, ⟨-1, 1, 0, 1⟩] [⟨0, 1, 2⟩] ⟨1, 1, 1⟩ false 3 3
    (clearedBuffers 3 3) true false false (by decide) (by decide)
    (clearedBuffers_sized 3 3 (by decide))
    (by
      intro t ht
      rw [List.mem_singleton] at ht
      subst ht
      exact ⟨by decide, by decide, by decide⟩)).2.2
  refine ⟨b', e, hcol ?_⟩
  intro t ht q0 q1 q2 r0 r1 r2
  rw [List.mem_singleton] at ht
  subst ht
  simp only [List.getElem?_cons_zero, List.getElem?_cons_succ, Option.some.injEq] at r0 r1 r2
  subst r0 r1 r2
  norm_num

/-! ## Drawing twice -/

theorem pixStep_absorb (writeZ writeC : Bool) (fs : List Frag) (g : Frag) :
    ∀ p : Vec3 × ℚ, pixStep false writeZ writeC (fs.foldl (pixStep false writeZ writeC) p) g =
      pixStep false writeZ writeC p g := by
  induction fs with
  | nil => intro p; rfl
  | cons f rest ih =>
    intro p
    rw [List.foldl_cons, ih]
    cases writeZ <;> cases writeC <;> simp [pixStep]

/-- Applying a list of writes to one pixel twice gives the same as applying it
once, when a tested write also stores its depth. -/
theorem foldl_pixStep_idem (test writeZ writeC : Bool) (h : test = true → writeZ = true)
    (fs : List Frag) (p : Vec3 × ℚ) :
    fs.foldl (pixStep test writeZ writeC) (fs.foldl (pixStep test writeZ writeC) p) =
      fs.foldl (pixStep test writeZ writeC) p := by
  cases test
  · rcases List.eq_nil_or_concat fs with rfl | ⟨init, last, rfl⟩
    · rfl
    · simp only [List.concat_eq_append, List.foldl_append, List.foldl_cons, List.foldl_nil]
      rw [pixStep_absorb, pixStep_idem]
  · have hz := h rfl
    subst hz
    exact foldl_pixStep_noop true writeC fs _
      (fun f hf => (foldl_pixStep_depth_le writeC fs p).2 f hf)

theorem buffers_ext_pixel {width height : Int} {b b' : Buffers} (hb : Sized width height b)
    (hb' : Sized width height b') (h : ∀ k, k < b.image.length → pixel b' k = pixel b k) :
    b' = b := by
  have l1 := hb.1
  have l2 := hb.2
  have l1' := hb'.1
  have l2' := hb'.2
  have hi : b'.image = b.image := by
    apply List.ext_getElem?
    intro k
    by_cases hk : k < b.image.length
    · rw [image_of_pixel b' k (by omega), image_of_pixel b k hk, h k hk]
    · rw [List.getElem?_eq_none (by omega), List.getElem?_eq_none (by omega)]
  have hz : b'.zbuffer = b.zbuffer := by
    apply List.ext_getElem?
    intro k
    by_cases hk : k < b.image.length
    · rw [zbuffer_of_pixel b' k (by omega), zbuffer_of_pixel b k (by omega), h k hk]
    · rw [List.getElem?_eq_none (by omega), List.getElem?_eq_none (by omega)]
  cases b
  cases b'
  simp only at hi hz
  rw [hi, hz]

/-- Applying a list of in-range writes to buffers twice gives the same as
applying it once. -/
theorem foldl_applyFrag_idem {width height : Int} (test writeZ writeC : Bool)
    (h : test = true → writeZ = true) (fs : List Frag) {b : Buffers}
    (hb : Sized width height b) (hfs : ∀ f ∈ fs, f.idx < b.image.length) :
    fs.foldl (applyFrag test writeZ writeC) (fs.foldl (applyFrag test writeZ writeC) b) =
      fs.foldl (applyFrag test writeZ writeC) b := by
  have s1 := foldl_applyFrag_sized test writeZ writeC fs hb
  have s2 := foldl_applyFrag_sized test writeZ writeC fs s1
  have l1 := hb.1
  have l2 := hb.2
  have l1' := s1.1
  have l2' := s1.2
  apply buffers_ext_pixel s1 s2
  intro k _
  rw [pixel_foldl_applyFrag test writeZ writeC fs _ k (by omega)
      (fun f hf => by have := hfs f hf; omega),
    pixel_foldl_applyFrag test writeZ writeC fs b k (by omega) hfs]
  exact foldl_pixStep_idem test writeZ writeC h _ _

theorem meshTriangle_frags {width height : Int} (palette : Nat → Vec3)
    (positions : List Vec4) (color : Vec3) (urc uz sz cb cf : Bool) (i : Nat) (t : U32Vec3)
    {b : Buffers} (hv : ValidTri positions t) (hb : Sized width height b) :
    meshTriangle palette positions color urc width height uz sz cb cf i t b =
      .ok ((triFrags palette positions color urc width height cb cf i t).foldl
        (applyFrag uz true (!sz)) b) := by
  obtain ⟨q0, q1, q2, h0, h1, h2⟩ := validTri_reads hv
  rw [meshTriangle_eq palette positions color urc uz sz cb cf i t h0 h1 h2 hb]
  simp only [triFrags, h0, h1, h2]
  split
  · rfl
  · split
    · rfl
    · rfl

theorem triFrags_idx_lt {width height : Int} {palette : Nat → Vec3} {positions : List Vec4}
    {color : Vec3} {urc cb cf : Bool} {i : Nat} {t : U32Vec3} {b : Buffers}
    (hb : Sized width height b) :
    ∀ f ∈ triFrags palette positions color urc width height cb cf i t,
      f.idx < b.image.length := by
  intro f hf
  unfold triFrags at hf
  split at hf
  · split at hf
    · simp at hf
    · split at hf
      · simp at hf
      · exact fillFrags_idx_lt hb f hf
  · simp at hf

theorem meshFrags_idx_lt {width height : Int} {palette : Nat → Vec3} {positions : List Vec4}
    {color : Vec3} {urc cb cf : Bool} {b : Buffers} (hb : Sized width height b)
    (l : List U32Vec3) :
    ∀ (i : Nat), ∀ f ∈ meshFrags palette positions color urc width height cb cf i l,
      f.idx < b.image.length := by
  induction l with
  | nil => intro i f hf; simp [meshFrags] at hf
  | cons t rest ih =>
    intro i f hf
    simp only [meshFrags, List.mem_append] at hf
    rcases hf with hf | hf
    · exact triFrags_idx_lt hb f hf
    · exact ih (i + 1) f hf

/-- On buffers of the target's size and with in-range triangle indices the
triangle loop applies the writes of its triangles in order. -/
theorem meshLoop_eq {width height : Int} (palette : Nat → Vec3) (positions : List Vec4)
    (color : Vec3) (urc uz sz cb cf : Bool) (l : List U32Vec3) :
    ∀ (i : Nat) {b : Buffers}, (∀ t ∈ l, ValidTri positions t) → Sized width height b →
      meshLoop palette positions color urc width height uz sz cb cf i l b =
        .ok ((meshFrags palette positions color urc width height cb cf i l).foldl
          (applyFrag uz true (!sz)) b) := by
  induction l with
  | nil => intro i b _ _; rfl
  | cons t rest ih =>
    intro i b hv hb
    unfold meshLoop
    rw [meshTriangle_frags palette positions color urc uz sz cb cf i t
      (hv t (List.mem_cons_self _ _)) hb]
    simp only [bind, Except.bind, meshFrags, List.foldl_append]
    exact ih (i + 1) (fun t ht => hv t (List.mem_cons_of_mem _ ht))
      (foldl_applyFrag_sized _ _ _ _ hb)

theorem foldl_applyFrag_nocolor (test writeZ : Bool) (fs : List Frag) :
    ∀ (im im' : List Vec3) (zb : List ℚ),
      fs.foldl (applyFrag test writeZ false) { image := im, zbuffer := zb } =
        { image := im
          zbuffer := (fs.foldl (applyFrag test writeZ false)
            { image := im', zbuffer := zb }).zbuffer } := by
  induction fs with
  | nil => intro im im' zb; rfl
  | cons f rest ih =>
    intro im im' zb
    simp only [List.foldl_cons]
    have h1 : applyFrag test writeZ false { image := im, zbuffer := zb } f =
        { image := im
          zbuffer := (applyFrag test writeZ false { image := im', zbuffer := zb } f).zbuffer } := by
      unfold applyFrag
      split <;> simp
    have h2 : applyFrag test writeZ false { image := im', zbuffer := zb } f =
        { image := im'
          zbuffer := (applyFrag test writeZ false { image := im', zbuffer := zb } f).zbuffer } := by
      unfold applyFrag
      split <;> simp
    rw [h1, ih im im' _]
    congr 2
    exact congrArg (fun b0 => List.foldl (applyFrag test writeZ false) b0 rest) h2.symm

theorem nocolor_fix (test writeZ : Bool) (fs : List Frag) (b1 b2 : Buffers)
    (hz : b2.zbuffer = b1.zbuffer)
    (hid : fs.foldl (applyFrag test writeZ false) b1 = b1) :
    fs.foldl (applyFrag test writeZ false) b2 = b2 := by
  obtain ⟨im1, zb1⟩ := b1
  obtain ⟨im2, zb2⟩ := b2
  simp only at hz
  subst hz
  rw [foldl_applyFrag_nocolor test writeZ fs im2 im1 zb2, hid]

/-- Drawing a mesh with the depth visualization on into its own result changes
nothing. -/
theorem depth_redraw {width height : Int} (uz : Bool) (mf : List Frag) {b1 : Buffers}
    (s1 : Sized width height b1) (hid : mf.foldl (applyFrag uz true false) b1 = b1) :
    (depthFrags width height
        (mf.foldl (applyFrag uz true false)
          ((depthFrags width height b1.zbuffer).foldl
            (applyFrag false false true) b1)).zbuffer).foldl
      (applyFrag false false true)
      (mf.foldl (applyFrag uz true false)
        ((depthFrags width height b1.zbuffer).foldl (applyFrag false false true) b1)) =
    (depthFrags width height b1.zbuffer).foldl (applyFrag false false true) b1 := by
  have l1 := s1.1
  have hz2 := foldl_applyFrag_zbuffer false true (depthFrags width height b1.zbuffer) b1
  have h3 := nocolor_fix uz true mf b1 _ hz2 hid
  rw [h3, hz2]
  refine foldl_applyFrag_idem false false true (by simp) _ s1 ?_
  intro f hf
  obtain ⟨x, y, hx0, hx, hy0, hy, rfl⟩ := depthFrags_mem hf
  have := pixel_index_bounds hx0 hx hy0 hy
  show (y * width + x).toNat < _
  omega

/-- C27: on buffers of the target's size and with well-formed input, a second
call of `rasterize_mesh` with the same arguments on the buffers that the first
call returned returns these buffers unchanged, for every flag combination
(depth test on or off, depth visualization on or off), and the same holds for
`rasterize_lines`. -/
theorem redraw_idempotent (fuel : Nat) (points : List Vec4) (colors : List Vec3)
    (palette : Nat → Vec3) (positions : List Vec4) (indices : List U32Vec3) (color : Vec3)
    (urc : Bool) (width height : Int) (b : Buffers) (uz sz cb cf : Bool)
    (hb : Sized width height b) (heven : points.length % 2 = 0)
    (hcol : colors.length = points.length / 2) (hfuel : lineFuel width height points ≤ fuel)
    (hvalid : ∀ t ∈ indices, ValidTri positions t) :
    (∃ b1, rasterize_mesh palette positions indices color urc width height b uz sz cb cf =
        .ok b1 ∧
      rasterize_mesh palette positions indices color urc width height b1 uz sz cb cf =
        .ok b1) ∧
    (∃ b1, rasterize_lines fuel points colors width height b uz = .ok b1 ∧
      rasterize_lines fuel points colors width height b1 uz = .ok b1) := by
  constructor
  · have hmf := @meshFrags_idx_lt width height palette positions color urc cb cf b hb indices 0
    have s1 := foldl_applyFrag_sized uz true (!sz)
      (meshFrags palette positions color urc width height cb cf 0 indices) hb
    have hid := foldl_applyFrag_idem uz true (!sz) (fun _ => rfl)
      (meshFrags palette positions color urc width height cb cf 0 indices) hb hmf
    cases sz
    · refine ⟨(meshFrags palette positions color urc width height cb cf 0 indices).foldl
        (applyFrag uz true (!false)) b, ?_, ?_⟩
      · unfold rasterize_mesh
        rw [meshLoop_eq palette positions color urc uz false cb cf indices 0 hvalid hb]
        rfl
      · unfold rasterize_mesh
        rw [meshLoop_eq palette positions color urc uz false cb cf indices 0 hvalid s1, hid]
        rfl
    · have s2 := foldl_applyFrag_sized false false true
        (depthFrags width height ((meshFrags palette positions color urc width height cb cf 0
          indices).foldl (applyFrag uz true (!true)) b).zbuffer) s1
      refine ⟨(depthFrags width height ((meshFrags palette positions color urc width height
          cb cf 0 indices).foldl (applyFrag uz true (!true)) b).zbuffer).foldl
        (applyFrag false false true) ((meshFrags palette positions color urc width height
          cb cf 0 indices).foldl (applyFrag uz true (!true)) b), ?_, ?_⟩
      · unfold rasterize_mesh
        rw [meshLoop_eq palette positions color urc uz true cb cf indices 0 hvalid hb]
        simp only [bind, Except.bind, if_true]
        exact depthPass_eq s1
      · unfold rasterize_mesh
        rw [meshLoop_eq palette positions color urc uz true cb cf indices 0 hvalid s2]
        simp only [bind, Except.bind, if_true]
        rw [depthPass_eq (foldl_applyFrag_sized uz true (!true) _ s2)]
        exact congrArg Except.ok (depth_redraw uz _ s1 hid)
  · have hlf := @linesFrags_idx_lt fuel points colors width height colors.length b hb
    have s1 := foldl_applyFrag_sized uz uz true
      (linesFrags fuel points colors width height colors.length) hb
    refine ⟨(linesFrags fuel points colors width height colors.length).foldl
      (applyFrag uz uz true) b, rasterize_lines_eq uz fuel points colors heven hcol hb hfuel, ?_⟩
    rw [rasterize_lines_eq uz fuel points colors heven hcol s1 hfuel,
      foldl_applyFrag_idem uz uz true (fun h => h) _ hb hlf]

/-- C27 for one triangle and the two diagonals of a cleared `3 × 3` target,
depth test and depth visualization on. -/
theorem redraw_idempotent_witness :
    (∃ b1, rasterize_mesh (fun _ => ⟨0, 0, 0⟩)
        [⟨-1, -1, 0, 1⟩, ⟨1, -1, 0, 1⟩, ⟨-1, 1, 0, 1⟩] [⟨0, 1, 2⟩] ⟨1, 1, 1⟩ false 3 3
        (clearedBuffers 3 3) true true false false = .ok b1 ∧
      rasterize_mesh (fun _ => ⟨0, 0, 0⟩)
        [⟨-1, -1, 0, 1⟩, ⟨1, -1, 0, 1⟩, ⟨-1, 1, 0, 1⟩] [⟨0, 1, 2⟩] ⟨1, 1, 1⟩ false 3 3
        b1 true true false false = .ok b1) ∧
    (∃ b1, rasterize_lines 5
        [⟨(-1 : Int), (-1 : Int), 0, 1⟩, ⟨(1 : Int), (1 : Int), 0, 1⟩,
          ⟨(-1 : Int), (1 : Int), 0, 1⟩, ⟨(1 : Int), (-1 : Int), 0, 1⟩]
        [⟨1, 0, 0⟩, ⟨0, 1, 0⟩] 3 3 (clearedBuffers 3 3) true = .ok b1 ∧
      rasterize_lines 5
        [⟨(-1 : Int), (-1 : Int), 0, 1⟩, ⟨(1 : Int), (1 : Int), 0, 1⟩,
          ⟨(-1 : Int), (1 : Int), 0, 1⟩, ⟨(1 : Int), (-1 : Int), 0, 1⟩]
        [⟨1, 0, 0⟩, ⟨0, 1, 0⟩] 3 3 b1 true = .ok b1) :=
  redraw_idempotent 5
    [⟨(-1 : Int), (-1 : Int), 0, 1⟩, ⟨(1 : Int), (1 : Int), 0, 1⟩,
      ⟨(-1 : Int), (1 : Int), 0, 1⟩, ⟨(1 : Int), (-1 : Int), 0, 1⟩]
    [⟨1, 0, 0⟩, ⟨0, 1, 0⟩] (fun _ => ⟨0, 0, 0⟩)
    [⟨-1, -1, 0, 1⟩, ⟨1, -1, 0, 1⟩, ⟨-1, 1, 0, 1⟩] [⟨0, 1, 2⟩] ⟨1, 1, 1⟩ false 3 3
    (clearedBuffers 3 3) true true false false
    (clearedBuffers_sized 3 3 (by decide)) (by decide) (by decide)
    (by simp only [lineFuel, lineSetup_three]; decide)
    (by
      intro t ht
      rw [List.mem_singleton] at ht
      subst ht
      exact ⟨by decide, by decide, by decide⟩)

/-! ## The order of the vertices of a triangle -/

theorem inTriangle_swap {p0 p1 p2 : Vec2} {px py : ℚ} (h : InTriangle p0 p1 p2 px py) :
    InTriangle p1 p0 p2 px py := by
  obtain ⟨l0, l1, l2, h0, h1, h2, hs, hx, hy⟩ := h
  exact ⟨l1, l0, l2, h1, h0, h2, by linarith, by linarith, by linarith⟩

theorem inTriangle_rot {p0 p1 p2 : Vec2} {px py : ℚ} (h : InTriangle p0 p1 p2 px py) :
    InTriangle p1 p2 p0 px py := by
  obtain ⟨l0, l1, l2, h0, h1, h2, hs, hx, hy⟩ := h
  exact ⟨l1, l2, l0, h1, h2, h0, by linarith, by linarith, by linarith⟩

theorem edgeDenom_swap (p0 p1 p2 : Vec2) : edgeDenom p1 p0 p2 = -edgeDenom p0 p1 p2 := by
  unfold edgeDenom
  ring

theorem edgeDenom_rot (p0 p1 p2 : Vec2) : edgeDenom p1 p2 p0 = edgeDenom p0 p1 p2 := by
  unfold edgeDenom
  ring

theorem boundingBox_swap (width height : Int) (p0 p1 p2 : Vec2) :
    boundingBox width height p1 p0 p2 = boundingBox width height p0 p1 p2 := by
  unfold boundingBox
  rw [min_left_comm p1.x, max_left_comm p1.x, min_left_comm p1.y, max_left_comm p1.y]

theorem boundingBox_rot (width height : Int) (p0 p1 p2 : Vec2) :
    boundingBox width height p1 p2 p0 = boundingBox width height p0 p1 p2 := by
  unfold boundingBox
  rw [min_comm p2.x, max_comm p2.x, min_comm p2.y, max_comm p2.y,
    min_left_comm p1.x, max_left_comm p1.x, min_left_comm p1.y, max_left_comm p1.y]

theorem covered_swap (p0 p1 p2 : Vec2) (x y : Int) (hden : edgeDenom p0 p1 p2 ≠ 0) :
    covered p1 p0 p2 x y = covered p0 p1 p2 x y := by
  have hden' : edgeDenom p1 p0 p2 ≠ 0 := by
    rw [edgeDenom_swap]
    exact neg_ne_zero.2 hden
  rw [Bool.eq_iff_iff, covered_iff_inTriangle _ _ _ _ _ hden,
    covered_iff_inTriangle _ _ _ _ _ hden']
  exact ⟨inTriangle_swap, inTriangle_swap⟩

theorem covered_rot (p0 p1 p2 : Vec2) (x y : Int) (hden : edgeDenom p0 p1 p2 ≠ 0) :
    covered p1 p2 p0 x y = covered p0 p1 p2 x y := by
  have hden' : edgeDenom p1 p2 p0 ≠ 0 := by
    rw [edgeDenom_rot]
    exact hden
  rw [Bool.eq_iff_iff, covered_iff_inTriangle _ _ _ _ _ hden,
    covered_iff_inTriangle _ _ _ _ _ hden']
  exact ⟨fun h => inTriangle_rot (inTriangle_rot h), inTriangle_rot⟩

theorem meshFrag_key {width : Int} {c : Vec3} {p0 p1 p2 r0 r1 r2 : Vec2}
    {z0 z1 z2 w0 w1 w2 : ℚ} {x y : Int}
    (hcov : covered r0 r1 r2 x y = covered p0 p1 p2 x y)
    (hz0 : -1 ≤ z0 ∧ z0 ≤ 1) (hz1 : -1 ≤ z1 ∧ z1 ≤ 1) (hz2 : -1 ≤ z2 ∧ z2 ≤ 1)
    (hw0 : -1 ≤ w0 ∧ w0 ≤ 1) (hw1 : -1 ≤ w1 ∧ w1 ≤ 1) (hw2 : -1 ≤ w2 ∧ w2 ≤ 1) :
    (meshFrag width c r0 r1 r2 w0 w1 w2 x y).map (fun f => (f.idx, f.color)) =
      (meshFrag width c p0 p1 p2 z0 z1 z2 x y).map (fun f => (f.idx, f.color)) := by
  unfold meshFrag
  by_cases hc : covered p0 p1 p2 x y = true
  · have hc' : covered r0 r1 r2 x y = true := by rw [hcov]; exact hc
    have d := meshDepth_range p0 p1 p2 z0 z1 z2 x y hc hz0 hz1 hz2
    have d' := meshDepth_range r0 r1 r2 w0 w1 w2 x y hc' hw0 hw1 hw2
    rw [if_pos ⟨hc', by intro h; rcases h with h | h <;> linarith [d'.1, d'.2]⟩,
      if_pos ⟨hc, by intro h; rcases h with h | h <;> linarith [d.1, d.2]⟩]
    rfl
  · have hc' : ¬ covered r0 r1 r2 x y = true := by rw [hcov]; exact hc
    rw [if_neg (fun h => hc' h.1), if_neg (fun h => hc h.1)]

/-- Two triangles with the same bounding box, the same degeneracy decision and
the same coverage, all vertex depths in `[-1, 1]`, write the same colour to
the same pixels in the same order. -/
theorem fillFrags_key {width height : Int} (c : Vec3) (q0 q1 q2 r0 r1 r2 : Vec4)
    (hbox : boundingBox width height (ndc_to_screen width height r0)
        (ndc_to_screen width height r1) (ndc_to_screen width height r2) =
      boundingBox width height (ndc_to_screen width height q0)
        (ndc_to_screen width height q1) (ndc_to_screen width height q2))
    (hden : |edgeDenom (ndc_to_screen width height r0) (ndc_to_screen width height r1)
        (ndc_to_screen width height r2)| =
      |edgeDenom (ndc_to_screen width height q0) (ndc_to_screen width height q1)
        (ndc_to_screen width height q2)|)
    (hcov : edgeDenom (ndc_to_screen width height q0) (ndc_to_screen width height q1)
        (ndc_to_screen width height q2) ≠ 0 → ∀ x y : Int,
      covered (ndc_to_screen width height r0) (ndc_to_screen width height r1)
          (ndc_to_screen width height r2) x y =
        covered (ndc_to_screen width height q0) (ndc_to_screen width height q1)
          (ndc_to_screen width height q2) x y)
    (hz0 : -1 ≤ q0.z / q0.w ∧ q0.z / q0.w ≤ 1) (hz1 : -1 ≤ q1.z / q1.w ∧ q1.z / q1.w ≤ 1)
    (hz2 : -1 ≤ q2.z / q2.w ∧ q2.z / q2.w ≤ 1)
    (hw0 : -1 ≤ r0.z / r0.w ∧ r0.z / r0.w ≤ 1) (hw1 : -1 ≤ r1.z / r1.w ∧ r1.z / r1.w ≤ 1)
    (hw2 : -1 ≤ r2.z / r2.w ∧ r2.z / r2.w ≤ 1) :
    (fillFrags width height c r0 r1 r2).map (fun f => (f.idx, f.color)) =
      (fillFrags width height c q0 q1 q2).map (fun f => (f.idx, f.color)) := by
  unfold fillFrags
  simp only [hbox, hden]
  split
  · rfl
  · rename_i hnd
    have hne : edgeDenom (ndc_to_screen width height q0) (ndc_to_screen width height q1)
        (ndc_to_screen width height q2) ≠ 0 := by
      intro hz
      rw [hz] at hnd
      norm_num at hnd
    simp only [List.map_flatMap, List.map_filterMap]
    congr 1
    funext y
    congr 1
    funext x
    exact meshFrag_key (hcov hne x y) hz0 hz1 hz2 hw0 hw1 hw2

theorem fillFrags_key_swap {width height : Int} (c : Vec3) (q0 q1 q2 : Vec4)
    (hz0 : -1 ≤ q0.z / q0.w ∧ q0.z / q0.w ≤ 1) (hz1 : -1 ≤ q1.z / q1.w ∧ q1.z / q1.w ≤ 1)
    (hz2 : -1 ≤ q2.z / q2.w ∧ q2.z / q2.w ≤ 1) :
    (fillFrags width height c q1 q0 q2).map (fun f => (f.idx, f.color)) =
      (fillFrags width height c q0 q1 q2).map (fun f => (f.idx, f.color)) :=
  fillFrags_key c q0 q1 q2 q1 q0 q2 (boundingBox_swap _ _ _ _ _)
    (by rw [edgeDenom_swap, abs_neg]) (fun h x y => covered_swap _ _ _ x y h)
    hz0 hz1 hz2 hz1 hz0 hz2

theorem fillFrags_key_rot {width height : Int} (c : Vec3) (q0 q1 q2 : Vec4)
    (hz0 : -1 ≤ q0.z / q0.w ∧ q0.z / q0.w ≤ 1) (hz1 : -1 ≤ q1.z / q1.w ∧ q1.z / q1.w ≤ 1)
    (hz2 : -1 ≤ q2.z / q2.w ∧ q2.z / q2.w ≤ 1) :
    (fillFrags width height c q1 q2 q0).map (fun f => (f.idx, f.color)) =
      (fillFrags width height c q0 q1 q2).map (fun f => (f.idx, f.color)) :=
  fillFrags_key c q0 q1 q2 q1 q2 q0 (boundingBox_rot _ _ _ _ _)
    (by rw [edgeDenom_rot]) (fun h x y => covered_rot _ _ _ x y h)
    hz0 hz1 hz2 hz1 hz2 hz0

/-- Without the depth test the colour buffer after a list of writes is
determined by the pixel indices and colours of the writes. -/
theorem image_foldl_key (writeZ : Bool) (fs : List Frag) :
    ∀ b : Buffers, (fs.foldl (applyFrag false writeZ true) b).image =
      (fs.map (fun f => (f.idx, f.color))).foldl (fun im k => im.set k.1 k.2) b.image := by
  induction fs with
  | nil => intro b; rfl
  | cons f rest ih =>
    intro b
    rw [List.foldl_cons, ih, List.map_cons, List.foldl_cons]
    rfl

/-- With culling and random colours off, a triangle and a reordering of its
vertex indices write the same colour to the same pixels. -/
theorem triFrags_key {width height : Int} (palette : Nat → Vec3) (positions : List Vec4)
    (color : Vec3) (i j : Nat) {t t' : U32Vec3} (hp : PermTri t t')
    (hv : ValidTri positions t)
    (hdepth : ∀ q ∈ positions, -1 ≤ q.z / q.w ∧ q.z / q.w ≤ 1) :
    (triFrags palette positions color false width height false false j t').map
        (fun f => (f.idx, f.color)) =
      (triFrags palette positions color false width height false false i t).map
        (fun f => (f.idx, f.color)) := by
  obtain ⟨q0, q1, q2, h0, h1, h2⟩ := validTri_reads hv
  have d0 := hdepth q0 (List.getElem?_mem h0)
  have d1 := hdepth q1 (List.getElem?_mem h1)
  have d2 := hdepth q2 (List.getElem?_mem h2)
  have e : ∀ (k : Nat) (a b c : Nat) (r0 r1 r2 : Vec4), positions[a]? = some r0 →
      positions[b]? = some r1 → positions[c]? = some r2 →
      triFrags palette positions color false width height false false k ⟨a, b, c⟩ =
        fillFrags width height color r0 r1 r2 := by
    intro k a b c r0 r1 r2 ha hb hc
    simp [triFrags, ha, hb, hc]
  rw [show t = ⟨t.x, t.y, t.z⟩ from rfl, e i _ _ _ q0 q1 q2 h0 h1 h2]
  rcases hp with rfl | rfl | rfl | rfl | rfl | rfl
  · rw [e j _ _ _ q0 q1 q2 h0 h1 h2]
  · rw [e j _ _ _ q0 q2 q1 h0 h2 h1, fillFrags_key_swap color q2 q0 q1 d2 d0 d1,
      ← fillFrags_key_rot color q2 q0 q1 d2 d0 d1]
  · rw [e j _ _ _ q1 q0 q2 h1 h0 h2, fillFrags_key_swap color q0 q1 q2 d0 d1 d2]
  · rw [e j _ _ _ q1 q2 q0 h1 h2 h0, fillFrags_key_rot color q0 q1 q2 d0 d1 d2]
  · rw [e j _ _ _ q2 q0 q1 h2 h0 h1, ← fillFrags_key_rot color q2 q0 q1 d2 d0 d1]
  · rw [e j _ _ _ q2 q1 q0 h2 h1 h0, fillFrags_key_swap color q1 q2 q0 d1 d2 d0,
      fillFrags_key_rot color q0 q1 q2 d0 d1 d2]

theorem permTri_valid {positions : List Vec4} {t t' : U32Vec3} (hp : PermTri t t')
    (hv : ValidTri positions t) : ValidTri positions t' := by
  obtain ⟨hx, hy, hz⟩ := hv
  rcases hp with rfl | rfl | rfl | rfl | rfl | rfl
  · exact ⟨hx, hy, hz⟩
  · exact ⟨hx, hz, hy⟩
  · exact ⟨hy, hx, hz⟩
  · exact ⟨hy, hz, hx⟩
  · exact ⟨hz, hx, hy⟩
  · exact ⟨hz, hy, hx⟩

theorem meshFrags_key {width height : Int} (palette : Nat → Vec3) (positions : List Vec4)
    (color : Vec3) {l l' : List U32Vec3} (hp : List.Forall₂ PermTri l l')
    (hv : ∀ t ∈ l, ValidTri positions t)
    (hdepth : ∀ q ∈ positions, -1 ≤ q.z / q.w ∧ q.z / q.w ≤ 1) :
    ∀ i : Nat,
      (meshFrags palette positions color false width height false false i l').map
          (fun f => (f.idx, f.color)) =
        (meshFrags palette positions color false width height false false i l).map
          (fun f => (f.idx, f.color)) := by
  induction hp with
  | nil => intro i; rfl
  | cons h _ ih =>
    intro i
    simp only [meshFrags, List.map_append]
    rw [triFrags_key palette positions color i i h (hv _ (List.mem_cons_self _ _)) hdepth,
      ih (fun t ht => hv t (List.mem_cons_of_mem _ ht)) (i + 1)]

theorem fillHits_iff {width height : Int} {q0 q1 q2 : Vec4} (x y : Int)
    (hz0 : -1 ≤ q0.z / q0.w ∧ q0.z / q0.w ≤ 1) (hz1 : -1 ≤ q1.z / q1.w ∧ q1.z / q1.w ≤ 1)
    (hz2 : -1 ≤ q2.z / q2.w ∧ q2.z / q2.w ≤ 1) :
    fillHits width height q0 q1 q2 x y ↔
      ¬ |edgeDenom (ndc_to_screen width height q0) (ndc_to_screen width height q1)
          (ndc_to_screen width height q2)| < 8796093 / 8796093022208 ∧
        covered (ndc_to_screen width height q0) (ndc_to_screen width height q1)
          (ndc_to_screen width height q2) x y = true := by
  constructor
  · intro h
    exact ⟨h.1, h.2.1⟩
  · intro h
    refine ⟨h.1, h.2, ?_⟩
    have d := meshDepth_range _ _ _ _ _ _ x y h.2 hz0 hz1 hz2
    unfold fillDepth
    intro hc
    rcases hc with hc | hc <;> linarith [d.1, d.2]

theorem abs_ne_zero_of_not_lt {a : ℚ} (h : ¬ |a| < 8796093 / 8796093022208) : a ≠ 0 := by
  intro hz
  rw [hz] at h
  norm_num at h

theorem fillHits_swap {width height : Int} {q0 q1 q2 : Vec4} (x y : Int)
    (hz0 : -1 ≤ q0.z / q0.w ∧ q0.z / q0.w ≤ 1) (hz1 : -1 ≤ q1.z / q1.w ∧ q1.z / q1.w ≤ 1)
    (hz2 : -1 ≤ q2.z / q2.w ∧ q2.z / q2.w ≤ 1) :
    fillHits width height q1 q0 q2 x y ↔ fillHits width height q0 q1 q2 x y := by
  rw [fillHits_iff x y hz1 hz0 hz2, fillHits_iff x y hz0 hz1 hz2,
    edgeDenom_swap (ndc_to_screen width height q0), abs_neg]
  constructor
  · rintro ⟨hd, hc⟩
    exact ⟨hd, by rw [← covered_swap _ _ _ x y (abs_ne_zero_of_not_lt hd)]; exact hc⟩
  · rintro ⟨hd, hc⟩
    exact ⟨hd, by rw [covered_swap _ _ _ x y (abs_ne_zero_of_not_lt hd)]; exact hc⟩

theorem fillHits_rot {width height : Int} {q0 q1 q2 : Vec4} (x y : Int)
    (hz0 : -1 ≤ q0.z / q0.w ∧ q0.z / q0.w ≤ 1) (hz1 : -1 ≤ q1.z / q1.w ∧ q1.z / q1.w ≤ 1)
    (hz2 : -1 ≤ q2.z / q2.w ∧ q2.z / q2.w ≤ 1) :
    fillHits width height q1 q2 q0 x y ↔ fillHits width height q0 q1 q2 x y := by
  rw [fillHits_iff x y hz1 hz2 hz0, fillHits_iff x y hz0 hz1 hz2,
    edgeDenom_rot (ndc_to_screen width height q0)]
  constructor
  · rintro ⟨hd, hc⟩
    exact ⟨hd, by rw [← covered_rot _ _ _ x y (abs_ne_zero_of_not_lt hd)]; exact hc⟩
  · rintro ⟨hd, hc⟩
    exact ⟨hd, by rw [covered_rot _ _ _ x y (abs_ne_zero_of_not_lt hd)]; exact hc⟩

/-- C28: with both culling flags off, a triangle and each reordering of its
vertices (generated by exchanging the first two and by rotating the three)
have the same clamped bounding box, the same degeneracy decision and, for
vertex depths in `[-1, 1]`, pass the tests of the fill at the same pixels; so
with `use_zbuffer = false`, depth visualization off and a fixed base colour,
two calls whose index lists differ only in the order of the vertices of each
triangle return the same colour buffer. -/
theorem vertex_order_independent (palette : Nat → Vec3) (positions : List Vec4)
    (indices indices' : List U32Vec3) (color : Vec3) (width height : Int) (b : Buffers)
    (hb : Sized width height b) (hperm : List.Forall₂ PermTri indices indices')
    (hvalid : ∀ t ∈ indices, ValidTri positions t)
    (hdepth : ∀ q ∈ positions, -1 ≤ q.z / q.w ∧ q.z / q.w ≤ 1) :
    (∀ p0 p1 p2 : Vec2,
      boundingBox width height p1 p0 p2 = boundingBox width height p0 p1 p2 ∧
      boundingBox width height p1 p2 p0 = boundingBox width height p0 p1 p2 ∧
      |edgeDenom p1 p0 p2| = |edgeDenom p0 p1 p2| ∧
      |edgeDenom p1 p2 p0| = |edgeDenom p0 p1 p2|) ∧
    (∀ q0 ∈ positions, ∀ q1 ∈ positions, ∀ q2 ∈ positions, ∀ x y : Int,
      (fillHits width height q1 q0 q2 x y ↔ fillHits width height q0 q1 q2 x y) ∧
      (fillHits width height q1 q2 q0 x y ↔ fillHits width height q0 q1 q2 x y)) ∧
    ∃ b1 b2,
      rasterize_mesh palette positions indices color false width height b false false
        false false = .ok b1 ∧
      rasterize_mesh palette positions indices' color false width height b false false
        false false = .ok b2 ∧
      b1.image = b2.image := by
  refine ⟨?_, ?_, ?_⟩
  · intro p0 p1 p2
    exact ⟨boundingBox_swap _ _ _ _ _, boundingBox_rot _ _ _ _ _,
      by rw [edgeDenom_swap, abs_neg], by rw [edgeDenom_rot]⟩
  · intro q0 h0 q1 h1 q2 h2 x y
    exact ⟨fillHits_swap x y (hdepth q0 h0) (hdepth q1 h1) (hdepth q2 h2),
      fillHits_rot x y (hdepth q0 h0) (hdepth q1 h1) (hdepth q2 h2)⟩
  · have hvalid' : ∀ t ∈ indices', ValidTri positions t := by
      intro t' ht'
      obtain ⟨t, ht, hp⟩ : ∃ t ∈ indices, PermTri t t' := by
        clear hvalid
        induction hperm with
        | nil => simp at ht'
        | cons h _ ih =>
          rcases List.mem_cons.1 ht' with rfl | hmem
          · exact ⟨_, List.mem_cons_self _ _, h⟩
          · obtain ⟨t, ht, hp⟩ := ih hmem
            exact ⟨t, List.mem_cons_of_mem _ ht, hp⟩
      exact permTri_valid hp (hvalid t ht)
    refine ⟨(meshFrags palette positions color false width height false false 0
        indices).foldl (applyFrag false true (!false)) b,
      (meshFrags palette positions color false width height false false 0
        indices').foldl (applyFrag false true (!false)) b, ?_, ?_, ?_⟩
    · unfold rasterize_mesh
      rw [meshLoop_eq palette positions color false false false false false indices 0
        hvalid hb]
      rfl
    · unfold rasterize_mesh
      rw [meshLoop_eq palette positions color false false false false false indices' 0
        hvalid' hb]
      rfl
    · show (List.foldl (applyFrag false true true) b _).image =
        (List.foldl (applyFrag false true true) b _).image
      rw [image_foldl_key, image_foldl_key,
        meshFrags_key palette positions color hperm hvalid hdepth 0]

/-- C28 for the triangle `(0, 1, 2)` and its rotation `(2, 0, 1)` in a cleared
`3 × 3` target. -/
theorem vertex_order_independent_witness :
    ∃ b1 b2,
      rasterize_mesh (fun _ => ⟨0, 0, 0⟩)
        [⟨-1, -1, 0, 1⟩, ⟨1, -1, 1, 1⟩, ⟨-1, 1, -1, 1⟩] [⟨0, 1, 2⟩] ⟨1, 1, 1⟩ false 3 3
        (clearedBuffers 3 3) false false false false = .ok b1 ∧
      rasterize_mesh (fun _ => ⟨0, 0, 0⟩)
        [⟨-1, -1, 0, 1⟩, ⟨1, -1, 1, 1⟩, ⟨-1, 1, -1, 1⟩] [⟨2, 0, 1⟩] ⟨1, 1, 1⟩ false 3 3
        (clearedBuffers 3 3) false false false false = .ok b2 ∧
      b1.image = b2.image :=
  (vertex_order_independent (fun _ => ⟨0, 0, 0⟩)
    [⟨-1, -1, 0, 1⟩, ⟨1, -1, 1, 1⟩, ⟨-1, 1, -1, 1⟩] [⟨0, 1, 2⟩] [⟨2, 0, 1⟩] ⟨1, 1, 1⟩ 3 3
    (clearedBuffers 3 3) (clearedBuffers_sized 3 3 (by decide))
    (List.Forall₂.cons (Or.inr (Or.inr (Or.inr (Or.inr (Or.inl rfl))))) List.Forall₂.nil)
    (by
      intro t ht
      rw [List.mem_singleton] at ht
      subst ht
      exact ⟨by decide, by decide, by decide⟩)
    (by
      intro q hq
      simp only [List.mem_cons, List.mem_singleton, List.not_mem_nil, or_false] at hq
      rcases hq with rfl | rfl | rfl <;> norm_num)).2.2

/-! ## Evaluations of the binary32 rasterizer -/

set_option maxRecDepth 100000 in
/-- C29, counterexample in binary32: a 3×3 target and the triangle with clip
positions `(-2^26, 0, 0, 1)`, `(1, -2^26, 0, 1)`, `(1, 2^26, 0, 1)`.  All three
post-divide `x` are `≤ 1`, the call returns, and pixel `(2, 0)` of column
`width - 1 = 2` changes from the clear colour to the triangle colour: the
rounded barycentric coordinates of its centre are all `≥ 0`. -/
theorem last_column_reached_binary32 :
    List.all [⟨.fin (-1) 26, .fin 0 0, .fin 0 0, .fin 1 0⟩, ⟨.fin 1 0, .fin (-1) 26, .fin 0 0, .fin 1 0⟩,
      ⟨.fin 1 0, .fin 1 26, .fin 0 0, .fin 1 0⟩]
      Vec4F.isBinary32 = true ∧
    F32.le (F32.div (.fin (-1) 26) (.fin 1 0)) (.fin 1 0) = true ∧
    F32.le (F32.div (.fin 1 0) (.fin 1 0)) (.fin 1 0) = true ∧
    (clearedBuffersF 3 3).image[2]? = some ⟨.fin 0 0, .fin 0 0, .fin 0 0⟩ ∧
    imageAtF (rasterize_meshF (fun _ => whiteF)
      [⟨.fin (-1) 26, .fin 0 0, .fin 0 0, .fin 1 0⟩, ⟨.fin 1 0, .fin (-1) 26, .fin 0 0, .fin 1 0⟩,
        ⟨.fin 1 0, .fin 1 26, .fin 0 0, .fin 1 0⟩]
      [⟨0, 1, 2⟩] whiteF false 3 3 (clearedBuffersF 3 3) false false false false) 2 =
      some whiteF := by
  decide

set_option maxRecDepth 100000 in
/-- Evaluation for C11 in binary32: a 3×3 target and the triangle with clip
positions `(-2^67, -2^67, 0, 2^67)`, `(2^67, -2^67, 0, 2^67)`,
`(-2^67, 2^67, 0, 2^67)`.  The z-component `2^136` of the cross product
overflows to infinity, `glm::normalize` yields NaN, the test `normal.z > 0` is
false, and with `cull_front_faces = true` the call paints pixel `(0, 0)`. -/
theorem front_face_drawn_eval :
    List.all [⟨.fin (-1) 67, .fin (-1) 67, .fin 0 0, .fin 1 67⟩,
      ⟨.fin 1 67, .fin (-1) 67, .fin 0 0, .fin 1 67⟩,
      ⟨.fin (-1) 67, .fin 1 67, .fin 0 0, .fin 1 67⟩]
      Vec4F.isBinary32 = true ∧
    (normalizeF (crossF ⟨.fin (-1) 67, .fin (-1) 67, .fin 0 0, .fin 1 67⟩
      ⟨.fin 1 67, .fin (-1) 67, .fin 0 0, .fin 1 67⟩
      ⟨.fin (-1) 67, .fin 1 67, .fin 0 0, .fin 1 67⟩)).z = F32.nan ∧
    (clearedBuffersF 3 3).image[0]? = some ⟨.fin 0 0, .fin 0 0, .fin 0 0⟩ ∧
    imageAtF (rasterize_meshF (fun _ => whiteF)
      [⟨.fin (-1) 67, .fin (-1) 67, .fin 0 0, .fin 1 67⟩,
        ⟨.fin 1 67, .fin (-1) 67, .fin 0 0, .fin 1 67⟩,
        ⟨.fin (-1) 67, .fin 1 67, .fin 0 0, .fin 1 67⟩]
      [⟨0, 1, 2⟩] whiteF false 3 3 (clearedBuffersF 3 3) false false false true) 0 =
      some whiteF := by
  decide

/-- C11, counterexample in binary32: for the triangle with clip positions
`(-2^67, -2^67, 0, 2^67)`, `(2^67, -2^67, 0, 2^67)`, `(-2^67, 2^67, 0, 2^67)`
the z-component of `(p1 - p0) × (p2 - p0)` is `2^136 > 0`, yet with
`cull_front_faces = true` the call on a cleared 3×3 target does not discard
the triangle: it paints pixel `(0, 0)` with the triangle colour. -/
theorem front_face_drawn_binary32 :
    List.all [⟨.fin (-1) 67, .fin (-1) 67, .fin 0 0, .fin 1 67⟩,
      ⟨.fin 1 67, .fin (-1) 67, .fin 0 0, .fin 1 67⟩,
      ⟨.fin (-1) 67, .fin 1 67, .fin 0 0, .fin 1 67⟩]
      Vec4F.isBinary32 = true ∧
    0 < crossZ (Vec4F.toRat ⟨.fin (-1) 67, .fin (-1) 67, .fin 0 0, .fin 1 67⟩)
      (Vec4F.toRat ⟨.fin 1 67, .fin (-1) 67, .fin 0 0, .fin 1 67⟩)
      (Vec4F.toRat ⟨.fin (-1) 67, .fin 1 67, .fin 0 0, .fin 1 67⟩) ∧
    (clearedBuffersF 3 3).image[0]? = some ⟨.fin 0 0, .fin 0 0, .fin 0 0⟩ ∧
    imageAtF (rasterize_meshF (fun _ => whiteF)
      [⟨.fin (-1) 67, .fin (-1) 67, .fin 0 0, .fin 1 67⟩,
        ⟨.fin 1 67, .fin (-1) 67, .fin 0 0, .fin 1 67⟩,
        ⟨.fin (-1) 67, .fin 1 67, .fin 0 0, .fin 1 67⟩]
      [⟨0, 1, 2⟩] whiteF false 3 3 (clearedBuffersF 3 3) false false false true) 0 =
      some whiteF := by
  refine ⟨front_face_drawn_eval.1, ?_, front_face_drawn_eval.2.2⟩
  simp only [crossZ, Vec4F.toRat, F32.toRat]
  norm_num

set_option maxRecDepth 100000 in
/-- Evaluation for C19 in binary32: a 17×2 target and the triangle with clip
positions `(-1, 0, 0, 1)`, `(407485 * 2^-23, 0, 0, 1)`, `(-1, 2^-22, 0, 1)`.
The screen points are `(0, 1/2)`, `(8796093 * 2^-20, 1/2)`,
`(0, 1/2 + 2^-23)`, the computed denominator is `8796093 * 2^-43`, the value
of `1e-6f`, and the call paints pixel `(0, 0)`. -/
theorem degenerate_drawn_eval :
    List.all [⟨.fin (-1) 0, .fin 0 0, .fin 0 0, .fin 1 0⟩,
      ⟨.fin 407485 (-23), .fin 0 0, .fin 0 0, .fin 1 0⟩,
      ⟨.fin (-1) 0, .fin 1 (-22), .fin 0 0, .fin 1 0⟩]
      Vec4F.isBinary32 = true ∧
    ndc_to_screenF 17 2 ⟨.fin (-1) 0, .fin 0 0, .fin 0 0, .fin 1 0⟩ =
      ⟨.fin 0 0, .fin 1 (-1)⟩ ∧
    ndc_to_screenF 17 2 ⟨.fin 407485 (-23), .fin 0 0, .fin 0 0, .fin 1 0⟩ =
      ⟨.fin 8796093 (-20), .fin 1 (-1)⟩ ∧
    ndc_to_screenF 17 2 ⟨.fin (-1) 0, .fin 1 (-22), .fin 0 0, .fin 1 0⟩ =
      ⟨.fin 0 0, .fin 4194305 (-23)⟩ ∧
    edgeDenomF ⟨.fin 0 0, .fin 1 (-1)⟩ ⟨.fin 8796093 (-20), .fin 1 (-1)⟩
      ⟨.fin 0 0, .fin 4194305 (-23)⟩ = .fin 8796093 (-43) ∧
    (clearedBuffersF 17 2).image[0]? = some ⟨.fin 0 0, .fin 0 0, .fin 0 0⟩ ∧
    imageAtF (rasterize_meshF (fun _ => whiteF)
      [⟨.fin (-1) 0, .fin 0 0, .fin 0 0, .fin 1 0⟩,
        ⟨.fin 407485 (-23), .fin 0 0, .fin 0 0, .fin 1 0⟩,
        ⟨.fin (-1) 0, .fin 1 (-22), .fin 0 0, .fin 1 0⟩]
      [⟨0, 1, 2⟩] whiteF false 17 2 (clearedBuffersF 17 2) false false false false) 0 =
      some whiteF := by
  decide

/-- C19, counterexample in binary32: on a 17×2 target the triangle with
screen points `(0, 1/2)`, `(8796093 * 2^-20, 1/2)`, `(0, 1/2 + 2^-23)` has the
edge-function denominator `8796093 * 2^-43`, computed without rounding; its
magnitude is below `10^-6`, yet the call paints pixel `(0, 0)`: the constant
of the test is `1e-6f = 8796093 * 2^-43`, and the test is strict. -/
theorem degenerate_drawn_binary32 :
    List.all [⟨.fin (-1) 0, .fin 0 0, .fin 0 0, .fin 1 0⟩,
      ⟨.fin 407485 (-23), .fin 0 0, .fin 0 0, .fin 1 0⟩,
      ⟨.fin (-1) 0, .fin 1 (-22), .fin 0 0, .fin 1 0⟩]
      Vec4F.isBinary32 = true ∧
    |edgeDenom (Vec2F.toRat ⟨.fin 0 0, .fin 1 (-1)⟩)
      (Vec2F.toRat ⟨.fin 8796093 (-20), .fin 1 (-1)⟩)
      (Vec2F.toRat ⟨.fin 0 0, .fin 4194305 (-23)⟩)| < 1 / 1000000 ∧
    (edgeDenomF ⟨.fin 0 0, .fin 1 (-1)⟩ ⟨.fin 8796093 (-20), .fin 1 (-1)⟩
      ⟨.fin 0 0, .fin 4194305 (-23)⟩).toRat =
      edgeDenom (Vec2F.toRat ⟨.fin 0 0, .fin 1 (-1)⟩)
        (Vec2F.toRat ⟨.fin 8796093 (-20), .fin 1 (-1)⟩)
        (Vec2F.toRat ⟨.fin 0 0, .fin 4194305 (-23)⟩) ∧
    ndc_to_screenF 17 2 ⟨.fin (-1) 0, .fin 0 0, .fin 0 0, .fin 1 0⟩ =
      ⟨.fin 0 0, .fin 1 (-1)⟩ ∧
    ndc_to_screenF 17 2 ⟨.fin 407485 (-23), .fin 0 0, .fin 0 0, .fin 1 0⟩ =
      ⟨.fin 8796093 (-20), .fin 1 (-1)⟩ ∧
    ndc_to_screenF 17 2 ⟨.fin (-1) 0, .fin 1 (-22), .fin 0 0, .fin 1 0⟩ =
      ⟨.fin 0 0, .fin 4194305 (-23)⟩ ∧
    (clearedBuffersF 17 2).image[0]? = some ⟨.fin 0 0, .fin 0 0, .fin 0 0⟩ ∧
    imageAtF (rasterize_meshF (fun _ => whiteF)
      [⟨.fin (-1) 0, .fin 0 0, .fin 0 0, .fin 1 0⟩,
        ⟨.fin 407485 (-23), .fin 0 0, .fin 0 0, .fin 1 0⟩,
        ⟨.fin (-1) 0, .fin 1 (-22), .fin 0 0, .fin 1 0⟩]
      [⟨0, 1, 2⟩] whiteF false 17 2 (clearedBuffersF 17 2) false false false false) 0 =
      some whiteF := by
  have h := degenerate_drawn_eval.2
  refine ⟨degenerate_drawn_eval.1, ?_, ?_, h.1, h.2.1, h.2.2.1, h.2.2.2.2⟩
  · simp only [edgeDenom, Vec2F.toRat, F32.toRat]
    norm_num [abs_lt]
  · rw [h.2.2.2.1]
    simp only [edgeDenom, Vec2F.toRat, F32.toRat]
    norm_num

set_option maxRecDepth 100000 in
/-- C22, the code at the failing input, in binary32: a 3×3 target cleared to
depth `1.0` (every entry in `[-1, 1]`), `use_zbuffer = false`, and the
triangle with clip positions `(-2^-10, -2^-10, 2^127, 2^-10)`,
`(2^-10, -2^-10, -2^127, 2^-10)`, `(-2^-10, 2^-10, 0, 2^-10)`.  The post-divide
depths of the first two vertices are `+∞` and `-∞`, the interpolated depth at
pixel `(0, 0)` is NaN, the test `z < -1.0f || z > 1.0f` of line 199 is false
of NaN, and the call stores NaN in the depth buffer; the test
`z >= -1.0f && z <= 1.0f` of `rasterize_lines` (line 76) rejects NaN. -/
theorem mesh_stores_nan_depth :
    List.all [⟨.fin (-1) (-10), .fin (-1) (-10), .fin 1 127, .fin 1 (-10)⟩,
      ⟨.fin 1 (-10), .fin (-1) (-10), .fin (-1) 127, .fin 1 (-10)⟩,
      ⟨.fin (-1) (-10), .fin 1 (-10), .fin 0 0, .fin 1 (-10)⟩]
      Vec4F.isBinary32 = true ∧
    (∀ d ∈ (clearedBuffersF 3 3).zbuffer, lineDepthGuardF d = true) ∧
    F32.div (.fin 1 127) (.fin 1 (-10)) = F32.inf false ∧
    F32.div (.fin (-1) 127) (.fin 1 (-10)) = F32.inf true ∧
    depthAtF (rasterize_meshF (fun _ => whiteF)
      [⟨.fin (-1) (-10), .fin (-1) (-10), .fin 1 127, .fin 1 (-10)⟩,
        ⟨.fin 1 (-10), .fin (-1) (-10), .fin (-1) 127, .fin 1 (-10)⟩,
        ⟨.fin (-1) (-10), .fin 1 (-10), .fin 0 0, .fin 1 (-10)⟩]
      [⟨0, 1, 2⟩] whiteF false 3 3 (clearedBuffersF 3 3) false false false false) 0 =
      some F32.nan ∧
    meshDepthSkipF F32.nan = false ∧
    lineDepthGuardF F32.nan = false := by
  decide

/-! ## Frame lemmas for the binary32 fill -/

theorem liftFault_writeAt {α : Type} (v : List α) (idx : Int) (a : α) (h0 : 0 ≤ idx)
    (h1 : idx.toNat < v.length) :
    liftFault (writeAt v idx a) = .ok (v.set idx.toNat a) := by
  unfold writeAt
  rw [if_pos ⟨h0, h1⟩]
  rfl

theorem liftFault_readAt {α : Type} (v : List α) (idx : Int) (h0 : 0 ≤ idx)
    (h1 : idx.toNat < v.length) :
    ∃ d, liftFault (readAt v idx) = .ok d := by
  unfold readAt readNat
  rw [if_pos h0, List.getElem?_eq_getElem h1]
  exact ⟨_, rfl⟩

/-- A fold of a step that returns and keeps an invariant returns and keeps the
invariant. -/
theorem foldlM_run {ε α β : Type} (P : β → Prop) (f : β → α → Except ε β) (l : List α)
    (h : ∀ b a, a ∈ l → P b → ∃ b', f b a = .ok b' ∧ P b') :
    ∀ b, P b → ∃ b', l.foldlM f b = .ok b' ∧ P b' := by
  induction l with
  | nil =>
    intro b hb
    exact ⟨b, rfl, hb⟩
  | cons a rest ih =>
    intro b hb
    obtain ⟨b1, h1, hb1⟩ := h b a (List.mem_cons_self a rest) hb
    obtain ⟨b2, h2, hb2⟩ :=
      ih (fun b a ha hP => h b a (List.mem_cons_of_mem _ ha) hP) b1 hb1
    refine ⟨b2, ?_, hb2⟩
    rw [List.foldlM_cons, h1]
    exact h2

/-- The body of the pixel loop at an in-buffer index returns the buffers
unchanged, or with the depth entry of this pixel replaced, or with the depth
and the colour entry of this pixel replaced. -/
theorem meshFragmentF_cases (width : Int) (uz sz : Bool) (c : Vec3F) (p0 v0 v1 : Vec2F)
    (denom z0 z1 z2 : F32) (x y : Int) (b : BuffersF) (h0 : 0 ≤ y * width + x)
    (hi : (y * width + x).toNat < b.image.length)
    (hz : (y * width + x).toNat < b.zbuffer.length) :
    ∃ z, meshFragmentF width uz sz c p0 v0 v1 denom z0 z1 z2 x y b = .ok b ∨
      meshFragmentF width uz sz c p0 v0 v1 denom z0 z1 z2 x y b =
        .ok { image := b.image.set (y * width + x).toNat c
              zbuffer := b.zbuffer.set (y * width + x).toNat z } ∨
      meshFragmentF width uz sz c p0 v0 v1 denom z0 z1 z2 x y b =
        .ok { image := b.image, zbuffer := b.zbuffer.set (y * width + x).toNat z } := by
  obtain ⟨d, hd⟩ := liftFault_readAt b.zbuffer (y * width + x) h0 hz
  refine ⟨meshDepthF p0 v0 v1 denom z0 z1 z2 x y, ?_⟩
  unfold meshFragmentF
  by_cases hc : coveredF p0 v0 v1 denom x y = true
  · rw [if_pos hc]
    by_cases hk : meshDepthSkipF (meshDepthF p0 v0 v1 denom z0 z1 z2 x y) = true
    · left
      simp only [hk, if_true]
      rfl
    · simp only [hk, Bool.false_eq_true, if_false, liftFault_writeAt _ _ _ h0 hz,
        liftFault_writeAt _ _ _ h0 hi, hd]
      cases uz <;> cases sz <;>
        simp only [Bool.not_true, Bool.not_false, Bool.false_eq_true, if_true, if_false, bind,
          Except.bind, pure, Except.pure, or_true, true_or]
      all_goals
        by_cases hl : (meshDepthF p0 v0 v1 denom z0 z1 z2 x y).lt d = true
        · simp only [hl, if_true, or_true, true_or]
        · simp only [hl, Bool.false_eq_true, if_false, or_true, true_or]
  · left
    rw [if_neg hc]
    rfl

theorem meshFragmentF_uncovered (width : Int) (uz sz : Bool) (c : Vec3F) (p0 v0 v1 : Vec2F)
    (denom z0 z1 z2 : F32) (x y : Int) (b : BuffersF)
    (hc : coveredF p0 v0 v1 denom x y = false) :
    meshFragmentF width uz sz c p0 v0 v1 denom z0 z1 z2 x y b = .ok b := by
  unfold meshFragmentF
  rw [hc]
  rfl

/-- The body of the pixel loop at an in-viewport pixel returns, keeps the
buffer sizes, and leaves the entries of a pixel `(x0, y0)` that fails the
coverage test as they were. -/
theorem meshFragmentF_keeps (width height : Int) (uz sz : Bool) (c : Vec3F)
    (p0 v0 v1 : Vec2F) (denom z0 z1 z2 : F32) (x y x0 y0 : Int) (b : BuffersF)
    (hx0 : 0 ≤ x) (hx : x < width) (hy0 : 0 ≤ y) (hy : y < height)
    (hx0' : 0 ≤ x0) (hx' : x0 < width) (hy0' : 0 ≤ y0)
    (hs : SizedF width height b) (hcov : coveredF p0 v0 v1 denom x0 y0 = false) :
    ∃ b', meshFragmentF width uz sz c p0 v0 v1 denom z0 z1 z2 x y b = .ok b' ∧
      SizedF width height b' ∧
      b'.image[(y0 * width + x0).toNat]? = b.image[(y0 * width + x0).toNat]? ∧
      b'.zbuffer[(y0 * width + x0).toNat]? = b.zbuffer[(y0 * width + x0).toNat]? := by
  by_cases hxy : x = x0 ∧ y = y0
  · obtain ⟨rfl, rfl⟩ := hxy
    exact ⟨b, meshFragmentF_uncovered width uz sz c p0 v0 v1 denom z0 z1 z2 x y b hcov, hs,
      rfl, rfl⟩
  · have hidx := pixel_index_bounds hx0 hx hy0 hy
    have hne : (y * width + x).toNat ≠ (y0 * width + x0).toNat := by
      intro h
      have h0' : 0 ≤ y0 * width + x0 := by
        have := mul_nonneg hy0' (by omega : (0 : Int) ≤ width)
        omega
      have heq : y * width + x = y0 * width + x0 := by omega
      exact hxy (pixel_index_inj hx0 hx hx0' hx' heq)
    have hli : (y * width + x).toNat < b.image.length := by
      have := hs.1
      omega
    have hlz : (y * width + x).toNat < b.zbuffer.length := by
      have := hs.2
      omega
    obtain ⟨z, h | h | h⟩ :=
      meshFragmentF_cases width uz sz c p0 v0 v1 denom z0 z1 z2 x y b hidx.1 hli hlz
    · exact ⟨b, h, hs, rfl, rfl⟩
    · refine ⟨_, h, ⟨?_, ?_⟩, ?_, ?_⟩
      · simp only [List.length_set]
        exact hs.1
      · simp only [List.length_set]
        exact hs.2
      · exact List.getElem?_set_ne hne
      · exact List.getElem?_set_ne hne
    · refine ⟨_, h, ⟨hs.1, ?_⟩, rfl, ?_⟩
      · simp only [List.length_set]
        exact hs.2
      · exact List.getElem?_set_ne hne

/-- A fill whose bounding-box conversions are defined returns on sized
buffers, keeps the buffer sizes, and leaves the entries of an in-viewport
pixel `(x0, y0)` that fails the coverage test as they were. -/
theorem meshFillF_keeps (width height : Int) (uz sz : Bool) (c : Vec3F)
    (q0 q1 q2 : Vec4F) (b : BuffersF) (box : Int × Int × Int × Int) (x0 y0 : Int)
    (hbox : boundingBoxF width height (ndc_to_screenF width height q0)
      (ndc_to_screenF width height q1) (ndc_to_screenF width height q2) = some box)
    (hx0 : 0 ≤ x0) (hx : x0 < width) (hy0 : 0 ≤ y0)
    (hs : SizedF width height b)
    (hcov : coveredF (ndc_to_screenF width height q0)
      ⟨F32.sub (ndc_to_screenF width height q1).x (ndc_to_screenF width height q0).x,
        F32.sub (ndc_to_screenF width height q1).y (ndc_to_screenF width height q0).y⟩
      ⟨F32.sub (ndc_to_screenF width height q2).x (ndc_to_screenF width height q0).x,
        F32.sub (ndc_to_screenF width height q2).y (ndc_to_screenF width height q0).y⟩
      (edgeDenomF (ndc_to_screenF width height q0) (ndc_to_screenF width height q1)
        (ndc_to_screenF width height q2)) x0 y0 = false) :
    ∃ b', meshFillF width height uz sz c q0 q1 q2 b = .ok b' ∧
      SizedF width height b' ∧
      b'.image[(y0 * width + x0).toNat]? = b.image[(y0 * width + x0).toNat]? ∧
      b'.zbuffer[(y0 * width + x0).toNat]? = b.zbuffer[(y0 * width + x0).toNat]? := by
  obtain ⟨xmin, xmax, ymin, ymax⟩ := box
  have hbnd : 0 ≤ xmin ∧ xmax ≤ width - 1 ∧ 0 ≤ ymin ∧ ymax ≤ height - 1 := by
    unfold boundingBoxF at hbox
    cases h1 : F32.floorInt (F32.min3 (ndc_to_screenF width height q0).x
        (ndc_to_screenF width height q1).x (ndc_to_screenF width height q2).x) with
    | none => simp [h1] at hbox
    | some fx =>
      cases h2 : F32.ceilInt (F32.max3 (ndc_to_screenF width height q0).x
          (ndc_to_screenF width height q1).x (ndc_to_screenF width height q2).x) with
      | none => simp [h1, h2] at hbox
      | some cx =>
        cases h3 : F32.floorInt (F32.min3 (ndc_to_screenF width height q0).y
            (ndc_to_screenF width height q1).y (ndc_to_screenF width height q2).y) with
        | none => simp [h1, h2, h3] at hbox
        | some fy =>
          cases h4 : F32.ceilInt (F32.max3 (ndc_to_screenF width height q0).y
              (ndc_to_screenF width height q1).y (ndc_to_screenF width height q2).y) with
          | none => simp [h1, h2, h3, h4] at hbox
          | some cy =>
            simp only [h1, h2, h3, h4, Option.bind_eq_bind, Option.some_bind, pure,
              Option.some.injEq, Prod.mk.injEq] at hbox
            obtain ⟨e1, e2, e3, e4⟩ := hbox
            subst e1 e2 e3 e4
            exact ⟨le_max_left _ _, min_le_left _ _, le_max_left _ _, min_le_left _ _⟩
  unfold meshFillF
  simp only [hbox]
  by_cases hd : F32.lt (F32.abs (edgeDenomF (ndc_to_screenF width height q0)
      (ndc_to_screenF width height q1) (ndc_to_screenF width height q2))) epsF = true
  · rw [if_pos hd]
    exact ⟨b, rfl, hs, rfl, rfl⟩
  · rw [if_neg hd]
    refine foldlM_run (fun b' => SizedF width height b' ∧
      b'.image[(y0 * width + x0).toNat]? = b.image[(y0 * width + x0).toNat]? ∧
      b'.zbuffer[(y0 * width + x0).toNat]? = b.zbuffer[(y0 * width + x0).toNat]?) _ _ ?_ b
      ⟨hs, rfl, rfl⟩
    intro b1 y hy hb1
    rw [mem_intRange] at hy
    refine foldlM_run (fun b' => SizedF width height b' ∧
      b'.image[(y0 * width + x0).toNat]? = b.image[(y0 * width + x0).toNat]? ∧
      b'.zbuffer[(y0 * width + x0).toNat]? = b.zbuffer[(y0 * width + x0).toNat]?) _ _ ?_ b1
      hb1
    intro b2 x hx2 hb2
    rw [mem_intRange] at hx2
    obtain ⟨b3, h3, hs3, hi3, hz3⟩ := meshFragmentF_keeps width height uz sz c
      (ndc_to_screenF width height q0) _ _ _ (F32.div q0.z q0.w) (F32.div q1.z q1.w)
      (F32.div q2.z q2.w) x y x0 y0 b2 (by omega) (by omega) (by omega) (by omega) hx0 hx hy0
      hb2.1 hcov
    exact ⟨b3, h3, hs3, hi3.trans hb2.2.1, hz3.trans hb2.2.2⟩

/-- A call on one triangle with both culling flags, random colouring and the
depth visualization off is the fill of that triangle. -/
theorem rasterize_meshF_single (palette : Nat → Vec3F) (q0 q1 q2 : Vec4F) (color : Vec3F)
    (width height : Int) (b : BuffersF) (uz : Bool) :
    rasterize_meshF palette [q0, q1, q2] [⟨0, 1, 2⟩] color false width height b uz false
      false false = meshFillF width height uz false color q0 q1 q2 b := by
  unfold rasterize_meshF meshLoopF meshTriangleF
  simp only [readNat, liftFault, bind, Except.bind, pure, Except.pure, List.getElem?_cons_zero,
    List.getElem?_cons_succ, Bool.false_and, Bool.false_eq_true, if_false, meshLoopF]
  cases meshFillF width height uz false color q0 q1 q2 b <;> rfl

set_option maxRecDepth 100000 in
/-- Evaluation for C4 in binary32, 64×64 target: the screen points of the
clip positions with `x, y` the binary32 numbers nearest to `-43/63` and
`37/63`; the bounding box; and the coverage test at pixel `(49, 10)`, for
these screen points and for the screen points `(10,10)`, `(50,10)`, `(10,50)`
themselves. -/
theorem mesh_scenario_eval :
    List.all [⟨.fin (-2862779) (-22), .fin (-2862779) (-22), .fin 0 0, .fin 1 0⟩,
      ⟨.fin 4926643 (-23), .fin (-2862779) (-22), .fin 0 0, .fin 1 0⟩,
      ⟨.fin (-2862779) (-22), .fin 4926643 (-23), .fin 0 0, .fin 1 0⟩]
      Vec4F.isBinary32 = true ∧
    ndc_to_screenF 64 64 ⟨.fin (-2862779) (-22), .fin (-2862779) (-22), .fin 0 0, .fin 1 0⟩ =
      ⟨.fin 10485759 (-20), .fin 10485759 (-20)⟩ ∧
    ndc_to_screenF 64 64 ⟨.fin 4926643 (-23), .fin (-2862779) (-22), .fin 0 0, .fin 1 0⟩ =
      ⟨.fin 25 1, .fin 10485759 (-20)⟩ ∧
    ndc_to_screenF 64 64 ⟨.fin (-2862779) (-22), .fin 4926643 (-23), .fin 0 0, .fin 1 0⟩ =
      ⟨.fin 10485759 (-20), .fin 25 1⟩ ∧
    boundingBoxF 64 64 ⟨.fin 10485759 (-20), .fin 10485759 (-20)⟩
      ⟨.fin 25 1, .fin 10485759 (-20)⟩ ⟨.fin 10485759 (-20), .fin 25 1⟩ = some (9, 50, 9, 50) ∧
    coveredF ⟨.fin 10485759 (-20), .fin 10485759 (-20)⟩
      ⟨F32.sub (.fin 25 1) (.fin 10485759 (-20)),
        F32.sub (.fin 10485759 (-20)) (.fin 10485759 (-20))⟩
      ⟨F32.sub (.fin 10485759 (-20)) (.fin 10485759 (-20)),
        F32.sub (.fin 25 1) (.fin 10485759 (-20))⟩
      (edgeDenomF ⟨.fin 10485759 (-20), .fin 10485759 (-20)⟩
        ⟨.fin 25 1, .fin 10485759 (-20)⟩ ⟨.fin 10485759 (-20), .fin 25 1⟩) 49 10 = false ∧
    edgeDenomF ⟨.fin 5 1, .fin 5 1⟩ ⟨.fin 25 1, .fin 5 1⟩ ⟨.fin 5 1, .fin 25 1⟩ = .fin 25 6 ∧
    coveredF ⟨.fin 5 1, .fin 5 1⟩ ⟨.fin 5 3, .fin 0 0⟩ ⟨.fin 0 0, .fin 5 3⟩ (.fin 25 6) 49 10 =
      false := by
  decide

theorem clearedBuffersF_sized (width height : Int) (h : 0 ≤ width * height) :
    SizedF width height (clearedBuffersF width height) := by
  unfold SizedF clearedBuffersF
  simp only [List.length_replicate]
  exact ⟨Int.toNat_of_nonneg h, Int.toNat_of_nonneg h⟩

theorem clearedBuffersF_image (width height : Int) (k : Nat) (h : k < (width * height).toNat) :
    (clearedBuffersF width height).image[k]? = some ⟨.fin 0 0, .fin 0 0, .fin 0 0⟩ := by
  unfold clearedBuffersF
  simp only [List.getElem?_replicate, if_pos h]

theorem clearedBuffersF_depth (width height : Int) (k : Nat) (h : k < (width * height).toNat) :
    (clearedBuffersF width height).zbuffer[k]? = some (.fin 1 0) := by
  unfold clearedBuffersF
  simp only [List.getElem?_replicate, if_pos h]

/-- C4, counterexample in binary32: a 64×64 target cleared to colour
`(0,0,0)` and depth `1.0`, `use_zbuffer = true`, no culling, base colour
`(1,1,1)`, and the triangle with clip positions `(a, a, 0, 1)`, `(c, a, 0, 1)`,
`(a, c, 0, 1)`, where `a = -2862779 * 2^-22` and `c = 4926643 * 2^-23` are
the binary32 numbers nearest to `-43/63` and `37/63`, the preimages of the
screen coordinates `10` and `50`.  The exact screen points are within `10^-6`
of `(10,10)`, `(50,10)`, `(10,50)`, the call returns, and pixel `(49, 10)`
(index `10 * 64 + 49 = 689`), which has `x ≥ 10`, `y ≥ 10`, `x + y ≤ 59`,
keeps colour `(0,0,0)` and depth `1.0`: the rounded `gamma` is negative.  The
coverage test fails at this pixel for the screen points `(10,10)`, `(50,10)`,
`(10,50)` themselves as well. -/
theorem mesh_scenario_hole_binary32 :
    List.all [⟨.fin (-2862779) (-22), .fin (-2862779) (-22), .fin 0 0, .fin 1 0⟩,
      ⟨.fin 4926643 (-23), .fin (-2862779) (-22), .fin 0 0, .fin 1 0⟩,
      ⟨.fin (-2862779) (-22), .fin 4926643 (-23), .fin 0 0, .fin 1 0⟩]
      Vec4F.isBinary32 = true ∧
    (|(ndc_to_screen 64 64
        (Vec4F.toRat ⟨.fin (-2862779) (-22), .fin (-2862779) (-22), .fin 0 0, .fin 1 0⟩)).x - 10|
        < 1 / 1000000 ∧
      |(ndc_to_screen 64 64
        (Vec4F.toRat ⟨.fin (-2862779) (-22), .fin (-2862779) (-22), .fin 0 0, .fin 1 0⟩)).y - 10|
        < 1 / 1000000 ∧
      |(ndc_to_screen 64 64
        (Vec4F.toRat ⟨.fin 4926643 (-23), .fin (-2862779) (-22), .fin 0 0, .fin 1 0⟩)).x - 50|
        < 1 / 1000000 ∧
      |(ndc_to_screen 64 64
        (Vec4F.toRat ⟨.fin 4926643 (-23), .fin (-2862779) (-22), .fin 0 0, .fin 1 0⟩)).y - 10|
        < 1 / 1000000 ∧
      |(ndc_to_screen 64 64
        (Vec4F.toRat ⟨.fin (-2862779) (-22), .fin 4926643 (-23), .fin 0 0, .fin 1 0⟩)).x - 10|
        < 1 / 1000000 ∧
      |(ndc_to_screen 64 64
        (Vec4F.toRat ⟨.fin (-2862779) (-22), .fin 4926643 (-23), .fin 0 0, .fin 1 0⟩)).y - 50|
        < 1 / 1000000) ∧
    ((10 : Int) ≤ 49 ∧ (10 : Int) ≤ 10 ∧ (49 : Int) + 10 ≤ 59) ∧
    imageAtF (rasterize_meshF (fun _ => whiteF)
      [⟨.fin (-2862779) (-22), .fin (-2862779) (-22), .fin 0 0, .fin 1 0⟩,
        ⟨.fin 4926643 (-23), .fin (-2862779) (-22), .fin 0 0, .fin 1 0⟩,
        ⟨.fin (-2862779) (-22), .fin 4926643 (-23), .fin 0 0, .fin 1 0⟩]
      [⟨0, 1, 2⟩] whiteF false 64 64 (clearedBuffersF 64 64) true false false false) 689 =
      some ⟨.fin 0 0, .fin 0 0, .fin 0 0⟩ ∧
    depthAtF (rasterize_meshF (fun _ => whiteF)
      [⟨.fin (-2862779) (-22), .fin (-2862779) (-22), .fin 0 0, .fin 1 0⟩,
        ⟨.fin 4926643 (-23), .fin (-2862779) (-22), .fin 0 0, .fin 1 0⟩,
        ⟨.fin (-2862779) (-22), .fin 4926643 (-23), .fin 0 0, .fin 1 0⟩]
      [⟨0, 1, 2⟩] whiteF false 64 64 (clearedBuffersF 64 64) true false false false) 689 =
      some (.fin 1 0) ∧
    coveredF ⟨.fin 5 1, .fin 5 1⟩ ⟨.fin 5 3, .fin 0 0⟩ ⟨.fin 0 0, .fin 5 3⟩ (.fin 25 6) 49 10 =
      false := by
  have e := mesh_scenario_eval.2
  have hcall : ∃ b', rasterize_meshF (fun _ => whiteF)
      [⟨.fin (-2862779) (-22), .fin (-2862779) (-22), .fin 0 0, .fin 1 0⟩,
        ⟨.fin 4926643 (-23), .fin (-2862779) (-22), .fin 0 0, .fin 1 0⟩,
        ⟨.fin (-2862779) (-22), .fin 4926643 (-23), .fin 0 0, .fin 1 0⟩]
      [⟨0, 1, 2⟩] whiteF false 64 64 (clearedBuffersF 64 64) true false false false = .ok b' ∧
      b'.image[689]? = some ⟨.fin 0 0, .fin 0 0, .fin 0 0⟩ ∧
      b'.zbuffer[689]? = some (.fin 1 0) := by
    obtain ⟨b', hb', -, hi, hz⟩ := meshFillF_keeps 64 64 true false whiteF
      ⟨.fin (-2862779) (-22), .fin (-2862779) (-22), .fin 0 0, .fin 1 0⟩
      ⟨.fin 4926643 (-23), .fin (-2862779) (-22), .fin 0 0, .fin 1 0⟩
      ⟨.fin (-2862779) (-22), .fin 4926643 (-23), .fin 0 0, .fin 1 0⟩
      (clearedBuffersF 64 64) (9, 50, 9, 50) 49 10
      (by rw [e.1, e.2.1, e.2.2.1]; exact e.2.2.2.1) (by decide) (by decide) (by decide)
      (clearedBuffersF_sized 64 64 (by decide))
      (by rw [e.1, e.2.1, e.2.2.1]; exact e.2.2.2.2.1)
    have hk : ((10 : Int) * 64 + 49).toNat = 689 := by decide
    rw [hk] at hi hz
    refine ⟨b', ?_, ?_, ?_⟩
    · rw [rasterize_meshF_single, hb']
    · rw [hi]
      exact clearedBuffersF_image 64 64 689 (by decide)
    · rw [hz]
      exact clearedBuffersF_depth 64 64 689 (by decide)
  obtain ⟨b', hb', hi, hz⟩ := hcall
  refine ⟨mesh_scenario_eval.1, ?_, by decide, ?_, ?_, e.2.2.2.2.2.2⟩
  · simp only [ndc_to_screen, Vec4F.toRat, F32.toRat]
    norm_num [abs_lt]
  · rw [hb']
    exact hi
  · rw [hb']
    exact hz

/-! ## The degeneracy test in binary32 -/

theorem meshLoopF_append (palette : Nat → Vec3F) (positions : List Vec4F) (color : Vec3F)
    (urc : Bool) (width height : Int) (uz sz cb cf : Bool) (l1 l2 : List U32Vec3) :
    ∀ (i : Nat) (b : BuffersF),
      meshLoopF palette positions color urc width height uz sz cb cf i (l1 ++ l2) b =
        (meshLoopF palette positions color urc width height uz sz cb cf i l1 b >>= fun b1 =>
          meshLoopF palette positions color urc width height uz sz cb cf (i + l1.length) l2
            b1) := by
  induction l1 with
  | nil => intro i b; rfl
  | cons t l1 ih =>
    intro i b
    simp only [List.cons_append, meshLoopF, List.length_cons]
    cases hm : meshTriangleF palette positions color urc width height uz sz cb cf i t b with
    | error e => rfl
    | ok b1 =>
      simp only [bind, Except.bind]
      have := ih (i + 1) b1
      simp only [bind, Except.bind] at this
      rw [show i + (l1.length + 1) = i + 1 + l1.length by omega]
      exact this

theorem meshLoopF_index_free (palette : Nat → Vec3F) (positions : List Vec4F) (color : Vec3F)
    (width height : Int) (uz sz cb cf : Bool) (l : List U32Vec3) :
    ∀ (i j : Nat) (b : BuffersF),
      meshLoopF palette positions color false width height uz sz cb cf i l b =
        meshLoopF palette positions color false width height uz sz cb cf j l b := by
  induction l with
  | nil => intro i j b; rfl
  | cons t l ih =>
    intro i j b
    have ht : meshTriangleF palette positions color false width height uz sz cb cf i t b =
        meshTriangleF palette positions color false width height uz sz cb cf j t b := by
      simp only [meshTriangleF, Bool.false_eq_true, if_false]
    simp only [meshLoopF, ht]
    cases meshTriangleF palette positions color false width height uz sz cb cf j t b with
    | error e => rfl
    | ok b1 =>
      simp only [bind, Except.bind]
      exact ih (i + 1) (j + 1) b1

/-- In binary32, a triangle whose computed edge-function denominator has
magnitude below `1e-6f`, and whose bounding-box conversions are defined, makes
the body of the triangle loop return the buffers as they are. -/
theorem meshTriangleF_degenerate (palette : Nat → Vec3F) (positions : List Vec4F)
    (color : Vec3F) (urc : Bool) (width height : Int) (uz sz cb cf : Bool) (i : Nat)
    (tri : U32Vec3) {q0 q1 q2 : Vec4F} (box : Int × Int × Int × Int) (b : BuffersF)
    (h0 : positions[tri.x]? = some q0) (h1 : positions[tri.y]? = some q1)
    (h2 : positions[tri.z]? = some q2)
    (hbox : boundingBoxF width height (ndc_to_screenF width height q0)
      (ndc_to_screenF width height q1) (ndc_to_screenF width height q2) = some box)
    (hdeg : F32.lt (F32.abs (edgeDenomF (ndc_to_screenF width height q0)
      (ndc_to_screenF width height q1) (ndc_to_screenF width height q2))) epsF = true) :
    meshTriangleF palette positions color urc width height uz sz cb cf i tri b = .ok b := by
  unfold meshTriangleF
  simp only [readNat, h0, h1, h2, liftFault, bind, Except.bind]
  split
  · rfl
  · split
    · rfl
    · unfold meshFillF
      simp only [hbox, hdeg, if_true]
      rfl

/-- In binary32, with random colouring off, a call on a list that contains a
triangle whose computed denominator has magnitude below `1e-6f` (bounding-box
conversions defined) gives the same result as the call on the list without
it. -/
theorem rasterize_meshF_degenerate (palette : Nat → Vec3F) (positions : List Vec4F)
    (color : Vec3F) (width height : Int) (uz sz cb cf : Bool) (pre post : List U32Vec3)
    (tri : U32Vec3) (q0 q1 q2 : Vec4F) (box : Int × Int × Int × Int) (b : BuffersF)
    (h0 : positions[tri.x]? = some q0) (h1 : positions[tri.y]? = some q1)
    (h2 : positions[tri.z]? = some q2)
    (hbox : boundingBoxF width height (ndc_to_screenF width height q0)
      (ndc_to_screenF width height q1) (ndc_to_screenF width height q2) = some box)
    (hdeg : F32.lt (F32.abs (edgeDenomF (ndc_to_screenF width height q0)
      (ndc_to_screenF width height q1) (ndc_to_screenF width height q2))) epsF = true) :
    rasterize_meshF palette positions (pre ++ tri :: post) color false width height b
        uz sz cb cf =
      rasterize_meshF palette positions (pre ++ post) color false width height b
        uz sz cb cf := by
  unfold rasterize_meshF
  rw [meshLoopF_append, meshLoopF_append]
  cases meshLoopF palette positions color false width height uz sz cb cf 0 pre b with
  | error e => rfl
  | ok b1 =>
    simp only [bind, Except.bind, meshLoopF]
    rw [meshTriangleF_degenerate palette positions color false width height uz sz cb cf
      _ tri box b1 h0 h1 h2 hbox hdeg]
    simp only [bind, Except.bind]
    rw [meshLoopF_index_free palette positions color width height uz sz cb cf post
      (0 + pre.length + 1) (0 + pre.length) b1]

/-- C19, with the constant of the code: a triangle whose screen-space
edge-function denominator has magnitude below `1e-6f = 8796093 * 2^-43`
makes the body of the triangle loop return the buffers as they are, without a
fault; and with random colouring off, a call on a list that contains the
triangle gives the same result as the call on the list without it.  This
holds with arithmetic read as exact (first two parts; three collinear or
coincident screen points then have denominator `0`, third part) and for the
denominator computed in binary32, as long as the conversions of the bounding
box to `int` are defined (last part). -/
theorem degenerate_skipped (palette : Nat → Vec3) (positions : List Vec4) (color : Vec3)
    (width height : Int) (uz sz cb cf : Bool) (pre post : List U32Vec3) (tri : U32Vec3)
    (q0 q1 q2 : Vec4) (b : Buffers) (h0 : positions[tri.x]? = some q0)
    (h1 : positions[tri.y]? = some q1) (h2 : positions[tri.z]? = some q2)
    (hdeg : |edgeDenom (ndc_to_screen width height q0) (ndc_to_screen width height q1)
      (ndc_to_screen width height q2)| < 8796093 / 8796093022208) :
    (∀ (urc : Bool) (i : Nat) (b1 : Buffers),
      meshTriangle palette positions color urc width height uz sz cb cf i tri b1 = .ok b1) ∧
    rasterize_mesh palette positions (pre ++ tri :: post) color false width height b
        uz sz cb cf =
      rasterize_mesh palette positions (pre ++ post) color false width height b
        uz sz cb cf ∧
    (∀ (p0 p1 : Vec2) (t : ℚ),
      |edgeDenom p0 p1 ⟨p0.x + t * (p1.x - p0.x), p0.y + t * (p1.y - p0.y)⟩| < 8796093 / 8796093022208) ∧
    (∀ (paletteF : Nat → Vec3F) (positionsF : List Vec4F) (colorF : Vec3F) (r0 r1 r2 : Vec4F)
        (box : Int × Int × Int × Int) (bF : BuffersF),
      positionsF[tri.x]? = some r0 → positionsF[tri.y]? = some r1 →
      positionsF[tri.z]? = some r2 →
      boundingBoxF width height (ndc_to_screenF width height r0)
        (ndc_to_screenF width height r1) (ndc_to_screenF width height r2) = some box →
      F32.lt (F32.abs (edgeDenomF (ndc_to_screenF width height r0)
        (ndc_to_screenF width height r1) (ndc_to_screenF width height r2))) epsF = true →
      (∀ (urc : Bool) (i : Nat) (b1 : BuffersF),
        meshTriangleF paletteF positionsF colorF urc width height uz sz cb cf i tri b1 =
          .ok b1) ∧
      rasterize_meshF paletteF positionsF (pre ++ tri :: post) colorF false width height bF
          uz sz cb cf =
        rasterize_meshF paletteF positionsF (pre ++ post) colorF false width height bF
          uz sz cb cf) := by
  refine ⟨fun urc i b1 => meshTriangle_degenerate palette positions color urc width height
    uz sz cb cf i tri b1 h0 h1 h2 hdeg, ?_, ?_,
    fun paletteF positionsF colorF r0 r1 r2 box bF g0 g1 g2 gbox gdeg =>
      ⟨fun urc i b1 => meshTriangleF_degenerate paletteF positionsF colorF urc width height
        uz sz cb cf i tri box b1 g0 g1 g2 gbox gdeg,
       rasterize_meshF_degenerate paletteF positionsF colorF width height uz sz cb cf
        pre post tri r0 r1 r2 box bF g0 g1 g2 gbox gdeg⟩⟩
  · unfold rasterize_mesh
    rw [meshLoop_append, meshLoop_append]
    cases meshLoop palette positions color false width height uz sz cb cf 0 pre b with
    | error e => rfl
    | ok b1 =>
      simp only [bind, Except.bind, meshLoop]
      rw [meshTriangle_degenerate palette positions color false width height uz sz cb cf
        _ tri b1 h0 h1 h2 hdeg]
      simp only [bind, Except.bind]
      rw [meshLoop_index_free palette positions color width height uz sz cb cf post
        (0 + pre.length + 1) (0 + pre.length) b1]
  · intro p0 p1 t
    have : edgeDenom p0 p1 ⟨p0.x + t * (p1.x - p0.x), p0.y + t * (p1.y - p0.y)⟩ = 0 := by
      simp only [edgeDenom]
      ring
    rw [this]
    norm_num

set_option maxRecDepth 100000 in
/-- C19, with the constant of the code, on three collinear screen points: the
call equals the call on the empty triangle list, in exact arithmetic and in
binary32. -/
theorem degenerate_skipped_witness :
    rasterize_mesh (fun _ => ⟨0, 0, 0⟩) [⟨-1, -1, 0, 1⟩, ⟨0, 0, 0, 1⟩, ⟨1, 1, 0, 1⟩]
        ([] ++ (⟨0, 1, 2⟩ : U32Vec3) :: []) ⟨1, 1, 1⟩ false 3 3 (clearedBuffers 3 3)
        true false false false =
      rasterize_mesh (fun _ => ⟨0, 0, 0⟩) [⟨-1, -1, 0, 1⟩, ⟨0, 0, 0, 1⟩, ⟨1, 1, 0, 1⟩]
        ([] ++ []) ⟨1, 1, 1⟩ false 3 3 (clearedBuffers 3 3) true false false false ∧
    rasterize_meshF (fun _ => whiteF)
        [⟨.fin (-1) 0, .fin (-1) 0, .fin 0 0, .fin 1 0⟩, ⟨.fin 0 0, .fin 0 0, .fin 0 0, .fin 1 0⟩,
          ⟨.fin 1 0, .fin 1 0, .fin 0 0, .fin 1 0⟩]
        ([] ++ (⟨0, 1, 2⟩ : U32Vec3) :: []) whiteF false 3 3 (clearedBuffersF 3 3)
        true false false false =
      rasterize_meshF (fun _ => whiteF)
        [⟨.fin (-1) 0, .fin (-1) 0, .fin 0 0, .fin 1 0⟩, ⟨.fin 0 0, .fin 0 0, .fin 0 0, .fin 1 0⟩,
          ⟨.fin 1 0, .fin 1 0, .fin 0 0, .fin 1 0⟩]
        ([] ++ []) whiteF false 3 3 (clearedBuffersF 3 3) true false false false :=
  have h := degenerate_skipped (fun _ => ⟨0, 0, 0⟩) [⟨-1, -1, 0, 1⟩, ⟨0, 0, 0, 1⟩, ⟨1, 1, 0, 1⟩]
    ⟨1, 1, 1⟩ 3 3 true false false false [] [] ⟨0, 1, 2⟩ ⟨-1, -1, 0, 1⟩ ⟨0, 0, 0, 1⟩
    ⟨1, 1, 0, 1⟩ (clearedBuffers 3 3) rfl rfl rfl
    (by simp only [ndc_to_screen_three, edgeDenom]; norm_num)
  ⟨h.2.1, (h.2.2.2 (fun _ => whiteF)
    [⟨.fin (-1) 0, .fin (-1) 0, .fin 0 0, .fin 1 0⟩, ⟨.fin 0 0, .fin 0 0, .fin 0 0, .fin 1 0⟩,
      ⟨.fin 1 0, .fin 1 0, .fin 0 0, .fin 1 0⟩] whiteF
    ⟨.fin (-1) 0, .fin (-1) 0, .fin 0 0, .fin 1 0⟩ ⟨.fin 0 0, .fin 0 0, .fin 0 0, .fin 1 0⟩
    ⟨.fin 1 0, .fin 1 0, .fin 0 0, .fin 1 0⟩ (0, 2, 0, 2) (clearedBuffersF 3 3) rfl rfl rfl
    (by decide) (by decide)).2⟩

end Raster
